import Mathlib

/-!
FFTX core: geometry and the generic radix-2 kernel.

A shallow embedding of `src/src/include/fftx3.hpp`.

Conventions of the embedding.

* A C++ `int` is a Lean `Int`.  Signed overflow is undefined behaviour in C++,
  so an `int` expression is evaluated exactly, which is what the source
  computes whenever no intermediate value leaves the range of `int`.  The
  predicate `box_t.fits` says so for the expressions on the corners of a box
  (`lo[d]-1` and `hi[d]-(lo[d]-1)`, between which `hi[d]-lo[d]` lies when the
  corners are ordered); the theorems on `extents()`, `size()` and the position
  functions assume it, and say nothing on a box where one of these expressions
  overflows.
* The parameter of `point_t::operator[]` is an `unsigned char`, so that `p[d]`
  is the element `d` of the array for `d < 256`.  The accessors `point_t.get`
  and `point_t.set` are the ones of the source for `DIM <= 256`, which
  `box_t.fits` asks for as well.
* A C++ `size_t` is a Lean `Nat` below `2^64`; every `size_t` operation that can
  wrap is reduced modulo `2^64` explicitly.
* `toSizeT` is the conversion `int -> size_t`, `toInt32` the conversion
  `size_t -> int` (two's complement truncation).
* The ordering switch `FFTX_ROW_MAJOR_ORDER` is `1` (line 37 of the header), so
  the row-major branches are the ones embedded.
-/

namespace fftx

/-- Conversion of an `int` to `size_t` (value modulo `2^64`). -/
def toSizeT (x : Int) : Nat := (x % (2 ^ 64 : Int)).toNat

/-- Conversion of a `size_t` to a 32-bit `int` (two's complement truncation). -/
def toInt32 (x : Nat) : Int := (((x + 2 ^ 31) % 2 ^ 32 : Nat) : Int) - 2 ^ 31

/-- The struct `point_t<DIM>`: the array `int x[DIM]`. -/
structure point_t (DIM : Nat) where
  x : Fin DIM → Int

namespace point_t

/-- Read access `p[d]` (`operator[]`, whose parameter is an `unsigned char`:
the element `d` for `d < 256`); indices outside the array read as `0`. -/
def get {DIM : Nat} (p : point_t DIM) (d : Nat) : Int :=
  if h : d < DIM then p.x ⟨d, h⟩ else 0

/-- Write access `p[d] = v` (`operator[]` returning a reference). -/
def set {DIM : Nat} (p : point_t DIM) (d : Nat) (v : Int) : point_t DIM :=
  ⟨fun i => if i.val = d then v else p.x i⟩

/-- The point `point_t<DIM>::Zero()`. -/
def Zero (DIM : Nat) : point_t DIM :=
  (List.range DIM).foldl (fun rtn i => rtn.set i 0) ⟨fun _ => 0⟩

/-- The helper `equalInts<DIM>`: recursion on `DIM`, comparing index `DIM-1`. -/
def equalInts : Nat → (Nat → Int) → (Nat → Int) → Bool
  | 0, _, _ => true
  | D + 1, a, b => (a D == b D) && equalInts D a b

/-- The comparison `point_t<DIM>::operator==`. -/
def eq {DIM : Nat} (p q : point_t DIM) : Bool :=
  equalInts DIM p.get q.get

/-- The member `point_t<DIM>::product()`: a `size_t` accumulator. -/
def product {DIM : Nat} (p : point_t DIM) : Nat :=
  (List.range DIM).foldl (fun prod d => (prod * toSizeT (p.get d)) % 2 ^ 64) 1

end point_t

/-- The struct `box_t<DIM>`: low and high corner. -/
structure box_t (DIM : Nat) where
  lo : point_t DIM
  hi : point_t DIM

/-- The helper `bsize<DIM>`: recursion on `DIM`, the factor of index `DIM-1`
is an `int` that is converted to `size_t` for the multiplication.  The `int`
expression `hi-lo+1` is evaluated exactly: it is the value of the source where
`hi-lo` and `hi-lo+1` do not overflow (`box_t.fits` on a box with ordered
corners). -/
def bsize : Nat → (Nat → Int) → (Nat → Int) → Nat
  | 0, _, _ => 1
  | D + 1, lo, hi => (toSizeT (hi D - lo D + 1) * bsize D lo hi) % 2 ^ 64

namespace box_t

/-- The member `box_t<DIM>::extents()`: starts from `hi` and subtracts
`lo[i]-1` on every axis.  The `int` expressions are evaluated exactly: the
result is the one of the source where `lo[i]-1` and `hi[i]-(lo[i]-1)` do not
overflow (`box_t.fits`). -/
def extents {DIM : Nat} (B : box_t DIM) : point_t DIM :=
  (List.range DIM).foldl (fun rtn i => rtn.set i (rtn.get i - (B.lo.get i - 1))) B.hi

/-- The member `box_t<DIM>::size()`. -/
def size {DIM : Nat} (B : box_t DIM) : Nat :=
  bsize DIM B.lo.get B.hi.get

end box_t

/-- The function `normalization`. -/
def normalization {DIM : Nat} (a_transformBox : box_t DIM) : Nat :=
  a_transformBox.size

/-- The function `isInBox`: the loop returns `false` at the first axis on which
the point is outside. -/
def isInBox {DIM : Nat} (a_pt : point_t DIM) (a_bx : box_t DIM) : Bool :=
  (List.range DIM).all fun d =>
    !(decide (a_pt.get d < a_bx.lo.get d)) && !(decide (a_pt.get d > a_bx.hi.get d))

/-- The function `positionInBox`, row-major branch.  The `int` differences
`a_pt[d]-lo[d]` are evaluated exactly, as the source does for a point of a box
with `box_t.fits`. -/
def positionInBox {DIM : Nat} (a_pt : point_t DIM) (a_bx : box_t DIM) : Nat :=
  let lo := a_bx.lo
  let lengths := a_bx.extents
  (List.range' 1 (DIM - 1)).foldl
    (fun disp d =>
      let disp := (disp * toSizeT (lengths.get d)) % 2 ^ 64
      (disp + toSizeT (a_pt.get d - lo.get d)) % 2 ^ 64)
    (toSizeT (a_pt.get 0 - lo.get 0))

/-- One iteration of the loop of `pointFromPositionBox` at axis `d`; the state
is the pair of the remaining displacement and the point under construction.
The `int` difference `pt[d]-lo[d]` and the extents are evaluated exactly, as the
source does on a box with `box_t.fits`. -/
def pointFromPositionStep {DIM : Nat} (lo lengths : point_t DIM)
    (st : Nat × point_t DIM) (d : Nat) : Nat × point_t DIM :=
  let disp := st.1
  let pt := st.2.set d (toInt32 ((toSizeT (lo.get d) + disp % toSizeT (lengths.get d)) % 2 ^ 64))
  let disp := ((disp + (2 ^ 64 - toSizeT (pt.get d - lo.get d))) % 2 ^ 64) / toSizeT (lengths.get d)
  (disp, pt)

/-- The function `pointFromPositionBox`, row-major branch: axes are visited
from `DIM-1` down to `0`.  The local `pt` starts uninitialised in the source
and every coordinate is assigned; it starts at zero here. -/
def pointFromPositionBox {DIM : Nat} (a_ind : Nat) (a_bx : box_t DIM) : point_t DIM :=
  let lo := a_bx.lo
  let lengths := a_bx.extents
  ((List.range DIM).reverse.foldl (pointFromPositionStep lo lengths)
    (a_ind, ⟨fun _ => 0⟩)).2

/-- Mixed-radix value of the digits `c 0, .., c (D-1)` for the radices `len`,
the last digit being the least significant one. -/
def encN (c len : Nat → Nat) : Nat → Nat
  | 0 => 0
  | D + 1 => encN c len D * len D + c D

/-- Every coordinate of the corners is a 32-bit `int`. -/
def box_t.int32 {DIM : Nat} (B : box_t DIM) : Prop :=
  ∀ d, d < DIM → -2 ^ 31 ≤ B.lo.get d ∧ B.hi.get d < 2 ^ 31

instance {DIM : Nat} (B : box_t DIM) : Decidable B.int32 :=
  inferInstanceAs (Decidable (∀ d, d < DIM → _))

/-- The arithmetic and the indexing of the embedding are the ones of the
source on the box: `DIM <= 256`, so that every axis index is an `unsigned char`
(the parameter type of `operator[]`), and no `int` expression of `extents()`
overflows: on every axis the corners are 32-bit `int`s, and so are `lo[d]-1`
and `hi[d]-(lo[d]-1)`.  If the corners are ordered as well, the differences
`hi[d]-lo[d]` of `bsize` and `a_pt[d]-lo[d]` of the position functions (for a
point of the box) lie between `0` and `hi[d]-lo[d]+1`, so they do not overflow
either. -/
def box_t.fits {DIM : Nat} (B : box_t DIM) : Prop :=
  DIM ≤ 256 ∧ ∀ d, d < DIM → -2 ^ 31 ≤ B.lo.get d - 1 ∧ B.lo.get d < 2 ^ 31 ∧
    -2 ^ 31 ≤ B.hi.get d ∧ B.hi.get d < 2 ^ 31 ∧
    -2 ^ 31 ≤ B.hi.get d - B.lo.get d + 1 ∧ B.hi.get d - B.lo.get d + 1 < 2 ^ 31

instance {DIM : Nat} (B : box_t DIM) : Decidable B.fits :=
  inferInstanceAs (Decidable (_ ∧ ∀ d, d < DIM → _))

/-- The corners are ordered on every axis: `lo[d] <= hi[d]`. -/
def box_t.ordered {DIM : Nat} (B : box_t DIM) : Prop :=
  ∀ d, d < DIM → B.lo.get d ≤ B.hi.get d

instance {DIM : Nat} (B : box_t DIM) : Decidable B.ordered :=
  inferInstanceAs (Decidable (∀ d, d < DIM → _))

/-- The number of lattice points of the box: the product, over the integers,
of `hi[d]-lo[d]+1` over all axes. -/
def box_t.numPoints {DIM : Nat} (B : box_t DIM) : Int :=
  ∏ d in Finset.range DIM, (B.hi.get d - B.lo.get d + 1)

/-- Offset of the point from the low corner on axis `d`, as a natural number. -/
def offN {DIM : Nat} (p : point_t DIM) (B : box_t DIM) (d : Nat) : Nat :=
  (p.get d - B.lo.get d).toNat

/-- Length of the box on axis `d`, as a natural number. -/
def lenN {DIM : Nat} (B : box_t DIM) (d : Nat) : Nat :=
  (B.hi.get d - B.lo.get d + 1).toNat

/-- The box `[0, 2^31-2]^3`: every extent is `2^31-1`, no `int` expression
overflows on it, and the number of points exceeds `2^64`. -/
def hugeBox : box_t 3 := ⟨⟨![0, 0, 0]⟩, ⟨![2147483646, 2147483646, 2147483646]⟩⟩

/-- The one-dimensional box `[0, 2^31-1]`: its corners are `int`s, but its
length `2^31` is not. -/
def fullBox : box_t 1 := ⟨⟨![0]⟩, ⟨![2147483647]⟩⟩

/-- The box `[1,3] x [1,4]`. -/
def smallBox : box_t 2 := ⟨⟨![1, 1]⟩, ⟨![3, 4]⟩⟩

end fftx

/-!
The generic radix-2 kernel `fftx_helper::batchtransformRadix2`.

The element type `T` is `std::complex<double>`; the embedding is generic in the
number type `R`, and the only place where the source leaves exact arithmetic,
`std::complex<double>(cos(th), sin(th))` with `th = num*M_PI/den`, is the
parameter `cis num den`.  The array of lane pointers `T* dvec[]` is a function
from the lane number to the lane, a lane is a function from the `size_t`
offset to the element: distinct lanes are distinct buffers.  The function-local
`static` vector `expTable` is threaded through as an explicit state.
-/

namespace fftx_helper

open fftx

/-- The loop of `reverseBits`: the first argument counts the iterations that
remain, `x` is shifted right and `result` collects the bits. -/
def reverseBitsLoop : Nat → Nat → Nat → Nat
  | 0, _, result => result
  | k + 1, x, result =>
    reverseBitsLoop k (x >>> 1) (((result <<< 1) % 2 ^ 64) ||| (x &&& 1))

/-- The function `reverseBits(x, n)`; `n` is the non-negative number of bits. -/
def reverseBits (x : Nat) (n : Nat) : Nat :=
  reverseBitsLoop n x 0

/-- The loop `for (size_t temp = n; temp > 1U; temp >>= 1) levels++`, with
fuel: `none` when the fuel runs out before the loop ends. -/
def levelsLoop : Nat → Nat → Nat → Option Nat
  | 0, _, _ => none
  | fuel + 1, temp, levels =>
    if temp > 1 then levelsLoop fuel (temp >>> 1) (levels + 1) else some levels

/-- The call `expTable.resize(k)`: keeps the first `k` entries and pads with
value-initialised (zero) entries. -/
def resize {R : Type} [Zero R] (expTable : List R) (k : Nat) : List R :=
  expTable.take k ++ List.replicate (k - expTable.length) 0

/-- The loop that fills the trigonometric table: entry `i` becomes
`complex(cos(th), sin(th))` with `th = -(2*DIR*i)*M_PI/n`, for `0 <= i < n/2`
(`int` loop variable, `int` division). -/
def fillTable {R : Type} (cis : Int → Int → R) (DIR n : Int) (expTable : List R) : List R :=
  (List.range (n.tdiv 2).toNat).foldl
    (fun expTable i => expTable.set i (cis (-(2 * DIR * (i : Int))) n)) expTable

/-- The block `if (expTable.size() != n/2) { resize; fill }`. -/
def updateTable {R : Type} [Zero R] (cis : Int → Int → R) (DIR n : Int)
    (expTable : List R) : List R :=
  if expTable.length ≠ toSizeT (n.tdiv 2) then
    fillTable cis DIR n (resize expTable (toSizeT (n.tdiv 2)))
  else expTable

/-- The offset `i*stride`: a `size_t` times an `int`, computed in `size_t`. -/
def idx (i : Nat) (stride : Int) : Nat :=
  (i * toSizeT stride) % 2 ^ 64

/-- The call `std::swap(vec[i], vec[j])` on one lane. -/
def swapLane {R : Type} (vec : Nat → R) (i j : Nat) : Nat → R :=
  let tmp := vec i
  let vec := Function.update vec i (vec j)
  Function.update vec j tmp

/-- The loop `for (b < BATCH) std::swap(dvec[b][i], dvec[b][j])`. -/
def swapLanes {R : Type} (BATCH : Nat) (i j : Nat) (dvec : Nat → Nat → R) : Nat → Nat → R :=
  (List.range BATCH).foldl
    (fun dvec b => Function.update dvec b (swapLane (dvec b) i j)) dvec

/-- The bit-reversed addressing permutation: for every `i < n`, with
`j = reverseBits(i, levels)`, the lanes swap positions `i` and `j` when `j > i`. -/
def bitReversal {R : Type} (BATCH levels : Nat) (n stride : Int)
    (dvec : Nat → Nat → R) : Nat → Nat → R :=
  (List.range (toSizeT n)).foldl
    (fun dvec i =>
      let j := reverseBits i levels
      if j > i then swapLanes BATCH (idx i stride) (idx j stride) dvec else dvec)
    dvec

/-- The body of the innermost loop on one lane `vec`, with `w` the table entry:
`temp1 = vec[indkjhalfsize] * w`, `temp2 = vec[indkj]`, `vec[indkj] += temp1`,
`vec[indkjhalfsize] = temp2`, `vec[indkjhalfsize] -= temp1`. -/
def butterfly {R : Type} [Add R] [Sub R] [Mul R] (w : R) (vec : Nat → R)
    (indkj indkjhalfsize : Nat) : Nat → R :=
  let temp1 := vec indkjhalfsize
  let temp1 := temp1 * w
  let temp2 := vec indkj
  let vec := Function.update vec indkj (vec indkj + temp1)
  let vec := Function.update vec indkjhalfsize temp2
  Function.update vec indkjhalfsize (vec indkjhalfsize - temp1)

/-- The loop `for (b < BATCH)` around the butterfly. -/
def butterflyLanes {R : Type} [Add R] [Sub R] [Mul R] (BATCH : Nat) (w : R)
    (indkj indkjhalfsize : Nat) (dvec : Nat → Nat → R) : Nat → Nat → R :=
  (List.range BATCH).foldl
    (fun dvec b => Function.update dvec b (butterfly w (dvec b) indkj indkjhalfsize)) dvec

/-- The values of `k` in `for (size_t k = 0; k < n; k += size)`. -/
def kRange (n size : Nat) : List Nat :=
  List.range' 0 ((n + size - 1) / size) size

/-- One pass of the outer loop of the Cooley-Tukey part, for a given `size`:
the loops over `k` and `j` (`k`, `j` and `halfsize` stay below `n`, so the
sums `k + j + halfsize` and the product `j*tablestep` do not wrap). -/
def stageBody {R : Type} [Zero R] [Add R] [Sub R] [Mul R] (BATCH : Nat) (n stride : Int)
    (expTable : List R) (size : Nat) (dvec : Nat → Nat → R) : Nat → Nat → R :=
  let halfsize := size / 2
  let tablestep := toSizeT n / size
  (kRange (toSizeT n) size).foldl
    (fun dvec k =>
      (List.range halfsize).foldl
        (fun dvec j =>
          let indkj := idx (k + j) stride
          let indkjhalfsize := idx (k + j + halfsize) stride
          butterflyLanes BATCH (expTable.getD (j * tablestep) 0) indkj indkjhalfsize dvec)
        dvec)
    dvec

/-- The loop `for (size_t size = 2; size <= n; size *= 2) { ...; if (size == n) break; }`
with fuel: `none` when the fuel runs out before the loop ends. -/
def stageLoop {R : Type} [Zero R] [Add R] [Sub R] [Mul R] (BATCH : Nat) (n stride : Int)
    (expTable : List R) : Nat → Nat → (Nat → Nat → R) → Option (Nat → Nat → R)
  | 0, _, _ => none
  | fuel + 1, size, dvec =>
    if size ≤ toSizeT n then
      let dvec := stageBody BATCH n stride expTable size dvec
      if size = toSizeT n then some dvec
      else stageLoop BATCH n stride expTable fuel ((size * 2) % 2 ^ 64) dvec
    else some dvec

/-- The function `batchtransformRadix2<BATCH, T, DIR>(n, stride, dvec)`.  The
arguments `expTable` and `dvec` are the states before the call; the result is
`none` if a loop runs out of fuel, `some (.error msg)` if the call throws
`std::domain_error(msg)`, and `some (.ok (expTable, dvec))` with the states
after the call otherwise.  A `size_t` has 64 bits: 64 evaluations of the loop
condition are enough for the level count, and `size` can double at most 62
times from `2` before it would wrap. -/
def batchtransformRadix2 {R : Type} [Zero R] [Add R] [Sub R] [Mul R]
    (cis : Int → Int → R) (BATCH : Nat) (DIR : Int) (n stride : Int)
    (expTable : List R) (dvec : Nat → Nat → R) :
    Option (Except String (List R × (Nat → Nat → R))) :=
  match levelsLoop 64 (toSizeT n) 0 with
  | none => none
  | some levels =>
    if (1 <<< levels) % 2 ^ 64 ≠ toSizeT n then
      some (.error "Length is not a power of 2")
    else
      let expTable := updateTable cis DIR n expTable
      let dvec := bitReversal BATCH levels n stride dvec
      match stageLoop BATCH n stride expTable 63 2 dvec with
      | none => none
      | some dvec => some (.ok (expTable, dvec))

/-- Application of a lane operation `op` to each of the first `BATCH` lanes. -/
def mapLanes {R : Type} (BATCH : Nat) (op : (Nat → R) → (Nat → R))
    (dvec : Nat → Nat → R) : Nat → Nat → R :=
  fun b => if b < BATCH then op (dvec b) else dvec b

/-- The bit-reversal loop of the kernel on one lane. -/
def laneBitReversal {R : Type} (levels : Nat) (n stride : Int) (vec : Nat → R) : Nat → R :=
  (List.range (toSizeT n)).foldl
    (fun vec i =>
      if reverseBits i levels > i then
        swapLane vec (idx i stride) (idx (reverseBits i levels) stride)
      else vec)
    vec

/-- One pass of the outer Cooley-Tukey loop on one lane. -/
def laneStage {R : Type} [Zero R] [Add R] [Sub R] [Mul R] (n stride : Int)
    (expTable : List R) (size : Nat) (vec : Nat → R) : Nat → R :=
  (kRange (toSizeT n) size).foldl
    (fun vec k =>
      (List.range (size / 2)).foldl
        (fun vec j =>
          butterfly (expTable.getD (j * (toSizeT n / size)) 0) vec
            (idx (k + j) stride) (idx (k + j + size / 2) stride))
        vec)
    vec

/-- The passes for `size = 2, 4, .., 2^L` on one lane, after the bit reversal. -/
def laneKernel {R : Type} [Zero R] [Add R] [Sub R] [Mul R] (L : Nat) (n stride : Int)
    (expTable : List R) (vec : Nat → R) : Nat → R :=
  (List.range L).foldl (fun vec t => laneStage n stride expTable (2 ^ (t + 1)) vec)
    (laneBitReversal L n stride vec)

/-- The table that a rebuild for the length `n` produces: entry `i` is
`cis (-(2*DIR*i)) n` for `0 <= i < n/2`. -/
def tableFor {R : Type} (cis : Int → Int → R) (DIR n : Int) : List R :=
  (List.range (n.tdiv 2).toNat).map (fun i : Nat => cis (-(2 * DIR * (i : Int))) n)

/-- The states that the `static` table can be in: it is the table of some
power-of-two length `2^L` that fits an `int` (the empty table is the one of
length `1`). -/
def CacheValid {R : Type} (cis : Int → Int → R) (DIR : Int) (expTable : List R) : Prop :=
  ∃ L : Nat, L ≤ 30 ∧ expTable = tableFor cis DIR ((2 : Int) ^ L)

/-- The lane `z` is the combination `a*x + c*y` at every offset. -/
def Lin {R : Type} [Add R] [Mul R] (a c : R) (x y z : Nat → R) : Prop :=
  ∀ i, z i = a * x i + c * y i

/-- The value of `complex(cos(th), sin(th))`, `th = num*pi/den`, in the ring of
integers, for the angles that are integer multiples of `pi` (`den` divides
`num`): `1` for an even multiple, `-1` for an odd one.  It gives the exact
tables of the lengths `1` and `2`. -/
def cisInt (num den : Int) : Int :=
  if (num / den) % 2 = 0 then 1 else -1

/-- Two sample lanes over the integers: lane `b` holds `3 + b, 5, 0, 0, ..`. -/
def sampleLanes : Nat → Nat → Int :=
  fun b i => if i = 0 then 3 + (b : Int) else if i = 1 then 5 else 0

/-- Two more sample lanes over the integers: lane `b` holds `1, b - 2, 0, ..`. -/
def sampleLanes2 : Nat → Nat → Int :=
  fun b i => if i = 0 then 1 else if i = 1 then (b : Int) - 2 else 0

/-- The reversal of the `k` low bits of `x`: the lowest bit of `x` becomes bit
`k-1`, and the other bits are reversed recursively. -/
def bitrev : Nat → Nat → Nat
  | 0, _ => 0
  | k + 1, x => (x % 2) * 2 ^ k + bitrev k (x / 2)

end fftx_helper

/-!
The array descriptor `array_t`, the tracing session and the operator emitters.

The process-wide state is a record `Session`: the flag `fftx::tracing`, the
counter `fftx::ID` (a `uint64_t`, incremented modulo `2^64`), the text written
to `std::cout`, the free store, the strings `inputType` and `outputType`, and
the header files written so far.  A pointer is its numeric value, `0` being
`nullptr`.  `assert(tracing)` is enabled (no `NDEBUG`): a failed assertion is
the result `.error`.  `new T[n]` is assumed to succeed.  Integers are printed
in decimal by `toString`, as `operator<<` does.
-/

namespace fftx

/-- The class `global_ptr<T>`: raw pointer, compute domain and device. -/
structure global_ptr where
  _ptr : Nat
  _domain : Int
  _device : Int

/-- The default constructor `global_ptr()`: null pointer, domain `0`, device `0`. -/
def global_ptr.null : global_ptr := ⟨0, 0, 0⟩

/-- The constructor `global_ptr(T* ptr, int domain=0, int device=0)` with the
default arguments. -/
def global_ptr.ofPtr (ptr : Nat) : global_ptr := ⟨ptr, 0, 0⟩

/-- The member `local()`. -/
def global_ptr.local (p : global_ptr) : Nat := p._ptr

/-- The struct `array_t<DIM, T>`: `m_local_data` (`nullptr` by its default
member initialiser), `m_data` and `m_domain`. -/
structure array_t (DIM : Nat) where
  m_local_data : Nat
  m_data : global_ptr
  m_domain : box_t DIM

/-- The free store: the blocks obtained from `new[]` and not yet released
(address and number of elements), and a bound `brk` on the addresses handed out
so far. -/
structure Heap where
  live : List (Nat × Nat)
  brk : Nat

/-- The expression `new T[count]`: a fresh, non-null address. -/
def Heap.new (h : Heap) (count : Nat) : Nat × Heap :=
  (h.brk + 1, ⟨(h.brk + 1, count) :: h.live, h.brk + 1 + count⟩)

/-- The statement `delete[] p`. -/
def Heap.delete (h : Heap) (p : Nat) : Heap :=
  ⟨h.live.filter (fun b => b.1 ≠ p), h.brk⟩

/-- The process-wide state. -/
structure Session where
  tracing : Bool
  ID : Nat
  out : String
  heap : Heap
  inputType : String
  outputType : String
  files : List (String × String)

/-- The state at program start: `tracing = false`, `ID = 1`, both type names
`"double"`, nothing written. -/
def Session.init : Session :=
  ⟨false, 1, "", ⟨[], 0⟩, "double", "double", []⟩

/-- The `operator<<` for `point_t<DIM>`: `[x0,x1,..]`. -/
def point_t.show {DIM : Nat} (p : point_t DIM) : String :=
  (List.range (DIM - 1)).foldl (fun output i => output ++ toString (p.get i) ++ ",") "["
    ++ toString (p.get (DIM - 1)) ++ "]"

/-- The `operator<<` for `std::array<T, COUNT>` (used for the `double` shifts
of `resample`), with `fmt` the output of one element in `std::fixed` notation
with precision `2`: `[a0,a1,..]`. -/
def showArray {F : Type} (fmt : F → String) (COUNT : Nat) (arr : Nat → F) : String :=
  (List.range' 1 (COUNT - 1)).foldl (fun os i => os ++ "," ++ fmt (arr i))
    ("[" ++ fmt (arr 0)) ++ "]"

/-- The member `array_t::id()`: `assert(tracing)`, then the pointer value. -/
def array_t.id {DIM : Nat} (a : array_t DIM) (s : Session) : Except String Nat :=
  if s.tracing then .ok a.m_data.local else .error "assert(tracing)"

/-- The default constructor `array_t()`: no local data, null `m_data`; the
domain is not initialised by the source and is the argument here. -/
def array_t.default {DIM : Nat} (m_domain : box_t DIM) : array_t DIM :=
  ⟨0, global_ptr.null, m_domain⟩

/-- The constructor `array_t(global_ptr<T>&& p, const box_t<DIM>& a_box)`. -/
def array_t.ofPtr {DIM : Nat} (p : global_ptr) (a_box : box_t DIM) (s : Session) :
    array_t DIM × Session :=
  (⟨0, p, a_box⟩, s)

/-- The constructor `array_t(const box_t<DIM>& a_box)`. -/
def array_t.ofBox {DIM : Nat} (a_box : box_t DIM) (s : Session) : array_t DIM × Session :=
  if s.tracing then
    let m_data := global_ptr.ofPtr s.ID
    let out := s.out ++ "var_" ++ toString s.ID ++ ":= var(\"var_" ++ toString s.ID
      ++ "\", BoxND(" ++ a_box.extents.show ++ ", TReal));\n"
    (⟨0, m_data, a_box⟩, { s with out := out, ID := (s.ID + 1) % 2 ^ 64 })
  else
    let m_local_data := (s.heap.new a_box.size).1
    (⟨m_local_data, global_ptr.ofPtr m_local_data, a_box⟩,
      { s with heap := (s.heap.new a_box.size).2 })

/-- The destructor `~array_t()`. -/
def array_t.destroy {DIM : Nat} (a : array_t DIM) (s : Session) : Session :=
  if a.m_local_data ≠ 0 then { s with heap := s.heap.delete a.m_local_data } else s

/-- The friend function `swap(array_t& first, array_t& second)`: three
`std::swap` calls, member by member. -/
def swap {DIM : Nat} (first second : array_t DIM) : array_t DIM × array_t DIM :=
  let tmp := first.m_local_data
  let first := { first with m_local_data := second.m_local_data }
  let second := { second with m_local_data := tmp }
  let tmp := first.m_data
  let first := { first with m_data := second.m_data }
  let second := { second with m_data := tmp }
  let tmp := first.m_domain
  let first := { first with m_domain := second.m_domain }
  let second := { second with m_domain := tmp }
  (first, second)

/-- The function `copy`. -/
def copy {DIM : Nat} (dest src : array_t DIM) (s : Session) : Except String Session := do
  let d ← dest.id s
  let i ← src.id s
  let out := s.out ++ "    TDAGNode(TGath(fBox(" ++ src.m_domain.extents.show
    ++ ")),var_" ++ toString d ++ ", var_" ++ toString i ++ "),\n"
  pure { s with out := out }

/-- The function `MDDFT`. -/
def MDDFT {DIM : Nat} (extents : point_t DIM) (batch : Int) (destination source : array_t DIM)
    (s : Session) : Except String Session := do
  let d ← destination.id s
  let i ← source.id s
  let out := s.out ++ "   TDAGNode(TTensorI(MDDFT(" ++ extents.show ++ ",-1),"
    ++ toString batch ++ ",APar, APar), var_" ++ toString d ++ ",var_" ++ toString i ++ "),\n"
  pure { s with out := out }

/-- The function `IMDDFT`. -/
def IMDDFT {DIM : Nat} (extents : point_t DIM) (batch : Int) (destination source : array_t DIM)
    (s : Session) : Except String Session := do
  let d ← destination.id s
  let i ← source.id s
  let out := s.out ++ "   TDAGNode(TTensorI(MDDFT(" ++ extents.show ++ ",1),"
    ++ toString batch ++ ",APar, APar), var_" ++ toString d ++ ",var_" ++ toString i ++ "),\n"
  pure { s with out := out }

/-- The function `MDPRDFT`: the arrays have one more dimension than `extent`. -/
def MDPRDFT {DIM : Nat} (extent : point_t DIM) (batch : Int)
    (destination source : array_t (DIM + 1)) (s : Session) : Except String Session := do
  let d ← destination.id s
  let i ← source.id s
  let out := s.out ++ "    TDAGNode(TTensorI(MDPRDFT(" ++ extent.show ++ ",-1),"
    ++ toString batch ++ ",APar,APar), var_" ++ toString d ++ ",var_" ++ toString i ++ "),\n"
  pure { s with out := out }

/-- The function `IMDPRDFT`. -/
def IMDPRDFT {DIM : Nat} (extent : point_t DIM) (batch : Int)
    (destination source : array_t (DIM + 1)) (s : Session) : Except String Session := do
  let d ← destination.id s
  let i ← source.id s
  let out := s.out ++ "    TDAGNode(TTensorI(IMDPRDFT(" ++ extent.show ++ ",1),"
    ++ toString batch ++ ",APar,APar), var_" ++ toString d ++ ",var_" ++ toString i ++ "),\n"
  pure { s with out := out }

/-- The function `PRDFT`. -/
def PRDFT {DIM : Nat} (extent : point_t DIM) (destination source : array_t DIM)
    (s : Session) : Except String Session := do
  let d ← destination.id s
  let i ← source.id s
  let out := s.out ++ "    TDAGNode(MDPRDFT(" ++ extent.show ++ ",-1), var_"
    ++ toString d ++ ",var_" ++ toString i ++ "),\n"
  pure { s with out := out }

/-- The function `IPRDFT`. -/
def IPRDFT {DIM : Nat} (extent : point_t DIM) (destination source : array_t DIM)
    (s : Session) : Except String Session := do
  let d ← destination.id s
  let i ← source.id s
  let out := s.out ++ "    TDAGNode(IMDPRDFT(" ++ extent.show ++ ",1), var_"
    ++ toString d ++ ",var_" ++ toString i ++ "),\n"
  pure { s with out := out }

/-- The function `kernel` for a `double` symbol. -/
def kernel {DIM : Nat} (symbol destination source : array_t DIM) (s : Session) :
    Except String Session := do
  let d ← destination.id s
  let i ← source.id s
  let out := s.out ++ "    TDAGNode(Diag(diagTensor(FDataOfs(symvar,"
    ++ toString symbol.m_domain.size ++ ",0),fConst(TReal, 2, 1))), var_" ++ toString d
    ++ ",var_" ++ toString i ++ "),\n"
  pure { s with out := out }

/-- The function `kernel` for a `std::complex<double>` symbol; `2*size()` is a
`size_t` product. -/
def kernelComplex {DIM : Nat} (symbol destination source : array_t DIM) (s : Session) :
    Except String Session := do
  let d ← destination.id s
  let i ← source.id s
  let out := s.out ++ "    TDAGNode(RCDiag(FDataOfs(symvar,"
    ++ toString ((2 * symbol.m_domain.size) % 2 ^ 64) ++ ",0)), var_" ++ toString d
    ++ ",var_" ++ toString i ++ "),\n"
  pure { s with out := out }

/-- The loop of `zeroEmbedBox` and `extractBox` that prints the ranges
`[lo_0..hi_0],[lo_1..hi_1],..` of a box. -/
def showRanges {DIM : Nat} (b : box_t DIM) : String :=
  (List.range DIM).foldl
    (fun out i =>
      let out := out ++ "[" ++ toString (b.lo.get i) ++ ".." ++ toString (b.hi.get i) ++ "]"
      if i + 1 < DIM then out ++ "," else out)
    ""

/-- The function `zeroEmbedBox`. -/
def zeroEmbedBox {DIM : Nat} (destination source : array_t DIM) (s : Session) :
    Except String Session := do
  let out := s.out ++ "    TDAGNode(ZeroEmbedBox(" ++ destination.m_domain.extents.show ++ ",["
  let out := out ++ showRanges source.m_domain
  let d ← destination.id s
  let i ← source.id s
  let out := out ++ "]), var_" ++ toString d ++ ",var_" ++ toString i ++ "),\n"
  pure { s with out := out }

/-- The function `extractBox`. -/
def extractBox {DIM : Nat} (destination source : array_t DIM) (s : Session) :
    Except String Session := do
  let out := s.out ++ "    TDAGNode(ExtractBox(" ++ source.m_domain.extents.show ++ ",["
  let out := out ++ showRanges destination.m_domain
  let d ← destination.id s
  let i ← source.id s
  let out := out ++ "]), var_" ++ toString d ++ ",var_" ++ toString i ++ "),\n"
  pure { s with out := out }

/-- The function `resample`; `fmt` prints one `double` of the shift. -/
def resample {F : Type} {DIM : Nat} (fmt : F → String) (shift : Nat → F)
    (destination source : array_t DIM) (s : Session) : Except String Session := do
  let d ← destination.id s
  let i ← source.id s
  let out := s.out ++ "    TDAGNode(TResample("
    ++ destination.m_domain.extents.show ++ "," ++ source.m_domain.extents.show ++ ","
    ++ showArray fmt DIM shift ++ ")," ++ "var_" ++ toString d ++ "," ++ "var_" ++ toString i
    ++ "),\n"
  pure { s with out := out }

/-- The function `openDAG`. -/
def openDAG (s : Session) : Session :=
  { s with out := s.out ++ "transform:= TFCall(TDecl(TDAG([\n" }

/-- The function `openScalarDAG`. -/
def openScalarDAG (s : Session) : Session :=
  let out := s.out ++ "symvar := var(\"sym\", TPtr(TReal));\n"
  let out := out ++ "transform:= TFCall(TDecl(TDAG([\n"
  { s with out := out }

/-- Replacement of the occurrences of `pat` in a text, left to right, with
fuel (the length of the text is enough). -/
def replaceLoop (pat rep : List Char) : Nat → List Char → List Char
  | 0, text => text
  | _ + 1, [] => []
  | fuel + 1, c :: cs =>
    if pat ≠ [] ∧ pat.isPrefixOf (c :: cs) then
      rep ++ replaceLoop pat rep fuel ((c :: cs).drop pat.length)
    else c :: replaceLoop pat rep fuel cs

/-- The call `std::regex_replace(text, std::regex(pat), rep)` for a pattern
without regular-expression operators and a replacement without `$`: every
occurrence of `pat`, found left to right, becomes `rep`. -/
def regex_replace (text pat rep : String) : String :=
  ⟨replaceLoop pat.data rep.data (text.length + 1) text.data⟩

/-- The raw string `header_template` of `closeDAG`, line by line. -/
def closeDAG_header_template : String :=
  "\n" ++
  "\n" ++
  "    #ifndef PLAN_CODEGEN_H\n" ++
  "    #define PLAN_CODEGEN_H\n" ++
  "\n" ++
  "    #include \"fftx3.hpp\"\n" ++
  "\n" ++
  "    extern void init_PLAN_spiral(); \n" ++
  "    extern void PLAN_spiral(double** Y, double** X, double** symvar); \n" ++
  "    extern void destroy_PLAN_spiral();\n" ++
  "\n" ++
  "   namespace PLAN\n" ++
  "   \x7b\n" ++
  "    inline void init()\x7b init_PLAN_spiral();\x7d\n" ++
  "    inline void trace();\n" ++
  "    template<std::size_t IN_DIM, std::size_t OUT_DIM, std::size_t S_DIM>\n" ++
  "    inline fftx::handle_t transform(std::array<fftx::array_t<DD, S_TYPE>,IN_DIM>& source,\n" ++
  "                                    std::array<fftx::array_t<DD, D_TYPE>,OUT_DIM>& destination,\n" ++
  "                                    std::array<fftx::array_t<DD, double>,S_DIM>& symvar)\n" ++
  "    \x7b   // for the moment, the function signature is hard-coded.  trace will\n" ++
  "      // generate this in our better world\n" ++
  "        double* input[IN_DIM];\n" ++
  "        double* output[OUT_DIM];\n" ++
  "        double* sym[S_DIM];\n" ++
  "        for(int i=0; i<IN_DIM; i++) input[i] = (double*)(source[i].m_data.local());\n" ++
  "        for(int i=0; i<OUT_DIM; i++) output[i] = (double*)(destination[i].m_data.local());\n" ++
  "        for(int i=0; i<S_DIM; i++) sym[i] = (double*)(symvar[i].m_data.local());\n" ++
  "\n" ++
  "        PLAN_spiral(output, input, sym);\n" ++
  "   \n" ++
  "    // dummy return handle for now\n" ++
  "      fftx::handle_t rtn;\n" ++
  "      return rtn;\n" ++
  "    \x7d\n" ++
  "\n" ++
  "    template<std::size_t IN_DIM, std::size_t OUT_DIM>\n" ++
  "    inline fftx::handle_t transform(std::array<fftx::array_t<DD, S_TYPE>,IN_DIM>& source,\n" ++
  "                                    std::array<fftx::array_t<DD, D_TYPE>,OUT_DIM>& destination)\n" ++
  "    \x7b   // for the moment, the function signature is hard-coded.  trace will\n" ++
  "      // generate this in our better world\n" ++
  "        double* input[IN_DIM];\n" ++
  "        double* output[OUT_DIM];\n" ++
  "        double** sym=nullptr;\n" ++
  "        for(int i=0; i<IN_DIM; i++) input[i] = (double*)(source[i].m_data.local());\n" ++
  "        for(int i=0; i<OUT_DIM; i++) output[i] = (double*)(destination[i].m_data.local());\n" ++
  "  \n" ++
  "\n" ++
  "        PLAN_spiral(output, input, sym);\n" ++
  "   \n" ++
  "    // dummy return handle for now\n" ++
  "      fftx::handle_t rtn;\n" ++
  "      return rtn;\n" ++
  "    \x7d\n" ++
  "    //inline void destroy()\x7b destroy_PLAN_spiral();\x7d\n" ++
  "    inline void destroy()\x7b \x7d\n" ++
  "  \x7d;\n" ++
  "\n" ++
  " #endif  "

/-- The raw string `header_template` of `closeScalarDAG`, line by line. -/
def closeScalarDAG_header_template : String :=
  "\n" ++
  "\n" ++
  "    #ifndef PLAN_CODEGEN_H\n" ++
  "    #define PLAN_CODEGEN_H\n" ++
  "\n" ++
  "    #include \"fftx3.hpp\"\n" ++
  "\n" ++
  "    extern void init_PLAN_spiral(); \n" ++
  "    extern void PLAN_spiral(double* Y, double* X, double* symvar); \n" ++
  "    extern void destroy_PLAN_spiral();\n" ++
  "\n" ++
  "   namespace PLAN\n" ++
  "   \x7b\n" ++
  "    double CPU_milliseconds=0;\n" ++
  "    float  GPU_milliseconds=0;\n" ++
  "#ifdef __CUDACC__\n" ++
  "    cudaEvent_t start, stop;\n" ++
  "    void kernelStart() \x7bcudaEventRecord(start);\x7d\n" ++
  "    void kernelStop()\n" ++
  "    \x7b\n" ++
  "     cudaEventRecord(stop);\n" ++
  "     cudaDeviceSynchronize();\n" ++
  "     cudaEventSynchronize(stop);\n" ++
  "     cudaEventElapsedTime(&GPU_milliseconds, start, stop);\n" ++
  "    \x7d\n" ++
  "#else\n" ++
  "    void kernelStart()\x7b \x7d\n" ++
  "    void kernelStop()\x7b \x7d\n" ++
  "#endif\n" ++
  "    inline void init()\x7b \n" ++
  "          init_PLAN_spiral();\n" ++
  "#ifdef __CUDACC__\n" ++
  "         cudaEventCreate(&start);\n" ++
  "         cudaEventCreate(&stop);\n" ++
  "#endif\n" ++
  "           \x7d\n" ++
  "    inline void trace();\n" ++
  "    inline fftx::handle_t transform(fftx::array_t<DD, S_TYPE>& source,\n" ++
  "                                    fftx::array_t<DD, D_TYPE>& destination,\n" ++
  "                                    fftx::array_t<DD, double>& symvar)\n" ++
  "    \x7b   // for the moment, the function signature is hard-coded.  trace will\n" ++
  "      // generate this in our better world\n" ++
  "        double* input;\n" ++
  "        double* output;\n" ++
  "        double* sym;\n" ++
  "        input = (double*)(source.m_data.local());\n" ++
  "        output = (double*)(destination.m_data.local());\n" ++
  "        sym = (double*)(symvar.m_data.local());\n" ++
  "\n" ++
  "        kernelStart();\n" ++
  "        std::chrono::high_resolution_clock::time_point t1 = std::chrono::high_resolution_clock::now();\n" ++
  "           PLAN_spiral(output, input, sym);\n" ++
  "        kernelStop();\n" ++
  "        std::chrono::high_resolution_clock::time_point t2 = std::chrono::high_resolution_clock::now();\n" ++
  "        std::chrono::duration<double> time_span = std::chrono::duration_cast<std::chrono::duration<double>>(t2-t1);\n" ++
  "        CPU_milliseconds = time_span.count()*1000;\n" ++
  "    // dummy return handle for now\n" ++
  "      fftx::handle_t rtn;\n" ++
  "      return rtn;\n" ++
  "    \x7d\n" ++
  "\n" ++
  " \n" ++
  "    inline fftx::handle_t transform(fftx::array_t<DD, S_TYPE>& source,\n" ++
  "                                    fftx::array_t<DD, D_TYPE>& destination)\n" ++
  "    \x7b   // for the moment, the function signature is hard-coded.  trace will\n" ++
  "      // generate this in our better world\n" ++
  "        double* input;\n" ++
  "        double* output;\n" ++
  "        double* sym=nullptr;\n" ++
  "        input = (double*)(source.m_data.local());\n" ++
  "        output = (double*)(destination.m_data.local());\n" ++
  "  \n" ++
  "        kernelStart();\n" ++
  "        std::chrono::high_resolution_clock::time_point t1 = std::chrono::high_resolution_clock::now();\n" ++
  "           PLAN_spiral(output, input, sym);\n" ++
  "        kernelStop();\n" ++
  "        std::chrono::high_resolution_clock::time_point t2 = std::chrono::high_resolution_clock::now();\n" ++
  "        std::chrono::duration<double> time_span = std::chrono::duration_cast<std::chrono::duration<double>>(t2-t1);\n" ++
  "        CPU_milliseconds = time_span.count()*1000;\n" ++
  "\n" ++
  "    // dummy return handle for now\n" ++
  "      fftx::handle_t rtn;\n" ++
  "      return rtn;\n" ++
  "    \x7d\n" ++
  "    //inline void destroy()\x7b destroy_PLAN_spiral();\x7d\n" ++
  "    inline void destroy()\x7b \x7d\n" ++
  "  \x7d;\n" ++
  "\n" ++
  " #endif  "

/-- The part of `closeDAG` that prints the root variables: nothing for
`COUNT == 0`, else `var_<p0>` followed by `, var_<pi>` for the others. -/
def showLocalVars {DIM : Nat} (localVars : List (array_t DIM)) : String :=
  match localVars with
  | [] => ""
  | v :: vs =>
    vs.foldl (fun out w => out ++ ", var_" ++ toString w.m_data.local)
      ("var_" ++ toString v.m_data.local)

/-- The function `closeDAG(localVars, name)` for arrays of dimension `DIM`. -/
def closeDAG {DIM : Nat} (localVars : List (array_t DIM)) (name : String) (s : Session) :
    Session :=
  let headerName := name ++ ".fftx.codegen.hpp"
  let header_text := closeDAG_header_template
  let header_text := regex_replace header_text "PLAN" name
  let header_text := regex_replace header_text "S_TYPE" s.inputType
  let header_text := regex_replace header_text "D_TYPE" s.outputType
  let header_text := regex_replace header_text "DD" (toString ((DIM : Int) - 1))
  let files := (headerName, header_text ++ "\n") :: s.files
  let out := s.out ++ "\n]),\n   ["
  let out := out ++ showLocalVars localVars
  let out := out ++ "]\n),\n"
  let out := out ++ "rec(XType:= TPtr(TPtr(TReal)), YType:=TPtr(TPtr(TReal)), fname:=\""
    ++ name ++ "_spiral\", params:= [symvar])\n" ++ ");\n"
  let out := out ++ "prefix:=\"" ++ name ++ "\";\n"
  { s with tracing := false, files := files, out := out }

/-- The function `varNames`: `var_<p0>,var_<p1>,..`. -/
def varNames {DIM : Nat} (a_vars : List (array_t DIM)) : String :=
  (List.range a_vars.length).foldl
    (fun rtn i =>
      let rtn := rtn ++ "var_"
      let rtn := rtn ++ toString ((a_vars.getD i (array_t.default ⟨⟨fun _ => 0⟩, ⟨fun _ => 0⟩⟩)).m_data.local)
      if i + 1 < a_vars.length then rtn ++ "," else rtn)
    ""

/-- The function `closeScalarDAG<DIM>(localVarNames, name)` (without
`FFTX_HIP`). -/
def closeScalarDAGNames (DIM : Nat) (localVarNames name : String) (s : Session) : Session :=
  let headerName := name ++ ".fftx.codegen.hpp"
  let header_text := closeScalarDAG_header_template
  let header_text := regex_replace header_text "PLAN" name
  let header_text := regex_replace header_text "S_TYPE" s.inputType
  let header_text := regex_replace header_text "D_TYPE" s.outputType
  let header_text := regex_replace header_text "DD" (toString DIM)
  let files := (headerName, header_text ++ "\n") :: s.files
  let out := s.out ++ "\n]),\n   ["
  let out := out ++ localVarNames
  let out := out ++ "]\n),\n"
  let out := out ++ "rec(fname:=\"" ++ name ++ "_spiral\", params:= [symvar])\n" ++ ");\n"
  let out := out ++ "prefix:=\"" ++ name ++ "\";\n"
  { s with tracing := false, files := files, out := out }

/-- The overload `closeScalarDAG(a_vars, name)`. -/
def closeScalarDAG {DIM : Nat} (a_vars : List (array_t DIM)) (name : String) (s : Session) :
    Session :=
  closeScalarDAGNames DIM (varNames a_vars) name s

/-- The overload `closeScalarDAG(a_vars, a_vars2, name)`. -/
def closeScalarDAG2 {DIM : Nat} (a_vars a_vars2 : List (array_t DIM)) (name : String)
    (s : Session) : Session :=
  closeScalarDAGNames DIM (varNames a_vars ++ "," ++ varNames a_vars2) name s

/-- The operators of the tracing API that emit a node, each with its arguments
other than the destination and the source descriptor.  The descriptors have
dimension `D + 1`; the extents of `MDPRDFT` and `IMDPRDFT` have dimension `D`;
`F` is the type of the `double` shifts of `resample`. -/
inductive Operator (F : Type) (D : Nat) where
  | MDDFT (extents : point_t (D + 1)) (batch : Int)
  | IMDDFT (extents : point_t (D + 1)) (batch : Int)
  | MDPRDFT (extent : point_t D) (batch : Int)
  | IMDPRDFT (extent : point_t D) (batch : Int)
  | PRDFT (extent : point_t (D + 1))
  | IPRDFT (extent : point_t (D + 1))
  | kernel (symbol : array_t (D + 1))
  | kernelComplex (symbol : array_t (D + 1))
  | zeroEmbedBox
  | extractBox
  | resample (shift : Nat → F)
  | copy

/-- The call of an operator on a destination and a source descriptor. -/
def Operator.call {F : Type} {D : Nat} (fmt : F → String) (o : Operator F D)
    (destination source : array_t (D + 1)) (s : Session) : Except String Session :=
  match o with
  | .MDDFT extents batch => fftx.MDDFT extents batch destination source s
  | .IMDDFT extents batch => fftx.IMDDFT extents batch destination source s
  | .MDPRDFT extent batch => fftx.MDPRDFT extent batch destination source s
  | .IMDPRDFT extent batch => fftx.IMDPRDFT extent batch destination source s
  | .PRDFT extent => fftx.PRDFT extent destination source s
  | .IPRDFT extent => fftx.IPRDFT extent destination source s
  | .kernel symbol => fftx.kernel symbol destination source s
  | .kernelComplex symbol => fftx.kernelComplex symbol destination source s
  | .zeroEmbedBox => fftx.zeroEmbedBox destination source s
  | .extractBox => fftx.extractBox destination source s
  | .resample shift => fftx.resample fmt shift destination source s
  | .copy => fftx.copy destination source s

/-- One statement of a tracing program.  The descriptors constructed so far
are numbered `0, 1, ..` in construction order, and a statement names a
descriptor by its number.  `setTracing b` is the user's assignment
`fftx::tracing = b`. -/
inductive Cmd (F : Type) (D : Nat) where
  | setTracing (b : Bool)
  | construct (a_box : box_t (D + 1))
  | call (o : Operator F D) (destination source : Nat)
  | closeDAG (localVars : List Nat) (name : String)
  | closeScalarDAG (a_vars : List Nat) (name : String)

/-- Execution of one statement on the session state and the list of the
descriptors constructed so far; a statement that names a descriptor that does
not exist is the error `"unbound descriptor"`. -/
def Cmd.step {F : Type} {D : Nat} (fmt : F → String) (c : Cmd F D)
    (st : Session × List (array_t (D + 1))) :
    Except String (Session × List (array_t (D + 1))) :=
  match c with
  | .setTracing b => .ok ({ st.1 with tracing := b }, st.2)
  | .construct a_box => .ok ((array_t.ofBox a_box st.1).2, st.2 ++ [(array_t.ofBox a_box st.1).1])
  | .call o destination source =>
    match st.2[destination]?, st.2[source]? with
    | some d, some i =>
      match o.call fmt d i st.1 with
      | .ok s => .ok (s, st.2)
      | .error e => .error e
    | _, _ => .error "unbound descriptor"
  | .closeDAG localVars name =>
    match localVars.mapM (fun v => st.2[v]?) with
    | some vs => .ok (fftx.closeDAG vs name st.1, st.2)
    | none => .error "unbound descriptor"
  | .closeScalarDAG a_vars name =>
    match a_vars.mapM (fun v => st.2[v]?) with
    | some vs => .ok (fftx.closeScalarDAG vs name st.1, st.2)
    | none => .error "unbound descriptor"

/-- Execution of a list of statements, in order, up to the first error. -/
def run {F : Type} {D : Nat} (fmt : F → String) :
    List (Cmd F D) → Session × List (array_t (D + 1)) →
    Except String (Session × List (array_t (D + 1)))
  | [], st => .ok st
  | c :: cs, st =>
    match c.step fmt st with
    | .ok st1 => run fmt cs st1
    | .error e => .error e

/-- The ids of the descriptors that were constructed while tracing (they own
no local data), in construction order. -/
def tracedIds {DIM : Nat} (env : List (array_t DIM)) : List Nat :=
  (env.filter (fun a => a.m_local_data = 0)).map (fun a => a.m_data.local)

/-- The line that the constructor from a box prints in tracing for the id
`id` and the domain `a_box`. -/
def declaration {DIM : Nat} (id : Nat) (a_box : box_t DIM) : String :=
  "var_" ++ toString id ++ ":= var(\"var_" ++ toString id
    ++ "\", BoxND(" ++ a_box.extents.show ++ ", TReal));\n"

/-- The text contains, after the part `base`, the declaration line of the id
`id` with the extents of `a_box`. -/
def Declared {DIM : Nat} (base text : String) (id : Nat) (a_box : box_t DIM) : Prop :=
  ∃ u v : String, text = base ++ (u ++ (declaration id a_box ++ v))

/-- The state of a program that has run in tracing, without a wrap of the
counter, from the counter `k` and the text `base` with no descriptor: the
`j`-th descriptor owns no memory, has the id `k + j` and is declared in the
text, and the counter is `k` plus the number of descriptors. -/
def TraceInv {DIM : Nat} (k : Nat) (base : String) (st : Session × List (array_t DIM)) : Prop :=
  st.1.tracing = true ∧ st.1.ID = k + st.2.length ∧ (∃ t : String, st.1.out = base ++ t) ∧
    ∀ j a, st.2[j]? = some a →
      a.m_local_data = 0 ∧ a.m_data.local = k + j ∧ Declared base st.1.out (k + j) a.m_domain

/-- A statement of the tracing phase proper: the construction of a descriptor
or the call of an operator. -/
def Cmd.isTraceStep {F : Type} {D : Nat} : Cmd F D → Bool
  | .construct _ => true
  | .call _ _ _ => true
  | _ => false

/-- The free store is consistent: every live block has a non-null address
that is not above the bound `brk`. -/
def Heap.wf (h : Heap) : Prop :=
  ∀ b ∈ h.live, 0 < b.1 ∧ b.1 ≤ h.brk

/-- The state at program start after the assignment `fftx::tracing = true`. -/
def tracingSession : Session :=
  { Session.init with tracing := true }

/-- A tracing state whose counter holds the largest `uint64_t`, `2^64 - 1`. -/
def lastIdSession : Session :=
  { Session.init with tracing := true, ID := 2 ^ 64 - 1 }

/-- A non-tracing state with one live block of `5` elements at address `1`. -/
def busySession : Session :=
  { Session.init with heap := ⟨[(1, 5)], 6⟩ }

/-- The formatter of a shift that prints every value as `0.00`. -/
def fmtZero : Unit → String :=
  fun _ => "0.00"

/-- A tracing program: two descriptors on `smallBox` and a `copy` from the
first to the second. -/
def copyTrace : List (Cmd Unit 1) :=
  [.construct smallBox, .construct smallBox, .call .copy 1 0]

/-- A complete tracing program: tracing is switched on, two descriptors are
constructed, a forward transform goes from the first to the second, and the DAG
is closed with the second descriptor as its variable. -/
def closedTrace : List (Cmd Unit 1) :=
  [.setTracing true, .construct smallBox, .construct smallBox,
    .call (.MDDFT ⟨![3, 4]⟩ 1) 1 0, .closeDAG [1] "t"]

end fftx

/-- The access `sizes.at(i)` of a `std::vector<int>`. -/
def vectorAt (sizes : List Int) (i : Nat) : Except String Int :=
  match sizes[i]? with
  | some v => .ok v
  | none => .error "std::out_of_range"

/-- The string `batch1ddft_script` of `batch1ddftObj.hpp`. -/
def batch1ddft_script : String :=
  "transform := let(\n" ++
  "         TFCall(TRC(TTensorI(DFT(N, sign), B, read, write)),\n" ++
  "            rec(fname := name, params := [])));"

/-- The raw string `ibatch1ddft_script` of `ibatch1ddftObj.hpp`. -/
def ibatch1ddft_script : String :=
  "\n" ++
  "    transform := let(\n" ++
  "        TFCall(TRC(TTensorI(DFT(N, sign), B, read, write)),\n" ++
  "            rec(fname := name, params := []))\n" ++
  "    );\n"

/-- The member `BATCH1DDFTProblem::semantics()`; `sizes` and `name` are the
members of the base class `FFTXProblem`, `std::endl` is a line feed. -/
def BATCH1DDFTProblem.semantics (sizes : List Int) (name : String) (s : fftx.Session) :
    Except String fftx.Session := do
  let v ← vectorAt sizes 0
  let out := s.out ++ "N := " ++ toString v ++ ";" ++ "\n"
  let v ← vectorAt sizes 1
  let out := out ++ "B := " ++ toString v ++ ";" ++ "\n"
  let v ← vectorAt sizes 2
  let out := if v = 0 then out ++ "read := APar;" ++ "\n" else out ++ "read := AVec;" ++ "\n"
  let v ← vectorAt sizes 3
  let out := if v = 0 then out ++ "write := APar;" ++ "\n" else out ++ "write := AVec;" ++ "\n"
  let out := out ++ "sign := -1;" ++ "\n"
  let out := out ++ "name := \"" ++ name ++ "_spiral" ++ "\";" ++ "\n"
  let out := out ++ batch1ddft_script ++ "\n"
  pure { s with out := out }

/-- The member `IBATCH1DDFTProblem::semantics()`. -/
def IBATCH1DDFTProblem.semantics (sizes : List Int) (name : String) (s : fftx.Session) :
    Except String fftx.Session := do
  let v ← vectorAt sizes 0
  let out := s.out ++ "N := " ++ toString v ++ ";" ++ "\n"
  let v ← vectorAt sizes 1
  let out := out ++ "B := " ++ toString v ++ ";" ++ "\n"
  let v ← vectorAt sizes 2
  let out := if v = 0 then out ++ "read := APar;" ++ "\n" else out ++ "read := AVec;" ++ "\n"
  let v ← vectorAt sizes 3
  let out := if v = 0 then out ++ "write := APar;" ++ "\n" else out ++ "write := AVec;" ++ "\n"
  let out := out ++ "sign := 1;" ++ "\n"
  let out := out ++ "name := \"" ++ name ++ "_spiral" ++ "\";" ++ "\n"
  let out := out ++ ibatch1ddft_script ++ "\n"
  pure { s with out := out }

/-!
The column-major branches of the position functions, the constructor of a box,
and the element loops `forall`.

The element loops act on a state `σ` that stands for the memory the callback
reads and writes: the call `fp(*ptr)` of the source is `fp ptr p`, with `ptr`
the offset of the element from the start of the buffer (in elements) and `p`
the current value of the point that the callback captures by reference.
-/

namespace fftx

/-- The constructors `box_t(a, b)`: the member initialisers `lo(a), hi(b)` and
an empty body. -/
def box_t.ofCorners {DIM : Nat} (a b : point_t DIM) : box_t DIM :=
  ⟨a, b⟩

/-- The member `point_t<DIM>::flipped()`: `rtn[d] = x[DIM-1 - d]` for every
`d`; the local `rtn` starts uninitialised in the source and every coordinate is
assigned; it starts at zero here. -/
def point_t.flipped {DIM : Nat} (p : point_t DIM) : point_t DIM :=
  (List.range DIM).foldl (fun rtn d => rtn.set d (p.get (DIM - 1 - d))) ⟨fun _ => 0⟩

/-- The function `positionInBox`, column-major branch
(`FFTX_ROW_MAJOR_ORDER` set to `0`): the loop runs from `DIM-2` down to `0`.
The `int` differences and the extents are evaluated exactly, as the source
does for a point of a box with `box_t.fits`. -/
def positionInBoxCol {DIM : Nat} (a_pt : point_t DIM) (a_bx : box_t DIM) : Nat :=
  let lo := a_bx.lo
  let lengths := a_bx.extents
  (List.range (DIM - 1)).reverse.foldl
    (fun disp d =>
      let disp := (disp * toSizeT (lengths.get d)) % 2 ^ 64
      (disp + toSizeT (a_pt.get d - lo.get d)) % 2 ^ 64)
    (toSizeT (a_pt.get (DIM - 1) - lo.get (DIM - 1)))

/-- The function `pointFromPositionBox`, column-major branch: axes are visited
from `0` up to `DIM-1`, with the same loop body as the row-major branch. -/
def pointFromPositionBoxCol {DIM : Nat} (a_ind : Nat) (a_bx : box_t DIM) : point_t DIM :=
  let lo := a_bx.lo
  let lengths := a_bx.extents
  ((List.range DIM).foldl (pointFromPositionStep lo lengths) (a_ind, ⟨fun _ => 0⟩)).2

/-- The values of `i` in `for (int i = lo; i <= hi; ++i)`. -/
def intRange (lo hi : Int) : List Int :=
  (List.range (hi - lo + 1).toNat).map (fun k => lo + (k : Int))

/-- The member `forallHelper<DIM, T, Func_P>::f(ptr, pvect, lo, hi, fp)` for
`DIM = D + 1`; the state is `ptr`, the point behind `pvect`, and the memory.
For `DIM = 1` (the specialisation) the loop over axis `0` sets `pvect[0]`,
calls `fp(*ptr)` and advances `ptr`; for `DIM > 1` the loop over axis `DIM-1`
sets `pvect[DIM-1]` and calls the helper of `DIM-1`. -/
def forallHelper {DIM : Nat} {σ : Type} (fp : Nat → point_t DIM → σ → σ)
    (lo hi : point_t DIM) : Nat → Nat × point_t DIM × σ → Nat × point_t DIM × σ
  | 0, st =>
    (intRange (lo.get 0) (hi.get 0)).foldl
      (fun st i =>
        let pvect := st.2.1.set 0 i
        (st.1 + 1, pvect, fp st.1 pvect st.2.2))
      st
  | D + 1, st =>
    (intRange (lo.get (D + 1)) (hi.get (D + 1))).foldl
      (fun st i =>
        let pvect := st.2.1.set (D + 1) i
        forallHelper fp lo hi D (st.1, pvect, st.2.2))
      st

/-- The member `forallHelper<DIM, T, Func_P>::f2(ptr1, ptr2, pvect, lo, hi, fp)`
for `DIM = D + 1`: as `f`, with a second pointer that advances with the
first. -/
def forallHelper2 {DIM : Nat} {σ : Type} (fp : Nat → Nat → point_t DIM → σ → σ)
    (lo hi : point_t DIM) :
    Nat → Nat × Nat × point_t DIM × σ → Nat × Nat × point_t DIM × σ
  | 0, st =>
    (intRange (lo.get 0) (hi.get 0)).foldl
      (fun st i =>
        let pvect := st.2.2.1.set 0 i
        (st.1 + 1, st.2.1 + 1, pvect, fp st.1 st.2.1 pvect st.2.2.2))
      st
  | D + 1, st =>
    (intRange (lo.get (D + 1)) (hi.get (D + 1))).foldl
      (fun st i =>
        let pvect := st.2.2.1.set (D + 1) i
        forallHelper2 fp lo hi D (st.1, st.2.1, pvect, st.2.2.2))
      st

/-- The function `forall(f, array)` (the name `forall` is reserved in Lean):
`f ptr p` is the call `f(v, p)` with `v` the element at offset `ptr` of the
buffer of `array`; `lo`, `hi` and the start of `p` come from `array.m_domain`. -/
def forall1 {DIM : Nat} {σ : Type} (f : Nat → point_t DIM → σ → σ) (array : array_t DIM)
    (mem : σ) : σ :=
  let lo := array.m_domain.lo
  let hi := array.m_domain.hi
  let p := array.m_domain.lo
  (forallHelper f lo hi (DIM - 1) (0, p, mem)).2.2

/-- The function `forall(f, array, array2)`: `f ptr ptr2 p` is the call
`f(v, v2, p)` with `v` the element at offset `ptr` of the buffer of `array` and
`v2` the element at offset `ptr2` of the buffer of `array2`; `lo`, `hi` and the
start of `p` come from `array.m_domain`, and `array2.m_domain` is not read. -/
def forall2 {DIM : Nat} {σ : Type} (f : Nat → Nat → point_t DIM → σ → σ)
    (array : array_t DIM) (_array2 : array_t DIM) (mem : σ) : σ :=
  let lo := array.m_domain.lo
  let hi := array.m_domain.hi
  let p := array.m_domain.lo
  (forallHelper2 f lo hi (DIM - 1) (0, 0, p, mem)).2.2.2

/-- The callback that records its call: the offset of the element and the
coordinates of the location. -/
def recordCall {DIM : Nat} (ptr : Nat) (p : point_t DIM) (log : List (Nat × List Int)) :
    List (Nat × List Int) :=
  log ++ [(ptr, (List.range DIM).map p.get)]

/-- The callback of the two-array loop that records its call: the two offsets
and the coordinates of the location. -/
def recordCall2 {DIM : Nat} (ptr ptr2 : Nat) (p : point_t DIM)
    (log : List (Nat × Nat × List Int)) : List (Nat × Nat × List Int) :=
  log ++ [(ptr, ptr2, (List.range DIM).map p.get)]

/-- The box `[0,0] x [0,0]` of one point. -/
def unitBox : box_t 2 := ⟨⟨![0, 0]⟩, ⟨![0, 0]⟩⟩

end fftx

/-!
Texts with symbolic parts, for the header file that `closeDAG` writes.

The header text is the template with four placeholders replaced one after the
other, and the replacements (the name of the transform, the type names, the
dimension) are arbitrary strings.  A text with symbolic parts is a list of pieces, each a
literal run of characters or a variable; `symScan` carries out one replacement
on such a text, and gives up (`none`) where the result would depend on the
value of a variable.
-/

namespace fftx

/-- A piece of a text: literal characters, or the variable number `k`. -/
inductive Piece where
  | lit (cs : List Char)
  | var (k : Nat)
  deriving DecidableEq

/-- The characters of a text with symbolic parts, for given values of the
variables. -/
def flatten (env : Nat → List Char) : List Piece → List Char
  | [] => []
  | .lit cs :: ps => cs ++ flatten env ps
  | .var k :: ps => env k ++ flatten env ps

/-- The two character lists differ at a position that both have. -/
def clash : List Char → List Char → Bool
  | p :: ps, c :: cs => (p != c) || clash ps cs
  | _, _ => false

/-- No proper, non-empty suffix of `pat` can start the text `look`. -/
def straddleFree (pat look : List Char) : Bool :=
  (List.range (pat.length - 1)).all (fun m => clash (pat.drop (m + 1)) look)

/-- The text with one more character in front. -/
def consChar (c : Char) : List Piece → List Piece
  | .lit cs :: ps => .lit (c :: cs) :: ps
  | ps => .lit [c] :: ps

/-- The replacement of the occurrences of `pat` by `rep` in a text with
symbolic parts, left to right, with fuel.  A variable `k` is passed over only
if `ok k` says that its value contains no occurrence of `pat`, and if the
literal text after it excludes an occurrence that starts in the variable. -/
def symScan (pat : List Char) (rep : List Piece) (ok : Nat → Bool) :
    Nat → List Piece → Option (List Piece)
  | 0, _ => none
  | _ + 1, [] => some []
  | f + 1, .lit [] :: ps => symScan pat rep ok f ps
  | f + 1, .lit (c :: cs) :: ps =>
    if pat.isPrefixOf (c :: cs) then
      (symScan pat rep ok f (.lit ((c :: cs).drop pat.length) :: ps)).map (fun out => rep ++ out)
    else if clash pat (c :: cs) || ps.isEmpty then
      (symScan pat rep ok f (.lit cs :: ps)).map (consChar c)
    else none
  | f + 1, .var k :: ps =>
    if ok k && (match ps with
        | [] => true
        | .lit look :: _ => straddleFree pat look
        | .var _ :: _ => false) then
      (symScan pat rep ok f ps).map (fun out => .var k :: out)
    else none

/-- The template of `closeDAG` after the replacement of `PLAN` by the
variable `0` (the name); empty if the scan gives up. -/
def stub1 : List Piece :=
  (symScan "PLAN".data [.var 0] (fun _ => false) 100000
    [.lit closeDAG_header_template.data]).getD []

/-- The text `stub1` after the replacement of `S_TYPE` by the variable `1`
(the input type). -/
def stub2 : List Piece :=
  (symScan "S_TYPE".data [.var 1] (fun k => k == 0) 100000 stub1).getD []

/-- The text `stub2` after the replacement of `D_TYPE` by the variable `2`
(the output type). -/
def stub3 : List Piece :=
  (symScan "D_TYPE".data [.var 2] (fun k => k == 0 || k == 1) 100000 stub2).getD []

/-- The text `stub3` after the replacement of `DD` by the variable `3` (the
dimension). -/
def stub4 : List Piece :=
  (symScan "DD".data [.var 3] (fun k => k == 0 || k == 1 || k == 2) 100000 stub3).getD []

/-- The values of the variables: `0` is the name, `1` the input type, `2` the
output type and the others the dimension. -/
def stubEnv (name inputType outputType dd : String) (k : Nat) : List Char :=
  if k = 0 then name.data else if k = 1 then inputType.data
  else if k = 2 then outputType.data else dd.data

/-- The lines of a text: the runs of characters between line feeds. -/
def textLines : List Char → List (List Char)
  | [] => [[]]
  | c :: cs =>
    if c = '\n' then [] :: textLines cs
    else
      match textLines cs with
      | [] => [[c]]
      | l :: ls => (c :: l) :: ls

/-- The lines of a text that declare an `extern` function: after the leading
blanks they start with `extern `. -/
def externLines (text : String) : List String :=
  ((textLines text.data).filter
    (fun l => "extern ".data.isPrefixOf (l.dropWhile (fun c => c == ' ')))).map String.mk

end fftx

/-!
The functions `setInputs` and `setOutputs`, the kernel with the state it
leaves behind when it throws, and the indices that the butterfly stages
compute.
-/

namespace fftx

/-- The function `setInputs(const array_t<DIM, T>& a_inputs)`; `typeName` is
`TypeName<T>::Get()`. -/
def setInputs {DIM : Nat} (typeName : String) (a_inputs : array_t DIM) (s : Session) :
    Except String Session := do
  let s := { s with inputType := typeName }
  let i ← a_inputs.id s
  pure { s with out := s.out ++ "var_" ++ toString i ++ ":= X;\n" }

/-- The function `setInputs(const std::array<array_t<DIM, T>, COUNT>& a_inputs)`:
the loop prints one line per element and calls `id()` on each. -/
def setInputsArray {DIM : Nat} (typeName : String) (a_inputs : List (array_t DIM))
    (s : Session) : Except String Session :=
  (List.range a_inputs.length).foldlM
    (fun s i => do
      let v ← (a_inputs.getD i (array_t.default ⟨⟨fun _ => 0⟩, ⟨fun _ => 0⟩⟩)).id s
      pure { s with out := s.out ++ "var_" ++ toString v ++ ":= nth(X," ++ toString i ++ ");\n" })
    { s with inputType := typeName }

/-- The function `setOutputs(const array_t<DIM, T>& a_outputs)`. -/
def setOutputs {DIM : Nat} (typeName : String) (a_outputs : array_t DIM) (s : Session) :
    Except String Session := do
  let s := { s with outputType := typeName }
  let i ← a_outputs.id s
  pure { s with out := s.out ++ "var_" ++ toString i ++ ":= Y;\n" }

/-- The function `setOutputs(const std::array<array_t<DIM, T>, COUNT>& a_outputs)`. -/
def setOutputsArray {DIM : Nat} (typeName : String) (a_outputs : List (array_t DIM))
    (s : Session) : Except String Session :=
  (List.range a_outputs.length).foldlM
    (fun s i => do
      let v ← (a_outputs.getD i (array_t.default ⟨⟨fun _ => 0⟩, ⟨fun _ => 0⟩⟩)).id s
      pure { s with out := s.out ++ "var_" ++ toString v ++ ":= nth(Y," ++ toString i ++ ");\n" })
    { s with outputType := typeName }

/-- The text of the header file that the last closing call has written. -/
def lastFile (s : Session) : String :=
  (s.files.map Prod.snd).headD ""

/-- A descriptor made in tracing with the id `5`, on `smallBox`. -/
def var5 : array_t 2 := ⟨0, global_ptr.ofPtr 5, smallBox⟩

/-- A descriptor made in tracing with the id `7`, on `smallBox`. -/
def var7 : array_t 2 := ⟨0, global_ptr.ofPtr 7, smallBox⟩

end fftx

namespace fftx_helper

open fftx

/-- The function `batchtransformRadix2` together with the state in which it
leaves the table and the lanes when it ends, by a `return` or by the exception:
the result is `none` if a loop runs out of fuel, else the message of the
exception thrown (if any), the table and the lanes.  The `throw` comes before
the first write to `expTable` and to the lanes. -/
def batchtransformRadix2State {R : Type} [Zero R] [Add R] [Sub R] [Mul R]
    (cis : Int → Int → R) (BATCH : Nat) (DIR : Int) (n stride : Int)
    (expTable : List R) (dvec : Nat → Nat → R) :
    Option (Option String × List R × (Nat → Nat → R)) :=
  match levelsLoop 64 (toSizeT n) 0 with
  | none => none
  | some levels =>
    if (1 <<< levels) % 2 ^ 64 ≠ toSizeT n then
      some (some "Length is not a power of 2", expTable, dvec)
    else
      let expTable := updateTable cis DIR n expTable
      let dvec := bitReversal BATCH levels n stride dvec
      match stageLoop BATCH n stride expTable 63 2 dvec with
      | none => none
      | some dvec => some (none, expTable, dvec)

/-- The indices computed in one pass of the outer Cooley-Tukey loop, for a
given `size`, in the order of the loops over `k` and `j`: the table index
`j*tablestep` and the logical data indices `k + j` and `k + j + halfsize`. -/
def stageIndices (n : Int) (size : Nat) : List (Nat × Nat × Nat) :=
  let halfsize := size / 2
  let tablestep := toSizeT n / size
  (kRange (toSizeT n) size).flatMap
    (fun k => (List.range halfsize).map (fun j => (j * tablestep, k + j, k + j + halfsize)))

/-- The values of `size` for which the body of the loop
`for (size_t size = 2; size <= n; size *= 2) { ...; if (size == n) break; }`
runs, in order, with fuel: `none` when the fuel runs out before the loop ends. -/
def stageSizes (n : Int) : Nat → Nat → Option (List Nat)
  | 0, _ => none
  | fuel + 1, size =>
    if size ≤ toSizeT n then
      if size = toSizeT n then some [size]
      else (stageSizes n fuel ((size * 2) % 2 ^ 64)).map (fun rest => size :: rest)
    else some []

/-- A real number that a finite `double` can hold is a dyadic rational: an
integer divided by a power of two. -/
def dyadic (x : ℝ) : Prop :=
  ∃ (m : Int) (e : Nat), x = (m : ℝ) / 2 ^ e

/-- Sample lanes over the integers: every lane holds `10 + i` at the offset
`i`. -/
def rampLanes : Nat → Nat → Int :=
  fun _ i => 10 + (i : Int)

end fftx_helper
namespace fftx

theorem toSizeT_of_nonneg (x : Int) (h0 : 0 ≤ x) (h1 : x < 2 ^ 64) : toSizeT x = x.toNat := by
  unfold toSizeT
  rw [Int.emod_eq_of_lt h0 h1]

theorem toSizeT_natCast (k : Nat) (h : k < 2 ^ 64) : toSizeT (k : Int) = k := by
  rw [toSizeT_of_nonneg _ (Int.natCast_nonneg k) (by exact_mod_cast h)]
  simp

theorem toInt32_toSizeT_add (a : Int) (k : Nat) (ha : -2 ^ 31 ≤ a) (hk : a + k < 2 ^ 31) :
    toInt32 ((toSizeT a + k) % 2 ^ 64) = a + k := by
  unfold toInt32 toSizeT
  have h1 : (a % (2:Int)^64) = a ∨ (a % (2:Int)^64) = a + 2^64 := by
    by_cases h : 0 ≤ a
    · left; exact Int.emod_eq_of_lt h (by omega)
    · right
      have : (a + 2^64) % (2:Int)^64 = a + 2^64 := Int.emod_eq_of_lt (by omega) (by omega)
      rw [← this]; simp
  omega

theorem point_t.ext_get {DIM : Nat} (p q : point_t DIM)
    (h : ∀ d, d < DIM → p.get d = q.get d) : p = q := by
  cases p with
  | mk px =>
    cases q with
    | mk qx =>
      congr
      funext i
      have := h i.val i.isLt
      simpa [point_t.get, i.isLt] using this

theorem point_t.get_set {DIM : Nat} (p : point_t DIM) (d e : Nat) (v : Int) :
    (p.set d v).get e = if e = d ∧ e < DIM then v else p.get e := by
  unfold point_t.get point_t.set
  by_cases h : e < DIM <;> simp [h]

theorem extents_loop_get {DIM : Nat} (lo : point_t DIM) (n : Nat) (rtn : point_t DIM) (d : Nat) :
    ((List.range n).foldl (fun rtn i => rtn.set i (rtn.get i - (lo.get i - 1))) rtn).get d
      = if d < n ∧ d < DIM then rtn.get d - (lo.get d - 1) else rtn.get d := by
  induction n with
  | zero => simp
  | succ n ih =>
    rw [List.range_succ, List.foldl_append]
    simp only [List.foldl_cons, List.foldl_nil]
    rw [point_t.get_set]
    by_cases hd : d = n
    · subst hd
      by_cases hD : d < DIM
      · simp [hD, ih]
      · simp [hD, ih]
    · have : (d < n + 1) = (d < n) := by
        apply propext; omega
      simp [hd, ih, this]

theorem box_t.extents_get {DIM : Nat} (B : box_t DIM) (d : Nat) (hd : d < DIM) :
    B.extents.get d = B.hi.get d - (B.lo.get d - 1) := by
  unfold box_t.extents
  rw [extents_loop_get]
  simp [hd]

theorem encN_lt (c len : Nat → Nat) (D : Nat) (h : ∀ d, d < D → c d < len d) :
    encN c len D < ∏ d in Finset.range D, len d := by
  induction D with
  | zero => simp [encN]
  | succ D ih =>
    have h1 := ih (fun d hd => h d (Nat.lt_succ_of_lt hd))
    have h2 := h D (Nat.lt_succ_self D)
    rw [Finset.prod_range_succ]
    simp only [encN]
    calc encN c len D * len D + c D < encN c len D * len D + len D := by omega
      _ = (encN c len D + 1) * len D := by ring
      _ ≤ (∏ d in Finset.range D, len d) * len D := Nat.mul_le_mul_right _ h1

theorem encN_congr (c c' len : Nat → Nat) (D : Nat) (h : ∀ d, d < D → c d = c' d) :
    encN c len D = encN c' len D := by
  induction D with
  | zero => rfl
  | succ D ih =>
    simp only [encN]
    rw [ih (fun d hd => h d (Nat.lt_succ_of_lt hd)), h D (Nat.lt_succ_self D)]

theorem encN_inj (c c' len : Nat → Nat) (D : Nat) (h : ∀ d, d < D → c d < len d)
    (h' : ∀ d, d < D → c' d < len d) (he : encN c len D = encN c' len D) :
    ∀ d, d < D → c d = c' d := by
  induction D with
  | zero => intro d hd; omega
  | succ D ih =>
    simp only [encN] at he
    have h2 := h D (Nat.lt_succ_self D)
    have h2' := h' D (Nat.lt_succ_self D)
    have e1 : c D = c' D := by
      have a1 : (encN c len D * len D + c D) % len D = c D := by
        rw [Nat.mul_add_mod_of_lt h2]
      have a2 : (encN c' len D * len D + c' D) % len D = c' D := by
        rw [Nat.mul_add_mod_of_lt h2']
      rw [← a1, ← a2, he]
    have e2 : encN c len D = encN c' len D := by
      rw [e1] at he
      have : encN c len D * len D = encN c' len D * len D := by omega
      exact Nat.eq_of_mul_eq_mul_right (by omega) this
    intro d hd
    rcases Nat.lt_succ_iff_lt_or_eq.mp hd with hlt | heq
    · exact ih (fun d hd => h d (Nat.lt_succ_of_lt hd)) (fun d hd => h' d (Nat.lt_succ_of_lt hd)) e2 d hlt
    · rw [heq]; exact e1

theorem prod_range_le (len : Nat → Nat) (D D' : Nat) (hD : D ≤ D')
    (h : ∀ d, d < D' → 1 ≤ len d) :
    ∏ d in Finset.range D, len d ≤ ∏ d in Finset.range D', len d := by
  induction D' with
  | zero =>
    have : D = 0 := by omega
    rw [this]
  | succ n ih =>
    rcases Nat.lt_succ_iff_lt_or_eq.mp (Nat.lt_succ_of_le hD) with hlt | heq
    · rw [Finset.prod_range_succ]
      have := ih (by omega) (fun d hd => h d (Nat.lt_succ_of_lt hd))
      calc ∏ d in Finset.range D, len d ≤ ∏ d in Finset.range n, len d := this
        _ = (∏ d in Finset.range n, len d) * 1 := by ring
        _ ≤ (∏ d in Finset.range n, len d) * len n := Nat.mul_le_mul_left _ (h n (Nat.lt_succ_self n))
    · rw [heq]

theorem pos_loop (lengths pt lo : Nat → Int) (c len : Nat → Nat) (m : Nat)
    (hlen : ∀ d, d < m + 1 → toSizeT (lengths d) = len d)
    (hc : ∀ d, d < m + 1 → toSizeT (pt d - lo d) = c d)
    (hcl : ∀ d, d < m + 1 → c d < len d)
    (hprod : ∏ d in Finset.range (m + 1), len d < 2 ^ 64) :
    (List.range' 1 m).foldl
      (fun disp d =>
        let disp := (disp * toSizeT (lengths d)) % 2 ^ 64
        (disp + toSizeT (pt d - lo d)) % 2 ^ 64)
      (toSizeT (pt 0 - lo 0)) = encN c len (m + 1) := by
  induction m with
  | zero => simp [encN, hc 0 (by omega)]
  | succ m ih =>
    have hle : ∏ d in Finset.range (m + 1), len d ≤ ∏ d in Finset.range (m + 1 + 1), len d :=
      prod_range_le len (m + 1) (m + 1 + 1) (by omega) (fun d hd => by have := hcl d hd; omega)
    have ih' := ih (fun d hd => hlen d (by omega)) (fun d hd => hc d (by omega))
      (fun d hd => hcl d (by omega)) (by omega)
    rw [List.range'_concat, List.foldl_append]
    simp only [List.foldl_cons, List.foldl_nil]
    have e0 : 1 + 1 * m = m + 1 := by omega
    rw [e0, ih', hlen (m + 1) (by omega), hc (m + 1) (by omega)]
    have hb := encN_lt c len (m + 1 + 1) (fun d hd => hcl d hd)
    have e : encN c len (m + 1 + 1) = encN c len (m + 1) * len (m + 1) + c (m + 1) := rfl
    have h1 : encN c len (m + 1) * len (m + 1) < 2 ^ 64 := by omega
    rw [Nat.mod_eq_of_lt h1, Nat.mod_eq_of_lt (by omega)]
    exact e.symm


theorem decode_step {DIM : Nat} (lo lengths : point_t DIM) (lenD : Nat) (D : Nat) (hD : D < DIM)
    (hlen : toSizeT (lengths.get D) = lenD) (hpos : 0 < lenD)
    (hlo : -2 ^ 31 ≤ lo.get D ∧ lo.get D + lenD ≤ 2 ^ 31)
    (disp : Nat) (hdisp : disp < 2 ^ 64) (pt : point_t DIM) :
    pointFromPositionStep lo lengths (disp, pt) D
      = (disp / lenD, pt.set D (lo.get D + ((disp % lenD : Nat) : Int))) := by
  unfold pointFromPositionStep
  simp only []
  have hm : disp % lenD < lenD := Nat.mod_lt _ hpos
  have e1 : toInt32 ((toSizeT (lo.get D) + disp % lenD) % 2 ^ 64)
      = lo.get D + ((disp % lenD : Nat) : Int) :=
    toInt32_toSizeT_add _ _ hlo.1 (by omega)
  rw [hlen, e1, point_t.get_set]
  simp only [hD, and_self, if_true]
  have e2 : lo.get D + ((disp % lenD : Nat) : Int) - lo.get D = ((disp % lenD : Nat) : Int) := by
    ring
  have hle : disp % lenD ≤ disp := Nat.mod_le _ _
  rw [e2, toSizeT_natCast _ (by omega)]
  have e3 : (disp + (2 ^ 64 - disp % lenD)) % 2 ^ 64 = disp - disp % lenD := by omega
  rw [e3, ← Nat.div_eq_sub_mod_div]

theorem decode_loop {DIM : Nat} (lo lengths : point_t DIM) (len : Nat → Nat) (D : Nat)
    (hD : D ≤ DIM)
    (hlen : ∀ d, d < D → toSizeT (lengths.get d) = len d)
    (hpos : ∀ d, d < D → 0 < len d)
    (hlo : ∀ d, d < D → -2 ^ 31 ≤ lo.get d ∧ lo.get d + len d ≤ 2 ^ 31)
    (hprod : ∏ d in Finset.range D, len d ≤ 2 ^ 64)
    (disp : Nat) (hdisp : disp < ∏ d in Finset.range D, len d) (pt : point_t DIM) :
    (∀ d, d < D →
      lo.get d ≤ (((List.range D).reverse.foldl (pointFromPositionStep lo lengths) (disp, pt)).2).get d ∧
      (((List.range D).reverse.foldl (pointFromPositionStep lo lengths) (disp, pt)).2).get d
        < lo.get d + len d) ∧
    encN (fun d => ((((List.range D).reverse.foldl (pointFromPositionStep lo lengths)
        (disp, pt)).2).get d - lo.get d).toNat) len D = disp ∧
    (∀ d, D ≤ d →
      (((List.range D).reverse.foldl (pointFromPositionStep lo lengths) (disp, pt)).2).get d
        = pt.get d) := by
  induction D generalizing disp pt with
  | zero =>
    simp at hdisp
    simp [encN, hdisp]
  | succ D ih =>
    have hposD := hpos D (Nat.lt_succ_self D)
    have hsub : ∏ d in Finset.range D, len d ≤ ∏ d in Finset.range (D + 1), len d :=
      prod_range_le len D (D + 1) (by omega) (fun d hd => hpos d hd)
    rw [Finset.prod_range_succ] at hdisp hprod
    rw [List.range_succ, List.reverse_append, List.reverse_singleton, List.singleton_append,
      List.foldl_cons,
      decode_step lo lengths (len D) D (by omega) (hlen D (Nat.lt_succ_self D)) hposD
        (hlo D (Nat.lt_succ_self D)) disp (by omega) pt]
    have hd' : disp / len D < ∏ d in Finset.range D, len d :=
      (Nat.div_lt_iff_lt_mul hposD).mpr hdisp
    rw [Finset.prod_range_succ] at hsub
    obtain ⟨h1, h2, h3⟩ := ih (by omega) (fun d hd => hlen d (by omega))
      (fun d hd => hpos d (by omega)) (fun d hd => hlo d (by omega)) (by omega)
      (disp / len D) hd' (pt.set D (lo.get D + ((disp % len D : Nat) : Int)))
    have hm : disp % len D < len D := Nat.mod_lt _ hposD
    have hDval := h3 D (le_refl D)
    rw [point_t.get_set] at hDval
    simp only [show D < DIM from by omega, and_self, if_true] at hDval
    refine ⟨?_, ?_, ?_⟩
    · intro d hd
      rcases Nat.lt_succ_iff_lt_or_eq.mp hd with hlt | heq
      · exact h1 d hlt
      · subst heq
        rw [hDval]
        omega
    · simp only [encN]
      rw [h2, hDval]
      have : (lo.get D + ((disp % len D : Nat) : Int) - lo.get D).toNat = disp % len D := by
        omega
      rw [this]
      exact Nat.div_add_mod' disp (len D)
    · intro d hd
      rw [h3 d (by omega), point_t.get_set]
      have : ¬ (d = D ∧ d < DIM) := by omega
      simp [this]

theorem isInBox_iff {DIM : Nat} (p : point_t DIM) (B : box_t DIM) :
    isInBox p B = true ↔ ∀ d, d < DIM → B.lo.get d ≤ p.get d ∧ p.get d ≤ B.hi.get d := by
  unfold isInBox
  rw [List.all_eq_true]
  constructor
  · intro h d hd
    have := h d (List.mem_range.mpr hd)
    simp only [Bool.and_eq_true, Bool.not_eq_true', decide_eq_false_iff_not, not_lt, gt_iff_lt] at this
    exact this
  · intro h d hd
    have := h d (List.mem_range.mp hd)
    simp only [Bool.and_eq_true, Bool.not_eq_true', decide_eq_false_iff_not, not_lt, gt_iff_lt]
    exact this

theorem bsize_eq (lo hi : Nat → Int) (D : Nat) :
    bsize D lo hi = (∏ d in Finset.range D, toSizeT (hi d - lo d + 1)) % 2 ^ 64 := by
  induction D with
  | zero => simp [bsize]
  | succ D ih =>
    simp only [bsize]
    rw [ih, Finset.prod_range_succ, Nat.mul_mod_mod, Nat.mul_comm]

theorem product_loop {DIM : Nat} (p : point_t DIM) (n : Nat) :
    (List.range n).foldl (fun prod d => (prod * toSizeT (p.get d)) % 2 ^ 64) 1
      = (∏ d in Finset.range n, toSizeT (p.get d)) % 2 ^ 64 := by
  induction n with
  | zero => simp
  | succ n ih =>
    rw [List.range_succ, List.foldl_append]
    simp only [List.foldl_cons, List.foldl_nil]
    rw [ih, Finset.prod_range_succ, Nat.mod_mul_mod]

theorem size_eq_product {DIM : Nat} (B : box_t DIM) : B.size = B.extents.product := by
  unfold box_t.size point_t.product
  rw [bsize_eq, product_loop]
  congr 1
  apply Finset.prod_congr rfl
  intro d hd
  rw [box_t.extents_get B d (Finset.mem_range.mp hd)]
  congr 1
  ring

theorem lenN_pos {DIM : Nat} (B : box_t DIM) (hB : B.ordered) (d : Nat) (hd : d < DIM) :
    0 < lenN B d := by
  have := hB d hd
  unfold lenN
  omega

theorem lenN_cast {DIM : Nat} (B : box_t DIM) (hB : B.ordered) (d : Nat) (hd : d < DIM) :
    ((lenN B d : Nat) : Int) = B.hi.get d - B.lo.get d + 1 := by
  have := hB d hd
  unfold lenN
  omega

theorem prod_lenN_cast {DIM : Nat} (B : box_t DIM) (hB : B.ordered) :
    ((∏ d in Finset.range DIM, lenN B d : Nat) : Int) = B.numPoints := by
  unfold box_t.numPoints
  rw [Nat.cast_prod]
  apply Finset.prod_congr rfl
  intro d hd
  exact lenN_cast B hB d (Finset.mem_range.mp hd)

theorem toSizeT_len {DIM : Nat} (B : box_t DIM) (hB : B.ordered) (hS : B.int32)
    (d : Nat) (hd : d < DIM) : toSizeT (B.hi.get d - B.lo.get d + 1) = lenN B d := by
  have h1 := hB d hd
  have h2 := hS d hd
  rw [toSizeT_of_nonneg _ (by omega) (by omega)]
  rfl

theorem toSizeT_extents {DIM : Nat} (B : box_t DIM) (hB : B.ordered) (hS : B.int32)
    (d : Nat) (hd : d < DIM) : toSizeT (B.extents.get d) = lenN B d := by
  rw [box_t.extents_get B d hd, ← toSizeT_len B hB hS d hd]
  congr 1
  ring

theorem size_eq_prod_lenN {DIM : Nat} (B : box_t DIM) (hB : B.ordered) (hS : B.int32)
    (hN : B.numPoints < 2 ^ 64) : B.size = ∏ d in Finset.range DIM, lenN B d := by
  unfold box_t.size
  rw [bsize_eq]
  have e : ∏ d in Finset.range DIM, toSizeT (B.hi.get d - B.lo.get d + 1)
      = ∏ d in Finset.range DIM, lenN B d :=
    Finset.prod_congr rfl (fun d hd => toSizeT_len B hB hS d (Finset.mem_range.mp hd))
  rw [e]
  apply Nat.mod_eq_of_lt
  have := prod_lenN_cast B hB
  omega

theorem offN_facts {DIM : Nat} (p : point_t DIM) (B : box_t DIM) (hS : B.int32)
    (hp : isInBox p B = true) (d : Nat) (hd : d < DIM) :
    toSizeT (p.get d - B.lo.get d) = offN p B d ∧ offN p B d < lenN B d ∧
      p.get d = B.lo.get d + (offN p B d : Int) := by
  have h1 := (isInBox_iff p B).mp hp d hd
  have h2 := hS d hd
  refine ⟨?_, ?_, ?_⟩
  · rw [toSizeT_of_nonneg _ (by omega) (by omega)]
    rfl
  · unfold offN lenN
    omega
  · unfold offN
    omega

theorem positionInBox_eq {DIM : Nat} (hDIM : 1 ≤ DIM) (p : point_t DIM) (B : box_t DIM)
    (hB : B.ordered) (hS : B.int32) (hN : B.numPoints < 2 ^ 64) (hp : isInBox p B = true) :
    positionInBox p B = encN (offN p B) (lenN B) DIM := by
  obtain ⟨m, rfl⟩ : ∃ m, DIM = m + 1 := ⟨DIM - 1, by omega⟩
  unfold positionInBox
  simp only [Nat.add_sub_cancel]
  apply pos_loop
  · intro d hd; exact toSizeT_extents B hB hS d hd
  · intro d hd; exact (offN_facts p B hS hp d hd).1
  · intro d hd; exact (offN_facts p B hS hp d hd).2.1
  · have := prod_lenN_cast B hB
    omega

theorem equalInts_iff (a b : Nat → Int) (D : Nat) :
    point_t.equalInts D a b = true ↔ ∀ d, d < D → a d = b d := by
  induction D with
  | zero => simp [point_t.equalInts]
  | succ D ih =>
    simp only [point_t.equalInts, Bool.and_eq_true, beq_iff_eq, ih]
    constructor
    · rintro ⟨h1, h2⟩ d hd
      rcases Nat.lt_succ_iff_lt_or_eq.mp hd with hlt | heq
      · exact h2 d hlt
      · rw [heq]; exact h1
    · intro h
      exact ⟨h D (Nat.lt_succ_self D), fun d hd => h d (Nat.lt_succ_of_lt hd)⟩

theorem point_t.eq_iff {DIM : Nat} (p q : point_t DIM) : p.eq q = true ↔ p = q := by
  unfold point_t.eq
  rw [equalInts_iff]
  constructor
  · exact point_t.ext_get p q
  · intro h d _; rw [h]

theorem pointFromPositionBox_facts {DIM : Nat} (B : box_t DIM)
    (hB : B.ordered) (hS : B.int32) (hN : B.numPoints < 2 ^ 64)
    (i : Nat) (hi : i < ∏ d in Finset.range DIM, lenN B d) :
    isInBox (pointFromPositionBox i B) B = true ∧
      encN (offN (pointFromPositionBox i B) B) (lenN B) DIM = i := by
  have hc := prod_lenN_cast B hB
  obtain ⟨h1, h2, _⟩ := decode_loop B.lo B.extents (lenN B) DIM (le_refl DIM)
    (fun d hd => toSizeT_extents B hB hS d hd)
    (fun d hd => lenN_pos B hB d hd)
    (fun d hd => by
      have a1 := hB d hd
      have a2 := hS d hd
      have a3 := lenN_cast B hB d hd
      omega)
    (by omega) i hi ⟨fun _ => 0⟩
  refine ⟨?_, h2⟩
  rw [isInBox_iff]
  intro d hd
  have a := h1 d hd
  have a3 := lenN_cast B hB d hd
  unfold pointFromPositionBox
  simp only []
  omega

theorem positionInBox_lt {DIM : Nat} (hDIM : 1 ≤ DIM) (p : point_t DIM) (B : box_t DIM)
    (hB : B.ordered) (hS : B.int32) (hN : B.numPoints < 2 ^ 64) (hp : isInBox p B = true) :
    positionInBox p B < ∏ d in Finset.range DIM, lenN B d := by
  rw [positionInBox_eq hDIM p B hB hS hN hp]
  exact encN_lt _ _ _ (fun d hd => (offN_facts p B hS hp d hd).2.1)

theorem positionInBox_inj {DIM : Nat} (hDIM : 1 ≤ DIM) (B : box_t DIM)
    (hB : B.ordered) (hS : B.int32) (hN : B.numPoints < 2 ^ 64) (p q : point_t DIM)
    (hp : isInBox p B = true) (hq : isInBox q B = true)
    (h : positionInBox p B = positionInBox q B) : p = q := by
  rw [positionInBox_eq hDIM p B hB hS hN hp, positionInBox_eq hDIM q B hB hS hN hq] at h
  have := encN_inj _ _ _ DIM (fun d hd => (offN_facts p B hS hp d hd).2.1)
    (fun d hd => (offN_facts q B hS hq d hd).2.1) h
  apply point_t.ext_get
  intro d hd
  rw [(offN_facts p B hS hp d hd).2.2, (offN_facts q B hS hq d hd).2.2, this d hd]

theorem positionInBox_pointFromPositionBox {DIM : Nat} (hDIM : 1 ≤ DIM) (B : box_t DIM)
    (hB : B.ordered) (hS : B.int32) (hN : B.numPoints < 2 ^ 64)
    (i : Nat) (hi : i < ∏ d in Finset.range DIM, lenN B d) :
    positionInBox (pointFromPositionBox i B) B = i := by
  obtain ⟨h1, h2⟩ := pointFromPositionBox_facts B hB hS hN i hi
  rw [positionInBox_eq hDIM _ B hB hS hN h1, h2]

theorem pointFromPositionBox_positionInBox {DIM : Nat} (hDIM : 1 ≤ DIM) (B : box_t DIM)
    (hB : B.ordered) (hS : B.int32) (hN : B.numPoints < 2 ^ 64) (p : point_t DIM)
    (hp : isInBox p B = true) :
    pointFromPositionBox (positionInBox p B) B = p := by
  have hlt := positionInBox_lt hDIM p B hB hS hN hp
  obtain ⟨h1, _⟩ := pointFromPositionBox_facts B hB hS hN _ hlt
  apply positionInBox_inj hDIM B hB hS hN _ _ h1 hp
  exact positionInBox_pointFromPositionBox hDIM B hB hS hN _ hlt

/-- On a box without `int` overflow the corners are 32-bit `int`s. -/
theorem box_t.fits_int32 {DIM : Nat} (B : box_t DIM) (hF : B.fits) : B.int32 := by
  intro d hd
  have h := hF.2 d hd
  exact ⟨by omega, h.2.2.2.1⟩

end fftx
namespace fftx

/-- C1 (amended): for every dimension `1 <= DIM <= 256`, every box with
`lo <= hi` on all axes on which no `int` expression overflows (`lo[d]-1` and
`hi[d]-lo[d]+1` are 32-bit `int`s; with the bound on `DIM` this is `box_t.fits`)
and whose number of points is below `2^64`, and every point `p` with
`isInBox(p, B)`, the row-major functions satisfy
`pointFromPositionBox(positionInBox(p, B), B) == p`. -/
theorem positionInBox_roundtrip {DIM : Nat} (hDIM : 1 ≤ DIM) (B : box_t DIM)
    (hB : B.ordered) (hF : B.fits) (hN : B.numPoints < 2 ^ 64) (p : point_t DIM)
    (hp : isInBox p B = true) :
    (pointFromPositionBox (positionInBox p B) B).eq p = true :=
  (point_t.eq_iff _ _).mpr
    (pointFromPositionBox_positionInBox hDIM B hB (box_t.fits_int32 B hF) hN p hp)

/-- Witness of C1 on the box `[1,3] x [1,4]` at the point `(2,3)`. -/
theorem positionInBox_roundtrip_witness :
    1 ≤ 2 ∧ smallBox.ordered ∧ smallBox.fits ∧ smallBox.numPoints < 2 ^ 64 ∧
      isInBox ⟨![2, 3]⟩ smallBox = true ∧
      (pointFromPositionBox (positionInBox ⟨![2, 3]⟩ smallBox) smallBox).eq ⟨![2, 3]⟩ = true :=
  ⟨by decide, by decide, by decide, by decide, by decide,
    positionInBox_roundtrip (by decide) smallBox (by decide) (by decide) (by decide)
      ⟨![2, 3]⟩ (by decide)⟩

/-- C1 as stated fails: in the box `[0, 2^31-2]^3` (ordered corners, `DIM = 3`,
no `int` overflow: every extent is `2^31-1`) the point `(4,8,4)` lies in the
box, its position `4e^2+8e+4 = 2^64` (`e = 2^31-1`) wraps to `0` in `size_t`,
and position `0` decodes to `(0,0,0)`. -/
theorem positionInBox_roundtrip_overflow :
    1 ≤ 3 ∧ hugeBox.ordered ∧ hugeBox.fits ∧ isInBox ⟨![4, 8, 4]⟩ hugeBox = true ∧
      positionInBox ⟨![4, 8, 4]⟩ hugeBox = 0 ∧
      (pointFromPositionBox (positionInBox ⟨![4, 8, 4]⟩ hugeBox) hugeBox).eq ⟨![4, 8, 4]⟩
        = false :=
  ⟨by decide, by decide, by decide, by decide, by decide, by decide⟩

/-- C2 (amended): for every box with `lo <= hi` on all axes
(`1 <= DIM <= 256`) on which no `int` expression overflows (`lo[d]-1` and
`hi[d]-lo[d]+1` are 32-bit `int`s; with the bound on `DIM` this is `box_t.fits`)
and whose number of points is below `2^64`,
`positionInBox(., B)` is a bijection from the points of `B` onto
`[0, B.size())`: positions of points of `B` are below `B.size()`, points of `B`
with equal positions are equal, and for every `i < B.size()` the point
`pointFromPositionBox(i, B)` is in `B` and its position is `i`. -/
theorem positionInBox_bijection {DIM : Nat} (hDIM : 1 ≤ DIM) (B : box_t DIM)
    (hB : B.ordered) (hF : B.fits) (hN : B.numPoints < 2 ^ 64) :
    (∀ p : point_t DIM, isInBox p B = true → positionInBox p B < B.size) ∧
    (∀ p q : point_t DIM, isInBox p B = true → isInBox q B = true →
      positionInBox p B = positionInBox q B → p.eq q = true) ∧
    (∀ i : Nat, i < B.size →
      isInBox (pointFromPositionBox i B) B = true ∧
        positionInBox (pointFromPositionBox i B) B = i) := by
  have hS := box_t.fits_int32 B hF
  have hsz := size_eq_prod_lenN B hB hS hN
  refine ⟨?_, ?_, ?_⟩
  · intro p hp
    rw [hsz]
    exact positionInBox_lt hDIM p B hB hS hN hp
  · intro p q hp hq h
    exact (point_t.eq_iff p q).mpr (positionInBox_inj hDIM B hB hS hN p q hp hq h)
  · intro i hi
    rw [hsz] at hi
    exact ⟨(pointFromPositionBox_facts B hB hS hN i hi).1,
      positionInBox_pointFromPositionBox hDIM B hB hS hN i hi⟩

/-- Witness of C2 on the box `[1,3] x [1,4]`, which has `12` points. -/
theorem positionInBox_bijection_witness :
    1 ≤ 2 ∧ smallBox.ordered ∧ smallBox.fits ∧ smallBox.numPoints < 2 ^ 64 ∧
      smallBox.size = 12 ∧
      ((∀ p : point_t 2, isInBox p smallBox = true → positionInBox p smallBox < smallBox.size) ∧
      (∀ p q : point_t 2, isInBox p smallBox = true → isInBox q smallBox = true →
        positionInBox p smallBox = positionInBox q smallBox → p.eq q = true) ∧
      (∀ i : Nat, i < smallBox.size →
        isInBox (pointFromPositionBox i smallBox) smallBox = true ∧
          positionInBox (pointFromPositionBox i smallBox) smallBox = i)) :=
  ⟨by decide, by decide, by decide, by decide, by decide,
    positionInBox_bijection (by decide) smallBox (by decide) (by decide) (by decide)⟩

/-- C2 as stated fails: in the box `[0, 2^31-2]^3` (ordered corners, no `int`
overflow) the distinct points `(4,8,4)` and `(0,0,0)` both lie in the box and
both have position `0`, because the position `2^64` of `(4,8,4)` wraps in
`size_t`. -/
theorem positionInBox_collision_overflow :
    hugeBox.ordered ∧ hugeBox.fits ∧ isInBox ⟨![4, 8, 4]⟩ hugeBox = true ∧
      isInBox ⟨![0, 0, 0]⟩ hugeBox = true ∧
      point_t.eq (⟨![4, 8, 4]⟩ : point_t 3) ⟨![0, 0, 0]⟩ = false ∧
      positionInBox ⟨![4, 8, 4]⟩ hugeBox = positionInBox ⟨![0, 0, 0]⟩ hugeBox :=
  ⟨by decide, by decide, by decide, by decide, by decide, by decide⟩

/-- C9 (amended): for every box (`DIM <= 256`) on which no `int` expression
of `extents()` overflows (`lo[d]-1` and `hi[d]-lo[d]+1` are 32-bit `int`s; with
the bound on `DIM` this is `box_t.fits`; the corners need not be ordered) and
every axis `d`, the extent is an `int` and
`B.extents()[d] == B.hi[d] - B.lo[d] + 1`.  In particular such a box with
`lo = (1,..,1)` has its `hi` as extents (so the box from `(1,1,1)` to
`(nx,ny,nz)` has the extents `(nx,ny,nz)`), and such a box with `lo = off+1` and
`hi = off+size` has the extents `size`. -/
theorem extents_formula {DIM : Nat} (B : box_t DIM) (hF : B.fits) :
    (∀ d : Fin DIM, B.extents.x d = B.hi.x d - B.lo.x d + 1) ∧
    (∀ d : Fin DIM, -2 ^ 31 ≤ B.extents.x d ∧ B.extents.x d < 2 ^ 31) ∧
    ((∀ d : Fin DIM, B.lo.x d = 1) → B.extents = B.hi) ∧
    (∀ off size : Fin DIM → Int, (∀ d, B.lo.x d = off d + 1) →
      (∀ d, B.hi.x d = off d + size d) → B.extents = ⟨size⟩) := by
  have key : ∀ d : Fin DIM, B.extents.x d = B.hi.x d - B.lo.x d + 1 := by
    intro d
    have h := box_t.extents_get B d.val d.isLt
    simp only [point_t.get, d.isLt, dite_true] at h
    rw [h]
    ring
  refine ⟨key, ?_, ?_, ?_⟩
  · intro d
    have h := hF.2 d.val d.isLt
    simp only [point_t.get, d.isLt, dite_true, Fin.eta] at h
    rw [key]
    omega
  · intro hlo
    apply point_t.ext_get
    intro d hd
    simp only [point_t.get, hd, dite_true]
    rw [key, hlo]
    ring
  · intro off size hlo hhi
    apply point_t.ext_get
    intro d hd
    simp only [point_t.get, hd, dite_true]
    rw [key, hlo, hhi]
    ring

/-- Witness of C9: the box from `(1,1,1)` to `(3,4,5)` has the extents
`(3,4,5)`, and the box `[1,3] x [1,4]` the extents `(3,4)`. -/
theorem extents_formula_witness :
    (⟨⟨![1, 1, 1]⟩, ⟨![3, 4, 5]⟩⟩ : box_t 3).fits ∧ smallBox.fits ∧
    (⟨⟨![1, 1, 1]⟩, ⟨![3, 4, 5]⟩⟩ : box_t 3).extents = ⟨![3, 4, 5]⟩ ∧
    (∀ d : Fin 2, smallBox.extents.x d = smallBox.hi.x d - smallBox.lo.x d + 1) :=
  ⟨by decide, by decide,
    (extents_formula (⟨⟨![1, 1, 1]⟩, ⟨![3, 4, 5]⟩⟩ : box_t 3) (by decide)).2.2.1 (by decide),
    (extents_formula smallBox (by decide)).1⟩

/-- C9 as stated fails: the corners `0` and `2^31-1` of the one-dimensional
box `[0, 2^31-1]` are `int`s and are ordered, but `hi - lo + 1` is `2^31`, which
no `int` holds: whatever `extents()[0]`, an `int`, is there, it is not
`hi[0] - lo[0] + 1` (the source's expression `hi[0] - (lo[0]-1)` overflows). -/
theorem extents_not_int :
    fullBox.ordered ∧ fullBox.int32 ∧ ¬ fullBox.fits ∧
    fullBox.hi.get 0 - fullBox.lo.get 0 + 1 = 2 ^ 31 ∧
    (∀ v : Int, -2 ^ 31 ≤ v → v < 2 ^ 31 → v ≠ fullBox.hi.get 0 - fullBox.lo.get 0 + 1) := by
  refine ⟨by decide, by decide, by decide, by decide, ?_⟩
  intro v _ h2 h
  have e : fullBox.hi.get 0 - fullBox.lo.get 0 + 1 = 2 ^ 31 := by decide
  rw [e] at h
  omega

/-- C10 (amended): for every box with `lo <= hi` on all axes
(`DIM <= 256`) on which no `int` expression overflows (`lo[d]-1` and
`hi[d]-lo[d]+1` are 32-bit `int`s; with the bound on `DIM` this is `box_t.fits`)
and whose number of points is below `2^64`, `B.size()` equals the product over all axes of `B.extents()[d]`; it equals
`B.extents().product()` and `normalization(B)` as well. -/
theorem size_eq_prod_extents {DIM : Nat} (B : box_t DIM)
    (hB : B.ordered) (hF : B.fits) (hN : B.numPoints < 2 ^ 64) :
    (B.size : Int) = ∏ d in Finset.range DIM, B.extents.get d ∧
      B.size = B.extents.product ∧ normalization B = B.size := by
  have hS := box_t.fits_int32 B hF
  refine ⟨?_, size_eq_product B, rfl⟩
  rw [size_eq_prod_lenN B hB hS hN, prod_lenN_cast B hB]
  unfold box_t.numPoints
  apply Finset.prod_congr rfl
  intro d hd
  rw [box_t.extents_get B d (Finset.mem_range.mp hd)]
  ring

/-- Witness of C10 on the box `[1,3] x [1,4]`. -/
theorem size_eq_prod_extents_witness :
    smallBox.ordered ∧ smallBox.fits ∧ smallBox.numPoints < 2 ^ 64 ∧
      ((smallBox.size : Int) = ∏ d in Finset.range 2, smallBox.extents.get d ∧
        smallBox.size = smallBox.extents.product ∧ normalization smallBox = smallBox.size) :=
  ⟨by decide, by decide, by decide,
    size_eq_prod_extents smallBox (by decide) (by decide) (by decide)⟩

/-- C10 as stated fails: the box `[0, 2^31-2]^3` has ordered corners, no
`int` overflow and extents `2^31-1` on every axis, their product is
`(2^31-1)^3`, and `size()` returns that product reduced modulo `2^64`. -/
theorem size_ne_prod_extents_overflow :
    hugeBox.ordered ∧ hugeBox.fits ∧ (∀ d : Fin 3, hugeBox.extents.x d = 2147483647) ∧
      hugeBox.size = 2147483647 ^ 3 % 2 ^ 64 ∧
      (hugeBox.size : Int) ≠ ∏ d in Finset.range 3, hugeBox.extents.get d :=
  ⟨by decide, by decide, by decide, by decide, by decide⟩

end fftx
namespace fftx_helper

open fftx

theorem levelsLoop_eq (fuel temp levels : Nat) (hf : 1 ≤ fuel) (h : temp < 2 ^ fuel) :
    levelsLoop fuel temp levels = some (levels + Nat.log2 temp) := by
  induction fuel generalizing temp levels with
  | zero => omega
  | succ fuel ih =>
    unfold levelsLoop
    by_cases ht : temp > 1
    · rw [if_pos ht]
      have hf2 : 1 ≤ fuel := by
        rcases Nat.eq_zero_or_pos fuel with h0 | h0
        · subst h0; simp at h; omega
        · exact h0
      have hlt : temp >>> 1 < 2 ^ fuel := by
        rw [Nat.shiftRight_eq_div_pow, pow_one]
        rw [pow_succ] at h
        omega
      rw [ih (temp >>> 1) (levels + 1) hf2 hlt]
      congr 1
      have hl : Nat.log2 temp = Nat.log2 (temp / 2) + 1 := by
        rw [Nat.log2]
        simp [show temp ≥ 2 from ht]
      rw [Nat.shiftRight_eq_div_pow, pow_one, hl]
      omega
    · rw [if_neg ht]
      have : Nat.log2 temp = 0 := by
        rw [Nat.log2]
        simp [show ¬ temp ≥ 2 from by omega]
      rw [this]
      rfl

theorem toSizeT_two_pow (L : Nat) (hL : L ≤ 63) : toSizeT ((2 : Int) ^ L) = 2 ^ L := by
  have h : ((2 : Int) ^ L) = (((2 ^ L : Nat)) : Int) := by push_cast; rfl
  rw [h, toSizeT_natCast]
  exact Nat.pow_lt_pow_right (by omega) (by omega)

theorem toSizeT_lt (x : Int) : toSizeT x < 2 ^ 64 := by
  unfold toSizeT
  have := Int.emod_lt_of_pos x (show (0 : Int) < 2 ^ 64 by norm_num)
  have := Int.emod_nonneg x (show ((2 : Int) ^ 64) ≠ 0 by norm_num)
  omega

theorem levels_of_toSizeT (n : Int) :
    levelsLoop 64 (toSizeT n) 0 = some (Nat.log2 (toSizeT n)) := by
  rw [levelsLoop_eq 64 _ 0 (by omega) (toSizeT_lt n)]
  simp

theorem log2_toSizeT_le (n : Int) : Nat.log2 (toSizeT n) ≤ 63 := by
  by_cases h : toSizeT n = 0
  · rw [h, Nat.log2_zero]; omega
  · have := (Nat.log2_lt h (k := 64)).mpr (toSizeT_lt n)
    omega

/-- Over the 32-bit `int` range, the test `(size_t)1 << levels != n` passes
exactly on the powers of two. -/
theorem check_iff (n : Int) (h1 : -2 ^ 31 ≤ n) (h2 : n < 2 ^ 31) :
    (1 <<< Nat.log2 (toSizeT n)) % 2 ^ 64 = toSizeT n ↔ ∃ k : Nat, n = 2 ^ k := by
  have hle := log2_toSizeT_le n
  have hp : (1 <<< Nat.log2 (toSizeT n)) % 2 ^ 64 = 2 ^ Nat.log2 (toSizeT n) := by
    rw [Nat.shiftLeft_eq, one_mul]
    apply Nat.mod_eq_of_lt
    exact Nat.pow_lt_pow_right (by omega) (by omega)
  rw [hp]
  constructor
  · intro h
    by_cases hn : 0 ≤ n
    · refine ⟨Nat.log2 (toSizeT n), ?_⟩
      have e := toSizeT_of_nonneg n hn (by omega)
      have : ((n.toNat : Nat) : Int) = n := Int.toNat_of_nonneg hn
      have e2 : n = ((toSizeT n : Nat) : Int) := by rw [e]; exact this.symm
      have e3 : ((toSizeT n : Nat) : Int) = 2 ^ Nat.log2 (toSizeT n) := by exact_mod_cast h.symm
      exact e2.trans e3
    · exfalso
      have hv : toSizeT n = (n + 2 ^ 64).toNat := by
        unfold toSizeT
        have : (n + 2^64) % (2:Int)^64 = n + 2^64 := Int.emod_eq_of_lt (by omega) (by omega)
        rw [← this]; simp
      have hbig : 2 ^ 63 < toSizeT n := by rw [hv]; omega
      have h63 : Nat.log2 (toSizeT n) = 63 := by
        have := (Nat.le_log2 (n := toSizeT n) (k := 63) (by omega)).mpr (by omega)
        omega
      rw [h63] at h
      omega
  · rintro ⟨k, hk⟩
    have hk30 : k ≤ 30 := by
      by_contra hc
      have : (2:Int) ^ 31 ≤ 2 ^ k := pow_le_pow_right₀ (by norm_num) (by omega)
      omega
    rw [hk, toSizeT_two_pow k (by omega), Nat.log2_two_pow]


theorem lanes_loop {R : Type} (BATCH : Nat) (op : (Nat → R) → (Nat → R))
    (dvec : Nat → Nat → R) :
    (List.range BATCH).foldl (fun dvec b => Function.update dvec b (op (dvec b))) dvec
      = mapLanes BATCH op dvec := by
  induction BATCH with
  | zero =>
    funext b
    simp [mapLanes]
  | succ B ih =>
    rw [List.range_succ, List.foldl_append, ih]
    simp only [List.foldl_cons, List.foldl_nil]
    funext b
    by_cases hb : b = B
    · subst hb
      simp [mapLanes]
    · rw [Function.update_noteq hb]
      have : (b < B + 1) = (b < B) := by apply propext; omega
      simp only [mapLanes, this]

theorem mapLanes_comp {R : Type} (BATCH : Nat) (f g : (Nat → R) → (Nat → R))
    (dvec : Nat → Nat → R) :
    mapLanes BATCH g (mapLanes BATCH f dvec) = mapLanes BATCH (fun v => g (f v)) dvec := by
  funext b
  by_cases hb : b < BATCH <;> simp [mapLanes, hb]

theorem mapLanes_id {R : Type} (BATCH : Nat) (dvec : Nat → Nat → R) :
    mapLanes BATCH (fun v => v) dvec = dvec := by
  funext b
  by_cases hb : b < BATCH <;> simp [mapLanes, hb]

theorem mapLanes_foldl {R α : Type} (BATCH : Nat) (op : α → (Nat → R) → (Nat → R))
    (xs : List α) (dvec : Nat → Nat → R) :
    xs.foldl (fun d x => mapLanes BATCH (op x) d) dvec
      = mapLanes BATCH (fun v => xs.foldl (fun v x => op x v) v) dvec := by
  induction xs generalizing dvec with
  | nil => simp [mapLanes_id]
  | cons x xs ih =>
    simp only [List.foldl_cons]
    rw [ih, mapLanes_comp]

theorem swapLanes_eq {R : Type} (BATCH i j : Nat) (dvec : Nat → Nat → R) :
    swapLanes BATCH i j dvec = mapLanes BATCH (fun v => swapLane v i j) dvec :=
  lanes_loop BATCH (fun v => swapLane v i j) dvec

theorem butterflyLanes_eq {R : Type} [Add R] [Sub R] [Mul R] (BATCH : Nat) (w : R)
    (i j : Nat) (dvec : Nat → Nat → R) :
    butterflyLanes BATCH w i j dvec = mapLanes BATCH (fun v => butterfly w v i j) dvec :=
  lanes_loop BATCH (fun v => butterfly w v i j) dvec

theorem bitReversal_eq {R : Type} (BATCH levels : Nat) (n stride : Int)
    (dvec : Nat → Nat → R) :
    bitReversal BATCH levels n stride dvec
      = mapLanes BATCH (laneBitReversal levels n stride) dvec := by
  unfold bitReversal laneBitReversal
  rw [← mapLanes_foldl]
  congr 1
  funext d i
  simp only []
  by_cases h : reverseBits i levels > i
  · simp only [h, if_true, swapLanes_eq]
  · simp only [h, if_false, mapLanes_id]

theorem stageBody_eq {R : Type} [Zero R] [Add R] [Sub R] [Mul R] (BATCH : Nat)
    (n stride : Int) (expTable : List R) (size : Nat) (dvec : Nat → Nat → R) :
    stageBody BATCH n stride expTable size dvec
      = mapLanes BATCH (laneStage n stride expTable size) dvec := by
  unfold stageBody laneStage
  simp only []
  rw [← mapLanes_foldl]
  congr 1
  funext d k
  rw [← mapLanes_foldl]
  congr 1
  funext d j
  rw [butterflyLanes_eq]

theorem stageLoop_pow2 {R : Type} [Zero R] [Add R] [Sub R] [Mul R] (BATCH : Nat)
    (n stride : Int) (expTable : List R) (L : Nat) (hL : L ≤ 62) (hn : toSizeT n = 2 ^ L)
    (k : Nat) : ∀ (s fuel : Nat) (dvec : Nat → Nat → R), s + k + 1 = L → k + 1 ≤ fuel →
    stageLoop BATCH n stride expTable fuel (2 ^ (s + 1)) dvec
      = some ((List.range' s (k + 1)).foldl
          (fun d t => stageBody BATCH n stride expTable (2 ^ (t + 1)) d) dvec) := by
  induction k with
  | zero =>
    intro s fuel dvec hs hf
    obtain ⟨f, rfl⟩ : ∃ f, fuel = f + 1 := ⟨fuel - 1, by omega⟩
    have hs' : s + 1 = L := by omega
    subst hs'
    unfold stageLoop
    rw [hn]
    simp
  | succ k ih =>
    intro s fuel dvec hs hf
    obtain ⟨f, rfl⟩ : ∃ f, fuel = f + 1 := ⟨fuel - 1, by omega⟩
    unfold stageLoop
    rw [hn]
    have h1 : 2 ^ (s + 1) ≤ 2 ^ L := Nat.pow_le_pow_right (by omega) (by omega)
    have h2 : ¬ (2 ^ (s + 1) = 2 ^ L) := by
      intro h
      have := Nat.pow_right_injective (le_refl 2) h
      omega
    have h3 : (2 ^ (s + 1) * 2) % 2 ^ 64 = 2 ^ (s + 1 + 1) := by
      rw [← pow_succ]
      apply Nat.mod_eq_of_lt
      exact Nat.pow_lt_pow_right (by omega) (by omega)
    rw [if_pos h1]
    simp only [h2, if_false, h3]
    rw [ih (s + 1) f _ (by omega) (by omega)]
    rw [List.range'_succ s (k + 1)]
    simp only [List.foldl_cons]

theorem stageLoop_run {R : Type} [Zero R] [Add R] [Sub R] [Mul R] (BATCH : Nat)
    (n stride : Int) (expTable : List R) (L : Nat) (hL : L ≤ 62) (hn : toSizeT n = 2 ^ L)
    (dvec : Nat → Nat → R) :
    stageLoop BATCH n stride expTable 63 2 dvec
      = some (mapLanes BATCH
          (fun v => (List.range L).foldl
            (fun v t => laneStage n stride expTable (2 ^ (t + 1)) v) v) dvec) := by
  rw [← mapLanes_foldl]
  have hfun : (fun d t => mapLanes BATCH (laneStage n stride expTable (2 ^ (t + 1))) d)
      = (fun (d : Nat → Nat → R) t => stageBody BATCH n stride expTable (2 ^ (t + 1)) d) := by
    funext d t
    rw [stageBody_eq]
  rw [hfun]
  rcases Nat.eq_zero_or_pos L with h0 | hpos
  · subst h0
    unfold stageLoop
    rw [hn]
    simp
  · have := stageLoop_pow2 BATCH n stride expTable L hL hn (L - 1) 0 63 dvec (by omega) (by omega)
    rw [show L - 1 + 1 = L from by omega] at this
    rw [List.range_eq_range']
    exact this

/-- Normal form of a call with a power-of-two length `n = 2^L`: the call
returns, the table is `updateTable` of the old one, and each of the first
`BATCH` lanes is transformed by `laneKernel`. -/
theorem kernel_pow2 {R : Type} [Zero R] [Add R] [Sub R] [Mul R] (cis : Int → Int → R)
    (BATCH : Nat) (DIR : Int) (L : Nat) (hL : L ≤ 30) (stride : Int) (expTable : List R)
    (dvec : Nat → Nat → R) :
    batchtransformRadix2 cis BATCH DIR ((2 : Int) ^ L) stride expTable dvec
      = some (.ok (updateTable cis DIR ((2 : Int) ^ L) expTable,
          mapLanes BATCH
            (laneKernel L ((2 : Int) ^ L) stride (updateTable cis DIR ((2 : Int) ^ L) expTable))
            dvec)) := by
  have hn := toSizeT_two_pow L (by omega)
  unfold batchtransformRadix2
  rw [levels_of_toSizeT]
  simp only []
  rw [hn, Nat.log2_two_pow]
  have hc : (1 <<< L) % 2 ^ 64 = 2 ^ L := by
    rw [Nat.shiftLeft_eq, one_mul]
    exact Nat.mod_eq_of_lt (Nat.pow_lt_pow_right (by omega) (by omega))
  simp only [hc, ne_eq, not_true_eq_false, if_false]
  rw [bitReversal_eq, stageLoop_run BATCH _ stride _ L (by omega) hn]
  simp only []
  rw [mapLanes_comp]
  rfl

theorem fill_length {R : Type} (f : Nat → R) (m : Nat) (tbl : List R) :
    ((List.range m).foldl (fun t i => t.set i (f i)) tbl).length = tbl.length := by
  induction m with
  | zero => simp
  | succ m ih =>
    rw [List.range_succ, List.foldl_append]
    simp only [List.foldl_cons, List.foldl_nil, List.length_set, ih]

theorem fill_get {R : Type} (f : Nat → R) (m : Nat) (tbl : List R) (j : Nat) :
    ((List.range m).foldl (fun t i => t.set i (f i)) tbl)[j]?
      = if j < m ∧ j < tbl.length then some (f j) else tbl[j]? := by
  induction m with
  | zero => simp
  | succ m ih =>
    rw [List.range_succ, List.foldl_append]
    simp only [List.foldl_cons, List.foldl_nil]
    rw [List.getElem?_set, fill_length, ih]
    by_cases hj : m = j
    · subst hj
      by_cases hl : m < tbl.length
      · simp [hl]
      · have hn : tbl[m]? = none := List.getElem?_eq_none (by omega)
        simp [hl, hn]
    · have : (j < m + 1) = (j < m) := by apply propext; omega
      simp only [hj, if_false, this]

theorem resize_length {R : Type} [Zero R] (tbl : List R) (k : Nat) :
    (resize tbl k).length = k := by
  unfold resize
  simp only [List.length_append, List.length_take, List.length_replicate]
  omega

theorem fillTable_eq {R : Type} (cis : Int → Int → R) (DIR n : Int) (tbl : List R)
    (h : tbl.length = (n.tdiv 2).toNat) : fillTable cis DIR n tbl = tableFor cis DIR n := by
  unfold fillTable tableFor
  apply List.ext_getElem?
  intro j
  rw [fill_get]
  by_cases hj : j < (n.tdiv 2).toNat
  · simp [hj, h]
  · simp only [hj, false_and, if_false]
    have h1 : tbl[j]? = none := List.getElem?_eq_none (by omega)
    rw [h1]
    symm
    apply List.getElem?_eq_none
    simp only [List.length_map, List.length_range]
    omega

theorem tdiv_two_pow (L : Nat) : (((2 : Int) ^ L).tdiv 2) = ((2 ^ L / 2 : Nat) : Int) := by
  have h : ((2 : Int) ^ L) = (((2 ^ L : Nat)) : Int) := by push_cast; rfl
  rw [h]
  rfl

theorem tableFor_length {R : Type} (cis : Int → Int → R) (DIR : Int) (L : Nat) :
    (tableFor cis DIR ((2 : Int) ^ L)).length = 2 ^ L / 2 := by
  unfold tableFor
  rw [List.length_map, List.length_range, tdiv_two_pow]
  exact Int.toNat_ofNat _

theorem toSizeT_half (L : Nat) (hL : L ≤ 63) : toSizeT (((2 : Int) ^ L).tdiv 2) = 2 ^ L / 2 := by
  rw [tdiv_two_pow, toSizeT_natCast]
  have : 2 ^ L < 2 ^ 64 := Nat.pow_lt_pow_right (by omega) (by omega)
  omega

theorem half_pow_inj (L M : Nat) (h : 2 ^ L / 2 = 2 ^ M / 2) : L = M := by
  rcases Nat.eq_zero_or_pos L with h0 | hp
  · subst h0
    rcases Nat.eq_zero_or_pos M with h1 | hq
    · exact h1.symm
    · exfalso
      obtain ⟨m, rfl⟩ : ∃ m, M = m + 1 := ⟨M - 1, by omega⟩
      rw [pow_succ] at h
      have : 0 < 2 ^ m := Nat.two_pow_pos _
      simp at h
      omega
  · obtain ⟨l, rfl⟩ : ∃ l, L = l + 1 := ⟨L - 1, by omega⟩
    rw [pow_succ, Nat.mul_div_cancel _ (by omega)] at h
    rcases Nat.eq_zero_or_pos M with h1 | hq
    · subst h1
      have : 0 < 2 ^ l := Nat.two_pow_pos _
      simp at h
    · obtain ⟨m, rfl⟩ : ∃ m, M = m + 1 := ⟨M - 1, by omega⟩
      rw [pow_succ, Nat.mul_div_cancel _ (by omega)] at h
      have := Nat.pow_right_injective (le_refl 2) h
      omega

/-- On a valid cache the table used by a call of length `2^L` is the table of
that length, whether it is rebuilt or reused. -/
theorem updateTable_valid {R : Type} [Zero R] (cis : Int → Int → R) (DIR : Int) (L : Nat)
    (hL : L ≤ 30) (tbl : List R) (hv : CacheValid cis DIR tbl) :
    updateTable cis DIR ((2 : Int) ^ L) tbl = tableFor cis DIR ((2 : Int) ^ L) := by
  unfold updateTable
  rw [toSizeT_half L (by omega)]
  by_cases hlen : tbl.length = 2 ^ L / 2
  · simp only [hlen, ne_eq, not_true_eq_false, if_false]
    obtain ⟨M, _, rfl⟩ := hv
    rw [tableFor_length] at hlen
    rw [half_pow_inj M L hlen]
  · simp only [hlen, ne_eq, not_false_eq_true, if_true]
    apply fillTable_eq
    rw [resize_length, tdiv_two_pow]
    rfl

theorem cacheValid_nil {R : Type} (cis : Int → Int → R) (DIR : Int) :
    CacheValid cis DIR ([] : List R) :=
  ⟨0, by omega, by
    unfold tableFor
    rw [tdiv_two_pow]
    rfl⟩

theorem swapLane_lin {R : Type} [CommRing R] (a c : R) (x y z : Nat → R) (i j : Nat)
    (h : Lin a c x y z) : Lin a c (swapLane x i j) (swapLane y i j) (swapLane z i j) := by
  intro k
  unfold swapLane
  simp only [Function.update_apply]
  split_ifs <;> apply h

theorem butterfly_lin {R : Type} [CommRing R] (a c w : R) (x y z : Nat → R) (i j : Nat)
    (h : Lin a c x y z) :
    Lin a c (butterfly w x i j) (butterfly w y i j) (butterfly w z i j) := by
  intro k
  unfold butterfly
  simp only [Function.update_apply]
  split_ifs <;> simp only [h i, h j, h k] <;> ring

theorem foldl_lin {R α : Type} [CommRing R] (a c : R) (f : α → (Nat → R) → (Nat → R))
    (hf : ∀ t x y z, Lin a c x y z → Lin a c (f t x) (f t y) (f t z)) (xs : List α) :
    ∀ x y z, Lin a c x y z →
      Lin a c (xs.foldl (fun v t => f t v) x) (xs.foldl (fun v t => f t v) y)
        (xs.foldl (fun v t => f t v) z) := by
  induction xs with
  | nil => intro x y z h; exact h
  | cons t xs ih =>
    intro x y z h
    simp only [List.foldl_cons]
    exact ih _ _ _ (hf t x y z h)

theorem laneBitReversal_lin {R : Type} [CommRing R] (a c : R) (levels : Nat) (n stride : Int)
    (x y z : Nat → R) (h : Lin a c x y z) :
    Lin a c (laneBitReversal levels n stride x) (laneBitReversal levels n stride y)
      (laneBitReversal levels n stride z) := by
  unfold laneBitReversal
  apply foldl_lin a c
    (fun i v => if reverseBits i levels > i then
      swapLane v (idx i stride) (idx (reverseBits i levels) stride) else v)
  · intro t x y z h
    by_cases ht : reverseBits t levels > t
    · simp only [ht, if_true]
      exact swapLane_lin a c x y z _ _ h
    · simp only [ht, if_false]
      exact h
  · exact h

theorem laneStage_lin {R : Type} [CommRing R] (a c : R) (n stride : Int) (tbl : List R)
    (size : Nat) (x y z : Nat → R) (h : Lin a c x y z) :
    Lin a c (laneStage n stride tbl size x) (laneStage n stride tbl size y)
      (laneStage n stride tbl size z) := by
  unfold laneStage
  apply foldl_lin a c
    (fun k v => (List.range (size / 2)).foldl
      (fun v j => butterfly (tbl.getD (j * (toSizeT n / size)) 0) v
        (idx (k + j) stride) (idx (k + j + size / 2) stride)) v)
  · intro k x y z h
    apply foldl_lin a c
      (fun j v => butterfly (tbl.getD (j * (toSizeT n / size)) 0) v
        (idx (k + j) stride) (idx (k + j + size / 2) stride))
    · intro j x y z h
      exact butterfly_lin a c _ x y z _ _ h
    · exact h
  · exact h

theorem laneKernel_lin {R : Type} [CommRing R] (a c : R) (L : Nat) (n stride : Int)
    (tbl : List R) (x y z : Nat → R) (h : Lin a c x y z) :
    Lin a c (laneKernel L n stride tbl x) (laneKernel L n stride tbl y)
      (laneKernel L n stride tbl z) := by
  unfold laneKernel
  apply foldl_lin a c (fun t v => laneStage n stride tbl (2 ^ (t + 1)) v)
  · intro t x y z h
    exact laneStage_lin a c n stride tbl _ x y z h
  · exact laneBitReversal_lin a c L n stride x y z h

theorem fillTable_length {R : Type} (cis : Int → Int → R) (DIR n : Int) (tbl : List R) :
    (fillTable cis DIR n tbl).length = tbl.length := by
  unfold fillTable
  exact fill_length _ _ _

theorem updateTable_length {R : Type} [Zero R] (cis : Int → Int → R) (DIR n : Int)
    (tbl : List R) : (updateTable cis DIR n tbl).length = toSizeT (n.tdiv 2) := by
  unfold updateTable
  by_cases h : tbl.length = toSizeT (n.tdiv 2)
  · simp [h]
  · simp only [ne_eq, h, not_false_eq_true, if_true, fillTable_length, resize_length]

theorem updateTable_idem {R : Type} [Zero R] (cis : Int → Int → R) (DIR n : Int)
    (tbl : List R) :
    updateTable cis DIR n (updateTable cis DIR n tbl) = updateTable cis DIR n tbl := by
  have h := updateTable_length cis DIR n tbl
  generalize updateTable cis DIR n tbl = t at h
  unfold updateTable
  simp [h]

theorem two_pow_int_bound (k : Nat) (h : (2 : Int) ^ k < 2 ^ 31) : k ≤ 30 := by
  by_contra hc
  have : (2 : Int) ^ 31 ≤ 2 ^ k := pow_le_pow_right₀ (by norm_num) (by omega)
  omega

/-- A call whose length is a 32-bit `int` that is not a power of two throws. -/
theorem kernel_throws {R : Type} [Zero R] [Add R] [Sub R] [Mul R] (cis : Int → Int → R)
    (BATCH : Nat) (DIR n stride : Int) (expTable : List R) (dvec : Nat → Nat → R)
    (h1 : -2 ^ 31 ≤ n) (h2 : n < 2 ^ 31) (hno : ¬ ∃ k : Nat, n = 2 ^ k) :
    batchtransformRadix2 cis BATCH DIR n stride expTable dvec
      = some (.error "Length is not a power of 2") := by
  have hc : ¬ ((1 <<< Nat.log2 (toSizeT n)) % 2 ^ 64 = toSizeT n) :=
    fun h => hno ((check_iff n h1 h2).mp h)
  unfold batchtransformRadix2
  rw [levels_of_toSizeT]
  simp only [ne_eq, hc, not_false_eq_true, if_true]

/-- A call whose length is a power of two that fits an `int` returns. -/
theorem kernel_returns {R : Type} [Zero R] [Add R] [Sub R] [Mul R] (cis : Int → Int → R)
    (BATCH : Nat) (DIR n stride : Int) (expTable : List R) (dvec : Nat → Nat → R)
    (h2 : n < 2 ^ 31) (hp : ∃ k : Nat, n = 2 ^ k) :
    ∃ expTable1 dvec1, batchtransformRadix2 cis BATCH DIR n stride expTable dvec
      = some (.ok (expTable1, dvec1)) := by
  obtain ⟨k, rfl⟩ := hp
  exact ⟨_, _, kernel_pow2 cis BATCH DIR k (two_pow_int_bound k h2) stride expTable dvec⟩

/-- The states `CacheValid` are closed under calls of the kernel: a call that
returns leaves the table in such a state (a call that throws does not touch
the table). -/
theorem cacheValid_preserved {R : Type} [Zero R] [Add R] [Sub R] [Mul R]
    (cis : Int → Int → R) (BATCH : Nat) (DIR n stride : Int) (expTable : List R)
    (dvec : Nat → Nat → R) (h1 : -2 ^ 31 ≤ n) (h2 : n < 2 ^ 31)
    (hv : CacheValid cis DIR expTable) (expTable1 : List R) (dvec1 : Nat → Nat → R)
    (hr : batchtransformRadix2 cis BATCH DIR n stride expTable dvec
      = some (.ok (expTable1, dvec1))) :
    CacheValid cis DIR expTable1 := by
  by_cases hp : ∃ k : Nat, n = 2 ^ k
  · obtain ⟨k, rfl⟩ := hp
    have hk := two_pow_int_bound k h2
    rw [kernel_pow2 cis BATCH DIR k hk stride expTable dvec] at hr
    injection hr with hr
    injection hr with hr
    injection hr with ht _
    rw [← ht]
    exact ⟨k, hk, updateTable_valid cis DIR k hk expTable hv⟩
  · rw [kernel_throws cis BATCH DIR n stride expTable dvec h1 h2 hp] at hr
    injection hr with hr
    cases hr

end fftx_helper
namespace fftx_helper

open fftx

theorem bitrev_lt (k x : Nat) : bitrev k x < 2 ^ k := by
  induction k generalizing x with
  | zero => simp [bitrev]
  | succ k ih =>
    simp only [bitrev]
    have h1 := ih (x / 2)
    have h2 : x % 2 < 2 := Nat.mod_lt _ (by omega)
    have h3 : (x % 2) * 2 ^ k ≤ 1 * 2 ^ k := Nat.mul_le_mul_right _ (by omega)
    rw [pow_succ]
    omega

theorem reverseBitsLoop_eq (k : Nat) : ∀ (x r m : Nat), r < 2 ^ m → m + k ≤ 64 →
    reverseBitsLoop k x r = r * 2 ^ k + bitrev k x := by
  induction k with
  | zero => intro x r m _ _; simp [reverseBitsLoop, bitrev]
  | succ k ih =>
    intro x r m hr hm
    unfold reverseBitsLoop
    have h2 : x % 2 < 2 ^ 1 := by
      have := Nat.mod_lt x (show 0 < 2 by omega)
      omega
    have hr2 : r * 2 < 2 ^ (m + 1) := by rw [pow_succ]; omega
    have hlt : r * 2 < 2 ^ 64 :=
      lt_of_lt_of_le hr2 (Nat.pow_le_pow_right (by omega) (by omega))
    have e1 : ((r <<< 1) % 2 ^ 64) ||| (x &&& 1) = r * 2 + x % 2 := by
      rw [Nat.shiftLeft_eq, pow_one, Nat.mod_eq_of_lt hlt, Nat.and_one_is_mod,
        Nat.mul_comm r 2]
      have := Nat.mul_add_lt_is_or h2 r
      rw [pow_one] at this
      exact this.symm
    have hr3 : r * 2 + x % 2 < 2 ^ (m + 1) := by
      rw [pow_succ] at hr2 ⊢
      rw [pow_one] at h2
      omega
    rw [e1, Nat.shiftRight_eq_div_pow, pow_one, ih (x / 2) _ (m + 1) hr3 (by omega)]
    simp only [bitrev]
    rw [pow_succ]
    ring

theorem reverseBits_eq (x n : Nat) (hn : n ≤ 64) : reverseBits x n = bitrev n x := by
  unfold reverseBits
  rw [reverseBitsLoop_eq n x 0 0 (by omega) (by omega)]
  simp

theorem bitrev_even (k q : Nat) : bitrev (k + 1) (2 * q) = bitrev k q := by
  simp only [bitrev]
  rw [Nat.mul_mod_right, Nat.mul_div_cancel_left q (by omega)]
  simp

theorem bitrev_odd (k q : Nat) : bitrev (k + 1) (2 * q + 1) = 2 ^ k + bitrev k q := by
  simp only [bitrev]
  have h1 : (2 * q + 1) % 2 = 1 := by omega
  have h2 : (2 * q + 1) / 2 = q := by omega
  rw [h1, h2]
  simp

theorem bitrev_msb (k : Nat) : ∀ (c y : Nat), c ≤ 1 → y < 2 ^ k →
    bitrev (k + 1) (c * 2 ^ k + y) = 2 * bitrev k y + c := by
  induction k with
  | zero =>
    intro c y hc hy
    have hy0 : y = 0 := by simpa using hy
    subst hy0
    simp only [bitrev, pow_zero, mul_one, add_zero, mul_zero, zero_add]
    have h : c = 0 ∨ c = 1 := by omega
    rcases h with h | h <;> subst h <;> rfl
  | succ k ih =>
    intro c y hc hy
    have e : bitrev (k + 1 + 1) (c * 2 ^ (k + 1) + y)
        = ((c * 2 ^ (k + 1) + y) % 2) * 2 ^ (k + 1)
          + bitrev (k + 1) ((c * 2 ^ (k + 1) + y) / 2) := rfl
    have e0 : c * 2 ^ (k + 1) + y = 2 * (c * 2 ^ k) + y := by rw [pow_succ]; ring
    have hm : (c * 2 ^ (k + 1) + y) % 2 = y % 2 := by
      rw [e0, Nat.mul_add_mod]
    have hd : (c * 2 ^ (k + 1) + y) / 2 = c * 2 ^ k + y / 2 := by
      rw [e0, Nat.mul_add_div (by omega)]
    have hy2 : y / 2 < 2 ^ k := by
      rw [pow_succ] at hy; omega
    rw [e, hm, hd, ih c (y / 2) hc hy2]
    have e2 : bitrev (k + 1) y = (y % 2) * 2 ^ k + bitrev k (y / 2) := rfl
    rw [e2, pow_succ]
    ring

theorem bitrev_invol (k : Nat) : ∀ x, x < 2 ^ k → bitrev k (bitrev k x) = x := by
  induction k with
  | zero => intro x hx; simp at hx; simp [bitrev, hx]
  | succ k ih =>
    intro x hx
    have e : bitrev (k + 1) x = (x % 2) * 2 ^ k + bitrev k (x / 2) := rfl
    have hx2 : x / 2 < 2 ^ k := by rw [pow_succ] at hx; omega
    rw [e, bitrev_msb k (x % 2) _ (by omega) (bitrev_lt k _), ih (x / 2) hx2]
    omega

theorem idx_one (i : Nat) (h : i < 2 ^ 64) : idx i 1 = i := by
  unfold idx
  have : toSizeT 1 = 1 := by decide
  rw [this, Nat.mul_one, Nat.mod_eq_of_lt h]

theorem foldl_congr_mem {α β : Type} (f g : β → α → β) (xs : List α)
    (h : ∀ v x, x ∈ xs → f v x = g v x) (a : β) : xs.foldl f a = xs.foldl g a := by
  induction xs generalizing a with
  | nil => rfl
  | cons x xs ih =>
    simp only [List.foldl_cons]
    rw [h a x (List.mem_cons_self x xs)]
    exact ih (fun v y hy => h v y (List.mem_cons_of_mem x hy)) _

theorem swapLane_apply {R : Type} (v : Nat → R) (i j t : Nat) :
    swapLane v i j t = if t = j then v i else if t = i then v j else v t := by
  unfold swapLane
  simp only [Function.update_apply]

theorem bitrev_loop {R : Type} (rev : Nat → Nat) (N : Nat) (hlt : ∀ i, i < N → rev i < N)
    (hinv : ∀ i, i < N → rev (rev i) = i) (vec : Nat → R) (m : Nat) (hm : m ≤ N) :
    ∀ t, ((List.range m).foldl
        (fun v i => if rev i > i then swapLane v i (rev i) else v) vec) t
      = if t < N ∧ (t < m ∨ rev t < m) then vec (rev t) else vec t := by
  induction m with
  | zero => intro t; simp
  | succ m ih =>
    have ihm := ih (by omega)
    have hmN : m < N := by omega
    intro t
    rw [List.range_succ, List.foldl_append]
    simp only [List.foldl_cons, List.foldl_nil]
    have hrm := hlt m hmN
    have hrrm := hinv m hmN
    by_cases hgt : rev m > m
    · simp only [hgt, if_true]
      rw [swapLane_apply]
      by_cases h1 : t = rev m
      · subst h1
        simp only [if_true]
        rw [ihm m]
        have c1 : ¬ (m < N ∧ (m < m ∨ rev m < m)) := by omega
        have c2 : rev m < N ∧ (rev m < m + 1 ∨ rev (rev m) < m + 1) := by
          rw [hrrm]; omega
        rw [if_neg c1, if_pos c2, hrrm]
      · by_cases h2 : t = m
        · subst h2
          simp only [h1, if_false, if_true]
          rw [ihm (rev t)]
          have c1 : ¬ (rev t < N ∧ (rev t < t ∨ rev (rev t) < t)) := by
            rw [hrrm]; omega
          have c2 : t < N ∧ (t < t + 1 ∨ rev t < t + 1) := by omega
          rw [if_neg c1, if_pos c2]
        · simp only [h1, h2, if_false]
          rw [ihm t]
          have hc : (t < N ∧ (t < m ∨ rev t < m)) ↔ (t < N ∧ (t < m + 1 ∨ rev t < m + 1)) := by
            constructor
            · rintro ⟨a, b⟩; exact ⟨a, by omega⟩
            · rintro ⟨a, b⟩
              refine ⟨a, ?_⟩
              have hne : rev t ≠ m := by
                intro he
                apply h1
                rw [← he, hinv t a]
              omega
          simp only [hc]
    · simp only [hgt, if_false]
      rw [ihm t]
      by_cases htN : t < N
      · by_cases h2 : t = m
        · subst h2
          have c2 : t < N ∧ (t < t + 1 ∨ rev t < t + 1) := by omega
          rw [if_pos c2]
          by_cases h3 : rev t = t
          · rw [h3]; simp
          · have c1 : t < N ∧ (t < t ∨ rev t < t) := by omega
            rw [if_pos c1]
        · have hc : (t < N ∧ (t < m ∨ rev t < m)) ↔ (t < N ∧ (t < m + 1 ∨ rev t < m + 1)) := by
            constructor
            · rintro ⟨a, b⟩; exact ⟨a, by omega⟩
            · rintro ⟨a, b⟩
              refine ⟨a, ?_⟩
              by_cases h4 : rev t = m
              · have : t = rev m := by rw [← h4, hinv t a]
                omega
              · omega
          simp only [hc]
      · simp [htN]

theorem laneBitReversal_one {R : Type} (L : Nat) (hL : L ≤ 30) (vec : Nat → R) (t : Nat)
    (ht : t < 2 ^ L) :
    laneBitReversal L ((2 : Int) ^ L) 1 vec t = vec (bitrev L t) := by
  unfold laneBitReversal
  rw [toSizeT_two_pow L (by omega)]
  have hN : 2 ^ L < 2 ^ 64 := Nat.pow_lt_pow_right (by omega) (by omega)
  have hcongr := foldl_congr_mem
    (fun (v : Nat → R) i => if reverseBits i L > i then
      swapLane v (idx i 1) (idx (reverseBits i L) 1) else v)
    (fun (v : Nat → R) i => if bitrev L i > i then swapLane v i (bitrev L i) else v)
    (List.range (2 ^ L))
    (by
      intro v x hx
      have hx' := List.mem_range.mp hx
      have hb := bitrev_lt L x
      simp only [reverseBits_eq x L (by omega)]
      rw [idx_one x (by omega), idx_one _ (by omega)])
    vec
  rw [hcongr, bitrev_loop (bitrev L) (2 ^ L) (fun i _ => bitrev_lt L i)
    (fun i hi => bitrev_invol L i hi) vec (2 ^ L) (le_refl _) t]
  simp [ht]

theorem butterfly_apply {R : Type} [Add R] [Sub R] [Mul R] (w : R) (v : Nat → R)
    (a b t : Nat) (hab : a ≠ b) :
    butterfly w v a b t
      = if t = a then v a + v b * w else if t = b then v a - v b * w else v t := by
  unfold butterfly
  simp only [Function.update_apply]
  by_cases h1 : t = b
  · subst h1
    have : ¬ t = a := fun h => hab h.symm
    simp [this]
  · simp [h1]

/-- Effect of the loop over `j` for one block that starts at `k`, stride `1`. -/
theorem jloop_effect {R : Type} [Add R] [Sub R] [Mul R] (w : Nat → R) (k h : Nat)
    (hk : k + 2 * h ≤ 2 ^ 64) (vec : Nat → R) (m : Nat) (hm : m ≤ h) :
    (∀ j, j < m → ((List.range m).foldl
        (fun v j => butterfly (w j) v (idx (k + j) 1) (idx (k + j + h) 1)) vec) (k + j)
        = vec (k + j) + vec (k + j + h) * w j) ∧
    (∀ j, j < m → ((List.range m).foldl
        (fun v j => butterfly (w j) v (idx (k + j) 1) (idx (k + j + h) 1)) vec) (k + j + h)
        = vec (k + j) - vec (k + j + h) * w j) ∧
    (∀ t, (t < k ∨ (k + m ≤ t ∧ t < k + h) ∨ k + h + m ≤ t) →
      ((List.range m).foldl
        (fun v j => butterfly (w j) v (idx (k + j) 1) (idx (k + j + h) 1)) vec) t = vec t) := by
  induction m with
  | zero =>
    refine ⟨fun j hj => by omega, fun j hj => by omega, fun t _ => by simp⟩
  | succ m ih =>
    obtain ⟨ih1, ih2, ih3⟩ := ih (by omega)
    have e1 : idx (k + m) 1 = k + m := idx_one _ (by omega)
    have e2 : idx (k + m + h) 1 = k + m + h := idx_one _ (by omega)
    have hne : k + m ≠ k + m + h := by omega
    have step : ∀ t, ((List.range (m + 1)).foldl
        (fun v j => butterfly (w j) v (idx (k + j) 1) (idx (k + j + h) 1)) vec) t
        = butterfly (w m) ((List.range m).foldl
            (fun v j => butterfly (w j) v (idx (k + j) 1) (idx (k + j + h) 1)) vec)
            (k + m) (k + m + h) t := by
      intro t
      rw [List.range_succ, List.foldl_append]
      simp only [List.foldl_cons, List.foldl_nil, e1, e2]
    have a1 := ih3 (k + m) (by omega)
    have a2 := ih3 (k + m + h) (by omega)
    refine ⟨?_, ?_, ?_⟩
    · intro j hj
      rw [step, butterfly_apply _ _ _ _ _ hne]
      by_cases hjm : j = m
      · subst hjm
        simp only [if_true, a1, a2]
      · have c1 : ¬ (k + j = k + m) := by omega
        have c2 : ¬ (k + j = k + m + h) := by omega
        simp only [c1, c2, if_false]
        exact ih1 j (by omega)
    · intro j hj
      rw [step, butterfly_apply _ _ _ _ _ hne]
      by_cases hjm : j = m
      · subst hjm
        have c1 : ¬ (k + j + h = k + j) := by omega
        simp only [c1, if_false, if_true, a1, a2]
      · have c1 : ¬ (k + j + h = k + m) := by omega
        have c2 : ¬ (k + j + h = k + m + h) := by omega
        simp only [c1, c2, if_false]
        exact ih2 j (by omega)
    · intro t ht
      rw [step, butterfly_apply _ _ _ _ _ hne]
      have c1 : ¬ (t = k + m) := by omega
      have c2 : ¬ (t = k + m + h) := by omega
      simp only [c1, c2, if_false]
      exact ih3 t (by omega)

/-- Effect of the loops over `k` and `j` on the first `Q` blocks of size `2*h`,
stride `1`. -/
theorem kloop_effect {R : Type} [Add R] [Sub R] [Mul R] (w : Nat → R) (h : Nat)
    (vec : Nat → R) (Q : Nat) (hQ : Q * (2 * h) ≤ 2 ^ 64) :
    (∀ q j, q < Q → j < h →
      ((List.range' 0 Q (2 * h)).foldl
        (fun v k => (List.range h).foldl
          (fun v j => butterfly (w j) v (idx (k + j) 1) (idx (k + j + h) 1)) v) vec)
        (q * (2 * h) + j) = vec (q * (2 * h) + j) + vec (q * (2 * h) + j + h) * w j ∧
      ((List.range' 0 Q (2 * h)).foldl
        (fun v k => (List.range h).foldl
          (fun v j => butterfly (w j) v (idx (k + j) 1) (idx (k + j + h) 1)) v) vec)
        (q * (2 * h) + j + h) = vec (q * (2 * h) + j) - vec (q * (2 * h) + j + h) * w j) ∧
    (∀ t, Q * (2 * h) ≤ t →
      ((List.range' 0 Q (2 * h)).foldl
        (fun v k => (List.range h).foldl
          (fun v j => butterfly (w j) v (idx (k + j) 1) (idx (k + j + h) 1)) v) vec) t
        = vec t) := by
  induction Q with
  | zero =>
    refine ⟨fun q j hq _ => by omega, fun t _ => by simp⟩
  | succ Q ih =>
    have hmul : (Q + 1) * (2 * h) = Q * (2 * h) + 2 * h := by ring
    obtain ⟨ih1, ih2⟩ := ih (by omega)
    rw [List.range'_concat, List.foldl_append]
    simp only [List.foldl_cons, List.foldl_nil, Nat.zero_add]
    obtain ⟨j1, j2, j3⟩ := jloop_effect w (2 * h * Q) h (by
        have : 2 * h * Q = Q * (2 * h) := by ring
        omega)
      ((List.range' 0 Q (2 * h)).foldl
        (fun v k => (List.range h).foldl
          (fun v j => butterfly (w j) v (idx (k + j) 1) (idx (k + j + h) 1)) v) vec)
      h (le_refl h)
    have hcomm : 2 * h * Q = Q * (2 * h) := by ring
    refine ⟨?_, ?_⟩
    · intro q j hq hj
      by_cases hqQ : q = Q
      · subst hqQ
        rw [← hcomm, j1 j hj, j2 j hj, hcomm, ih2 _ (by omega), ih2 _ (by omega)]
        exact ⟨rfl, rfl⟩
      · have hq' : q < Q := by omega
        have hb : q * (2 * h) + 2 * h ≤ Q * (2 * h) := by
          have : (q + 1) * (2 * h) ≤ Q * (2 * h) := Nat.mul_le_mul_right _ (by omega)
          have e : (q + 1) * (2 * h) = q * (2 * h) + 2 * h := by ring
          omega
        rw [j3 (q * (2 * h) + j) (by omega), j3 (q * (2 * h) + j + h) (by omega)]
        exact ih1 q j hq' hj
    · intro t ht
      rw [j3 t (by omega)]
      exact ih2 t (by omega)

/-- Effect of one pass of size `2^(t+1)` on a lane of length `2^(t+d+1)`,
stride `1`: every block is combined half against half. -/
theorem laneStage_effect {R : Type} [Zero R] [Add R] [Sub R] [Mul R] (t d : Nat)
    (hL : t + d + 1 ≤ 30) (tbl : List R) (vec : Nat → R) (q j : Nat) (hq : q < 2 ^ d)
    (hj : j < 2 ^ t) :
    laneStage ((2 : Int) ^ (t + d + 1)) 1 tbl (2 ^ (t + 1)) vec (q * 2 ^ (t + 1) + j)
      = vec (q * 2 ^ (t + 1) + j)
        + vec (q * 2 ^ (t + 1) + j + 2 ^ t) * tbl.getD (j * 2 ^ d) 0 ∧
    laneStage ((2 : Int) ^ (t + d + 1)) 1 tbl (2 ^ (t + 1)) vec (q * 2 ^ (t + 1) + j + 2 ^ t)
      = vec (q * 2 ^ (t + 1) + j)
        - vec (q * 2 ^ (t + 1) + j + 2 ^ t) * tbl.getD (j * 2 ^ d) 0 := by
  unfold laneStage kRange
  rw [toSizeT_two_pow (t + d + 1) (by omega)]
  have hS : 2 ^ (t + 1) = 2 * 2 ^ t := by rw [pow_succ]; ring
  have hN : 2 ^ (t + d + 1) = 2 ^ d * (2 * 2 ^ t) := by
    rw [show t + d + 1 = d + (t + 1) from by omega, pow_add, hS]
  have hpos : 0 < 2 * 2 ^ t := by positivity
  have hcnt : (2 ^ (t + d + 1) + 2 ^ (t + 1) - 1) / 2 ^ (t + 1) = 2 ^ d := by
    rw [hS, hN]
    have : 2 ^ d * (2 * 2 ^ t) + 2 * 2 ^ t - 1 = (2 * 2 ^ t - 1) + 2 ^ d * (2 * 2 ^ t) := by
      omega
    rw [this, Nat.add_mul_div_right _ _ hpos, Nat.div_eq_of_lt (by omega)]
    omega
  have hhalf : 2 ^ (t + 1) / 2 = 2 ^ t := by rw [hS]; omega
  have hstep : 2 ^ (t + d + 1) / 2 ^ (t + 1) = 2 ^ d := by
    rw [hS, hN, Nat.mul_div_cancel _ hpos]
  rw [hcnt, hhalf, hstep, hS]
  have hbig : 2 ^ d * (2 * 2 ^ t) ≤ 2 ^ 64 := by
    rw [← hN]
    exact Nat.pow_le_pow_right (by omega) (by omega)
  exact (kloop_effect (fun j => tbl.getD (j * 2 ^ d) 0) (2 ^ t) vec (2 ^ d) hbig).1 q j hq hj

theorem sum_range_double {R : Type} [AddCommMonoid R] (f : Nat → R) (K : Nat) :
    ∑ u in Finset.range (2 * K), f u = ∑ u in Finset.range K, (f (2 * u) + f (2 * u + 1)) := by
  induction K with
  | zero => simp
  | succ K ih =>
    rw [show 2 * (K + 1) = 2 * K + 1 + 1 from by ring, Finset.sum_range_succ,
      Finset.sum_range_succ, ih, Finset.sum_range_succ]
    rw [add_assoc]

theorem pow_half_mul {R : Type} [CommRing R] (ω : R) (M : Nat) (hω : ω ^ M = -1) (m : Nat) :
    ω ^ (M * m) = (-1) ^ m := by
  rw [pow_mul, hω]

/-- One pass turns the transforms of all blocks of size `2^t` into the
transforms of all blocks of size `2^(t+1)`. -/
theorem dft_step {R : Type} [CommRing R] (ω : R) (x : Nat → R) (t d : Nat)
    (hω : ω ^ (2 ^ (t + d)) = -1) (v v1 : Nat → R)
    (hv : ∀ q j, q < 2 ^ (d + 1) → j < 2 ^ t →
      v (q * 2 ^ t + j)
        = ∑ u in Finset.range (2 ^ t),
            x (u * 2 ^ (d + 1) + bitrev (d + 1) q) * ω ^ (2 ^ (d + 1) * j * u))
    (hv1 : ∀ q j, q < 2 ^ d → j < 2 ^ t →
      v1 (q * 2 ^ (t + 1) + j)
        = v (q * 2 ^ (t + 1) + j) + v (q * 2 ^ (t + 1) + j + 2 ^ t) * ω ^ (j * 2 ^ d) ∧
      v1 (q * 2 ^ (t + 1) + j + 2 ^ t)
        = v (q * 2 ^ (t + 1) + j) - v (q * 2 ^ (t + 1) + j + 2 ^ t) * ω ^ (j * 2 ^ d)) :
    ∀ q j, q < 2 ^ d → j < 2 ^ (t + 1) →
      v1 (q * 2 ^ (t + 1) + j)
        = ∑ u in Finset.range (2 ^ (t + 1)),
            x (u * 2 ^ d + bitrev d q) * ω ^ (2 ^ d * j * u) := by
  intro q j hq hj
  have hS : 2 ^ (t + 1) = 2 * 2 ^ t := by rw [pow_succ]; ring
  have hD : 2 ^ (d + 1) = 2 * 2 ^ d := by rw [pow_succ]; ring
  have hq0 : 2 * q < 2 ^ (d + 1) := by omega
  have hq1 : 2 * q + 1 < 2 ^ (d + 1) := by omega
  have key : ∀ j0, j0 < 2 ^ t →
      v (q * 2 ^ (t + 1) + j0)
        = ∑ u in Finset.range (2 ^ t),
            x (2 * u * 2 ^ d + bitrev d q) * ω ^ (2 ^ d * j0 * (2 * u)) ∧
      v (q * 2 ^ (t + 1) + j0 + 2 ^ t) * ω ^ (j0 * 2 ^ d)
        = ∑ u in Finset.range (2 ^ t),
            x ((2 * u + 1) * 2 ^ d + bitrev d q) * ω ^ (2 ^ d * j0 * (2 * u + 1)) := by
    intro j0 hj0
    have i0 : q * 2 ^ (t + 1) + j0 = (2 * q) * 2 ^ t + j0 := by rw [hS]; ring
    have i1 : q * 2 ^ (t + 1) + j0 + 2 ^ t = (2 * q + 1) * 2 ^ t + j0 := by rw [hS]; ring
    constructor
    · rw [i0, hv (2 * q) j0 hq0 hj0, bitrev_even]
      apply Finset.sum_congr rfl
      intro u _
      have a1 : u * 2 ^ (d + 1) + bitrev d q = 2 * u * 2 ^ d + bitrev d q := by rw [hD]; ring
      have a2 : 2 ^ (d + 1) * j0 * u = 2 ^ d * j0 * (2 * u) := by rw [hD]; ring
      rw [a1, a2]
    · rw [i1, hv (2 * q + 1) j0 hq1 hj0, bitrev_odd, Finset.sum_mul]
      apply Finset.sum_congr rfl
      intro u _
      have a1 : u * 2 ^ (d + 1) + (2 ^ d + bitrev d q) = (2 * u + 1) * 2 ^ d + bitrev d q := by
        rw [hD]; ring
      have a2 : 2 ^ d * j0 * (2 * u + 1) = 2 ^ (d + 1) * j0 * u + j0 * 2 ^ d := by
        rw [hD]; ring
      rw [a1, a2, pow_add]
      ring
  rw [hS, sum_range_double, Finset.sum_add_distrib]
  by_cases hlow : j < 2 ^ t
  · obtain ⟨k1, k2⟩ := key j hlow
    rw [← hS, (hv1 q j hq hlow).1, k1, k2]
  · obtain ⟨j0, rfl⟩ : ∃ j0, j = j0 + 2 ^ t := ⟨j - 2 ^ t, by omega⟩
    have hj0 : j0 < 2 ^ t := by omega
    obtain ⟨k1, k2⟩ := key j0 hj0
    rw [← hS, ← add_assoc, (hv1 q j0 hq hj0).2, k1, k2, sub_eq_add_neg, ← Finset.sum_neg_distrib]
    congr 1
    · apply Finset.sum_congr rfl
      intro u _
      have a : 2 ^ d * (j0 + 2 ^ t) * (2 * u) = 2 ^ d * j0 * (2 * u) + 2 ^ (t + d) * (2 * u) := by
        rw [pow_add]; ring
      rw [a, pow_add, pow_half_mul ω _ hω, pow_mul]
      simp
    · apply Finset.sum_congr rfl
      intro u _
      have a : 2 ^ d * (j0 + 2 ^ t) * (2 * u + 1)
          = 2 ^ d * j0 * (2 * u + 1) + 2 ^ (t + d) * (2 * u + 1) := by
        rw [pow_add]; ring
      rw [a, pow_add, pow_half_mul ω _ hω, pow_succ, pow_mul]
      simp

theorem laneKernel_inv {R : Type} [CommRing R] (L : Nat) (hL : L ≤ 30) (ω : R)
    (hω : ∀ M, L = M + 1 → ω ^ (2 ^ M) = -1) (tbl : List R)
    (htbl : ∀ i, i < 2 ^ L / 2 → tbl.getD i 0 = ω ^ i) (vec : Nat → R) (t : Nat) :
    ∀ d, t + d = L → ∀ q j, q < 2 ^ d → j < 2 ^ t →
      ((List.range t).foldl (fun v s => laneStage ((2 : Int) ^ L) 1 tbl (2 ^ (s + 1)) v)
        (laneBitReversal L ((2 : Int) ^ L) 1 vec)) (q * 2 ^ t + j)
      = ∑ u in Finset.range (2 ^ t), vec (u * 2 ^ d + bitrev d q) * ω ^ (2 ^ d * j * u) := by
  induction t with
  | zero =>
    intro d hd q j hq hj
    have hdL : d = L := by omega
    subst hdL
    have hj0 : j = 0 := by simpa using hj
    subst hj0
    simp only [List.range_zero, List.foldl_nil, pow_zero, mul_one, add_zero,
      Finset.range_one, Finset.sum_singleton, zero_mul, mul_zero, zero_add]
    rw [laneBitReversal_one d hL vec q hq]
  | succ t ih =>
    intro d hd q j hq hj
    have hLe : L = t + d + 1 := by omega
    have ih1 := ih (d + 1) (by omega)
    rw [List.range_succ, List.foldl_append]
    simp only [List.foldl_cons, List.foldl_nil]
    have hω1 : ω ^ (2 ^ (t + d)) = -1 := hω (t + d) hLe
    apply dft_step ω vec t d hω1 _ _ ih1 _ q j hq hj
    intro q1 j1 hq1 hj1
    have hidx : j1 * 2 ^ d < 2 ^ L / 2 := by
      have e : 2 ^ L / 2 = 2 ^ t * 2 ^ d := by
        rw [hLe, pow_succ, Nat.mul_div_cancel _ (by omega), pow_add]
      rw [e]
      exact Nat.mul_lt_mul_of_pos_right hj1 (by positivity)
    rw [← htbl _ hidx]
    have := laneStage_effect t d (by omega) tbl
      ((List.range t).foldl (fun v s => laneStage ((2 : Int) ^ L) 1 tbl (2 ^ (s + 1)) v)
        (laneBitReversal L ((2 : Int) ^ L) 1 vec)) q1 j1 hq1 hj1
    rw [← hLe] at this
    exact this

/-- In a commutative ring, with a table of powers of `ω` where
`ω^(n/2) = -1`, the lane kernel of length `n = 2^L` and stride `1` computes
the sums `sum_j x[j] * ω^(j*k)`. -/
theorem laneKernel_dft {R : Type} [CommRing R] (L : Nat) (hL : L ≤ 30) (ω : R)
    (hω : ∀ M, L = M + 1 → ω ^ (2 ^ M) = -1) (tbl : List R)
    (htbl : ∀ i, i < 2 ^ L / 2 → tbl.getD i 0 = ω ^ i) (vec : Nat → R) (k : Nat)
    (hk : k < 2 ^ L) :
    laneKernel L ((2 : Int) ^ L) 1 tbl vec k
      = ∑ j in Finset.range (2 ^ L), vec j * ω ^ (j * k) := by
  have h := laneKernel_inv L hL ω hω tbl htbl vec L 0 (by omega) 0 k (by simp) hk
  unfold laneKernel
  simp only [zero_mul, zero_add, pow_zero, mul_one, bitrev, add_zero, one_mul] at h
  rw [h]
  apply Finset.sum_congr rfl
  intro j _
  rw [Nat.mul_comm]

theorem tableFor_getD {R : Type} [Zero R] (cis : Int → Int → R) (DIR : Int) (L i : Nat)
    (hi : i < 2 ^ L / 2) :
    (tableFor cis DIR ((2 : Int) ^ L)).getD i 0 = cis (-(2 * DIR * (i : Int))) ((2 : Int) ^ L) := by
  unfold tableFor
  rw [tdiv_two_pow, Int.toNat_ofNat, List.getD_eq_getElem?_getD, List.getElem?_map,
    List.getElem?_range hi]
  rfl

theorem mk_cos_sin (a : ℝ) : (⟨Real.cos a, Real.sin a⟩ : ℂ) = Complex.exp (a * Complex.I) := by
  apply Complex.ext
  · rw [Complex.exp_ofReal_mul_I_re]
  · rw [Complex.exp_ofReal_mul_I_im]

/-- The table entry `i` is the `i`-th power of `exp(-2*pi*I*DIR/n)`. -/
theorem cis_eq_pow (cis : Int → Int → ℂ)
    (hcis : ∀ num den : Int, cis num den
      = ⟨Real.cos (num * Real.pi / den), Real.sin (num * Real.pi / den)⟩)
    (DIR : Int) (L i : Nat) :
    cis (-(2 * DIR * (i : Int))) ((2 : Int) ^ L)
      = Complex.exp (-2 * Real.pi * Complex.I * DIR / 2 ^ L) ^ i := by
  rw [hcis, mk_cos_sin, ← Complex.exp_nat_mul]
  congr 1
  push_cast
  ring

theorem omega_half (DIR : Int) (hDIR : DIR = 1 ∨ DIR = -1) (M : Nat) :
    Complex.exp (-2 * Real.pi * Complex.I * DIR / 2 ^ (M + 1)) ^ (2 ^ M) = -1 := by
  rw [← Complex.exp_nat_mul]
  have h2 : ((2 : ℂ) ^ M) ≠ 0 := pow_ne_zero _ (by norm_num)
  have e : ((2 ^ M : Nat) : ℂ) * (-2 * Real.pi * Complex.I * DIR / 2 ^ (M + 1))
      = -(DIR : ℂ) * (Real.pi * Complex.I) := by
    push_cast
    rw [pow_succ]
    field_simp
    ring
  rw [e]
  rcases hDIR with h | h
  · subst h
    simp only [Int.cast_one, neg_mul, one_mul]
    rw [Complex.exp_neg, Complex.exp_pi_mul_I]
    norm_num
  · subst h
    simp only [Int.cast_neg, Int.cast_one, neg_neg, one_mul]
    exact Complex.exp_pi_mul_I

theorem omega_pow (DIR : Int) (L j k : Nat) :
    Complex.exp (-2 * Real.pi * Complex.I * DIR / 2 ^ L) ^ (j * k)
      = Complex.exp (-2 * Real.pi * Complex.I * DIR * j * k / 2 ^ L) := by
  rw [← Complex.exp_nat_mul]
  congr 1
  push_cast
  ring

/-- The lane kernel with the exact table of the length `n = 2^L` computes the
unnormalised discrete Fourier transform (stride `1`, `DIR = 1` or `-1`). -/
theorem laneKernel_dft_complex (cis : Int → Int → ℂ)
    (hcis : ∀ num den : Int, cis num den
      = ⟨Real.cos (num * Real.pi / den), Real.sin (num * Real.pi / den)⟩)
    (DIR : Int) (hDIR : DIR = 1 ∨ DIR = -1) (L : Nat) (hL : L ≤ 30) (vec : Nat → ℂ)
    (k : Nat) (hk : k < 2 ^ L) :
    laneKernel L ((2 : Int) ^ L) 1 (tableFor cis DIR ((2 : Int) ^ L)) vec k
      = ∑ j in Finset.range (2 ^ L),
          vec j * Complex.exp (-2 * Real.pi * Complex.I * DIR * j * k / 2 ^ L) := by
  rw [laneKernel_dft L hL (Complex.exp (-2 * Real.pi * Complex.I * DIR / 2 ^ L))
    (by
      intro M hM
      subst hM
      exact omega_half DIR hDIR M)
    (tableFor cis DIR ((2 : Int) ^ L))
    (by
      intro i hi
      rw [tableFor_getD cis DIR L i hi, cis_eq_pow cis hcis])
    vec k hk]
  apply Finset.sum_congr rfl
  intro j _
  rw [omega_pow]

theorem geom_root_sum (L : Nat) (e : Int) (he : e ≠ 0) (hlt : |e| < 2 ^ L) :
    ∑ k in Finset.range (2 ^ L),
      Complex.exp (2 * Real.pi * Complex.I * e / 2 ^ L) ^ k = 0 := by
  have h2 : ((2 : ℂ) ^ L) ≠ 0 := pow_ne_zero _ (by norm_num)
  have hne : Complex.exp (2 * Real.pi * Complex.I * e / 2 ^ L) ≠ 1 := by
    intro h
    rw [Complex.exp_eq_one_iff] at h
    obtain ⟨m, hm⟩ := h
    have hpi : (2 * (Real.pi : ℂ) * Complex.I) ≠ 0 := Complex.two_pi_I_ne_zero
    have e1 : (e : ℂ) = m * 2 ^ L := by
      field_simp at hm
      have : (2 * (Real.pi : ℂ) * Complex.I) * e = (2 * (Real.pi : ℂ) * Complex.I) * (m * 2 ^ L) := by
        rw [hm]; ring
      exact mul_left_cancel₀ hpi this
    have e2 : e = m * 2 ^ L := by exact_mod_cast e1
    have hm0 : m ≠ 0 := by
      intro h0
      rw [h0, zero_mul] at e2
      exact he e2
    have hpos : (0 : Int) < 2 ^ L := by positivity
    have : (2 : Int) ^ L ≤ |e| := by
      rw [e2, abs_mul, abs_of_pos hpos]
      have : 1 ≤ |m| := Int.one_le_abs hm0
      nlinarith
    omega
  rw [geom_sum_eq hne]
  have hone : Complex.exp (2 * Real.pi * Complex.I * e / 2 ^ L) ^ (2 ^ L) = 1 := by
    rw [← Complex.exp_nat_mul]
    have : ((2 ^ L : Nat) : ℂ) * (2 * Real.pi * Complex.I * e / 2 ^ L)
        = e * (2 * Real.pi * Complex.I) := by
      push_cast
      field_simp
      ring
    rw [this, Complex.exp_int_mul_two_pi_mul_I]
  rw [hone]
  simp

/-- Transforming with the direction `d1` and then with `-d1` multiplies every
entry by the length. -/
theorem dft_roundtrip (L : Nat) (d1 : Int) (hd : d1 = 1 ∨ d1 = -1) (x : Nat → ℂ) (j : Nat)
    (hj : j < 2 ^ L) :
    ∑ k in Finset.range (2 ^ L),
      (∑ m in Finset.range (2 ^ L),
          x m * Complex.exp (-2 * Real.pi * Complex.I * d1 * m * k / 2 ^ L))
        * Complex.exp (-2 * Real.pi * Complex.I * ((-d1 : Int) : ℂ) * k * j / 2 ^ L)
      = 2 ^ L * x j := by
  have hterm : ∀ k m : Nat,
      x m * Complex.exp (-2 * Real.pi * Complex.I * d1 * m * k / 2 ^ L)
        * Complex.exp (-2 * Real.pi * Complex.I * ((-d1 : Int) : ℂ) * k * j / 2 ^ L)
      = x m * Complex.exp (2 * Real.pi * Complex.I * ((d1 * ((j : Int) - m) : Int) : ℂ) / 2 ^ L) ^ k := by
    intro k m
    rw [mul_assoc, ← Complex.exp_add, ← Complex.exp_nat_mul]
    congr 2
    push_cast
    ring
  simp only [Finset.sum_mul, hterm]
  rw [Finset.sum_comm]
  simp only [← Finset.mul_sum]
  rw [Finset.sum_eq_single j]
  · simp
    ring
  · intro m hm hmj
    have hm' := Finset.mem_range.mp hm
    have he : d1 * ((j : Int) - m) ≠ 0 := by
      rcases hd with h | h <;> subst h <;> omega
    have hlt : |d1 * ((j : Int) - m)| < 2 ^ L := by
      have hjL : ((j : Int)) < 2 ^ L := by exact_mod_cast hj
      have hmL : ((m : Int)) < 2 ^ L := by exact_mod_cast hm'
      rw [abs_lt]
      rcases hd with h | h <;> subst h <;> constructor <;> omega
    rw [geom_root_sum L _ he hlt, mul_zero]
  · intro hj'
    exact absurd (Finset.mem_range.mpr hj) hj'

theorem lane_roundtrip (cis : Int → Int → ℂ)
    (hcis : ∀ num den : Int, cis num den
      = ⟨Real.cos (num * Real.pi / den), Real.sin (num * Real.pi / den)⟩)
    (d1 d2 : Int) (hd : d1 = 1 ∨ d1 = -1) (h2 : d2 = -d1) (L : Nat) (hL : L ≤ 30)
    (x : Nat → ℂ) (j : Nat) (hj : j < 2 ^ L) :
    laneKernel L ((2 : Int) ^ L) 1 (tableFor cis d2 ((2 : Int) ^ L))
      (laneKernel L ((2 : Int) ^ L) 1 (tableFor cis d1 ((2 : Int) ^ L)) x) j
      = 2 ^ L * x j := by
  subst h2
  have hd2 : -d1 = 1 ∨ -d1 = -1 := by omega
  rw [laneKernel_dft_complex cis hcis (-d1) hd2 L hL _ j hj, ← dft_roundtrip L d1 hd x j hj]
  apply Finset.sum_congr rfl
  intro k hk
  rw [laneKernel_dft_complex cis hcis d1 hd L hL x k (Finset.mem_range.mp hk)]

end fftx_helper

/-!
Lemmas on the tracing session: decimal output, the emitters, and the execution
of tracing programs.
-/

namespace fftx

theorem digitChar_ne_nl (m : Nat) (h : m < 10) : Nat.digitChar m ≠ '\n' := by
  interval_cases m <;> decide

theorem toDigitsCore_nl (fuel : Nat) : ∀ (n : Nat) (ds : List Char),
    '\n' ∉ ds → '\n' ∉ Nat.toDigitsCore 10 fuel n ds := by
  induction fuel with
  | zero => intro n ds h; simpa [Nat.toDigitsCore] using h
  | succ f ih =>
    intro n ds h
    have hd : '\n' ∉ Nat.digitChar (n % 10) :: ds := by
      intro hc
      rcases List.mem_cons.1 hc with hc | hc
      · exact digitChar_ne_nl (n % 10) (Nat.mod_lt _ (by norm_num)) hc.symm
      · exact h hc
    unfold Nat.toDigitsCore
    dsimp only
    split
    · exact hd
    · exact ih _ _ hd

/-- The decimal output of a `uint64_t` or `size_t` contains no line feed. -/
theorem nat_toString_nl (n : Nat) : '\n' ∉ (toString n).data := by
  show '\n' ∉ (Nat.repr n).data
  unfold Nat.repr Nat.toDigits
  simpa [List.asString] using toDigitsCore_nl (n + 1) n [] (by simp)

/-- The decimal output of an `int` contains no line feed. -/
theorem int_toString_nl (z : Int) : '\n' ∉ (toString z).data := by
  cases z with
  | ofNat m => exact nat_toString_nl m
  | negSucc m =>
    show '\n' ∉ ("-" ++ toString (Nat.succ m)).data
    rw [String.data_append]
    intro hc
    rcases List.mem_append.1 hc with hc | hc
    · revert hc; decide
    · exact nat_toString_nl _ hc

theorem nl_append {a b : String} (ha : '\n' ∉ a.data) (hb : '\n' ∉ b.data) :
    '\n' ∉ (a ++ b).data := by
  rw [String.data_append]
  intro hc
  rcases List.mem_append.1 hc with hc | hc
  · exact ha hc
  · exact hb hc

theorem foldl_nl {α : Type} (f : String → α → String) (l : List α) :
    ∀ init : String, '\n' ∉ init.data →
      (∀ acc x, '\n' ∉ acc.data → '\n' ∉ (f acc x).data) → '\n' ∉ (l.foldl f init).data := by
  induction l with
  | nil => intro init h0 _; simpa using h0
  | cons x xs ih =>
    intro init h0 hf
    rw [List.foldl_cons]
    exact ih _ (hf _ _ h0) hf

/-- The output of a `point_t` contains no line feed. -/
theorem point_t.show_nl {DIM : Nat} (p : point_t DIM) : '\n' ∉ p.show.data := by
  unfold point_t.show
  refine nl_append (nl_append (foldl_nl _ _ _ (by decide) ?_) (int_toString_nl _)) (by decide)
  intro acc x hacc
  exact nl_append (nl_append hacc (int_toString_nl _)) (by decide)

/-- The ranges printed by `zeroEmbedBox` and `extractBox` contain no line feed. -/
theorem showRanges_nl {DIM : Nat} (b : box_t DIM) : '\n' ∉ (showRanges b).data := by
  unfold showRanges
  refine foldl_nl _ _ _ (by decide) ?_
  intro acc x hacc
  have h1 : '\n' ∉ (acc ++ "[" ++ toString (b.lo.get x) ++ ".." ++ toString (b.hi.get x)
      ++ "]").data :=
    nl_append (nl_append (nl_append (nl_append (nl_append hacc (by decide))
      (int_toString_nl _)) (by decide)) (int_toString_nl _)) (by decide)
  dsimp only
  split
  · exact nl_append h1 (by decide)
  · exact h1

/-- The output of a shift contains no line feed if the output of a `double`
contains none. -/
theorem showArray_nl {F : Type} (fmt : F → String) (hfmt : ∀ x, '\n' ∉ (fmt x).data)
    (COUNT : Nat) (arr : Nat → F) : '\n' ∉ (showArray fmt COUNT arr).data := by
  unfold showArray
  refine nl_append (foldl_nl _ _ _ (nl_append (by decide) (hfmt _)) ?_) (by decide)
  intro acc x hacc
  exact nl_append (nl_append hacc (by decide)) (hfmt _)


theorem array_t.id_eq {DIM : Nat} (a : array_t DIM) (s : Session) :
    a.id s = if s.tracing then .ok a.m_data.local else .error "assert(tracing)" := rfl

/-- The call of an operator: outside tracing the assertion of `id()` fails; in
tracing it appends one text that does not depend on the state and consists of
the padding, `TDAGNode(`, a head without line feed, the two operands and `),`
with a line feed. -/
theorem Operator.call_eq {F : Type} {D : Nat} (fmt : F → String) (o : Operator F D)
    (d i : array_t (D + 1)) :
    ∃ pad head sep : String, (pad = "   " ∨ pad = "    ") ∧ (sep = "," ∨ sep = ", ") ∧
      ((∀ x, '\n' ∉ (fmt x).data) → '\n' ∉ head.data) ∧
      ∀ s : Session, o.call fmt d i s =
        if s.tracing then
          .ok { s with out := s.out ++ (pad ++ ("TDAGNode(" ++ (head ++ ("var_" ++
            (toString d.m_data.local ++ (sep ++ ("var_" ++
              (toString i.m_data.local ++ "),\n")))))))) }
        else .error "assert(tracing)" := by
  have e1 : "   TDAGNode(TTensorI(MDDFT(" = "   " ++ ("TDAGNode(" ++ "TTensorI(MDDFT(") := by
    decide
  have e2 : ",APar, APar), var_" = ",APar, APar), " ++ "var_" := by decide
  have e3 : ",var_" = "," ++ "var_" := by decide
  have e4 : "    TDAGNode(TTensorI(MDPRDFT(" = "    " ++ ("TDAGNode(" ++ "TTensorI(MDPRDFT(") := by
    decide
  have e5 : ",APar,APar), var_" = ",APar,APar), " ++ "var_" := by decide
  have e6 : "    TDAGNode(TTensorI(IMDPRDFT(" = "    " ++ ("TDAGNode(" ++ "TTensorI(IMDPRDFT(") := by
    decide
  have e7 : "    TDAGNode(MDPRDFT(" = "    " ++ ("TDAGNode(" ++ "MDPRDFT(") := by decide
  have e8 : ",-1), var_" = ",-1), " ++ "var_" := by decide
  have e9 : "    TDAGNode(IMDPRDFT(" = "    " ++ ("TDAGNode(" ++ "IMDPRDFT(") := by decide
  have e10 : ",1), var_" = ",1), " ++ "var_" := by decide
  have e11 : "    TDAGNode(Diag(diagTensor(FDataOfs(symvar," =
      "    " ++ ("TDAGNode(" ++ "Diag(diagTensor(FDataOfs(symvar,") := by decide
  have e12 : ",0),fConst(TReal, 2, 1))), var_" = ",0),fConst(TReal, 2, 1))), " ++ "var_" := by
    decide
  have e13 : "    TDAGNode(RCDiag(FDataOfs(symvar," =
      "    " ++ ("TDAGNode(" ++ "RCDiag(FDataOfs(symvar,") := by decide
  have e14 : ",0)), var_" = ",0)), " ++ "var_" := by decide
  have e15 : "    TDAGNode(ZeroEmbedBox(" = "    " ++ ("TDAGNode(" ++ "ZeroEmbedBox(") := by decide
  have e16 : "]), var_" = "]), " ++ "var_" := by decide
  have e17 : "    TDAGNode(ExtractBox(" = "    " ++ ("TDAGNode(" ++ "ExtractBox(") := by decide
  have e18 : "    TDAGNode(TResample(" = "    " ++ ("TDAGNode(" ++ "TResample(") := by decide
  have e19 : "    TDAGNode(TGath(fBox(" = "    " ++ ("TDAGNode(" ++ "TGath(fBox(") := by decide
  have e20 : ")),var_" = "))," ++ "var_" := by decide
  have e21 : ", var_" = ", " ++ "var_" := by decide
  cases o with
  | MDDFT extents batch =>
    refine ⟨"   ", "TTensorI(MDDFT(" ++ (extents.show ++ (",-1)," ++ (toString batch
      ++ ",APar, APar), "))), ",", Or.inl rfl, Or.inl rfl, fun _ => ?_, fun s => ?_⟩
    · exact nl_append (by decide) (nl_append (point_t.show_nl _) (nl_append (by decide)
        (nl_append (int_toString_nl _) (by decide))))
    · cases hs : s.tracing <;>
        simp only [Operator.call, fftx.MDDFT, array_t.id_eq, hs, e1, e2, e3,
          String.append_assoc] <;> rfl
  | IMDDFT extents batch =>
    refine ⟨"   ", "TTensorI(MDDFT(" ++ (extents.show ++ (",1)," ++ (toString batch
      ++ ",APar, APar), "))), ",", Or.inl rfl, Or.inl rfl, fun _ => ?_, fun s => ?_⟩
    · exact nl_append (by decide) (nl_append (point_t.show_nl _) (nl_append (by decide)
        (nl_append (int_toString_nl _) (by decide))))
    · cases hs : s.tracing <;>
        simp only [Operator.call, fftx.IMDDFT, array_t.id_eq, hs, e1, e2, e3,
          String.append_assoc] <;> rfl
  | MDPRDFT extent batch =>
    refine ⟨"    ", "TTensorI(MDPRDFT(" ++ (extent.show ++ (",-1)," ++ (toString batch
      ++ ",APar,APar), "))), ",", Or.inr rfl, Or.inl rfl, fun _ => ?_, fun s => ?_⟩
    · exact nl_append (by decide) (nl_append (point_t.show_nl _) (nl_append (by decide)
        (nl_append (int_toString_nl _) (by decide))))
    · cases hs : s.tracing <;>
        simp only [Operator.call, fftx.MDPRDFT, array_t.id_eq, hs, e4, e5, e3,
          String.append_assoc] <;> rfl
  | IMDPRDFT extent batch =>
    refine ⟨"    ", "TTensorI(IMDPRDFT(" ++ (extent.show ++ (",1)," ++ (toString batch
      ++ ",APar,APar), "))), ",", Or.inr rfl, Or.inl rfl, fun _ => ?_, fun s => ?_⟩
    · exact nl_append (by decide) (nl_append (point_t.show_nl _) (nl_append (by decide)
        (nl_append (int_toString_nl _) (by decide))))
    · cases hs : s.tracing <;>
        simp only [Operator.call, fftx.IMDPRDFT, array_t.id_eq, hs, e6, e5, e3,
          String.append_assoc] <;> rfl
  | PRDFT extent =>
    refine ⟨"    ", "MDPRDFT(" ++ (extent.show ++ ",-1), "), ",", Or.inr rfl, Or.inl rfl,
      fun _ => ?_, fun s => ?_⟩
    · exact nl_append (by decide) (nl_append (point_t.show_nl _) (by decide))
    · cases hs : s.tracing <;>
        simp only [Operator.call, fftx.PRDFT, array_t.id_eq, hs, e7, e8, e3,
          String.append_assoc] <;> rfl
  | IPRDFT extent =>
    refine ⟨"    ", "IMDPRDFT(" ++ (extent.show ++ ",1), "), ",", Or.inr rfl, Or.inl rfl,
      fun _ => ?_, fun s => ?_⟩
    · exact nl_append (by decide) (nl_append (point_t.show_nl _) (by decide))
    · cases hs : s.tracing <;>
        simp only [Operator.call, fftx.IPRDFT, array_t.id_eq, hs, e9, e10, e3,
          String.append_assoc] <;> rfl
  | kernel symbol =>
    refine ⟨"    ", "Diag(diagTensor(FDataOfs(symvar," ++ (toString symbol.m_domain.size
      ++ ",0),fConst(TReal, 2, 1))), "), ",", Or.inr rfl, Or.inl rfl, fun _ => ?_, fun s => ?_⟩
    · exact nl_append (by decide) (nl_append (nat_toString_nl _) (by decide))
    · cases hs : s.tracing <;>
        simp only [Operator.call, fftx.kernel, array_t.id_eq, hs, e11, e12, e3,
          String.append_assoc] <;> rfl
  | kernelComplex symbol =>
    refine ⟨"    ", "RCDiag(FDataOfs(symvar," ++ (toString ((2 * symbol.m_domain.size) % 2 ^ 64)
      ++ ",0)), "), ",", Or.inr rfl, Or.inl rfl, fun _ => ?_, fun s => ?_⟩
    · exact nl_append (by decide) (nl_append (nat_toString_nl _) (by decide))
    · cases hs : s.tracing <;>
        simp only [Operator.call, fftx.kernelComplex, array_t.id_eq, hs, e13, e14, e3,
          String.append_assoc] <;> rfl
  | zeroEmbedBox =>
    refine ⟨"    ", "ZeroEmbedBox(" ++ (d.m_domain.extents.show ++ (",[" ++
      (showRanges i.m_domain ++ "]), "))), ",", Or.inr rfl, Or.inl rfl, fun _ => ?_, fun s => ?_⟩
    · exact nl_append (by decide) (nl_append (point_t.show_nl _) (nl_append (by decide)
        (nl_append (showRanges_nl _) (by decide))))
    · cases hs : s.tracing <;>
        simp only [Operator.call, fftx.zeroEmbedBox, array_t.id_eq, hs, e15, e16, e3,
          String.append_assoc] <;> rfl
  | extractBox =>
    refine ⟨"    ", "ExtractBox(" ++ (i.m_domain.extents.show ++ (",[" ++
      (showRanges d.m_domain ++ "]), "))), ",", Or.inr rfl, Or.inl rfl, fun _ => ?_, fun s => ?_⟩
    · exact nl_append (by decide) (nl_append (point_t.show_nl _) (nl_append (by decide)
        (nl_append (showRanges_nl _) (by decide))))
    · cases hs : s.tracing <;>
        simp only [Operator.call, fftx.extractBox, array_t.id_eq, hs, e17, e16, e3,
          String.append_assoc] <;> rfl
  | resample shift =>
    refine ⟨"    ", "TResample(" ++ (d.m_domain.extents.show ++ ("," ++
      (i.m_domain.extents.show ++ ("," ++ (showArray fmt (D + 1) shift ++ "),"))))), ",",
      Or.inr rfl, Or.inl rfl, fun hfmt => ?_, fun s => ?_⟩
    · exact nl_append (by decide) (nl_append (point_t.show_nl _) (nl_append (by decide)
        (nl_append (point_t.show_nl _) (nl_append (by decide)
          (nl_append (showArray_nl fmt hfmt _ _) (by decide))))))
    · cases hs : s.tracing <;>
        simp only [Operator.call, fftx.resample, array_t.id_eq, hs, e18,
          String.append_assoc] <;> rfl
  | copy =>
    refine ⟨"    ", "TGath(fBox(" ++ (i.m_domain.extents.show ++ ")),"), ", ",
      Or.inr rfl, Or.inr rfl, fun _ => ?_, fun s => ?_⟩
    · exact nl_append (by decide) (nl_append (point_t.show_nl _) (by decide))
    · cases hs : s.tracing <;>
        simp only [Operator.call, fftx.copy, array_t.id_eq, hs, e19, e20, e21,
          String.append_assoc] <;> rfl


/-- The call of an operator appends, in tracing, one text that does not depend
on the state. -/
theorem Operator.call_text {F : Type} {D : Nat} (fmt : F → String) (o : Operator F D)
    (d i : array_t (D + 1)) :
    ∃ line : String, ∀ s : Session, o.call fmt d i s =
      if s.tracing then .ok { s with out := s.out ++ line } else .error "assert(tracing)" := by
  obtain ⟨pad, head, sep, _, _, _, heq⟩ := Operator.call_eq fmt o d i
  exact ⟨_, heq⟩

/-- The constructor from a box in tracing. -/
theorem array_t.ofBox_tracing {DIM : Nat} (a_box : box_t DIM) (s : Session)
    (h : s.tracing = true) :
    array_t.ofBox a_box s =
      (⟨0, global_ptr.ofPtr s.ID, a_box⟩,
        { s with
          out := s.out ++ ("var_" ++ (toString s.ID ++ (":= var(\"var_" ++ (toString s.ID ++
            ("\", BoxND(" ++ (a_box.extents.show ++ ", TReal));\n")))))),
          ID := (s.ID + 1) % 2 ^ 64 }) := by
  simp only [array_t.ofBox, h, String.append_assoc]
  rfl

/-- The constructor from a box outside tracing. -/
theorem array_t.ofBox_not_tracing {DIM : Nat} (a_box : box_t DIM) (s : Session)
    (h : s.tracing = false) :
    array_t.ofBox a_box s =
      (⟨s.heap.brk + 1, global_ptr.ofPtr (s.heap.brk + 1), a_box⟩,
        { s with heap := ⟨(s.heap.brk + 1, a_box.size) :: s.heap.live,
                          s.heap.brk + 1 + a_box.size⟩ }) := by
  simp only [array_t.ofBox, h]
  rfl

/-- The function `closeDAG` appends one text that does not depend on the
state, clears the flag and keeps the counter and the free store. -/
theorem closeDAG_eq {DIM : Nat} (localVars : List (array_t DIM)) (name : String) :
    ∃ x : String, ∀ s : Session,
      (closeDAG localVars name s).out = s.out ++ x ∧
      (closeDAG localVars name s).tracing = false ∧
      (closeDAG localVars name s).ID = s.ID ∧
      (closeDAG localVars name s).heap = s.heap := by
  refine ⟨"\n]),\n   [" ++ (showLocalVars localVars ++ ("]\n),\n" ++
    ("rec(XType:= TPtr(TPtr(TReal)), YType:=TPtr(TPtr(TReal)), fname:=\"" ++ (name ++
      ("_spiral\", params:= [symvar])\n" ++ (");\n" ++ ("prefix:=\"" ++ (name ++ "\";\n")))))))),
    fun s => ⟨?_, rfl, rfl, rfl⟩⟩
  simp only [closeDAG, String.append_assoc]

/-- The function `closeScalarDAG` appends one text that does not depend on the
state, clears the flag and keeps the counter and the free store. -/
theorem closeScalarDAG_eq {DIM : Nat} (a_vars : List (array_t DIM)) (name : String) :
    ∃ x : String, ∀ s : Session,
      (closeScalarDAG a_vars name s).out = s.out ++ x ∧
      (closeScalarDAG a_vars name s).tracing = false ∧
      (closeScalarDAG a_vars name s).ID = s.ID ∧
      (closeScalarDAG a_vars name s).heap = s.heap := by
  refine ⟨"\n]),\n   [" ++ (varNames a_vars ++ ("]\n),\n" ++
    ("rec(fname:=\"" ++ (name ++
      ("_spiral\", params:= [symvar])\n" ++ (");\n" ++ ("prefix:=\"" ++ (name ++ "\";\n")))))))),
    fun s => ⟨?_, rfl, rfl, rfl⟩⟩
  simp only [closeScalarDAG, closeScalarDAGNames, String.append_assoc]

theorem run_nil {F : Type} {D : Nat} (fmt : F → String)
    (st : Session × List (array_t (D + 1))) : run fmt ([] : List (Cmd F D)) st = .ok st := rfl

theorem run_cons {F : Type} {D : Nat} (fmt : F → String) (c : Cmd F D) (cs : List (Cmd F D))
    (st : Session × List (array_t (D + 1))) :
    run fmt (c :: cs) st =
      match c.step fmt st with
      | .ok st1 => run fmt cs st1
      | .error e => .error e := rfl

/-- A run that succeeds on `c :: cs` is a successful step followed by a
successful run of `cs`. -/
theorem run_cons_ok {F : Type} {D : Nat} {fmt : F → String} {c : Cmd F D} {cs : List (Cmd F D)}
    {st st2 : Session × List (array_t (D + 1))} (h : run fmt (c :: cs) st = .ok st2) :
    ∃ st1, c.step fmt st = .ok st1 ∧ run fmt cs st1 = .ok st2 := by
  rw [run_cons] at h
  cases hc : c.step fmt st with
  | error e => rw [hc] at h; cases h
  | ok st1 => rw [hc] at h; exact ⟨st1, rfl, h⟩

/-- A run that succeeds on `a ++ b` is a successful run of `a` followed by a
successful run of `b`. -/
theorem run_append_ok {F : Type} {D : Nat} {fmt : F → String} (a b : List (Cmd F D)) :
    ∀ {st st2 : Session × List (array_t (D + 1))}, run fmt (a ++ b) st = .ok st2 →
      ∃ st1, run fmt a st = .ok st1 ∧ run fmt b st1 = .ok st2 := by
  induction a with
  | nil => intro st st2 h; exact ⟨st, rfl, h⟩
  | cons c cs ih =>
    intro st st2 h
    rw [List.cons_append] at h
    obtain ⟨st1, h1, h2⟩ := run_cons_ok h
    obtain ⟨st3, h3, h4⟩ := ih h2
    refine ⟨st3, ?_, h4⟩
    rw [run_cons, h1]
    exact h3

/-- A successful run of `a` followed by a successful run of `b` is a
successful run of `a ++ b`. -/
theorem run_append_of_ok {F : Type} {D : Nat} {fmt : F → String} (a b : List (Cmd F D)) :
    ∀ {st st1 st2 : Session × List (array_t (D + 1))}, run fmt a st = .ok st1 →
      run fmt b st1 = .ok st2 → run fmt (a ++ b) st = .ok st2 := by
  induction a with
  | nil => intro st st1 st2 h1 h2; cases h1; exact h2
  | cons c cs ih =>
    intro st st1 st2 h1 h2
    obtain ⟨st3, h3, h4⟩ := run_cons_ok h1
    rw [List.cons_append, run_cons, h3]
    exact ih h4 h2

/-- A successful operator call: both descriptors exist, the operator
succeeds on them and the list of descriptors is unchanged. -/
theorem step_call_ok {F : Type} {D : Nat} {fmt : F → String} {o : Operator F D} {d i : Nat}
    {st st1 : Session × List (array_t (D + 1))}
    (h : (Cmd.call o d i).step fmt st = .ok st1) :
    ∃ a b, st.2[d]? = some a ∧ st.2[i]? = some b ∧ o.call fmt a b st.1 = .ok st1.1 ∧
      st1.2 = st.2 := by
  unfold Cmd.step at h
  cases hd : st.2[d]? with
  | none => simp [hd] at h
  | some a =>
    cases hi : st.2[i]? with
    | none => simp [hd, hi] at h
    | some b =>
      simp only [hd, hi] at h
      cases hc : o.call fmt a b st.1 with
      | error e => rw [hc] at h; cases h
      | ok s =>
        rw [hc] at h
        cases h
        exact ⟨a, b, rfl, rfl, hc, rfl⟩


theorem step_construct {F : Type} {D : Nat} (fmt : F → String) (a_box : box_t (D + 1))
    (st : Session × List (array_t (D + 1))) :
    (Cmd.construct a_box : Cmd F D).step fmt st =
      .ok ((array_t.ofBox a_box st.1).2, st.2 ++ [(array_t.ofBox a_box st.1).1]) := rfl

theorem step_closeDAG {F : Type} {D : Nat} (fmt : F → String) (localVars : List Nat)
    (name : String) (st : Session × List (array_t (D + 1))) :
    (Cmd.closeDAG localVars name : Cmd F D).step fmt st =
      match localVars.mapM (fun v => st.2[v]?) with
      | some vs => .ok (closeDAG vs name st.1, st.2)
      | none => .error "unbound descriptor" := rfl

theorem step_closeScalarDAG {F : Type} {D : Nat} (fmt : F → String) (a_vars : List Nat)
    (name : String) (st : Session × List (array_t (D + 1))) :
    (Cmd.closeScalarDAG a_vars name : Cmd F D).step fmt st =
      match a_vars.mapM (fun v => st.2[v]?) with
      | some vs => .ok (closeScalarDAG vs name st.1, st.2)
      | none => .error "unbound descriptor" := rfl

/-- A successful statement other than a construction keeps the counter, the
free store and the descriptors, and appends to the text. -/
theorem step_frame {F : Type} {D : Nat} {fmt : F → String} {c : Cmd F D}
    {st st1 : Session × List (array_t (D + 1))} (h : c.step fmt st = .ok st1)
    (hc : ∀ a_box, c ≠ .construct a_box) :
    st1.1.ID = st.1.ID ∧ st1.1.heap = st.1.heap ∧ st1.2 = st.2 ∧
      ∃ x, st1.1.out = st.1.out ++ x := by
  cases c with
  | setTracing b =>
    cases h
    exact ⟨rfl, rfl, rfl, "", (String.append_empty _).symm⟩
  | construct a_box => exact absurd rfl (hc a_box)
  | call o d i =>
    obtain ⟨a, b, _, _, hcall, henv⟩ := step_call_ok h
    obtain ⟨pad, head, sep, _, _, _, heq⟩ := Operator.call_eq fmt o a b
    rw [heq] at hcall
    cases hs : st.1.tracing with
    | false => rw [hs] at hcall; cases hcall
    | true =>
      rw [hs] at hcall
      simp only [if_true] at hcall
      have h1 := (Except.ok.inj hcall).symm
      rw [h1]
      exact ⟨rfl, rfl, henv, _, rfl⟩
  | closeDAG localVars name =>
    rw [step_closeDAG] at h
    split at h
    · rename_i vs _
      cases h
      obtain ⟨x, hx⟩ := closeDAG_eq vs name
      exact ⟨(hx st.1).2.2.1, (hx st.1).2.2.2, rfl, x, (hx st.1).1⟩
    · cases h
  | closeScalarDAG a_vars name =>
    rw [step_closeScalarDAG] at h
    split at h
    · rename_i vs _
      cases h
      obtain ⟨x, hx⟩ := closeScalarDAG_eq vs name
      exact ⟨(hx st.1).2.2.1, (hx st.1).2.2.2, rfl, x, (hx st.1).1⟩
    · cases h

theorem tracedIds_append {DIM : Nat} (e1 e2 : List (array_t DIM)) :
    tracedIds (e1 ++ e2) = tracedIds e1 ++ tracedIds e2 := by
  simp [tracedIds, List.filter_append]

/-- One statement keeps the numbering of the traced descriptors: with `k` the
counter at the start, the `j`-th of them (from `0`) has id `(k + j) mod 2^64` and
the counter is `(k + m) mod 2^64` after `m` of them. -/
theorem step_ids {F : Type} {D : Nat} {fmt : F → String} (k : Nat) {c : Cmd F D}
    {st st1 : Session × List (array_t (D + 1))} (h : c.step fmt st = .ok st1)
    (hID : st.1.ID = (k + (tracedIds st.2).length) % 2 ^ 64)
    (hids : tracedIds st.2 =
      (List.range (tracedIds st.2).length).map (fun j => (k + j) % 2 ^ 64)) :
    st1.1.ID = (k + (tracedIds st1.2).length) % 2 ^ 64 ∧
      tracedIds st1.2 =
        (List.range (tracedIds st1.2).length).map (fun j => (k + j) % 2 ^ 64) := by
  by_cases hc : ∃ a_box, c = .construct a_box
  · obtain ⟨a_box, rfl⟩ := hc
    rw [step_construct] at h
    cases h
    cases hs : st.1.tracing with
    | true =>
      have e : tracedIds (st.2 ++ [(array_t.ofBox a_box st.1).1]) =
          tracedIds st.2 ++ [st.1.ID] := by
        rw [tracedIds_append, array_t.ofBox_tracing a_box st.1 hs]
        simp [tracedIds, global_ptr.local, global_ptr.ofPtr]
      simp only [e, List.length_append, List.length_singleton]
      constructor
      · rw [array_t.ofBox_tracing a_box st.1 hs]
        show (st.1.ID + 1) % 2 ^ 64 = _
        rw [hID, Nat.mod_add_mod, Nat.add_assoc]
      · rw [List.range_succ, List.map_append, ← hids, List.map_singleton, hID]
    | false =>
      have e : tracedIds (st.2 ++ [(array_t.ofBox a_box st.1).1]) = tracedIds st.2 := by
        rw [tracedIds_append, array_t.ofBox_not_tracing a_box st.1 hs]
        simp [tracedIds]
      simp only [e]
      refine ⟨?_, hids⟩
      rw [array_t.ofBox_not_tracing a_box st.1 hs]
      exact hID
  · have hc2 : ∀ a_box, c ≠ .construct a_box := fun a_box he => hc ⟨a_box, he⟩
    obtain ⟨h1, _, h3, _⟩ := step_frame h hc2
    rw [h1, h3]
    exact ⟨hID, hids⟩

/-- A run keeps the numbering of the traced descriptors. -/
theorem run_ids {F : Type} {D : Nat} {fmt : F → String} (k : Nat) (cs : List (Cmd F D)) :
    ∀ {st st1 : Session × List (array_t (D + 1))}, run fmt cs st = .ok st1 →
      st.1.ID = (k + (tracedIds st.2).length) % 2 ^ 64 →
      tracedIds st.2 = (List.range (tracedIds st.2).length).map (fun j => (k + j) % 2 ^ 64) →
      st1.1.ID = (k + (tracedIds st1.2).length) % 2 ^ 64 ∧
        tracedIds st1.2 =
          (List.range (tracedIds st1.2).length).map (fun j => (k + j) % 2 ^ 64) := by
  induction cs with
  | nil => intro st st1 h hID hids; cases h; exact ⟨hID, hids⟩
  | cons c cs ih =>
    intro st st1 h hID hids
    obtain ⟨st2, h1, h2⟩ := run_cons_ok h
    obtain ⟨hID2, hids2⟩ := step_ids k h1 hID hids
    exact ih h2 hID2 hids2

/-- The run of `n` constructions in tracing: the descriptors get the ids
`(ID + j) mod 2^64` and the counter ends at `(ID + n) mod 2^64`. -/
theorem run_replicate_construct {F : Type} {D : Nat} (fmt : F → String)
    (a_box : box_t (D + 1)) (n : Nat) :
    ∀ (s : Session) (env : List (array_t (D + 1))), s.tracing = true → s.ID < 2 ^ 64 →
      ∃ s1, run fmt (List.replicate n (Cmd.construct a_box : Cmd F D)) (s, env) =
          .ok (s1, env ++ (List.range n).map
            (fun j => ⟨0, global_ptr.ofPtr ((s.ID + j) % 2 ^ 64), a_box⟩)) ∧
        s1.tracing = true ∧ s1.ID = (s.ID + n) % 2 ^ 64 := by
  induction n with
  | zero =>
    intro s env hs hlt
    exact ⟨s, by rw [List.replicate_zero, List.range_zero, List.map_nil, List.append_nil]; rfl,
      hs, (Nat.mod_eq_of_lt hlt).symm⟩
  | succ n ih =>
    intro s env hs hlt
    rw [List.replicate_succ, run_cons, step_construct, array_t.ofBox_tracing a_box s hs]
    obtain ⟨s1, h1, h2, h3⟩ := ih
      { s with
        out := s.out ++ ("var_" ++ (toString s.ID ++ (":= var(\"var_" ++ (toString s.ID ++
          ("\", BoxND(" ++ (a_box.extents.show ++ ", TReal));\n")))))),
        ID := (s.ID + 1) % 2 ^ 64 }
      (env ++ [⟨0, global_ptr.ofPtr s.ID, a_box⟩]) hs (Nat.mod_lt _ (by norm_num))
    refine ⟨s1, ?_, h2, ?_⟩
    · show run fmt _ _ = _
      rw [h1]
      congr 2
      rw [List.append_assoc]
      congr 1
      rw [List.range_succ_eq_map, List.map_cons, List.map_map]
      simp only [List.singleton_append, Nat.add_zero, Nat.mod_eq_of_lt hlt]
      congr 1
      apply List.map_congr_left
      intro j _
      simp only [Function.comp]
      congr 2
      rw [Nat.mod_add_mod]
      congr 1
      omega
    · rw [h3]
      show ((s.ID + 1) % 2 ^ 64 + n) % 2 ^ 64 = _
      rw [Nat.mod_add_mod, Nat.add_assoc, Nat.add_comm 1 n]


/-- The constructor from a box in tracing appends the declaration line. -/
theorem array_t.ofBox_tracing_declaration {DIM : Nat} (a_box : box_t DIM) (s : Session)
    (h : s.tracing = true) :
    array_t.ofBox a_box s =
      (⟨0, global_ptr.ofPtr s.ID, a_box⟩,
        { s with out := s.out ++ declaration s.ID a_box, ID := (s.ID + 1) % 2 ^ 64 }) := by
  rw [array_t.ofBox_tracing a_box s h]
  simp only [declaration, String.append_assoc]

/-- The descriptors are never removed by a statement. -/
theorem step_length_le {F : Type} {D : Nat} {fmt : F → String} {c : Cmd F D}
    {st st1 : Session × List (array_t (D + 1))} (h : c.step fmt st = .ok st1) :
    st.2.length ≤ st1.2.length := by
  by_cases hc : ∃ a_box, c = .construct a_box
  · obtain ⟨a_box, rfl⟩ := hc
    rw [step_construct] at h
    cases h
    simp
  · have hc2 : ∀ a_box, c ≠ .construct a_box := fun a_box he => hc ⟨a_box, he⟩
    rw [(step_frame h hc2).2.2.1]

/-- The descriptors are never removed by a run. -/
theorem run_length_le {F : Type} {D : Nat} {fmt : F → String} (cs : List (Cmd F D)) :
    ∀ {st st1 : Session × List (array_t (D + 1))}, run fmt cs st = .ok st1 →
      st.2.length ≤ st1.2.length := by
  induction cs with
  | nil => intro st st1 h; cases h; exact le_rfl
  | cons c cs ih =>
    intro st st1 h
    obtain ⟨st2, h1, h2⟩ := run_cons_ok h
    exact le_trans (step_length_le h1) (ih h2)

/-- A construction or an operator call keeps the invariant of a tracing
program, and appends to the text. -/
theorem step_traceInv {F : Type} {D : Nat} {fmt : F → String} {c : Cmd F D}
    (hc : c.isTraceStep = true) {st st1 : Session × List (array_t (D + 1))}
    (h : c.step fmt st = .ok st1) (k : Nat) (base : String)
    (hlt : k + st1.2.length < 2 ^ 64) (hinv : TraceInv k base st) :
    TraceInv k base st1 ∧ ∃ x, st1.1.out = st.1.out ++ x := by
  obtain ⟨htr, hID, ⟨t, ht⟩, henv⟩ := hinv
  cases c with
  | setTracing b => cases hc
  | closeDAG localVars name => cases hc
  | closeScalarDAG a_vars name => cases hc
  | construct a_box =>
    rw [step_construct, array_t.ofBox_tracing_declaration a_box st.1 htr] at h
    cases h
    have hlen : k + (st.2.length + 1) < 2 ^ 64 := by simpa using hlt
    refine ⟨⟨htr, ?_, ⟨t ++ declaration st.1.ID a_box, ?_⟩, ?_⟩, _, rfl⟩
    · show (st.1.ID + 1) % 2 ^ 64 = k + (st.2 ++ [_]).length
      rw [List.length_append, List.length_singleton, hID, Nat.mod_eq_of_lt (by omega)]
      omega
    · show st.1.out ++ declaration st.1.ID a_box = _
      rw [ht, String.append_assoc]
    · intro j a hj
      show _ ∧ _ ∧ Declared base (st.1.out ++ declaration st.1.ID a_box) (k + j) a.m_domain
      by_cases hjl : j < st.2.length
      · rw [List.getElem?_append_left hjl] at hj
        obtain ⟨h1, h2, u, v, h3⟩ := henv j a hj
        refine ⟨h1, h2, u, v ++ declaration st.1.ID a_box, ?_⟩
        rw [h3]
        simp only [String.append_assoc]
      · have hjl2 : st.2.length ≤ j := Nat.le_of_not_lt hjl
        rw [List.getElem?_append_right hjl2] at hj
        have hj0 : j - st.2.length = 0 := by
          by_contra hne
          rw [List.getElem?_eq_none (by simp; omega)] at hj
          cases hj
        rw [hj0] at hj
        have ha : a = ⟨0, global_ptr.ofPtr st.1.ID, a_box⟩ := by
          simpa using hj.symm
        have hjeq : j = st.2.length := by omega
        subst ha
        refine ⟨rfl, ?_, t, "", ?_⟩
        · show st.1.ID = k + j
          rw [hID, hjeq]
        · show st.1.out ++ declaration st.1.ID a_box = _
          rw [ht, hjeq, ← hID, String.append_empty]
          exact String.append_assoc _ _ _
  | call o d i =>
    obtain ⟨a, b, _, _, hcall, henv1⟩ := step_call_ok h
    obtain ⟨line, heq⟩ := Operator.call_text fmt o a b
    rw [heq, htr] at hcall
    simp only [if_true] at hcall
    have h1 := (Except.ok.inj hcall).symm
    refine ⟨⟨?_, ?_, ⟨t ++ line, ?_⟩, ?_⟩, line, ?_⟩
    · rw [h1]
    · rw [h1, henv1]; exact hID
    · rw [h1]
      show st.1.out ++ line = _
      rw [ht, String.append_assoc]
    · intro j a1 hj
      rw [henv1] at hj
      obtain ⟨h2, h3, u, v, h4⟩ := henv j a1 hj
      refine ⟨h2, h3, u, v ++ line, ?_⟩
      rw [h1]
      show st.1.out ++ line = _
      rw [h4]
      simp only [String.append_assoc]
    · rw [h1]

/-- A run of constructions and operator calls keeps the invariant of a
tracing program, and appends to the text. -/
theorem run_traceInv {F : Type} {D : Nat} {fmt : F → String} (cs : List (Cmd F D)) :
    ∀ {st st1 : Session × List (array_t (D + 1))}, (∀ c ∈ cs, c.isTraceStep = true) →
      run fmt cs st = .ok st1 → ∀ (k : Nat) (base : String), k + st1.2.length < 2 ^ 64 →
      TraceInv k base st → TraceInv k base st1 ∧ ∃ x, st1.1.out = st.1.out ++ x := by
  induction cs with
  | nil =>
    intro st st1 _ h k base _ hinv
    cases h
    exact ⟨hinv, "", (String.append_empty _).symm⟩
  | cons c cs ih =>
    intro st st1 hcs h k base hlt hinv
    obtain ⟨st2, h1, h2⟩ := run_cons_ok h
    have hlt2 : k + st2.2.length < 2 ^ 64 :=
      lt_of_le_of_lt (Nat.add_le_add_left (run_length_le cs h2) k) hlt
    obtain ⟨hinv2, x, hx⟩ :=
      step_traceInv (hcs c (List.mem_cons_self _ _)) h1 k base hlt2 hinv
    obtain ⟨hinv3, y, hy⟩ :=
      ih (fun c1 hc1 => hcs c1 (List.mem_cons_of_mem _ hc1)) h2 k base hlt hinv2
    refine ⟨hinv3, x ++ y, ?_⟩
    rw [hy, hx, String.append_assoc]

/-- The state at the start of a tracing program satisfies the invariant. -/
theorem traceInv_start {DIM : Nat} (s : Session) (h : s.tracing = true) :
    TraceInv s.ID s.out ((s, []) : Session × List (array_t DIM)) := by
  refine ⟨h, rfl, ⟨"", (String.append_empty _).symm⟩, ?_⟩
  intro j a hj
  simp at hj

/-- One statement emits the same text, and has the same effect on the flag,
the counter, the free store and the descriptors, from two states that agree on
the flag, the counter and the free store. -/
theorem step_agree {F : Type} {D : Nat} {fmt : F → String} {c : Cmd F D} {s t : Session}
    {env : List (array_t (D + 1))} {st1 : Session × List (array_t (D + 1))}
    (htr : s.tracing = t.tracing) (hID : s.ID = t.ID) (hheap : s.heap = t.heap)
    (h : c.step fmt (s, env) = .ok st1) :
    ∃ (t1 : Session) (x : String), c.step fmt (t, env) = .ok (t1, st1.2) ∧
      st1.1.out = s.out ++ x ∧ t1.out = t.out ++ x ∧
      st1.1.tracing = t1.tracing ∧ st1.1.ID = t1.ID ∧ st1.1.heap = t1.heap := by
  cases c with
  | setTracing b =>
    cases h
    exact ⟨{ t with tracing := b }, "", rfl, (String.append_empty _).symm,
      (String.append_empty _).symm, rfl, hID, hheap⟩
  | construct a_box =>
    rw [step_construct] at h
    cases h
    rw [step_construct]
    cases hs : s.tracing with
    | true =>
      have ht : t.tracing = true := by rw [← htr, hs]
      rw [array_t.ofBox_tracing_declaration a_box s hs,
        array_t.ofBox_tracing_declaration a_box t ht]
      refine ⟨{ t with out := t.out ++ declaration t.ID a_box, ID := (t.ID + 1) % 2 ^ 64 },
        declaration s.ID a_box, ?_, rfl, ?_, htr, ?_, hheap⟩
      · show Except.ok _ = Except.ok _
        rw [hID]
      · show t.out ++ declaration t.ID a_box = _
        rw [hID]
      · show (s.ID + 1) % 2 ^ 64 = (t.ID + 1) % 2 ^ 64
        rw [hID]
    | false =>
      have ht : t.tracing = false := by rw [← htr, hs]
      rw [array_t.ofBox_not_tracing a_box s hs, array_t.ofBox_not_tracing a_box t ht]
      refine ⟨{ t with heap := ⟨(t.heap.brk + 1, a_box.size) :: t.heap.live,
          t.heap.brk + 1 + a_box.size⟩ }, "", ?_, (String.append_empty _).symm,
        (String.append_empty _).symm, htr, hID, ?_⟩
      · show Except.ok _ = Except.ok _
        rw [hheap]
      · show Heap.mk _ _ = Heap.mk _ _
        rw [hheap]
  | call o d i =>
    obtain ⟨a, b, ha, hb, hcall, henv1⟩ := step_call_ok h
    obtain ⟨line, heq⟩ := Operator.call_text fmt o a b
    have hcall2 := heq s
    rw [hcall] at hcall2
    have hcallt := heq t
    cases hs : s.tracing with
    | false => rw [hs] at hcall2; cases hcall2
    | true =>
      have ht : t.tracing = true := by rw [← htr, hs]
      rw [if_pos hs] at hcall2
      rw [if_pos ht] at hcallt
      have h1 := Except.ok.inj hcall2
      refine ⟨{ t with out := t.out ++ line }, line, ?_, ?_, rfl, ?_, ?_, ?_⟩
      · show (Cmd.call o d i).step fmt (t, env) = _
        unfold Cmd.step
        simp only [ha, hb, hcallt, henv1]
      · rw [h1]
      · rw [h1]; exact htr
      · rw [h1]; exact hID
      · rw [h1]; exact hheap
  | closeDAG localVars name =>
    rw [step_closeDAG] at h
    rw [step_closeDAG]
    split at h
    · rename_i vs hvs
      cases h
      obtain ⟨x, hx⟩ := closeDAG_eq vs name
      refine ⟨closeDAG vs name t, x, ?_, (hx s).1, (hx t).1, ?_, ?_, ?_⟩
      · show (match localVars.mapM (fun v => env[v]?) with
          | some vs => Except.ok (closeDAG vs name t, env)
          | none => Except.error "unbound descriptor") = _
        rw [show localVars.mapM (fun v => env[v]?) = some vs from hvs]
      · rw [(hx s).2.1, (hx t).2.1]
      · rw [(hx s).2.2.1, (hx t).2.2.1]; exact hID
      · rw [(hx s).2.2.2, (hx t).2.2.2]; exact hheap
    · cases h
  | closeScalarDAG a_vars name =>
    rw [step_closeScalarDAG] at h
    rw [step_closeScalarDAG]
    split at h
    · rename_i vs hvs
      cases h
      obtain ⟨x, hx⟩ := closeScalarDAG_eq vs name
      refine ⟨closeScalarDAG vs name t, x, ?_, (hx s).1, (hx t).1, ?_, ?_, ?_⟩
      · show (match a_vars.mapM (fun v => env[v]?) with
          | some vs => Except.ok (closeScalarDAG vs name t, env)
          | none => Except.error "unbound descriptor") = _
        rw [show a_vars.mapM (fun v => env[v]?) = some vs from hvs]
      · rw [(hx s).2.1, (hx t).2.1]
      · rw [(hx s).2.2.1, (hx t).2.2.1]; exact hID
      · rw [(hx s).2.2.2, (hx t).2.2.2]; exact hheap
    · cases h

/-- A run emits the same text, and has the same effect on the flag, the
counter, the free store and the descriptors, from two states that agree on the
flag, the counter and the free store. -/
theorem run_agree {F : Type} {D : Nat} {fmt : F → String} (cs : List (Cmd F D)) :
    ∀ {s t : Session} {env : List (array_t (D + 1))}
      {st1 : Session × List (array_t (D + 1))},
      s.tracing = t.tracing → s.ID = t.ID → s.heap = t.heap →
      run fmt cs (s, env) = .ok st1 →
      ∃ (t1 : Session) (x : String), run fmt cs (t, env) = .ok (t1, st1.2) ∧
        st1.1.out = s.out ++ x ∧ t1.out = t.out ++ x ∧
        st1.1.tracing = t1.tracing ∧ st1.1.ID = t1.ID ∧ st1.1.heap = t1.heap := by
  induction cs with
  | nil =>
    intro s t env st1 htr hID hheap h
    cases h
    exact ⟨t, "", rfl, (String.append_empty _).symm, (String.append_empty _).symm,
      htr, hID, hheap⟩
  | cons c cs ih =>
    intro s t env st1 htr hID hheap h
    obtain ⟨st2, h1, h2⟩ := run_cons_ok h
    obtain ⟨t2, x, hx1, hx2, hx3, hx4, hx5, hx6⟩ := step_agree htr hID hheap h1
    obtain ⟨t3, y, hy1, hy2, hy3, hy4, hy5, hy6⟩ :=
      @ih st2.1 t2 st2.2 st1 hx4 hx5 hx6 h2
    refine ⟨t3, x ++ y, ?_, ?_, ?_, hy4, hy5, hy6⟩
    · rw [run_cons, hx1]
      exact hy1
    · rw [hy2, hx2, String.append_assoc]
    · rw [hy3, hx3, String.append_assoc]

end fftx

/-!
Lemmas for the claims on the problem scripts, the closing calls and the element
loops.
-/

namespace fftx

theorem toDigitsCore_not_mem (c : Char) (hc : ∀ m, m < 10 → Nat.digitChar m ≠ c) (fuel : Nat) :
    ∀ (n : Nat) (ds : List Char), c ∉ ds → c ∉ Nat.toDigitsCore 10 fuel n ds := by
  induction fuel with
  | zero => intro n ds h; simpa [Nat.toDigitsCore] using h
  | succ f ih =>
    intro n ds h
    have hd : c ∉ Nat.digitChar (n % 10) :: ds := by
      intro hm
      rcases List.mem_cons.1 hm with hm | hm
      · exact hc (n % 10) (Nat.mod_lt _ (by norm_num)) hm.symm
      · exact h hm
    unfold Nat.toDigitsCore
    dsimp only
    split
    · exact hd
    · exact ih _ _ hd

/-- A character that is not a decimal digit does not occur in the output of a
`size_t` or `uint64_t`. -/
theorem nat_toString_not_mem (c : Char) (hc : ∀ m, m < 10 → Nat.digitChar m ≠ c) (n : Nat) :
    c ∉ (toString n).data := by
  show c ∉ (Nat.repr n).data
  unfold Nat.repr Nat.toDigits
  simpa [List.asString] using toDigitsCore_not_mem c hc (n + 1) n [] (by simp)

/-- A character that is neither a decimal digit nor the minus sign does not
occur in the output of an `int`. -/
theorem int_toString_not_mem (c : Char) (hc : ∀ m, m < 10 → Nat.digitChar m ≠ c)
    (hm : c ≠ '-') (z : Int) : c ∉ (toString z).data := by
  cases z with
  | ofNat m => exact nat_toString_not_mem c hc m
  | negSucc m =>
    show c ∉ ("-" ++ toString (Nat.succ m)).data
    rw [String.data_append]
    intro h
    rcases List.mem_append.1 h with h | h
    · have : c = '-' := by simpa using h
      exact hm this
    · exact nat_toString_not_mem c hc _ h

theorem not_mem_append {c : Char} {a b : String} (ha : c ∉ a.data) (hb : c ∉ b.data) :
    c ∉ (a ++ b).data := by
  rw [String.data_append]
  intro h
  rcases List.mem_append.1 h with h | h
  · exact ha h
  · exact hb h

theorem foldl_not_mem {α : Type} (c : Char) (f : String → α → String) (l : List α) :
    ∀ init : String, c ∉ init.data →
      (∀ acc x, c ∉ acc.data → c ∉ (f acc x).data) → c ∉ (l.foldl f init).data := by
  induction l with
  | nil => intro init h0 _; simpa using h0
  | cons x xs ih =>
    intro init h0 hf
    rw [List.foldl_cons]
    exact ih _ (hf _ _ h0) hf

/-- The letter `V` does not occur in the output of a `point_t`. -/
theorem point_t.show_no_V {DIM : Nat} (p : point_t DIM) : 'V' ∉ p.show.data := by
  have hc : ∀ m, m < 10 → Nat.digitChar m ≠ 'V' := by decide
  unfold point_t.show
  refine not_mem_append (not_mem_append (foldl_not_mem _ _ _ _ (by decide) ?_)
    (int_toString_not_mem _ hc (by decide) _)) (by decide)
  intro acc x hacc
  exact not_mem_append (not_mem_append hacc (int_toString_not_mem _ hc (by decide) _))
    (by decide)

/-- A text that contains `AVec` contains the letter `V`. -/
theorem V_mem_of_AVec (u v : String) : 'V' ∈ (u ++ "AVec" ++ v).data := by
  rw [String.data_append, String.data_append]
  apply List.mem_append_left
  apply List.mem_append_right
  decide

theorem String.append_left_cancel {a b c : String} (h : a ++ b = a ++ c) : b = c := by
  have h1 := congrArg String.data h
  rw [String.data_append, String.data_append] at h1
  exact String.ext (List.append_cancel_left h1)

/-- The variables printed by `closeDAG`: the names `var_<id>`, in the order of
the list, separated by a comma and a blank. -/
theorem showLocalVars_eq {DIM : Nat} (localVars : List (array_t DIM)) :
    showLocalVars localVars =
      String.intercalate ", " (localVars.map (fun v => "var_" ++ toString v.m_data.local)) := by
  have e : ", var_" = ", " ++ "var_" := by decide
  have hgo : ∀ (vs : List (array_t DIM)) (acc : String),
      vs.foldl (fun out w => out ++ ", var_" ++ toString w.m_data.local) acc =
        String.intercalate.go acc ", " (vs.map (fun v => "var_" ++ toString v.m_data.local)) := by
    intro vs
    induction vs with
    | nil => intro acc; rfl
    | cons w ws ih =>
      intro acc
      rw [List.foldl_cons, List.map_cons, ih]
      show _ = String.intercalate.go (acc ++ ", " ++ ("var_" ++ toString w.m_data.local)) ", " _
      rw [e]
      simp only [String.append_assoc]
  cases localVars with
  | nil => rfl
  | cons v vs => exact hgo vs _

/-- The text of `BATCH1DDFTProblem::semantics` on a `sizes` vector with at
least four entries. -/
theorem BATCH1DDFTProblem.semantics_eq (n b r w : Int) (rest : List Int) (name : String)
    (s : Session) :
    BATCH1DDFTProblem.semantics (n :: b :: r :: w :: rest) name s =
      .ok { s with out := (s.out ++ "N := " ++ toString n ++ ";\n" ++ "B := " ++ toString b
        ++ ";\n" ++ (if r = 0 then "read := APar;\n" else "read := AVec;\n")
        ++ (if w = 0 then "write := APar;\n" else "write := AVec;\n")
        ++ "sign := -1;\n" ++ "name := \"" ++ name ++ "_spiral\";\n" ++ batch1ddft_script
        ++ "\n") } := by
  have e7 : ";\n" = ";" ++ "\n" := by decide
  have e5 : "sign := -1;\n" = "sign := -1;" ++ "\n" := by decide
  have e8 : "_spiral\";\n" = "_spiral" ++ ("\";" ++ "\n") := by decide
  have e9 : "read := APar;\n" = "read := APar;" ++ "\n" := by decide
  have e10 : "read := AVec;\n" = "read := AVec;" ++ "\n" := by decide
  have e11 : "write := APar;\n" = "write := APar;" ++ "\n" := by decide
  have e12 : "write := AVec;\n" = "write := AVec;" ++ "\n" := by decide
  have v0 : vectorAt (n :: b :: r :: w :: rest) 0 = .ok n := rfl
  have v1 : vectorAt (n :: b :: r :: w :: rest) 1 = .ok b := rfl
  have v2 : vectorAt (n :: b :: r :: w :: rest) 2 = .ok r := rfl
  have v3 : vectorAt (n :: b :: r :: w :: rest) 3 = .ok w := by
    simp only [vectorAt, List.getElem?_cons_succ, List.getElem?_cons_zero]
  unfold BATCH1DDFTProblem.semantics
  rw [v0, v1, v2, v3]
  simp only [bind, Except.bind, pure, Except.pure]
  by_cases hr : r = 0 <;> by_cases hw : w = 0 <;>
    simp only [hr, hw, e5, e7, e8, e9, e10, e11, e12, if_true, if_false,
      String.append_assoc]


theorem foldl_map_state {α β γ : Type} (φ : α → β) (g : α → γ → α) (g2 : β → γ → β)
    (h : ∀ st i, g2 (φ st) i = φ (g st i)) (l : List γ) :
    ∀ st, l.foldl g2 (φ st) = φ (l.foldl g st) := by
  induction l with
  | nil => intro st; rfl
  | cons x xs ih =>
    intro st
    rw [List.foldl_cons, List.foldl_cons, h, ih]

/-- The two-pointer helper, started with equal offsets, is the one-pointer
helper with the offset passed twice. -/
theorem forallHelper2_eq {DIM : Nat} {σ : Type} (f : Nat → Nat → point_t DIM → σ → σ)
    (lo hi : point_t DIM) (D : Nat) :
    ∀ st : Nat × point_t DIM × σ,
      forallHelper2 f lo hi D (st.1, st.1, st.2.1, st.2.2) =
        ((forallHelper (fun ptr p => f ptr ptr p) lo hi D st).1,
          (forallHelper (fun ptr p => f ptr ptr p) lo hi D st).1,
          (forallHelper (fun ptr p => f ptr ptr p) lo hi D st).2.1,
          (forallHelper (fun ptr p => f ptr ptr p) lo hi D st).2.2) := by
  induction D with
  | zero =>
    intro st
    unfold forallHelper2 forallHelper
    exact foldl_map_state (fun st : Nat × point_t DIM × σ => (st.1, st.1, st.2.1, st.2.2)) _ _
      (fun _ _ => rfl) _ st
  | succ D ih =>
    intro st
    unfold forallHelper2 forallHelper
    exact foldl_map_state (fun st : Nat × point_t DIM × σ => (st.1, st.1, st.2.1, st.2.2)) _ _
      (fun st i => ih (st.1, st.2.1.set (D + 1) i, st.2.2)) _ st

end fftx

namespace fftx

/-- The mixed-radix value as a sum: digit `d` has the weight
`len (d+1) * .. * len (D-1)`. -/
theorem encN_sum (c len : Nat → Nat) (D : Nat) :
    encN c len D = ∑ d in Finset.range D, c d * ∏ e in Finset.Ico (d + 1) D, len e := by
  induction D with
  | zero => simp [encN]
  | succ D ih =>
    rw [Finset.sum_range_succ, Finset.Ico_self, Finset.prod_empty, Nat.mul_one]
    show encN c len D * len D + c D = _
    rw [ih, Finset.sum_mul]
    congr 1
    apply Finset.sum_congr rfl
    intro d hd
    have hd2 : d + 1 ≤ D := Nat.succ_le_of_lt (Finset.mem_range.mp hd)
    rw [Finset.prod_Ico_succ_top hd2, Nat.mul_assoc]

/-- One step along the last axis adds one to the row-major position. -/
theorem positionInBox_succ_last {DIM : Nat} (hDIM : 1 ≤ DIM) (B : box_t DIM)
    (hB : B.ordered) (hS : B.int32) (hN : B.numPoints < 2 ^ 64) (p q : point_t DIM)
    (hp : isInBox p B = true) (hq : isInBox q B = true)
    (hpq : ∀ d, d < DIM - 1 → q.get d = p.get d)
    (hlast : q.get (DIM - 1) = p.get (DIM - 1) + 1) :
    positionInBox q B = positionInBox p B + 1 := by
  rw [positionInBox_eq hDIM p B hB hS hN hp, positionInBox_eq hDIM q B hB hS hN hq]
  obtain ⟨m, rfl⟩ : ∃ m, DIM = m + 1 := ⟨DIM - 1, by omega⟩
  simp only [Nat.add_sub_cancel] at hpq hlast
  show encN (offN q B) (lenN B) m * lenN B m + offN q B m
    = encN (offN p B) (lenN B) m * lenN B m + offN p B m + 1
  have e1 : encN (offN q B) (lenN B) m = encN (offN p B) (lenN B) m := by
    apply encN_congr
    intro d hd
    unfold offN
    rw [hpq d hd]
  have h1 := (isInBox_iff p B).mp hp m (by omega)
  have e2 : offN q B m = offN p B m + 1 := by
    unfold offN
    rw [hlast]
    omega
  rw [e1, e2]
  ring

theorem flipped_loop_get {DIM : Nat} (p : point_t DIM) (n : Nat) (rtn : point_t DIM) (e : Nat) :
    ((List.range n).foldl (fun rtn d => rtn.set d (p.get (DIM - 1 - d))) rtn).get e
      = if e < n ∧ e < DIM then p.get (DIM - 1 - e) else rtn.get e := by
  induction n with
  | zero => simp
  | succ n ih =>
    rw [List.range_succ, List.foldl_append]
    simp only [List.foldl_cons, List.foldl_nil]
    rw [point_t.get_set]
    by_cases hd : e = n
    · subst hd
      by_cases hD : e < DIM
      · simp [hD]
      · simp [hD, ih]
    · have : (e < n + 1) = (e < n) := by
        apply propext; omega
      simp [hd, ih, this]

/-- The coordinates of the flipped point. -/
theorem point_t.flipped_get {DIM : Nat} (p : point_t DIM) (d : Nat) (hd : d < DIM) :
    p.flipped.get d = p.get (DIM - 1 - d) := by
  unfold point_t.flipped
  rw [flipped_loop_get]
  simp [hd]

theorem point_t.flipped_flipped {DIM : Nat} (p : point_t DIM) : p.flipped.flipped = p := by
  apply point_t.ext_get
  intro d hd
  rw [point_t.flipped_get _ d hd, point_t.flipped_get _ _ (by omega)]
  congr 1
  omega

theorem flipped_extents_get {DIM : Nat} (B : box_t DIM) (d : Nat) (hd : d < DIM) :
    (box_t.ofCorners B.lo.flipped B.hi.flipped).extents.get d = B.extents.get (DIM - 1 - d) := by
  rw [box_t.extents_get _ d hd, box_t.extents_get _ _ (by omega)]
  show B.hi.flipped.get d - (B.lo.flipped.get d - 1) = _
  rw [point_t.flipped_get _ d hd, point_t.flipped_get _ d hd]

theorem flipped_ordered {DIM : Nat} (B : box_t DIM) (hB : B.ordered) :
    (box_t.ofCorners B.lo.flipped B.hi.flipped).ordered := by
  intro d hd
  show B.lo.flipped.get d ≤ B.hi.flipped.get d
  rw [point_t.flipped_get _ d hd, point_t.flipped_get _ d hd]
  exact hB _ (by omega)

theorem flipped_int32 {DIM : Nat} (B : box_t DIM) (hS : B.int32) :
    (box_t.ofCorners B.lo.flipped B.hi.flipped).int32 := by
  intro d hd
  show -2 ^ 31 ≤ B.lo.flipped.get d ∧ B.hi.flipped.get d < 2 ^ 31
  rw [point_t.flipped_get _ d hd, point_t.flipped_get _ d hd]
  exact hS _ (by omega)

theorem flipped_numPoints {DIM : Nat} (B : box_t DIM) :
    (box_t.ofCorners B.lo.flipped B.hi.flipped).numPoints = B.numPoints := by
  unfold box_t.numPoints
  rw [← Finset.prod_range_reflect]
  apply Finset.prod_congr rfl
  intro d hd
  have hd2 : d < DIM := Finset.mem_range.mp hd
  show B.hi.flipped.get (DIM - 1 - d) - B.lo.flipped.get (DIM - 1 - d) + 1 = _
  rw [point_t.flipped_get _ _ (by omega), point_t.flipped_get _ _ (by omega)]
  have e : DIM - 1 - (DIM - 1 - d) = d := by omega
  rw [e]

theorem flipped_isInBox {DIM : Nat} (p : point_t DIM) (B : box_t DIM) :
    isInBox p.flipped (box_t.ofCorners B.lo.flipped B.hi.flipped) = isInBox p B := by
  rw [Bool.eq_iff_iff, isInBox_iff, isInBox_iff]
  constructor
  · intro h d hd
    have := h (DIM - 1 - d) (by omega)
    rw [point_t.flipped_get _ _ (by omega)] at this
    change B.lo.flipped.get (DIM - 1 - d) ≤ _ ∧ _ ≤ B.hi.flipped.get (DIM - 1 - d) at this
    rw [point_t.flipped_get _ _ (by omega), point_t.flipped_get _ _ (by omega)] at this
    have e : DIM - 1 - (DIM - 1 - d) = d := by omega
    rw [e] at this
    exact this
  · intro h d hd
    show B.lo.flipped.get d ≤ _ ∧ _ ≤ B.hi.flipped.get d
    rw [point_t.flipped_get _ d hd, point_t.flipped_get _ d hd, point_t.flipped_get _ d hd]
    exact h _ (by omega)


theorem reverse_range_eq_map (n : Nat) :
    (List.range n).reverse = (List.range' 1 n).map (fun d => n - d) := by
  rw [List.range_eq_range', List.reverse_range', List.range'_eq_map_range, List.map_map]
  apply List.map_congr_left
  intro i _
  simp only [Function.comp]
  omega

theorem reverse_range_eq_map_range (n : Nat) :
    (List.range n).reverse = (List.range n).map (fun d => n - 1 - d) := by
  rw [List.range_eq_range', List.reverse_range', ← List.range_eq_range']
  apply List.map_congr_left
  intro i _
  omega

theorem foldl_congr_of_mem {α β : Type} (g h : α → β → α) (l : List β)
    (hgh : ∀ a b, b ∈ l → g a b = h a b) : ∀ a, l.foldl g a = l.foldl h a := by
  induction l with
  | nil => intro a; rfl
  | cons x xs ih =>
    intro a
    rw [List.foldl_cons, List.foldl_cons, hgh a x (List.mem_cons_self _ _)]
    exact ih (fun a b hb => hgh a b (List.mem_cons_of_mem _ hb)) _

/-- The column-major position is the row-major position of the flipped point
in the flipped box. -/
theorem positionInBoxCol_eq_flipped {DIM : Nat} (hDIM : 1 ≤ DIM) (p : point_t DIM)
    (B : box_t DIM) :
    positionInBoxCol p B =
      positionInBox p.flipped (box_t.ofCorners B.lo.flipped B.hi.flipped) := by
  unfold positionInBoxCol positionInBox
  simp only []
  rw [reverse_range_eq_map, List.foldl_map]
  have e0 : DIM - 1 - 0 = DIM - 1 := by omega
  have h0 : (box_t.ofCorners B.lo.flipped B.hi.flipped).lo.get 0 = B.lo.get (DIM - 1) := by
    show B.lo.flipped.get 0 = _
    rw [point_t.flipped_get _ 0 (by omega), e0]
  rw [point_t.flipped_get p 0 (by omega), e0, h0]
  apply foldl_congr_of_mem
  intro a d hd
  have hd2 : 1 ≤ d ∧ d < DIM := by
    rw [List.mem_range'_1] at hd
    omega
  have e1 : DIM - 1 - d < DIM := by omega
  have h1 : (box_t.ofCorners B.lo.flipped B.hi.flipped).lo.get d = B.lo.get (DIM - 1 - d) := by
    show B.lo.flipped.get d = _
    rw [point_t.flipped_get _ d hd2.2]
  rw [flipped_extents_get B d hd2.2, point_t.flipped_get p d hd2.2, h1]

/-- One step of the decoding loop on axis `d` of the box corresponds to the
step on axis `DIM-1-d` of the flipped box. -/
theorem flipped_step {DIM : Nat} (B : box_t DIM) (d : Nat) (hd : d < DIM)
    (sC sR : Nat × point_t DIM) (h1 : sC.1 = sR.1)
    (h2 : ∀ e, e < DIM → sC.2.get e = sR.2.get (DIM - 1 - e)) :
    (pointFromPositionStep B.lo B.extents sC d).1 =
      (pointFromPositionStep (box_t.ofCorners B.lo.flipped B.hi.flipped).lo
        (box_t.ofCorners B.lo.flipped B.hi.flipped).extents sR (DIM - 1 - d)).1 ∧
    ∀ e, e < DIM →
      (pointFromPositionStep B.lo B.extents sC d).2.get e =
        (pointFromPositionStep (box_t.ofCorners B.lo.flipped B.hi.flipped).lo
          (box_t.ofCorners B.lo.flipped B.hi.flipped).extents sR (DIM - 1 - d)).2.get
            (DIM - 1 - e) := by
  have hd1 : DIM - 1 - d < DIM := by omega
  have e1 : DIM - 1 - (DIM - 1 - d) = d := by omega
  have hlo : (box_t.ofCorners B.lo.flipped B.hi.flipped).lo.get (DIM - 1 - d) = B.lo.get d := by
    show B.lo.flipped.get (DIM - 1 - d) = _
    rw [point_t.flipped_get _ _ hd1, e1]
  have hlen : (box_t.ofCorners B.lo.flipped B.hi.flipped).extents.get (DIM - 1 - d)
      = B.extents.get d := by
    rw [flipped_extents_get B _ hd1, e1]
  unfold pointFromPositionStep
  simp only [hlo, hlen, h1, point_t.get_set, hd, hd1, and_self, if_true]
  refine ⟨trivial, ?_⟩
  intro e he
  have he1 : DIM - 1 - e < DIM := by omega
  by_cases hed : e = d
  · subst hed
    rw [if_pos ⟨rfl, he⟩, if_pos ⟨rfl, he1⟩]
  · have hne : ¬ (DIM - 1 - e = DIM - 1 - d) := by omega
    simp only [hed, hne, false_and, if_false]
    exact h2 e he

theorem flipped_loop {DIM : Nat} (B : box_t DIM) (l : List Nat) (hl : ∀ d ∈ l, d < DIM) :
    ∀ (sC sR : Nat × point_t DIM), sC.1 = sR.1 →
      (∀ e, e < DIM → sC.2.get e = sR.2.get (DIM - 1 - e)) →
      (l.foldl (pointFromPositionStep B.lo B.extents) sC).1 =
        (l.foldl (fun st d => pointFromPositionStep
          (box_t.ofCorners B.lo.flipped B.hi.flipped).lo
          (box_t.ofCorners B.lo.flipped B.hi.flipped).extents st (DIM - 1 - d)) sR).1 ∧
      ∀ e, e < DIM →
        (l.foldl (pointFromPositionStep B.lo B.extents) sC).2.get e =
          (l.foldl (fun st d => pointFromPositionStep
            (box_t.ofCorners B.lo.flipped B.hi.flipped).lo
            (box_t.ofCorners B.lo.flipped B.hi.flipped).extents st (DIM - 1 - d)) sR).2.get
              (DIM - 1 - e) := by
  induction l with
  | nil => intro sC sR h1 h2; exact ⟨h1, h2⟩
  | cons x xs ih =>
    intro sC sR h1 h2
    rw [List.foldl_cons, List.foldl_cons]
    obtain ⟨h3, h4⟩ := flipped_step B x (hl x (List.mem_cons_self _ _)) sC sR h1 h2
    exact ih (fun d hd => hl d (List.mem_cons_of_mem _ hd)) _ _ h3 h4

/-- The column-major decoding is the flipped row-major decoding in the flipped
box. -/
theorem pointFromPositionBoxCol_eq_flipped {DIM : Nat} (i : Nat) (B : box_t DIM) :
    pointFromPositionBoxCol i B =
      (pointFromPositionBox i (box_t.ofCorners B.lo.flipped B.hi.flipped)).flipped := by
  apply point_t.ext_get
  intro e he
  rw [point_t.flipped_get _ e he]
  unfold pointFromPositionBoxCol pointFromPositionBox
  simp only []
  rw [reverse_range_eq_map_range, List.foldl_map]
  exact (flipped_loop B (List.range DIM) (fun d hd => List.mem_range.mp hd)
    (i, ⟨fun _ => 0⟩) (i, ⟨fun _ => 0⟩) rfl
    (fun e _ => by simp [point_t.get])).2 e he

end fftx

namespace fftx

theorem replaceLoop_nil (pat rep : List Char) (fuel : Nat) :
    replaceLoop pat rep fuel [] = [] := by
  cases fuel <;> rfl

theorem replaceLoop_match (pat rep : List Char) (hpat : pat ≠ []) (f : Nat) (c : Char)
    (cs : List Char) (h : pat.isPrefixOf (c :: cs) = true) :
    replaceLoop pat rep (f + 1) (c :: cs) =
      rep ++ replaceLoop pat rep f ((c :: cs).drop pat.length) := by
  show (if pat ≠ [] ∧ pat.isPrefixOf (c :: cs) = true then _ else _) = _
  rw [if_pos ⟨hpat, h⟩]

theorem replaceLoop_skip (pat rep : List Char) (f : Nat) (c : Char) (cs : List Char)
    (h : ¬ pat.isPrefixOf (c :: cs) = true) :
    replaceLoop pat rep (f + 1) (c :: cs) = c :: replaceLoop pat rep f cs := by
  show (if pat ≠ [] ∧ pat.isPrefixOf (c :: cs) = true then _ else _) = _
  rw [if_neg (fun hh => h hh.2)]

/-- A run of characters in which no occurrence of the pattern starts is
copied. -/
theorem replaceLoop_run (pat rep : List Char) (v : List Char) :
    ∀ (R : List Char) (g : Nat),
      (∀ i, i < v.length → ¬ pat.isPrefixOf (v.drop i ++ R) = true) →
      v.length + R.length < g →
      replaceLoop pat rep g (v ++ R) = v ++ replaceLoop pat rep (g - v.length) R := by
  induction v with
  | nil => intro R g _ _; rfl
  | cons c v ih =>
    intro R g h hg
    obtain ⟨g1, rfl⟩ : ∃ g1, g = g1 + 1 := ⟨g - 1, by simp at hg; omega⟩
    rw [List.cons_append, replaceLoop_skip pat rep g1 c (v ++ R) (h 0 (by simp))]
    rw [ih R g1 (fun i hi => by
      have := h (i + 1) (by simp; omega)
      simpa using this) (by simp at hg; omega)]
    simp

theorem clash_not_prefix : ∀ (p t : List Char), clash p t = true →
    ∀ R : List Char, ¬ p <+: t ++ R := by
  intro p
  induction p with
  | nil => intro t h; cases t <;> simp [clash] at h
  | cons a ps ih =>
    intro t h R hp
    cases t with
    | nil => simp [clash] at h
    | cons c cs =>
      rw [List.cons_append, List.cons_prefix_cons] at hp
      simp only [clash, Bool.or_eq_true, bne_iff_ne, ne_eq] at h
      rcases h with h | h
      · exact h hp.1
      · exact ih cs h R hp.2

/-- No occurrence of the pattern starts in a run `v` that does not contain
the pattern, if the text after it excludes the occurrences that would start in
`v` and end after it. -/
theorem no_start_in (pat v R : List Char) (hinf : ¬ pat <:+: v)
    (hR : R = [] ∨ ∃ look R1, R = look ++ R1 ∧ straddleFree pat look = true) :
    ∀ i, i < v.length → ¬ pat.isPrefixOf (v.drop i ++ R) = true := by
  intro i hi hp
  rw [List.isPrefixOf_iff_prefix] at hp
  have hsuf : v.drop i <:+ v := List.drop_suffix i v
  rcases List.prefix_or_prefix_of_prefix hp (List.prefix_append (v.drop i) R) with h | h
  · exact hinf (List.IsInfix.trans h.isInfix hsuf.isInfix)
  · obtain ⟨u, hu⟩ := h
    rw [← hu, List.prefix_append_right_inj] at hp
    have hlen : (v.drop i).length = v.length - i := List.length_drop i v
    by_cases hu0 : u = []
    · rw [hu0, List.append_nil] at hu
      rw [← hu] at hinf
      exact hinf hsuf.isInfix
    · have hul : 0 < u.length := List.length_pos.mpr hu0
      have hpl : pat.length = (v.drop i).length + u.length := by
        rw [← hu, List.length_append]
      have hdrop : pat.drop (v.drop i).length = u := by
        rw [← hu, List.drop_left]
      rcases hR with hR | ⟨look, R1, hR, hs⟩
      · rw [hR] at hp
        exact hu0 (List.prefix_nil.mp hp)
      · rw [hR] at hp
        unfold straddleFree at hs
        rw [List.all_eq_true] at hs
        have := hs ((v.drop i).length - 1) (by
          rw [List.mem_range]; omega)
        have e : (v.drop i).length - 1 + 1 = (v.drop i).length := by omega
        rw [e, hdrop] at this
        exact clash_not_prefix u look this R1 hp

theorem flatten_append (env : Nat → List Char) (a b : List Piece) :
    flatten env (a ++ b) = flatten env a ++ flatten env b := by
  induction a with
  | nil => rfl
  | cons p ps ih =>
    cases p with
    | lit cs => simp [flatten, ih]
    | var k => simp [flatten, ih]

theorem flatten_consChar (env : Nat → List Char) (c : Char) (ps : List Piece) :
    flatten env (consChar c ps) = c :: flatten env ps := by
  cases ps with
  | nil => rfl
  | cons p ps =>
    cases p with
    | lit cs => rfl
    | var k => rfl

/-- The replacement on a text with symbolic parts, where it succeeds, is the
replacement of the source on the characters of the text, for all values of the
variables that do not contain the pattern. -/
theorem symScan_sound (env : Nat → List Char) (pat : List Char) (hpat : pat ≠ [])
    (rep : List Piece) (ok : Nat → Bool) (hok : ∀ k, ok k = true → ¬ pat <:+: env k) :
    ∀ (f : Nat) (ps out : List Piece), symScan pat rep ok f ps = some out →
      ∀ g, (flatten env ps).length < g →
        replaceLoop pat (flatten env rep) g (flatten env ps) = flatten env out := by
  intro f
  induction f with
  | zero => intro ps out h; cases h
  | succ f ih =>
    intro ps out h g hg
    cases ps with
    | nil =>
      cases h
      exact replaceLoop_nil _ _ _
    | cons p ps =>
      cases p with
      | lit cs =>
        cases cs with
        | nil => exact ih ps out h g hg
        | cons c cs =>
          obtain ⟨g1, rfl⟩ : ∃ g1, g = g1 + 1 := ⟨g - 1, by simp [flatten] at hg; omega⟩
          unfold symScan at h
          by_cases hpre : pat.isPrefixOf (c :: cs) = true
          · rw [if_pos hpre] at h
            cases hs : symScan pat rep ok f (.lit ((c :: cs).drop pat.length) :: ps) with
            | none => rw [hs] at h; cases h
            | some out1 =>
              rw [hs] at h
              cases h
              have hp2 : pat <+: c :: cs := List.isPrefixOf_iff_prefix.mp hpre
              have hlen : pat.length ≤ (c :: cs).length := hp2.length_le
              have hpl : 0 < pat.length := List.length_pos.mpr hpat
              have hpre2 : pat.isPrefixOf (c :: (cs ++ flatten env ps)) = true := by
                rw [List.isPrefixOf_iff_prefix]
                exact hp2.trans (List.prefix_append (c :: cs) _)
              show replaceLoop pat (flatten env rep) (g1 + 1) (c :: (cs ++ flatten env ps)) = _
              rw [replaceLoop_match pat _ hpat g1 c _ hpre2, flatten_append]
              congr 1
              have e : (c :: (cs ++ flatten env ps)).drop pat.length
                  = (c :: cs).drop pat.length ++ flatten env ps := by
                rw [← List.cons_append, List.drop_append_of_le_length hlen]
              rw [e]
              apply ih _ _ hs
              show ((c :: cs).drop pat.length ++ flatten env ps).length < g1
              have : (flatten env (Piece.lit (c :: cs) :: ps)).length
                  = (c :: cs).length + (flatten env ps).length := by
                simp [flatten]
                omega
              rw [this] at hg
              rw [List.length_append, List.length_drop]
              omega
          · rw [if_neg hpre] at h
            by_cases hcl : (clash pat (c :: cs) || ps.isEmpty) = true
            · rw [if_pos hcl] at h
              cases hs : symScan pat rep ok f (.lit cs :: ps) with
              | none => rw [hs] at h; cases h
              | some out1 =>
                rw [hs] at h
                cases h
                have hno : ¬ pat.isPrefixOf (c :: (cs ++ flatten env ps)) = true := by
                  rw [Bool.or_eq_true] at hcl
                  rcases hcl with hcl | hcl
                  · rw [List.isPrefixOf_iff_prefix]
                    exact clash_not_prefix pat (c :: cs) hcl (flatten env ps)
                  · have : ps = [] := List.isEmpty_iff.mp hcl
                    subst this
                    show ¬ pat.isPrefixOf (c :: (cs ++ [])) = true
                    rw [List.append_nil]
                    exact hpre
                show replaceLoop pat (flatten env rep) (g1 + 1) (c :: (cs ++ flatten env ps)) = _
                rw [replaceLoop_skip pat _ g1 c _ hno, flatten_consChar]
                congr 1
                apply ih _ _ hs
                have : (flatten env (Piece.lit (c :: cs) :: ps)).length
                    = (flatten env (Piece.lit cs :: ps)).length + 1 := by
                  simp [flatten]
                omega
            · rw [if_neg hcl] at h
              cases h
      | var k =>
        unfold symScan at h
        split at h
        · rename_i hcond
          rw [Bool.and_eq_true] at hcond
          cases hs : symScan pat rep ok f ps with
          | none => rw [hs] at h; cases h
          | some out1 =>
            rw [hs] at h
            cases h
            have hR : flatten env ps = [] ∨
                ∃ look R1, flatten env ps = look ++ R1 ∧ straddleFree pat look = true := by
              cases ps with
              | nil => exact Or.inl rfl
              | cons q qs =>
                cases q with
                | lit look => exact Or.inr ⟨look, flatten env qs, rfl, hcond.2⟩
                | var j => exact absurd hcond.2 (by simp)
            have hrun := replaceLoop_run pat (flatten env rep) (env k) (flatten env ps) g
              (no_start_in pat (env k) (flatten env ps) (hok k hcond.1) hR)
              (by simpa [flatten] using hg)
            show replaceLoop pat (flatten env rep) g (env k ++ flatten env ps) = _
            rw [hrun]
            show _ = env k ++ flatten env out1
            congr 1
            apply ih _ _ hs
            have : (flatten env (Piece.var k :: ps)).length
                = (env k).length + (flatten env ps).length := by
              simp [flatten]
            omega
        · cases h

end fftx

namespace fftx

theorem some_getD_of_isSome {α : Type} (o : Option α) (d : α) (h : o.isSome = true) :
    o = some (o.getD d) := by
  cases o with
  | none => cases h
  | some x => rfl

theorem stub1_ok : symScan "PLAN".data [.var 0] (fun _ => false) 100000
    [.lit closeDAG_header_template.data] = some stub1 :=
  some_getD_of_isSome _ _ (by decide!)

theorem stub2_ok : symScan "S_TYPE".data [.var 1] (fun k => k == 0) 100000 stub1 = some stub2 :=
  some_getD_of_isSome _ _ (by decide!)

theorem stub3_ok : symScan "D_TYPE".data [.var 2] (fun k => k == 0 || k == 1) 100000 stub2
    = some stub3 :=
  some_getD_of_isSome _ _ (by decide!)

theorem stub4_ok : symScan "DD".data [.var 3] (fun k => k == 0 || k == 1 || k == 2) 100000 stub3
    = some stub4 :=
  some_getD_of_isSome _ _ (by decide!)

/-- The template after the four replacements, piece by piece. -/
theorem stub4_eq : stub4 = [
    .lit ("\n" ++ "\n" ++ "    #ifndef ").data,
    .var 0,
    .lit ("_CODEGEN_H\n" ++ "    #define ").data,
    .var 0,
    .lit ("_CODEGEN_H\n" ++ "\n" ++ "    #include \"fftx3.hpp\"\n" ++ "\n" ++ "    extern void init_").data,
    .var 0,
    .lit ("_spiral(); \n" ++ "    extern void ").data,
    .var 0,
    .lit ("_spiral(double** Y, double** X, double** symvar); \n" ++ "    extern void destroy_").data,
    .var 0,
    .lit ("_spiral();\n" ++ "\n" ++ "   namespace ").data,
    .var 0,
    .lit ("\n" ++ "   \x7b\n" ++ "    inline void init()\x7b init_").data,
    .var 0,
    .lit ("_spiral();\x7d\n" ++ "    inline void trace();\n" ++ "    template<std::size_t IN_DIM, std::size_t OUT_DIM, std::size_t S_DIM>\n" ++ "    inline fftx::handle_t transform(std::array<fftx::array_t<").data,
    .var 3,
    .lit (", ").data,
    .var 1,
    .lit (">,IN_DIM>& source,\n" ++ "                                    std::array<fftx::array_t<").data,
    .var 3,
    .lit (", ").data,
    .var 2,
    .lit (">,OUT_DIM>& destination,\n" ++ "                                    std::array<fftx::array_t<").data,
    .var 3,
    .lit (", double>,S_DIM>& symvar)\n" ++ "    \x7b   // for the moment, the function signature is hard-coded.  trace will\n" ++ "      // generate this in our better world\n" ++ "        double* input[IN_DIM];\n" ++ "        double* output[OUT_DIM];\n" ++ "        double* sym[S_DIM];\n" ++ "        for(int i=0; i<IN_DIM; i++) input[i] = (double*)(source[i].m_data.local());\n" ++ "        for(int i=0; i<OUT_DIM; i++) output[i] = (double*)(destination[i].m_data.local());\n" ++ "        for(int i=0; i<S_DIM; i++) sym[i] = (double*)(symvar[i].m_data.local());\n" ++ "\n" ++ "        ").data,
    .var 0,
    .lit ("_spiral(output, input, sym);\n" ++ "   \n" ++ "    // dummy return handle for now\n" ++ "      fftx::handle_t rtn;\n" ++ "      return rtn;\n" ++ "    \x7d\n" ++ "\n" ++ "    template<std::size_t IN_DIM, std::size_t OUT_DIM>\n" ++ "    inline fftx::handle_t transform(std::array<fftx::array_t<").data,
    .var 3,
    .lit (", ").data,
    .var 1,
    .lit (">,IN_DIM>& source,\n" ++ "                                    std::array<fftx::array_t<").data,
    .var 3,
    .lit (", ").data,
    .var 2,
    .lit (">,OUT_DIM>& destination)\n" ++ "    \x7b   // for the moment, the function signature is hard-coded.  trace will\n" ++ "      // generate this in our better world\n" ++ "        double* input[IN_DIM];\n" ++ "        double* output[OUT_DIM];\n" ++ "        double** sym=nullptr;\n" ++ "        for(int i=0; i<IN_DIM; i++) input[i] = (double*)(source[i].m_data.local());\n" ++ "        for(int i=0; i<OUT_DIM; i++) output[i] = (double*)(destination[i].m_data.local());\n" ++ "  \n" ++ "\n" ++ "        ").data,
    .var 0,
    .lit ("_spiral(output, input, sym);\n" ++ "   \n" ++ "    // dummy return handle for now\n" ++ "      fftx::handle_t rtn;\n" ++ "      return rtn;\n" ++ "    \x7d\n" ++ "    //inline void destroy()\x7b destroy_").data,
    .var 0,
    .lit ("_spiral();\x7d\n" ++ "    inline void destroy()\x7b \x7d\n" ++ "  \x7d;\n" ++ "\n" ++ " #endif  ").data] := by
  decide!

/-- One replacement of `closeDAG` on a text with symbolic parts. -/
theorem regex_replace_sym (env : Nat → List Char) (text pat rep : String)
    (ps reps out : List Piece) (ok : Nat → Bool) (f : Nat)
    (htext : text.data = flatten env ps) (hrep : rep.data = flatten env reps)
    (hpat : pat.data ≠ []) (hok : ∀ k, ok k = true → ¬ pat.data <:+: env k)
    (h : symScan pat.data reps ok f ps = some out) :
    (regex_replace text pat rep).data = flatten env out := by
  show replaceLoop pat.data rep.data (text.length + 1) text.data = _
  rw [hrep]
  have hlen : text.length = text.data.length := rfl
  rw [hlen, htext]
  exact symScan_sound env pat.data hpat reps ok hok f ps out h _ (Nat.lt_succ_self _)

/-- The text of the file written by `closeDAG`, as the symbolic text `stub4`
with the name, the two type names and the dimension in the places of its
variables. -/
theorem closeDAG_stub_sym {DIM : Nat} (localVars : List (array_t DIM)) (name : String)
    (s : Session)
    (hS : ¬ "S_TYPE".data <:+: name.data) (hD : ¬ "D_TYPE".data <:+: name.data)
    (hDD : ¬ "DD".data <:+: name.data)
    (hiD : ¬ "D_TYPE".data <:+: s.inputType.data) (hiDD : ¬ "DD".data <:+: s.inputType.data)
    (hoDD : ¬ "DD".data <:+: s.outputType.data)
    (_hdollar : '$' ∉ name.data ∧ '$' ∉ s.inputType.data ∧ '$' ∉ s.outputType.data) :
    (closeDAG localVars name s).files =
      (name ++ ".fftx.codegen.hpp",
        String.mk (flatten (stubEnv name s.inputType s.outputType
          (toString ((DIM : Int) - 1))) stub4) ++ "\n") :: s.files := by
  have e0 : stubEnv name s.inputType s.outputType (toString ((DIM : Int) - 1)) 0 = name.data :=
    rfl
  have e1 : stubEnv name s.inputType s.outputType (toString ((DIM : Int) - 1)) 1
      = s.inputType.data := rfl
  have e2 : stubEnv name s.inputType s.outputType (toString ((DIM : Int) - 1)) 2
      = s.outputType.data := rfl
  have e3 : stubEnv name s.inputType s.outputType (toString ((DIM : Int) - 1)) 3
      = (toString ((DIM : Int) - 1)).data := rfl
  have h1 := regex_replace_sym (stubEnv name s.inputType s.outputType (toString ((DIM : Int) - 1)))
    closeDAG_header_template "PLAN" name [.lit closeDAG_header_template.data] [.var 0] stub1
    (fun _ => false) 100000 (by simp only [flatten, List.append_nil])
    (by simp only [flatten, List.append_nil, e0]) (by decide)
    (by intro k hk; cases hk) stub1_ok
  have h2 := regex_replace_sym (stubEnv name s.inputType s.outputType (toString ((DIM : Int) - 1)))
    _ "S_TYPE" s.inputType stub1 [.var 1] stub2 (fun k => k == 0) 100000 h1
    (by simp only [flatten, List.append_nil, e1]) (by decide)
    (by
      intro k hk
      have hk0 : k = 0 := by simpa using hk
      rw [hk0, e0]
      exact hS) stub2_ok
  have h3 := regex_replace_sym (stubEnv name s.inputType s.outputType (toString ((DIM : Int) - 1)))
    _ "D_TYPE" s.outputType stub2 [.var 2] stub3 (fun k => k == 0 || k == 1) 100000 h2
    (by simp only [flatten, List.append_nil, e2]) (by decide)
    (by
      intro k hk
      have hk0 : k = 0 ∨ k = 1 := by simpa using hk
      rcases hk0 with hk0 | hk0
      · rw [hk0, e0]; exact hD
      · rw [hk0, e1]; exact hiD) stub3_ok
  have h4 := regex_replace_sym (stubEnv name s.inputType s.outputType (toString ((DIM : Int) - 1)))
    _ "DD" (toString ((DIM : Int) - 1)) stub3 [.var 3] stub4
    (fun k => k == 0 || k == 1 || k == 2) 100000 h3
    (by simp only [flatten, List.append_nil, e3]) (by decide)
    (by
      intro k hk
      have hk0 : (k = 0 ∨ k = 1) ∨ k = 2 := by simpa using hk
      rcases hk0 with (hk0 | hk0) | hk0
      · rw [hk0, e0]; exact hDD
      · rw [hk0, e1]; exact hiDD
      · rw [hk0, e2]; exact hoDD) stub4_ok
  have key : ∀ text : List Char,
      (regex_replace (regex_replace (regex_replace (regex_replace closeDAG_header_template
        "PLAN" name) "S_TYPE" s.inputType) "D_TYPE" s.outputType) "DD"
        (toString ((DIM : Int) - 1))).data = text →
      (closeDAG localVars name s).files =
        (name ++ ".fftx.codegen.hpp", String.mk text ++ "\n") :: s.files := by
    intro text htext
    have e : ∀ x : String, String.mk x.data = x := fun _ => rfl
    rw [← htext, e]
    rfl
  exact key _ h4

end fftx

namespace fftx

theorem intercalate_go_append (sep : String) (as bs : List String) :
    ∀ acc : String, String.intercalate.go acc sep (as ++ bs)
      = String.intercalate.go (String.intercalate.go acc sep as) sep bs := by
  induction as with
  | nil => intro acc; rfl
  | cons a as ih => intro acc; exact ih _

theorem intercalate_go_acc (sep : String) (bs : List String) :
    ∀ a b : String, String.intercalate.go (a ++ b) sep bs
      = a ++ String.intercalate.go b sep bs := by
  induction bs with
  | nil => intro a b; rfl
  | cons x xs ih =>
    intro a b
    show String.intercalate.go (a ++ b ++ sep ++ x) sep xs
      = a ++ String.intercalate.go (b ++ sep ++ x) sep xs
    rw [← ih]
    simp only [String.append_assoc]

/-- The joined text of two non-empty lists is the two joined texts with one
separator between them. -/
theorem intercalate_append (sep : String) (l1 l2 : List String) (h1 : l1 ≠ []) (h2 : l2 ≠ []) :
    String.intercalate sep (l1 ++ l2)
      = String.intercalate sep l1 ++ sep ++ String.intercalate sep l2 := by
  cases l1 with
  | nil => exact absurd rfl h1
  | cons a as =>
    cases l2 with
    | nil => exact absurd rfl h2
    | cons b bs =>
      show String.intercalate.go a sep (as ++ b :: bs)
        = String.intercalate.go a sep as ++ sep ++ String.intercalate.go b sep bs
      rw [intercalate_go_append]
      show String.intercalate.go (String.intercalate.go a sep as ++ sep ++ b) sep bs = _
      rw [intercalate_go_acc]

/-- A loop that prints `f 0, .., f (n-1)` with a separator after every element
but the last prints the joined text. -/
theorem sepLoop_eq (f : Nat → String) (sep : String) (n : Nat) :
    (List.range n).foldl (fun out i => if i + 1 < n then out ++ f i ++ sep else out ++ f i) ""
      = String.intercalate sep ((List.range n).map f) := by
  have key : ∀ m, m ≤ n →
      (List.range m).foldl (fun out i => if i + 1 < n then out ++ f i ++ sep else out ++ f i) ""
        = if m = 0 then "" else
            String.intercalate sep ((List.range m).map f) ++ (if m < n then sep else "") := by
    intro m
    induction m with
    | zero => intro _; rfl
    | succ m ih =>
      intro hm
      rw [List.range_succ, List.foldl_append, ih (by omega), List.map_append]
      simp only [List.foldl_cons, List.foldl_nil, List.map_cons, List.map_nil,
        Nat.succ_ne_zero, if_false]
      by_cases h0 : m = 0
      · subst h0
        simp only [if_true, List.range_zero, List.map_nil, List.nil_append]
        have e : String.intercalate sep [f 0] = f 0 := rfl
        rw [e]
        split <;> simp
      · have hlt : m < n := by omega
        have hne : (List.range m).map f ≠ [] := by
          intro h
          have := congrArg List.length h
          simp at this
          exact h0 this
        rw [if_neg h0, if_pos hlt, intercalate_append sep _ [f m] hne (by simp)]
        have e : String.intercalate sep [f m] = f m := rfl
        rw [e]
        split <;> simp [String.append_assoc]
  rw [key n (le_refl n)]
  by_cases h0 : n = 0
  · subst h0; rfl
  · rw [if_neg h0, if_neg (lt_irrefl n)]
    simp

/-- The names printed by `varNames`: `var_<id>`, in the order of the list,
separated by commas. -/
theorem varNames_eq {DIM : Nat} (a_vars : List (array_t DIM)) :
    varNames a_vars
      = String.intercalate "," (a_vars.map (fun v => "var_" ++ toString v.m_data.local)) := by
  have e : a_vars.map (fun v => "var_" ++ toString v.m_data.local)
      = (List.range a_vars.length).map (fun i => "var_" ++ toString
          ((a_vars.getD i (array_t.default ⟨⟨fun _ => 0⟩, ⟨fun _ => 0⟩⟩)).m_data.local)) := by
    apply List.ext_getElem
    · simp
    · intro i h1 h2
      simp at h1
      simp [List.getD_eq_getElem?_getD, List.getElem?_eq_getElem h1]
  rw [e, ← sepLoop_eq]
  unfold varNames
  congr 1
  funext out i
  simp only []
  split <;> simp only [String.append_assoc]

end fftx

namespace fftx_helper

open fftx

/-- The result of the kernel is the one recorded together with the final
state: the exception if one was thrown, else the table and the lanes. -/
theorem batchtransformRadix2_of_state {R : Type} [Zero R] [Add R] [Sub R] [Mul R]
    (cis : Int → Int → R) (BATCH : Nat) (DIR n stride : Int) (expTable : List R)
    (dvec : Nat → Nat → R) :
    batchtransformRadix2 cis BATCH DIR n stride expTable dvec
      = (batchtransformRadix2State cis BATCH DIR n stride expTable dvec).map
          (fun r => match r.1 with
            | some e => .error e
            | none => .ok r.2) := by
  unfold batchtransformRadix2 batchtransformRadix2State
  cases levelsLoop 64 (toSizeT n) 0 with
  | none => rfl
  | some levels =>
    simp only []
    by_cases hc : (1 <<< levels) % 2 ^ 64 ≠ toSizeT n
    · rw [if_pos hc, if_pos hc]
      rfl
    · rw [if_neg hc, if_neg hc]
      cases stageLoop BATCH n stride (updateTable cis DIR n expTable) 63 2
          (bitReversal BATCH levels n stride dvec) with
      | none => rfl
      | some d => rfl

/-- A call that ends by an exception has thrown the length error and has left
the table and the lanes as they were. -/
theorem state_of_throw {R : Type} [Zero R] [Add R] [Sub R] [Mul R]
    (cis : Int → Int → R) (BATCH : Nat) (DIR n stride : Int) (expTable : List R)
    (dvec : Nat → Nat → R) (msg : String) (t : List R) (d : Nat → Nat → R)
    (h : batchtransformRadix2State cis BATCH DIR n stride expTable dvec = some (some msg, t, d)) :
    msg = "Length is not a power of 2" ∧ t = expTable ∧ d = dvec := by
  unfold batchtransformRadix2State at h
  cases hl : levelsLoop 64 (toSizeT n) 0 with
  | none => rw [hl] at h; cases h
  | some levels =>
    rw [hl] at h
    simp only [] at h
    by_cases hc : (1 <<< levels) % 2 ^ 64 ≠ toSizeT n
    · rw [if_pos hc] at h
      injection h with h
      injection h with h1 h2
      injection h1 with h1
      injection h2 with h2 h3
      exact ⟨h1.symm, h2.symm, h3.symm⟩
    · rw [if_neg hc] at h
      cases hs : stageLoop BATCH n stride (updateTable cis DIR n expTable) 63 2
          (bitReversal BATCH levels n stride dvec) with
      | none => rw [hs] at h; cases h
      | some d1 =>
        rw [hs] at h
        injection h with h
        injection h with h1 _
        cases h1

/-- A call with an `int` length that is not a power of two ends by the length
error, with the table and the lanes as they were. -/
theorem state_throws {R : Type} [Zero R] [Add R] [Sub R] [Mul R]
    (cis : Int → Int → R) (BATCH : Nat) (DIR n stride : Int) (expTable : List R)
    (dvec : Nat → Nat → R) (h1 : -2 ^ 31 ≤ n) (h2 : n < 2 ^ 31)
    (hno : ¬ ∃ k : Nat, n = 2 ^ k) :
    batchtransformRadix2State cis BATCH DIR n stride expTable dvec
      = some (some "Length is not a power of 2", expTable, dvec) := by
  unfold batchtransformRadix2State
  rw [levels_of_toSizeT]
  simp only []
  have hc : (1 <<< Nat.log2 (toSizeT n)) % 2 ^ 64 ≠ toSizeT n := by
    intro h
    exact hno ((check_iff n h1 h2).mp h)
  rw [if_pos hc]

end fftx_helper

namespace fftx_helper

open fftx

theorem foldl_flatMap_eq {α β γ : Type} (f : γ → β → γ) (g : α → List β) (xs : List α) :
    ∀ init : γ, (xs.flatMap g).foldl f init = xs.foldl (fun acc x => (g x).foldl f acc) init := by
  induction xs with
  | nil => intro init; rfl
  | cons x xs ih =>
    intro init
    rw [List.flatMap_cons, List.foldl_append, ih, List.foldl_cons]

/-- One pass of the outer loop is the sequence of the butterflies at the
indices of `stageIndices`. -/
theorem stageBody_indices {R : Type} [Zero R] [Add R] [Sub R] [Mul R] (BATCH : Nat)
    (n stride : Int) (expTable : List R) (size : Nat) (dvec : Nat → Nat → R) :
    stageBody BATCH n stride expTable size dvec
      = (stageIndices n size).foldl
          (fun d x => butterflyLanes BATCH (expTable.getD x.1 0) (idx x.2.1 stride)
            (idx x.2.2 stride) d) dvec := by
  unfold stageBody stageIndices
  simp only []
  rw [foldl_flatMap_eq]
  congr 1
  funext d k
  rw [List.foldl_map]

/-- The outer loop runs its body for the values of `stageSizes`, in order. -/
theorem stageLoop_sizes {R : Type} [Zero R] [Add R] [Sub R] [Mul R] (BATCH : Nat)
    (n stride : Int) (expTable : List R) (fuel : Nat) :
    ∀ (size : Nat) (dvec : Nat → Nat → R),
      stageLoop BATCH n stride expTable fuel size dvec
        = (stageSizes n fuel size).map
            (fun sizes => sizes.foldl (fun d sz => stageBody BATCH n stride expTable sz d) dvec) := by
  induction fuel with
  | zero => intro size dvec; rfl
  | succ f ih =>
    intro size dvec
    unfold stageLoop stageSizes
    by_cases h1 : size ≤ toSizeT n
    · rw [if_pos h1, if_pos h1]
      simp only []
      by_cases h2 : size = toSizeT n
      · rw [if_pos h2, if_pos h2]
        rfl
      · rw [if_neg h2, if_neg h2, ih, Option.map_map]
        rfl
    · rw [if_neg h1, if_neg h1]
      rfl

theorem stageSizes_pow2 (n : Int) (L : Nat) (hL : L ≤ 62) (hn : toSizeT n = 2 ^ L)
    (k : Nat) : ∀ (s fuel : Nat), s + k + 1 = L → k + 1 ≤ fuel →
    stageSizes n fuel (2 ^ (s + 1))
      = some ((List.range' s (k + 1)).map (fun t => 2 ^ (t + 1))) := by
  induction k with
  | zero =>
    intro s fuel hs hf
    obtain ⟨f, rfl⟩ : ∃ f, fuel = f + 1 := ⟨fuel - 1, by omega⟩
    have hs' : s + 1 = L := by omega
    subst hs'
    unfold stageSizes
    rw [hn]
    simp
  | succ k ih =>
    intro s fuel hs hf
    obtain ⟨f, rfl⟩ : ∃ f, fuel = f + 1 := ⟨fuel - 1, by omega⟩
    unfold stageSizes
    rw [hn]
    have h1 : 2 ^ (s + 1) ≤ 2 ^ L := Nat.pow_le_pow_right (by omega) (by omega)
    have h2 : ¬ (2 ^ (s + 1) = 2 ^ L) := by
      intro h
      have := Nat.pow_right_injective (le_refl 2) h
      omega
    have h3 : (2 ^ (s + 1) * 2) % 2 ^ 64 = 2 ^ (s + 1 + 1) := by
      rw [← pow_succ]
      apply Nat.mod_eq_of_lt
      exact Nat.pow_lt_pow_right (by omega) (by omega)
    rw [if_pos h1]
    simp only [h2, if_false, h3]
    rw [ih (s + 1) f (by omega) (by omega)]
    rw [List.range'_succ s (k + 1)]
    simp only [Option.map_some', List.map_cons]

/-- The outer loop of a length `2^L` runs its body exactly `L` times, for the
sizes `2, 4, .., 2^L`. -/
theorem stageSizes_run (n : Int) (L : Nat) (hL : L ≤ 62) (hn : toSizeT n = 2 ^ L) :
    stageSizes n 63 2 = some ((List.range L).map (fun t => 2 ^ (t + 1))) := by
  rcases Nat.eq_zero_or_pos L with h0 | hpos
  · subst h0
    unfold stageSizes
    rw [hn]
    simp
  · have := stageSizes_pow2 n L hL hn (L - 1) 0 63 (by omega) (by omega)
    rw [show L - 1 + 1 = L from by omega] at this
    rw [List.range_eq_range']
    exact this

/-- The indices of the pass of size `2^(t+1)` for the length `2^(t+d+1)`: the
table index is below half the length, the two data indices are different and
below the length. -/
theorem stageIndices_bounds (t d : Nat) (hL : t + d + 1 ≤ 30) (x : Nat × Nat × Nat)
    (hx : x ∈ stageIndices ((2 : Int) ^ (t + d + 1)) (2 ^ (t + 1))) :
    x.1 < 2 ^ (t + d + 1) / 2 ∧ x.2.1 < x.2.2 ∧ x.2.2 < 2 ^ (t + d + 1) := by
  unfold stageIndices kRange at hx
  rw [toSizeT_two_pow (t + d + 1) (by omega)] at hx
  have hS : 2 ^ (t + 1) = 2 * 2 ^ t := by rw [pow_succ]; ring
  have hN : 2 ^ (t + d + 1) = 2 ^ d * (2 * 2 ^ t) := by
    rw [show t + d + 1 = d + (t + 1) from by omega, pow_add, hS]
  have hpos : 0 < 2 * 2 ^ t := by positivity
  have hpt : 0 < 2 ^ t := by positivity
  have hpd : 0 < 2 ^ d := by positivity
  have hcnt : (2 ^ (t + d + 1) + 2 ^ (t + 1) - 1) / 2 ^ (t + 1) = 2 ^ d := by
    rw [hS, hN]
    have : 2 ^ d * (2 * 2 ^ t) + 2 * 2 ^ t - 1 = (2 * 2 ^ t - 1) + 2 ^ d * (2 * 2 ^ t) := by
      omega
    rw [this, Nat.add_mul_div_right _ _ hpos, Nat.div_eq_of_lt (by omega)]
    omega
  have hhalf : 2 ^ (t + 1) / 2 = 2 ^ t := by rw [hS]; omega
  have hstep : 2 ^ (t + d + 1) / 2 ^ (t + 1) = 2 ^ d := by
    rw [hS, hN, Nat.mul_div_cancel _ hpos]
  have hhalfN : 2 ^ (t + d + 1) / 2 = 2 ^ d * 2 ^ t := by
    rw [hN]
    have : 2 ^ d * (2 * 2 ^ t) = 2 * (2 ^ d * 2 ^ t) := by ring
    rw [this]
    omega
  simp only [hcnt, hhalf, hstep] at hx
  rw [List.mem_flatMap] at hx
  obtain ⟨k, hk, hx⟩ := hx
  rw [List.mem_map] at hx
  obtain ⟨j, hj, rfl⟩ := hx
  rw [List.mem_range'] at hk
  obtain ⟨q, hq, rfl⟩ := hk
  rw [List.mem_range] at hj
  simp only []
  rw [hhalfN, hN]
  have h1 : j * 2 ^ d < 2 ^ d * 2 ^ t := by
    rw [Nat.mul_comm j]
    exact Nat.mul_lt_mul_of_pos_left hj hpd
  have h2 : 2 ^ (t + 1) * q + 2 * 2 ^ t ≤ 2 ^ d * (2 * 2 ^ t) := by
    rw [hS]
    have : (2 * 2 ^ t) * q + 2 * 2 ^ t = (2 * 2 ^ t) * (q + 1) := by ring
    rw [this, Nat.mul_comm (2 ^ d)]
    exact Nat.mul_le_mul_left _ hq
  refine ⟨h1, by omega, by omega⟩

/-- The offset `i*stride` for a stride that is not negative and an index below
`2^30`: the product does not wrap. -/
theorem idx_nonneg (i : Nat) (hi : i < 2 ^ 30) (stride : Int) (h0 : 0 ≤ stride)
    (h1 : stride < 2 ^ 31) : idx i stride = i * stride.toNat := by
  unfold idx
  rw [toSizeT_of_nonneg stride h0 (by omega)]
  apply Nat.mod_eq_of_lt
  have h2 : stride.toNat < 2 ^ 31 := by omega
  calc i * stride.toNat < 2 ^ 30 * 2 ^ 31 := by
        rcases Nat.eq_zero_or_pos i with h | h
        · subst h; simp
        · exact Nat.mul_lt_mul'' hi h2
    _ ≤ 2 ^ 64 := by norm_num

end fftx_helper

namespace fftx_helper

open fftx

/-- The offsets `i*stride` of the logical indices below `2^30` are pairwise
different for every `int` stride other than `0`. -/
theorem idx_inj (stride : Int) (h0 : stride ≠ 0) (h1 : -2 ^ 31 ≤ stride) (h2 : stride < 2 ^ 31)
    (i j : Nat) (hi : i < 2 ^ 30) (hj : j < 2 ^ 30) (h : idx i stride = idx j stride) :
    i = j := by
  unfold idx at h
  have hT : ((toSizeT stride : Nat) : Int) = stride % 2 ^ 64 := by
    unfold toSizeT
    exact Int.toNat_of_nonneg (Int.emod_nonneg _ (by norm_num))
  have hc : (((i * toSizeT stride) % 2 ^ 64 : Nat) : Int)
      = (((j * toSizeT stride) % 2 ^ 64 : Nat) : Int) := by rw [h]
  push_cast at hc
  rw [hT] at hc
  have e1 : (i : Int) * (stride % 2 ^ 64) ≡ i * stride [ZMOD 2 ^ 64] :=
    (Int.mod_modEq stride _).mul_left _
  have e2 : (j : Int) * (stride % 2 ^ 64) ≡ j * stride [ZMOD 2 ^ 64] :=
    (Int.mod_modEq stride _).mul_left _
  have e3 : (i : Int) * stride ≡ j * stride [ZMOD 2 ^ 64] := (e1.symm.trans hc).trans e2
  have hd : (2 ^ 64 : Int) ∣ (j * stride - i * stride) := e3.dvd
  have habs : |(j : Int) * stride - i * stride| < 2 ^ 64 := by
    have e : (j : Int) * stride - i * stride = ((j : Int) - i) * stride := by ring
    rw [e, abs_mul]
    have a1 : |(j : Int) - i| ≤ 2 ^ 30 := by
      rw [abs_le]; constructor <;> omega
    have a2 : |stride| ≤ 2 ^ 31 := by
      rw [abs_le]; constructor <;> omega
    calc |(j : Int) - i| * |stride| ≤ 2 ^ 30 * 2 ^ 31 :=
          mul_le_mul a1 a2 (abs_nonneg _) (by norm_num)
      _ < 2 ^ 64 := by norm_num
  have hz := Int.eq_zero_of_abs_lt_dvd hd habs
  have e : (j : Int) * stride - i * stride = ((j : Int) - i) * stride := by ring
  rw [e] at hz
  rcases mul_eq_zero.mp hz with h3 | h3
  · omega
  · exact absurd h3 h0

/-- A swap at the offsets of two logical indices, seen through the offsets of
the logical indices, is the swap of the two logical indices. -/
theorem swapLane_gather {R : Type} (e : Nat → Nat) (N : Nat)
    (hinj : ∀ i j, i < N → j < N → e i = e j → i = j) (vec g : Nat → R)
    (hg : ∀ t, t < N → vec (e t) = g t) (i j : Nat) (hi : i < N) (hj : j < N)
    (t : Nat) (ht : t < N) : swapLane vec (e i) (e j) (e t) = swapLane g i j t := by
  rw [swapLane_apply, swapLane_apply]
  by_cases h1 : t = j
  · subst h1; simp [hg i hi]
  · have h1' : ¬ e t = e j := fun h => h1 (hinj t j ht hj h)
    by_cases h2 : t = i
    · subst h2; simp [h1, h1', hg j hj]
    · have h2' : ¬ e t = e i := fun h => h2 (hinj t i ht hi h)
      simp [h1, h1', h2, h2', hg t ht]

/-- A swap changes no element other than the two it swaps. -/
theorem swapLane_frame {R : Type} (vec : Nat → R) (a b off : Nat) (ha : off ≠ a)
    (hb : off ≠ b) : swapLane vec a b off = vec off := by
  rw [swapLane_apply]
  simp [ha, hb]

/-- A butterfly at the offsets of two different logical indices, seen through
the offsets of the logical indices, is the butterfly of the two indices. -/
theorem butterfly_gather {R : Type} [Add R] [Sub R] [Mul R] (w : R) (e : Nat → Nat) (N : Nat)
    (hinj : ∀ i j, i < N → j < N → e i = e j → i = j) (vec g : Nat → R)
    (hg : ∀ t, t < N → vec (e t) = g t) (a b : Nat) (ha : a < N) (hb : b < N) (hab : a ≠ b)
    (t : Nat) (ht : t < N) : butterfly w vec (e a) (e b) (e t) = butterfly w g a b t := by
  have hab' : e a ≠ e b := fun h => hab (hinj a b ha hb h)
  rw [butterfly_apply w vec _ _ _ hab', butterfly_apply w g _ _ _ hab]
  by_cases h1 : t = a
  · subst h1; simp [hg t ht, hg b hb]
  · have h1' : ¬ e t = e a := fun h => h1 (hinj t a ht ha h)
    by_cases h2 : t = b
    · subst h2; simp [h1, h1', hg a ha, hg t ht]
    · have h2' : ¬ e t = e b := fun h => h2 (hinj t b ht hb h)
      simp [h1, h1', h2, h2', hg t ht]

/-- A butterfly changes no element other than the two it combines. -/
theorem butterfly_frame {R : Type} [Add R] [Sub R] [Mul R] (w : R) (vec : Nat → R)
    (a b off : Nat) (ha : off ≠ a) (hb : off ≠ b) : butterfly w vec a b off = vec off := by
  unfold butterfly
  simp only [Function.update_apply]
  simp [ha, hb]

/-- A sequence of lane operations each of which acts on the gathered lane as
its logical counterpart does acts so as a whole. -/
theorem foldl_gather {α R : Type} (e : Nat → Nat) (N : Nat)
    (P Q : α → (Nat → R) → (Nat → R)) (xs : List α)
    (hstep : ∀ x, x ∈ xs → ∀ vec g : Nat → R, (∀ t, t < N → vec (e t) = g t) →
      ∀ t, t < N → P x vec (e t) = Q x g t) :
    ∀ vec g : Nat → R, (∀ t, t < N → vec (e t) = g t) →
      ∀ t, t < N → (xs.foldl (fun v x => P x v) vec) (e t) = (xs.foldl (fun v x => Q x v) g) t := by
  induction xs with
  | nil => intro vec g hg t ht; exact hg t ht
  | cons x xs ih =>
    intro vec g hg t ht
    rw [List.foldl_cons, List.foldl_cons]
    exact ih (fun y hy => hstep y (List.mem_cons_of_mem x hy)) _ _
      (hstep x (List.mem_cons_self x xs) vec g hg) t ht

/-- A sequence of lane operations each of which leaves the element at `off`
as it is leaves it as it is. -/
theorem foldl_frame {α R : Type} (off : Nat) (P : α → (Nat → R) → (Nat → R)) (xs : List α)
    (hstep : ∀ x, x ∈ xs → ∀ vec : Nat → R, P x vec off = vec off) :
    ∀ vec : Nat → R, (xs.foldl (fun v x => P x v) vec) off = vec off := by
  induction xs with
  | nil => intro vec; rfl
  | cons x xs ih =>
    intro vec
    rw [List.foldl_cons, ih (fun y hy => hstep y (List.mem_cons_of_mem x hy)),
      hstep x (List.mem_cons_self x xs)]

/-- The bit-reversal loop with a stride, seen through the offsets of the
logical indices, is the bit-reversal loop with stride `1`. -/
theorem laneBitReversal_gather {R : Type} (L : Nat) (hL : L ≤ 30) (stride : Int)
    (hinj : ∀ i j, i < 2 ^ L → j < 2 ^ L → idx i stride = idx j stride → i = j)
    (vec g : Nat → R) (hg : ∀ u, u < 2 ^ L → vec (idx u stride) = g u) (t : Nat)
    (ht : t < 2 ^ L) :
    laneBitReversal L ((2 : Int) ^ L) stride vec (idx t stride)
      = laneBitReversal L ((2 : Int) ^ L) 1 g t := by
  unfold laneBitReversal
  rw [toSizeT_two_pow L (by omega)]
  have hb : 2 ^ L ≤ 2 ^ 30 := Nat.pow_le_pow_right (by omega) hL
  refine foldl_gather (fun i => idx i stride) (2 ^ L)
    (fun i v => if reverseBits i L > i then
      swapLane v (idx i stride) (idx (reverseBits i L) stride) else v)
    (fun i v => if reverseBits i L > i then
      swapLane v (idx i 1) (idx (reverseBits i L) 1) else v)
    (List.range (2 ^ L)) ?_ vec g hg t ht
  intro i hi v g hg u hu
  rw [List.mem_range] at hi
  have hr : reverseBits i L < 2 ^ L := by
    rw [reverseBits_eq i L (by omega)]; exact bitrev_lt L i
  simp only []
  split
  · rw [idx_one i (by omega), idx_one _ (by omega)]
    exact swapLane_gather (fun i => idx i stride) (2 ^ L) hinj v g hg i _ hi hr u hu
  · exact hg u hu

/-- The bit-reversal loop changes no element other than those at the offsets
of the logical indices below the length. -/
theorem laneBitReversal_frame {R : Type} (L : Nat) (hL : L ≤ 30) (stride : Int)
    (vec : Nat → R) (off : Nat) (hoff : ∀ i, i < 2 ^ L → off ≠ idx i stride) :
    laneBitReversal L ((2 : Int) ^ L) stride vec off = vec off := by
  unfold laneBitReversal
  rw [toSizeT_two_pow L (by omega)]
  refine foldl_frame off
    (fun i v => if reverseBits i L > i then
      swapLane v (idx i stride) (idx (reverseBits i L) stride) else v)
    (List.range (2 ^ L)) ?_ vec
  intro i hi v
  rw [List.mem_range] at hi
  have hr : reverseBits i L < 2 ^ L := by
    rw [reverseBits_eq i L (by omega)]; exact bitrev_lt L i
  simp only []
  split
  · exact swapLane_frame v _ _ off (hoff i hi) (hoff _ hr)
  · rfl

/-- One pass of the butterflies is the sequence of the butterflies at the
indices of `stageIndices`, on one lane. -/
theorem laneStage_indices {R : Type} [Zero R] [Add R] [Sub R] [Mul R] (n stride : Int)
    (expTable : List R) (size : Nat) (vec : Nat → R) :
    laneStage n stride expTable size vec
      = (stageIndices n size).foldl
          (fun v x => butterfly (expTable.getD x.1 0) v (idx x.2.1 stride) (idx x.2.2 stride))
          vec := by
  unfold laneStage stageIndices
  simp only []
  rw [foldl_flatMap_eq]
  congr 1
  funext d k
  rw [List.foldl_map]

/-- One pass of the butterflies with a stride, seen through the offsets of the
logical indices, is the pass with stride `1`. -/
theorem laneStage_gather {R : Type} [Zero R] [Add R] [Sub R] [Mul R] (t d : Nat)
    (hL : t + d + 1 ≤ 30) (stride : Int)
    (hinj : ∀ i j, i < 2 ^ (t + d + 1) → j < 2 ^ (t + d + 1) →
      idx i stride = idx j stride → i = j)
    (expTable : List R) (vec g : Nat → R)
    (hg : ∀ u, u < 2 ^ (t + d + 1) → vec (idx u stride) = g u) (u : Nat)
    (hu : u < 2 ^ (t + d + 1)) :
    laneStage ((2 : Int) ^ (t + d + 1)) stride expTable (2 ^ (t + 1)) vec (idx u stride)
      = laneStage ((2 : Int) ^ (t + d + 1)) 1 expTable (2 ^ (t + 1)) g u := by
  rw [laneStage_indices, laneStage_indices]
  have hb : 2 ^ (t + d + 1) ≤ 2 ^ 30 := Nat.pow_le_pow_right (by omega) hL
  refine foldl_gather (fun i => idx i stride) (2 ^ (t + d + 1))
    (fun (x : Nat × Nat × Nat) v =>
      butterfly (expTable.getD x.1 0) v (idx x.2.1 stride) (idx x.2.2 stride))
    (fun (x : Nat × Nat × Nat) v =>
      butterfly (expTable.getD x.1 0) v (idx x.2.1 1) (idx x.2.2 1))
    _ ?_ vec g hg u hu
  intro x hx v g1 hg1 s hs
  obtain ⟨_, h2, h3⟩ := stageIndices_bounds t d hL x hx
  simp only []
  rw [idx_one _ (by omega), idx_one _ (by omega)]
  exact butterfly_gather _ (fun i => idx i stride) _ hinj v g1 hg1 _ _ (by omega) h3
    (by omega) s hs

/-- One pass of the butterflies changes no element other than those at the
offsets of the logical indices below the length. -/
theorem laneStage_frame {R : Type} [Zero R] [Add R] [Sub R] [Mul R] (t d : Nat)
    (hL : t + d + 1 ≤ 30) (stride : Int) (expTable : List R) (vec : Nat → R) (off : Nat)
    (hoff : ∀ i, i < 2 ^ (t + d + 1) → off ≠ idx i stride) :
    laneStage ((2 : Int) ^ (t + d + 1)) stride expTable (2 ^ (t + 1)) vec off = vec off := by
  rw [laneStage_indices]
  refine foldl_frame off
    (fun (x : Nat × Nat × Nat) v =>
      butterfly (expTable.getD x.1 0) v (idx x.2.1 stride) (idx x.2.2 stride))
    _ ?_ vec
  intro x hx v
  obtain ⟨_, h2, h3⟩ := stageIndices_bounds t d hL x hx
  exact butterfly_frame _ v _ _ off (hoff _ (by omega)) (hoff _ h3)

/-- The lane transform with a stride, seen through the offsets of the logical
indices, is the lane transform with stride `1` of the gathered lane. -/
theorem laneKernel_gather {R : Type} [Zero R] [Add R] [Sub R] [Mul R] (L : Nat) (hL : L ≤ 30)
    (stride : Int)
    (hinj : ∀ i j, i < 2 ^ L → j < 2 ^ L → idx i stride = idx j stride → i = j)
    (expTable : List R) (vec g : Nat → R) (hg : ∀ u, u < 2 ^ L → vec (idx u stride) = g u)
    (u : Nat) (hu : u < 2 ^ L) :
    laneKernel L ((2 : Int) ^ L) stride expTable vec (idx u stride)
      = laneKernel L ((2 : Int) ^ L) 1 expTable g u := by
  unfold laneKernel
  have key : ∀ m, m ≤ L → ∀ u, u < 2 ^ L →
      ((List.range m).foldl (fun v t => laneStage ((2 : Int) ^ L) stride expTable (2 ^ (t + 1)) v)
        (laneBitReversal L ((2 : Int) ^ L) stride vec)) (idx u stride)
      = ((List.range m).foldl (fun v t => laneStage ((2 : Int) ^ L) 1 expTable (2 ^ (t + 1)) v)
        (laneBitReversal L ((2 : Int) ^ L) 1 g)) u := by
    intro m
    induction m with
    | zero =>
      intro _ u hu
      exact laneBitReversal_gather L hL stride hinj vec g hg u hu
    | succ m ih =>
      intro hm u hu
      rw [List.range_succ, List.foldl_append, List.foldl_append]
      simp only [List.foldl_cons, List.foldl_nil]
      obtain ⟨d, rfl⟩ : ∃ d, L = m + d + 1 := ⟨L - m - 1, by omega⟩
      exact laneStage_gather m d hL stride hinj expTable _ _ (ih (by omega)) u hu
  exact key L (le_refl L) u hu

/-- The lane transform changes no element other than those at the offsets of
the logical indices below the length. -/
theorem laneKernel_frame {R : Type} [Zero R] [Add R] [Sub R] [Mul R] (L : Nat) (hL : L ≤ 30)
    (stride : Int) (expTable : List R) (vec : Nat → R) (off : Nat)
    (hoff : ∀ i, i < 2 ^ L → off ≠ idx i stride) :
    laneKernel L ((2 : Int) ^ L) stride expTable vec off = vec off := by
  unfold laneKernel
  have key : ∀ m, m ≤ L →
      ((List.range m).foldl (fun v t => laneStage ((2 : Int) ^ L) stride expTable (2 ^ (t + 1)) v)
        (laneBitReversal L ((2 : Int) ^ L) stride vec)) off = vec off := by
    intro m
    induction m with
    | zero =>
      intro _
      exact laneBitReversal_frame L hL stride vec off hoff
    | succ m ih =>
      intro hm
      rw [List.range_succ, List.foldl_append]
      simp only [List.foldl_cons, List.foldl_nil]
      obtain ⟨d, rfl⟩ : ∃ d, L = m + d + 1 := ⟨L - m - 1, by omega⟩
      rw [laneStage_frame m d hL stride expTable _ off hoff]
      exact ih (by omega)
  exact key L (le_refl L)

end fftx_helper
namespace fftx_helper

open fftx

/-- C3: for every power-of-two length `n = 2^L`, every batch of lanes and
`DIR` in `{+1, -1}`, after `batchtransformRadix2` with stride `1` and exact
complex arithmetic each lane `b < BATCH` holds the unnormalised discrete
Fourier transform of its input: `X[k] = sum_{j<n} x[j] * exp(-2*pi*i*DIR*j*k/n)`
for every `k < n`, with no `1/n` factor in either direction. -/
theorem kernel_dft (cis : Int → Int → ℂ)
    (hcis : ∀ num den : Int, cis num den
      = ⟨Real.cos (num * Real.pi / den), Real.sin (num * Real.pi / den)⟩)
    (BATCH : Nat) (DIR : Int) (hDIR : DIR = 1 ∨ DIR = -1) (L : Nat) (hL : L ≤ 30)
    (expTable : List ℂ) (hv : CacheValid cis DIR expTable) (dvec : Nat → Nat → ℂ) :
    ∃ t1 r,
      batchtransformRadix2 cis BATCH DIR ((2 : Int) ^ L) 1 expTable dvec = some (.ok (t1, r)) ∧
      ∀ b k, b < BATCH → k < 2 ^ L →
        r b k = ∑ j in Finset.range (2 ^ L),
          dvec b j * Complex.exp (-2 * Real.pi * Complex.I * DIR * j * k / 2 ^ L) := by
  refine ⟨_, _, kernel_pow2 cis BATCH DIR L hL 1 expTable dvec, ?_⟩
  intro b k hb hk
  rw [updateTable_valid cis DIR L hL expTable hv]
  simp only [mapLanes, hb, if_true]
  exact laneKernel_dft_complex cis hcis DIR hDIR L hL (dvec b) k hk

/-- Witness of C3: two lanes of length `2`, direction `+1`, cold table. -/
theorem kernel_dft_witness :
    (∀ num den : Int,
      (fun num den : Int => (⟨Real.cos (num * Real.pi / den),
        Real.sin (num * Real.pi / den)⟩ : ℂ)) num den
      = ⟨Real.cos (num * Real.pi / den), Real.sin (num * Real.pi / den)⟩) ∧
    ((1 : Int) = 1 ∨ (1 : Int) = -1) ∧ 1 ≤ 30 ∧
    CacheValid (fun num den : Int => (⟨Real.cos (num * Real.pi / den),
        Real.sin (num * Real.pi / den)⟩ : ℂ)) 1 [] ∧
    ∃ t1 r,
      batchtransformRadix2 (fun num den : Int => (⟨Real.cos (num * Real.pi / den),
        Real.sin (num * Real.pi / den)⟩ : ℂ)) 2 1 ((2 : Int) ^ 1) 1 []
        (fun b i => ((b : ℂ) + 2 * (i : ℂ))) = some (.ok (t1, r)) ∧
      ∀ b k, b < 2 → k < 2 ^ 1 →
        r b k = ∑ j in Finset.range (2 ^ 1),
          ((b : ℂ) + 2 * (j : ℂ))
            * Complex.exp (-2 * Real.pi * Complex.I * ((1 : Int) : ℂ) * j * k / 2 ^ 1) :=
  ⟨fun _ _ => rfl, Or.inl rfl, by decide, cacheValid_nil _ 1,
    kernel_dft _ (fun _ _ => rfl) 2 1 (Or.inl rfl) 1 (by decide) [] (cacheValid_nil _ 1)
      (fun b i => ((b : ℂ) + 2 * (i : ℂ)))⟩

/-- C4: for every power-of-two length `n = 2^L` and every input lane, running
`batchtransformRadix2` with direction `+1` and then with direction `-1` on the
result, or in the opposite order, yields `n * x[j]` at every position `j < n`
of every lane `b < BATCH` (stride `1`, exact complex arithmetic; the two
directions are two instantiations, each with its own table). -/
theorem kernel_roundtrip (cis : Int → Int → ℂ)
    (hcis : ∀ num den : Int, cis num den
      = ⟨Real.cos (num * Real.pi / den), Real.sin (num * Real.pi / den)⟩)
    (BATCH : Nat) (L : Nat) (hL : L ≤ 30) (tableF tableI : List ℂ)
    (hF : CacheValid cis 1 tableF) (hI : CacheValid cis (-1) tableI)
    (dvec : Nat → Nat → ℂ) :
    (∃ t1 r1 t2 r2,
      batchtransformRadix2 cis BATCH 1 ((2 : Int) ^ L) 1 tableF dvec = some (.ok (t1, r1)) ∧
      batchtransformRadix2 cis BATCH (-1) ((2 : Int) ^ L) 1 tableI r1 = some (.ok (t2, r2)) ∧
      ∀ b j, b < BATCH → j < 2 ^ L → r2 b j = 2 ^ L * dvec b j) ∧
    (∃ t1 r1 t2 r2,
      batchtransformRadix2 cis BATCH (-1) ((2 : Int) ^ L) 1 tableI dvec = some (.ok (t1, r1)) ∧
      batchtransformRadix2 cis BATCH 1 ((2 : Int) ^ L) 1 tableF r1 = some (.ok (t2, r2)) ∧
      ∀ b j, b < BATCH → j < 2 ^ L → r2 b j = 2 ^ L * dvec b j) := by
  constructor
  · refine ⟨_, _, _, _, kernel_pow2 cis BATCH 1 L hL 1 tableF dvec,
      kernel_pow2 cis BATCH (-1) L hL 1 tableI _, ?_⟩
    intro b j hb hj
    rw [updateTable_valid cis 1 L hL tableF hF, updateTable_valid cis (-1) L hL tableI hI]
    simp only [mapLanes, hb, if_true]
    exact lane_roundtrip cis hcis 1 (-1) (Or.inl rfl) rfl L hL (dvec b) j hj
  · refine ⟨_, _, _, _, kernel_pow2 cis BATCH (-1) L hL 1 tableI dvec,
      kernel_pow2 cis BATCH 1 L hL 1 tableF _, ?_⟩
    intro b j hb hj
    rw [updateTable_valid cis 1 L hL tableF hF, updateTable_valid cis (-1) L hL tableI hI]
    simp only [mapLanes, hb, if_true]
    exact lane_roundtrip cis hcis (-1) 1 (Or.inr rfl) (by norm_num) L hL (dvec b) j hj

/-- Witness of C4: two lanes of length `4`, cold tables. -/
theorem kernel_roundtrip_witness :
    (∀ num den : Int,
      (fun num den : Int => (⟨Real.cos (num * Real.pi / den),
        Real.sin (num * Real.pi / den)⟩ : ℂ)) num den
      = ⟨Real.cos (num * Real.pi / den), Real.sin (num * Real.pi / den)⟩) ∧
    2 ≤ 30 ∧
    CacheValid (fun num den : Int => (⟨Real.cos (num * Real.pi / den),
        Real.sin (num * Real.pi / den)⟩ : ℂ)) 1 [] ∧
    CacheValid (fun num den : Int => (⟨Real.cos (num * Real.pi / den),
        Real.sin (num * Real.pi / den)⟩ : ℂ)) (-1) [] ∧
    ((∃ t1 r1 t2 r2,
      batchtransformRadix2 (fun num den : Int => (⟨Real.cos (num * Real.pi / den),
        Real.sin (num * Real.pi / den)⟩ : ℂ)) 2 1 ((2 : Int) ^ 2) 1 []
        (fun b i => ((b : ℂ) + 2 * (i : ℂ))) = some (.ok (t1, r1)) ∧
      batchtransformRadix2 (fun num den : Int => (⟨Real.cos (num * Real.pi / den),
        Real.sin (num * Real.pi / den)⟩ : ℂ)) 2 (-1) ((2 : Int) ^ 2) 1 [] r1
        = some (.ok (t2, r2)) ∧
      ∀ b j, b < 2 → j < 2 ^ 2 → r2 b j = 2 ^ 2 * ((b : ℂ) + 2 * (j : ℂ))) ∧
    (∃ t1 r1 t2 r2,
      batchtransformRadix2 (fun num den : Int => (⟨Real.cos (num * Real.pi / den),
        Real.sin (num * Real.pi / den)⟩ : ℂ)) 2 (-1) ((2 : Int) ^ 2) 1 []
        (fun b i => ((b : ℂ) + 2 * (i : ℂ))) = some (.ok (t1, r1)) ∧
      batchtransformRadix2 (fun num den : Int => (⟨Real.cos (num * Real.pi / den),
        Real.sin (num * Real.pi / den)⟩ : ℂ)) 2 1 ((2 : Int) ^ 2) 1 [] r1
        = some (.ok (t2, r2)) ∧
      ∀ b j, b < 2 → j < 2 ^ 2 → r2 b j = 2 ^ 2 * ((b : ℂ) + 2 * (j : ℂ)))) :=
  ⟨fun _ _ => rfl, by decide, cacheValid_nil _ 1, cacheValid_nil _ (-1),
    kernel_roundtrip _ (fun _ _ => rfl) 2 2 (by decide) [] [] (cacheValid_nil _ 1)
      (cacheValid_nil _ (-1)) (fun b i => ((b : ℂ) + 2 * (i : ℂ)))⟩

/-- C5: for an `int` length `n`, `batchtransformRadix2` throws the length error
"Length is not a power of 2" if and only if `n` is not a power of two; it
throws for every `n <= 0` and for `n = 6`, and for `n = 1, 2, 4, ..` the call
returns normally. -/
theorem length_error_iff {R : Type} [Zero R] [Add R] [Sub R] [Mul R] (cis : Int → Int → R)
    (BATCH : Nat) (DIR n stride : Int) (expTable : List R) (dvec : Nat → Nat → R)
    (h1 : -2 ^ 31 ≤ n) (h2 : n < 2 ^ 31) :
    (batchtransformRadix2 cis BATCH DIR n stride expTable dvec
        = some (.error "Length is not a power of 2") ↔ ¬ ∃ k : Nat, n = 2 ^ k) ∧
    (n ≤ 0 → batchtransformRadix2 cis BATCH DIR n stride expTable dvec
        = some (.error "Length is not a power of 2")) ∧
    (n = 6 → batchtransformRadix2 cis BATCH DIR n stride expTable dvec
        = some (.error "Length is not a power of 2")) ∧
    ((∃ k : Nat, n = 2 ^ k) → ∃ expTable1 dvec1,
      batchtransformRadix2 cis BATCH DIR n stride expTable dvec
        = some (.ok (expTable1, dvec1))) := by
  have herr := kernel_throws cis BATCH DIR n stride expTable dvec h1 h2
  have hok := kernel_returns cis BATCH DIR n stride expTable dvec h2
  refine ⟨⟨?_, herr⟩, ?_, ?_, hok⟩
  · intro he hp
    obtain ⟨t, d, hd⟩ := hok hp
    rw [hd] at he
    cases he
  · intro h0
    apply herr
    rintro ⟨k, hk⟩
    have : (0 : Int) < 2 ^ k := by positivity
    omega
  · intro h6
    apply herr
    rintro ⟨k, hk⟩
    rw [h6] at hk
    have h : k ≤ 2 ∨ 3 ≤ k := by omega
    rcases h with h | h
    · interval_cases k <;> omega
    · have : (2 : Int) ^ 3 ≤ 2 ^ k := pow_le_pow_right₀ (by norm_num) h
      omega

/-- Witness of C5 at the length `6`, on integer lanes. -/
theorem length_error_iff_witness :
    (-2 ^ 31 ≤ (6 : Int)) ∧ ((6 : Int) < 2 ^ 31) ∧
    ((batchtransformRadix2 cisInt 2 1 6 1 [] sampleLanes
        = some (.error "Length is not a power of 2") ↔ ¬ ∃ k : Nat, (6 : Int) = 2 ^ k) ∧
    ((6 : Int) ≤ 0 → batchtransformRadix2 cisInt 2 1 6 1 [] sampleLanes
        = some (.error "Length is not a power of 2")) ∧
    ((6 : Int) = 6 → batchtransformRadix2 cisInt 2 1 6 1 [] sampleLanes
        = some (.error "Length is not a power of 2")) ∧
    ((∃ k : Nat, (6 : Int) = 2 ^ k) → ∃ expTable1 dvec1,
      batchtransformRadix2 cisInt 2 1 6 1 [] sampleLanes
        = some (.ok (expTable1, dvec1)))) :=
  ⟨by decide, by decide,
    length_error_iff cisInt 2 1 6 1 [] sampleLanes (by decide) (by decide)⟩

/-- Linearity of the kernel in exact arithmetic: if the element type is a
commutative ring, then for every power-of-two length `n = 2^L`, scalars `a` and
`c` and lanes `X`, `Y`, the kernel output on `a*X + c*Y` equals `a*(output on
X) + c*(output on Y)` at every position of every lane, for each direction `DIR`
(the three calls are made one after the other on the shared table).  The
`std::complex<double>` of the source is not such a type: its operations round. -/
theorem kernel_linear {R : Type} [CommRing R] (cis : Int → Int → R) (BATCH : Nat)
    (DIR : Int) (L : Nat) (hL : L ≤ 30) (stride : Int) (expTable : List R) (a c : R)
    (X Y Z : Nat → Nat → R) (hZ : ∀ b i, Z b i = a * X b i + c * Y b i) :
    ∃ t1 rx t2 ry t3 rz,
      batchtransformRadix2 cis BATCH DIR ((2 : Int) ^ L) stride expTable X = some (.ok (t1, rx)) ∧
      batchtransformRadix2 cis BATCH DIR ((2 : Int) ^ L) stride t1 Y = some (.ok (t2, ry)) ∧
      batchtransformRadix2 cis BATCH DIR ((2 : Int) ^ L) stride t2 Z = some (.ok (t3, rz)) ∧
      ∀ b i, rz b i = a * rx b i + c * ry b i := by
  refine ⟨_, _, _, _, _, _, kernel_pow2 cis BATCH DIR L hL stride expTable X,
    kernel_pow2 cis BATCH DIR L hL stride _ Y, kernel_pow2 cis BATCH DIR L hL stride _ Z, ?_⟩
  intro b i
  simp only [updateTable_idem]
  by_cases hb : b < BATCH
  · simp only [mapLanes, hb, if_true]
    exact laneKernel_lin a c L _ stride _ (X b) (Y b) (Z b) (hZ b) i
  · simp only [mapLanes, hb, if_false]
    exact hZ b i

/-- An instance of `kernel_linear`: length `2`, two integer lanes, scalars `2`
and `3`. -/
theorem kernel_linear_witness :
    1 ≤ 30 ∧
    (∀ b i, (fun b i => 2 * sampleLanes b i + 3 * sampleLanes2 b i) b i
      = 2 * sampleLanes b i + 3 * sampleLanes2 b i) ∧
    ∃ t1 rx t2 ry t3 rz,
      batchtransformRadix2 cisInt 2 1 ((2 : Int) ^ 1) 1 [] sampleLanes = some (.ok (t1, rx)) ∧
      batchtransformRadix2 cisInt 2 1 ((2 : Int) ^ 1) 1 t1 sampleLanes2 = some (.ok (t2, ry)) ∧
      batchtransformRadix2 cisInt 2 1 ((2 : Int) ^ 1) 1 t2
        (fun b i => 2 * sampleLanes b i + 3 * sampleLanes2 b i) = some (.ok (t3, rz)) ∧
      ∀ b i, rz b i = 2 * rx b i + 3 * ry b i :=
  ⟨by decide, fun _ _ => rfl,
    kernel_linear cisInt 2 1 1 (by decide) 1 [] 2 3 sampleLanes sampleLanes2 _ (fun _ _ => rfl)⟩

/-- C7: for every batch count `BATCH`, power-of-two length `n = 2^L`, stride
and direction, a `batchtransformRadix2<BATCH>` call on the lanes `dvec` leaves
each lane `b < BATCH` equal to what a `batchtransformRadix2<1>` call with the
same `n`, stride and direction leaves on that lane alone.  The two
instantiations have their own `static` tables, each in a state that calls of
the kernel can produce. -/
theorem batch_lane_eq_single {R : Type} [Zero R] [Add R] [Sub R] [Mul R]
    (cis : Int → Int → R) (BATCH : Nat) (DIR : Int) (L : Nat) (hL : L ≤ 30) (stride : Int)
    (tableB table1 : List R) (hB : CacheValid cis DIR tableB) (h1 : CacheValid cis DIR table1)
    (dvec : Nat → Nat → R) (b : Nat) (hb : b < BATCH) :
    ∃ tB rB t1 r1,
      batchtransformRadix2 cis BATCH DIR ((2 : Int) ^ L) stride tableB dvec
        = some (.ok (tB, rB)) ∧
      batchtransformRadix2 cis 1 DIR ((2 : Int) ^ L) stride table1 (fun _ => dvec b)
        = some (.ok (t1, r1)) ∧
      rB b = r1 0 := by
  refine ⟨_, _, _, _, kernel_pow2 cis BATCH DIR L hL stride tableB dvec,
    kernel_pow2 cis 1 DIR L hL stride table1 (fun _ => dvec b), ?_⟩
  rw [updateTable_valid cis DIR L hL tableB hB, updateTable_valid cis DIR L hL table1 h1]
  simp [mapLanes, hb]

/-- Witness of C7: two integer lanes of length `2`, lane `1`, cold tables. -/
theorem batch_lane_eq_single_witness :
    1 ≤ 30 ∧ CacheValid cisInt 1 ([] : List Int) ∧ 1 < 2 ∧
    ∃ tB rB t1 r1,
      batchtransformRadix2 cisInt 2 1 ((2 : Int) ^ 1) 1 [] sampleLanes = some (.ok (tB, rB)) ∧
      batchtransformRadix2 cisInt 1 1 ((2 : Int) ^ 1) 1 [] (fun _ => sampleLanes 1)
        = some (.ok (t1, r1)) ∧
      rB 1 = r1 0 :=
  ⟨by decide, cacheValid_nil cisInt 1, by decide,
    batch_lane_eq_single cisInt 2 1 1 (by decide) 1 [] [] (cacheValid_nil cisInt 1)
      (cacheValid_nil cisInt 1) sampleLanes 1 (by decide)⟩

/-- C8: for all power-of-two lengths `n1 = 2^L1` and `n2 = 2^L2`, calls of the
kernel with the lengths `n1`, `n2`, `n1` (same instantiation, hence same
direction and one shared table that starts in a state calls can produce) all
return, and the third call, on the input `x`, produces exactly the output that
a call with the length `n1` on the empty table produces for `x`. -/
theorem cache_alternating {R : Type} [Zero R] [Add R] [Sub R] [Mul R]
    (cis : Int → Int → R) (BATCH : Nat) (DIR : Int) (L1 L2 : Nat) (hL1 : L1 ≤ 30)
    (hL2 : L2 ≤ 30) (stride1 stride2 stride : Int) (table0 : List R)
    (h0 : CacheValid cis DIR table0) (d1 d2 x : Nat → Nat → R) :
    ∃ t1 r1 t2 r2 t3 r3 tc rc,
      batchtransformRadix2 cis BATCH DIR ((2 : Int) ^ L1) stride1 table0 d1
        = some (.ok (t1, r1)) ∧
      batchtransformRadix2 cis BATCH DIR ((2 : Int) ^ L2) stride2 t1 d2
        = some (.ok (t2, r2)) ∧
      batchtransformRadix2 cis BATCH DIR ((2 : Int) ^ L1) stride t2 x
        = some (.ok (t3, r3)) ∧
      batchtransformRadix2 cis BATCH DIR ((2 : Int) ^ L1) stride [] x
        = some (.ok (tc, rc)) ∧
      r3 = rc ∧ t3 = tc := by
  refine ⟨_, _, _, _, _, _, _, _, kernel_pow2 cis BATCH DIR L1 hL1 stride1 table0 d1,
    kernel_pow2 cis BATCH DIR L2 hL2 stride2 _ d2, kernel_pow2 cis BATCH DIR L1 hL1 stride _ x,
    kernel_pow2 cis BATCH DIR L1 hL1 stride [] x, ?_⟩
  have e1 := updateTable_valid cis DIR L1 hL1 table0 h0
  have v1 : CacheValid cis DIR (updateTable cis DIR ((2 : Int) ^ L1) table0) :=
    ⟨L1, hL1, e1⟩
  have e2 := updateTable_valid cis DIR L2 hL2 _ v1
  have v2 : CacheValid cis DIR (updateTable cis DIR ((2 : Int) ^ L2)
      (updateTable cis DIR ((2 : Int) ^ L1) table0)) := ⟨L2, hL2, e2⟩
  have e3 := updateTable_valid cis DIR L1 hL1 _ v2
  have ec := updateTable_valid cis DIR L1 hL1 [] (cacheValid_nil cis DIR)
  rw [e3, ec]
  exact ⟨rfl, rfl⟩

/-- Witness of C8: lengths `2`, `1`, `2` on integer lanes, cold start. -/
theorem cache_alternating_witness :
    1 ≤ 30 ∧ 0 ≤ 30 ∧ CacheValid cisInt 1 ([] : List Int) ∧
    ∃ t1 r1 t2 r2 t3 r3 tc rc,
      batchtransformRadix2 cisInt 2 1 ((2 : Int) ^ 1) 1 [] sampleLanes = some (.ok (t1, r1)) ∧
      batchtransformRadix2 cisInt 2 1 ((2 : Int) ^ 0) 1 t1 sampleLanes = some (.ok (t2, r2)) ∧
      batchtransformRadix2 cisInt 2 1 ((2 : Int) ^ 1) 1 t2 sampleLanes2 = some (.ok (t3, r3)) ∧
      batchtransformRadix2 cisInt 2 1 ((2 : Int) ^ 1) 1 [] sampleLanes2 = some (.ok (tc, rc)) ∧
      r3 = rc ∧ t3 = tc :=
  ⟨by decide, by decide, cacheValid_nil cisInt 1,
    cache_alternating cisInt 2 1 1 0 (by decide) (by decide) 1 1 1 [] (cacheValid_nil cisInt 1)
      sampleLanes sampleLanes sampleLanes2⟩

end fftx_helper

/-!
The claims on the array descriptor and the tracing session.
-/

namespace fftx

/-- C13 fails in the code: the constructor of an `array_t` over a
caller-supplied `global_ptr` and a box reads neither the flag nor anything else
of the session; in every state, tracing included, it returns a descriptor and
leaves the session as it was. -/
theorem ofPtr_never_fails {DIM : Nat} (p : global_ptr) (a_box : box_t DIM) (s : Session) :
    array_t.ofPtr p a_box s = (⟨0, p, a_box⟩, s) ∧
    (array_t.ofPtr (global_ptr.ofPtr 4096) smallBox tracingSession).1.m_data.local = 4096 ∧
    (array_t.ofPtr (global_ptr.ofPtr 4096) smallBox tracingSession).2 = tracingSession ∧
    tracingSession.tracing = true :=
  ⟨rfl, rfl, rfl, rfl⟩

/-- C14: the destructor of an `array_t` runs `delete[]` exactly when
`m_local_data` is not null.  On a consistent free store: a descriptor built
from a box outside tracing has a non-null `m_local_data`, its block is live
after the construction and the destructor returns the free store to the
blocks it had before; a descriptor built over a caller-supplied pointer, a
descriptor built in tracing and a default-constructed descriptor have a null
`m_local_data` and the destructor changes nothing. -/
theorem destroy_releases_iff {DIM : Nat} (a_box : box_t DIM) (p : global_ptr) (s : Session)
    (hwf : s.heap.wf) :
    (∀ a : array_t DIM, a.destroy s =
      if a.m_local_data = 0 then s else { s with heap := s.heap.delete a.m_local_data }) ∧
    (s.tracing = false →
      (array_t.ofBox a_box s).1.m_local_data ≠ 0 ∧
      ((array_t.ofBox a_box s).1.m_local_data, a_box.size) ∈ (array_t.ofBox a_box s).2.heap.live ∧
      ((array_t.ofBox a_box s).1.destroy (array_t.ofBox a_box s).2).heap.live = s.heap.live) ∧
    ((array_t.ofPtr p a_box s).1.m_local_data = 0 ∧
      (array_t.ofPtr p a_box s).1.destroy (array_t.ofPtr p a_box s).2 = s) ∧
    (s.tracing = true →
      (array_t.ofBox a_box s).1.m_local_data = 0 ∧
      (array_t.ofBox a_box s).1.destroy (array_t.ofBox a_box s).2 = (array_t.ofBox a_box s).2) ∧
    ((array_t.default a_box).m_local_data = 0 ∧ (array_t.default a_box).destroy s = s) := by
  refine ⟨?_, ?_, ⟨rfl, rfl⟩, ?_, ⟨rfl, rfl⟩⟩
  · intro a
    unfold array_t.destroy
    by_cases ha : a.m_local_data = 0
    · simp [ha]
    · simp [ha]
  · intro h
    rw [array_t.ofBox_not_tracing a_box s h]
    refine ⟨Nat.succ_ne_zero _, List.mem_cons_self _ _, ?_⟩
    show (List.filter (fun b => decide (b.1 ≠ s.heap.brk + 1))
      ((s.heap.brk + 1, a_box.size) :: s.heap.live)) = s.heap.live
    rw [List.filter_cons_of_neg (by simp)]
    apply List.filter_eq_self.2
    intro b hb
    have := (hwf b hb).2
    simp only [decide_eq_true_eq]
    omega
  · intro h
    rw [array_t.ofBox_tracing a_box s h]
    exact ⟨rfl, rfl⟩

/-- Witness of C14: a non-tracing session with one live block. -/
theorem destroy_releases_iff_witness :
    busySession.heap.wf ∧
    ((∀ a : array_t 2, a.destroy busySession =
      if a.m_local_data = 0 then busySession
      else { busySession with heap := busySession.heap.delete a.m_local_data }) ∧
    (busySession.tracing = false →
      (array_t.ofBox smallBox busySession).1.m_local_data ≠ 0 ∧
      ((array_t.ofBox smallBox busySession).1.m_local_data, smallBox.size)
        ∈ (array_t.ofBox smallBox busySession).2.heap.live ∧
      ((array_t.ofBox smallBox busySession).1.destroy
        (array_t.ofBox smallBox busySession).2).heap.live = busySession.heap.live) ∧
    ((array_t.ofPtr (global_ptr.ofPtr 4096) smallBox busySession).1.m_local_data = 0 ∧
      (array_t.ofPtr (global_ptr.ofPtr 4096) smallBox busySession).1.destroy
        (array_t.ofPtr (global_ptr.ofPtr 4096) smallBox busySession).2 = busySession) ∧
    (busySession.tracing = true →
      (array_t.ofBox smallBox busySession).1.m_local_data = 0 ∧
      (array_t.ofBox smallBox busySession).1.destroy (array_t.ofBox smallBox busySession).2
        = (array_t.ofBox smallBox busySession).2) ∧
    ((array_t.default smallBox).m_local_data = 0 ∧
      (array_t.default smallBox).destroy busySession = busySession)) :=
  have hwf : busySession.heap.wf := by
    intro b hb
    simp only [busySession, Session.init, List.mem_singleton] at hb
    subst hb
    decide
  ⟨hwf, destroy_releases_iff smallBox (global_ptr.ofPtr 4096) busySession hwf⟩

/-- C15: after `swap(a, b)` the first descriptor has the `m_local_data`,
`m_data` and `m_domain` that the second had and the second has those the first
had, so the pair is exchanged as a whole, and a second `swap` restores both
descriptors. -/
theorem swap_exchanges {DIM : Nat} (a b : array_t DIM) :
    (swap a b).1.m_local_data = b.m_local_data ∧ (swap a b).1.m_data = b.m_data ∧
    (swap a b).1.m_domain = b.m_domain ∧
    (swap a b).2.m_local_data = a.m_local_data ∧ (swap a b).2.m_data = a.m_data ∧
    (swap a b).2.m_domain = a.m_domain ∧
    swap a b = (b, a) ∧
    swap (swap a b).1 (swap a b).2 = (a, b) :=
  ⟨rfl, rfl, rfl, rfl, rfl, rfl, rfl, rfl⟩

theorem tracedIds_map_traced {DIM : Nat} (a_box : box_t DIM) (f : Nat → Nat) (l : List Nat) :
    tracedIds (l.map (fun j => (⟨0, global_ptr.ofPtr (f j), a_box⟩ : array_t DIM))) = l.map f := by
  induction l with
  | nil => rfl
  | cons x xs ih =>
    rw [List.map_cons, List.map_cons, ← ih]
    rfl

/-- The ids of `n` descriptors constructed in tracing from the counter `1`. -/
theorem ids_replicate {F : Type} {D : Nat} (fmt : F → String) (a_box : box_t (D + 1)) (n : Nat) :
    ∃ s env, run fmt (List.replicate n (Cmd.construct a_box : Cmd F D)) (tracingSession, []) =
        .ok (s, env) ∧ tracedIds env = (List.range n).map (fun j => (1 + j) % 2 ^ 64) := by
  obtain ⟨s1, h1, _, _⟩ := run_replicate_construct fmt a_box n tracingSession []
    rfl (by decide)
  refine ⟨s1, _, h1, ?_⟩
  rw [List.nil_append]
  exact tracedIds_map_traced a_box _ _

/-- C16 (amended): from the counter `1` and no descriptor, after every program
of flag assignments, descriptor constructions, operator calls and DAG closings
that runs to its end, the `j`-th descriptor constructed in tracing (counted
from `0`) has the id `(j + 1) mod 2^64` and the counter is the number of those
descriptors plus one, modulo `2^64`.  With fewer than `2^64` of them the ids are
`1, 2, ..` in construction order, strictly increasing and pairwise distinct.
`closeDAG` and `closeScalarDAG` leave the counter as it is. -/
theorem ids_sequential {F : Type} {D : Nat} (fmt : F → String) (cs : List (Cmd F D))
    (s0 s : Session) (env : List (array_t (D + 1))) (hID : s0.ID = 1)
    (hrun : run fmt cs (s0, []) = .ok (s, env)) :
    tracedIds env = (List.range (tracedIds env).length).map (fun j => (j + 1) % 2 ^ 64) ∧
    s.ID = ((tracedIds env).length + 1) % 2 ^ 64 ∧
    ((tracedIds env).length < 2 ^ 64 →
      tracedIds env = (List.range (tracedIds env).length).map (fun j => j + 1) ∧
      (tracedIds env).Pairwise (fun x y => x < y) ∧ (tracedIds env).Nodup) ∧
    (∀ (vs : List (array_t (D + 1))) (name : String) (t : Session),
      (closeDAG vs name t).ID = t.ID ∧ (closeScalarDAG vs name t).ID = t.ID) := by
  obtain ⟨h1, h2⟩ := run_ids 1 cs hrun (by rw [hID]; rfl) (by rfl)
  have e : (fun j => (1 + j) % 2 ^ 64) = (fun j => (j + 1) % 2 ^ 64) := by
    funext j
    rw [Nat.add_comm]
  rw [e] at h2
  have h1 : s.ID = ((tracedIds env).length + 1) % 2 ^ 64 := by
    rw [Nat.add_comm]
    exact h1
  have h2 : tracedIds env =
      (List.range (tracedIds env).length).map (fun j => (j + 1) % 2 ^ 64) := h2
  refine ⟨h2, h1, ?_, fun _ _ _ => ⟨rfl, rfl⟩⟩
  intro hlt
  have h3 : tracedIds env = (List.range (tracedIds env).length).map (fun j => j + 1) := by
    refine h2.trans (List.map_congr_left ?_)
    intro j hj
    have hj2 : j < (tracedIds env).length := List.mem_range.1 hj
    exact Nat.mod_eq_of_lt (by omega)
  have h4 : (tracedIds env).Pairwise (fun x y => x < y) := by
    rw [h3, List.pairwise_map]
    exact (List.pairwise_lt_range _).imp (fun hab => Nat.succ_lt_succ hab)
  exact ⟨h3, h4, h4.imp (fun hab => Nat.ne_of_lt hab)⟩

/-- Witness of C16: a complete trace with two descriptors, a forward transform
and `closeDAG`. -/
theorem ids_sequential_witness :
    Session.init.ID = 1 ∧
    run fmtZero closedTrace (Session.init, []) =
      .ok (closeDAG [⟨0, global_ptr.ofPtr 2, smallBox⟩] "t"
        { tracingSession with
          ID := 3,
          out := "var_1:= var(\"var_1\", BoxND([3,4], TReal));\n"
            ++ "var_2:= var(\"var_2\", BoxND([3,4], TReal));\n"
            ++ "   TDAGNode(TTensorI(MDDFT([3,4],-1),1,APar, APar), var_2,var_1),\n" },
        [⟨0, global_ptr.ofPtr 1, smallBox⟩, ⟨0, global_ptr.ofPtr 2, smallBox⟩]) ∧
    tracedIds [(⟨0, global_ptr.ofPtr 1, smallBox⟩ : array_t 2), ⟨0, global_ptr.ofPtr 2, smallBox⟩]
      = [1, 2] ∧
    (closeDAG [⟨0, global_ptr.ofPtr 2, smallBox⟩] "t"
        { tracingSession with
          ID := 3,
          out := "var_1:= var(\"var_1\", BoxND([3,4], TReal));\n"
            ++ "var_2:= var(\"var_2\", BoxND([3,4], TReal));\n"
            ++ "   TDAGNode(TTensorI(MDDFT([3,4],-1),1,APar, APar), var_2,var_1),\n" }).ID = 3 :=
  have hrun : run fmtZero closedTrace (Session.init, []) =
      .ok (closeDAG [⟨0, global_ptr.ofPtr 2, smallBox⟩] "t"
        { tracingSession with
          ID := 3,
          out := "var_1:= var(\"var_1\", BoxND([3,4], TReal));\n"
            ++ "var_2:= var(\"var_2\", BoxND([3,4], TReal));\n"
            ++ "   TDAGNode(TTensorI(MDDFT([3,4],-1),1,APar, APar), var_2,var_1),\n" },
        [⟨0, global_ptr.ofPtr 1, smallBox⟩, ⟨0, global_ptr.ofPtr 2, smallBox⟩]) := by
    rfl
  have h := ids_sequential fmtZero closedTrace Session.init _ _ rfl hrun
  ⟨rfl, hrun, h.1, h.2.1⟩


/-- C16 as stated fails: from the counter `1`, the program of `2^64`
constructions in tracing runs to its end, and its last descriptor, the
`2^64`-th, gets the id `0`, not `2^64`, after a descriptor with the id
`2^64 - 1`: the ids are not strictly increasing. -/
theorem ids_wrap :
    tracingSession.ID = 1 ∧ tracingSession.tracing = true ∧
    ∃ s env, run fmtZero (List.replicate (2 ^ 64) (Cmd.construct smallBox)) (tracingSession, [])
        = .ok (s, env) ∧
      (tracedIds env)[2 ^ 64 - 2]? = some (2 ^ 64 - 1) ∧
      (tracedIds env)[2 ^ 64 - 1]? = some 0 := by
  refine ⟨rfl, rfl, ?_⟩
  obtain ⟨s, env, h1, h2⟩ := ids_replicate fmtZero smallBox (2 ^ 64)
  refine ⟨s, env, h1, ?_, ?_⟩
  · rw [h2, List.getElem?_map, List.getElem?_range (by norm_num)]
    rfl
  · rw [h2, List.getElem?_map, List.getElem?_range (by norm_num)]
    rfl

/-- C17: in tracing, one call of any of the operators `MDDFT`, `IMDDFT`,
`MDPRDFT`, `IMDPRDFT`, `PRDFT`, `IPRDFT`, `kernel` (real or complex symbol),
`zeroEmbedBox`, `extractBox`, `resample` and `copy` succeeds and changes the
session only by appending one line to the text: the line is a padding of three
or four blanks, `TDAGNode(`, a body and `),`, it contains no line feed and is
followed by one.  The earlier text, the flag, the counter, the free store and
everything else are unchanged.  The output of a `double` is assumed to contain
no line feed. -/
theorem call_appends_one_line {F : Type} {D : Nat} (fmt : F → String)
    (hfmt : ∀ x, '\n' ∉ (fmt x).data) (o : Operator F D) (d i : array_t (D + 1)) (s : Session)
    (h : s.tracing = true) :
    ∃ line : String,
      o.call fmt d i s = .ok { s with out := s.out ++ line ++ "\n" } ∧
      '\n' ∉ line.data ∧
      (∃ pad body : String, (pad = "   " ∨ pad = "    ") ∧
        line = pad ++ "TDAGNode(" ++ body ++ "),") ∧
      (∀ s1, o.call fmt d i s = .ok s1 →
        s1.tracing = s.tracing ∧ s1.ID = s.ID ∧ s1.heap = s.heap ∧ s1.files = s.files) := by
  obtain ⟨pad, head, sep, hpad, hsep, hhead, heq⟩ := Operator.call_eq fmt o d i
  have e : "),\n" = ")," ++ "\n" := by decide
  have hcall := heq s
  rw [if_pos h] at hcall
  refine ⟨pad ++ "TDAGNode(" ++ (head ++ ("var_" ++ (toString d.m_data.local ++ (sep ++
    ("var_" ++ toString i.m_data.local))))) ++ "),", ?_, ?_, ⟨pad, _, hpad, rfl⟩, ?_⟩
  · rw [hcall]
    simp only [e, String.append_assoc]
  · have hp : '\n' ∉ pad.data := by
      rcases hpad with hp | hp <;> rw [hp] <;> decide
    have hs : '\n' ∉ sep.data := by
      rcases hsep with hp | hp <;> rw [hp] <;> decide
    exact nl_append (nl_append (nl_append hp (by decide)) (nl_append (hhead hfmt)
      (nl_append (by decide) (nl_append (nat_toString_nl _) (nl_append hs
        (nl_append (by decide) (nat_toString_nl _))))))) (by decide)
  · intro s1 hs1
    rw [hcall] at hs1
    have := Except.ok.inj hs1
    subst this
    exact ⟨rfl, rfl, rfl, rfl⟩

/-- Witness of C17: `resample` between two descriptors on the box
`[1,3] x [1,4]` in a tracing session. -/
theorem call_appends_one_line_witness :
    (∀ x, '\n' ∉ (fmtZero x).data) ∧ tracingSession.tracing = true ∧
    ∃ line : String,
      (Operator.resample (fun _ => ()) : Operator Unit 1).call fmtZero
          ⟨0, global_ptr.ofPtr 2, smallBox⟩ ⟨0, global_ptr.ofPtr 1, smallBox⟩ tracingSession
        = .ok { tracingSession with out := tracingSession.out ++ line ++ "\n" } ∧
      '\n' ∉ line.data ∧
      (∃ pad body : String, (pad = "   " ∨ pad = "    ") ∧
        line = pad ++ "TDAGNode(" ++ body ++ "),") ∧
      (∀ s1, (Operator.resample (fun _ => ()) : Operator Unit 1).call fmtZero
          ⟨0, global_ptr.ofPtr 2, smallBox⟩ ⟨0, global_ptr.ofPtr 1, smallBox⟩ tracingSession
          = .ok s1 →
        s1.tracing = tracingSession.tracing ∧ s1.ID = tracingSession.ID ∧
        s1.heap = tracingSession.heap ∧ s1.files = tracingSession.files) :=
  ⟨fun _ => (by decide : '\n' ∉ ("0.00" : String).data), rfl,
    call_appends_one_line fmtZero (fun _ => (by decide : '\n' ∉ ("0.00" : String).data))
      (Operator.resample (fun _ => ()))
      ⟨0, global_ptr.ofPtr 2, smallBox⟩ ⟨0, global_ptr.ofPtr 1, smallBox⟩ tracingSession rfl⟩


/-- C18 (amended): take a program of descriptor constructions and operator
calls that starts in tracing with no descriptor and runs to its end without a
wrap of the counter (the counter at the start plus the number of descriptors
is below `2^64`), and any operator call in it, with the statements `pre` before
it and `post` after it.  The call finds both operands among the descriptors
constructed by `pre`; their ids are the counter at the start plus their
positions, both are below the counter at the call, which is at most the
counter at the end, and the declaration line of each is in the text that
`pre` has emitted.  The call appends its node line, which names these two ids,
right after the text of `pre`, and the text of `post` comes after the node
line: the text at the end is the text of `pre`, the node line, the text of
`post`. -/
theorem node_lines_ordered {F : Type} {D : Nat} (fmt : F → String) (pre post : List (Cmd F D))
    (o : Operator F D) (d i : Nat) (s0 s : Session) (env : List (array_t (D + 1)))
    (htr : s0.tracing = true)
    (hcs : ∀ c ∈ pre ++ Cmd.call o d i :: post, c.isTraceStep = true)
    (hrun : run fmt (pre ++ Cmd.call o d i :: post) (s0, []) = .ok (s, env))
    (hwrap : s0.ID + env.length < 2 ^ 64) :
    ∃ (sp : Session) (envp : List (array_t (D + 1))) (a b : array_t (D + 1))
      (pad head sep line rest : String),
      run fmt pre (s0, []) = .ok (sp, envp) ∧
      envp[d]? = some a ∧ envp[i]? = some b ∧
      a.id sp = .ok (s0.ID + d) ∧ b.id sp = .ok (s0.ID + i) ∧
      s0.ID + d < sp.ID ∧ s0.ID + i < sp.ID ∧ sp.ID ≤ s.ID ∧
      Declared s0.out sp.out (s0.ID + d) a.m_domain ∧
      Declared s0.out sp.out (s0.ID + i) b.m_domain ∧
      line = pad ++ "TDAGNode(" ++ head ++ "var_" ++ toString (s0.ID + d) ++ sep ++ "var_"
        ++ toString (s0.ID + i) ++ "),\n" ∧
      o.call fmt a b sp = .ok { sp with out := sp.out ++ line } ∧
      run fmt post ({ sp with out := sp.out ++ line }, envp) = .ok (s, env) ∧
      s.out = sp.out ++ line ++ rest := by
  obtain ⟨st1, hpre, hrest⟩ := run_append_ok pre _ hrun
  obtain ⟨st2, hstep, hpost⟩ := run_cons_ok hrest
  have hl2 : st2.2.length ≤ env.length := run_length_le post hpost
  have hl1 : st1.2.length ≤ st2.2.length := step_length_le hstep
  have hinv1 := (run_traceInv pre (fun c hc => hcs c (List.mem_append_left _ hc)) hpre
    s0.ID s0.out (by omega) (traceInv_start s0 htr)).1
  have hinv2 := (step_traceInv (hcs _ (List.mem_append_right _ (List.mem_cons_self _ _)))
    hstep s0.ID s0.out (by omega) hinv1).1
  obtain ⟨hinv3, rest, hrest3⟩ := run_traceInv post
    (fun c hc => hcs c (List.mem_append_right _ (List.mem_cons_of_mem _ hc))) hpost
    s0.ID s0.out hwrap hinv2
  obtain ⟨a, b, ha, hb, hcall, henv⟩ := step_call_ok hstep
  obtain ⟨pad, head, sep, _, _, _, heq⟩ := Operator.call_eq fmt o a b
  obtain ⟨htr1, hID1, _, hdecl1⟩ := hinv1
  obtain ⟨ha1, ha2, ha3⟩ := hdecl1 d a ha
  obtain ⟨hb1, hb2, hb3⟩ := hdecl1 i b hb
  have hd : d < st1.2.length := by
    by_contra hn
    rw [List.getElem?_eq_none (Nat.le_of_not_lt hn)] at ha
    cases ha
  have hi : i < st1.2.length := by
    by_contra hn
    rw [List.getElem?_eq_none (Nat.le_of_not_lt hn)] at hb
    cases hb
  have hcall2 := heq st1.1
  rw [if_pos htr1, ha2, hb2] at hcall2
  have hline : ∀ x y : String, pad ++ ("TDAGNode(" ++ (head ++ ("var_" ++ (x ++ (sep ++ ("var_" ++
      (y ++ "),\n"))))))) = pad ++ "TDAGNode(" ++ head ++ "var_" ++ x ++ sep ++ "var_"
        ++ y ++ "),\n" := by
    intro x y
    simp only [String.append_assoc]
  rw [hline] at hcall2
  have hst2 : st2 = ({ st1.1 with out := st1.1.out ++ (pad ++ "TDAGNode(" ++ head ++ "var_"
      ++ toString (s0.ID + d) ++ sep ++ "var_" ++ toString (s0.ID + i) ++ "),\n") }, st1.2) := by
    rw [hcall2] at hcall
    have h1 := Except.ok.inj hcall
    exact Prod.ext h1.symm henv
  refine ⟨st1.1, st1.2, a, b, pad, head, sep, _, rest, hpre, ha, hb, ?_, ?_, ?_, ?_, ?_,
    ha3, hb3, rfl, hcall2, ?_, ?_⟩
  · rw [array_t.id_eq, if_pos htr1, ha2]
  · rw [array_t.id_eq, if_pos htr1, hb2]
  · rw [hID1]; omega
  · rw [hID1]; omega
  · rw [hID1, hinv3.2.1]
    show s0.ID + st1.2.length ≤ s0.ID + env.length
    omega
  · rw [← hst2]
    exact hpost
  · rw [hrest3, hst2]


/-- Witness of C18: two descriptors on the box `[1,3] x [1,4]` and a `copy`
from the first to the second, from the start of a tracing session. -/
theorem node_lines_ordered_witness :
    tracingSession.tracing = true ∧
    (∀ c ∈ [Cmd.construct smallBox, Cmd.construct smallBox] ++
      (Cmd.call Operator.copy 1 0 : Cmd Unit 1) :: [], c.isTraceStep = true) ∧
    run fmtZero ([Cmd.construct smallBox, Cmd.construct smallBox] ++
        (Cmd.call Operator.copy 1 0 : Cmd Unit 1) :: []) (tracingSession, []) =
      .ok ({ tracingSession with
          ID := 3,
          out := "var_1:= var(\"var_1\", BoxND([3,4], TReal));\n"
            ++ "var_2:= var(\"var_2\", BoxND([3,4], TReal));\n"
            ++ "    TDAGNode(TGath(fBox([3,4])),var_2, var_1),\n" },
        [⟨0, global_ptr.ofPtr 1, smallBox⟩, ⟨0, global_ptr.ofPtr 2, smallBox⟩]) ∧
    tracingSession.ID + 2 < 2 ^ 64 ∧
    ∃ (sp : Session) (envp : List (array_t 2)) (a b : array_t 2)
      (pad head sep line rest : String),
      run fmtZero [Cmd.construct smallBox, Cmd.construct smallBox] (tracingSession, [])
        = .ok (sp, envp) ∧
      envp[1]? = some a ∧ envp[0]? = some b ∧
      a.id sp = .ok (tracingSession.ID + 1) ∧ b.id sp = .ok (tracingSession.ID + 0) ∧
      tracingSession.ID + 1 < sp.ID ∧ tracingSession.ID + 0 < sp.ID ∧ sp.ID ≤ 3 ∧
      Declared tracingSession.out sp.out (tracingSession.ID + 1) a.m_domain ∧
      Declared tracingSession.out sp.out (tracingSession.ID + 0) b.m_domain ∧
      line = pad ++ "TDAGNode(" ++ head ++ "var_" ++ toString (tracingSession.ID + 1) ++ sep
        ++ "var_" ++ toString (tracingSession.ID + 0) ++ "),\n" ∧
      (Operator.copy : Operator Unit 1).call fmtZero a b sp
        = .ok { sp with out := sp.out ++ line } ∧
      run fmtZero ([] : List (Cmd Unit 1)) ({ sp with out := sp.out ++ line }, envp) =
        .ok ({ tracingSession with
          ID := 3,
          out := "var_1:= var(\"var_1\", BoxND([3,4], TReal));\n"
            ++ "var_2:= var(\"var_2\", BoxND([3,4], TReal));\n"
            ++ "    TDAGNode(TGath(fBox([3,4])),var_2, var_1),\n" },
          [⟨0, global_ptr.ofPtr 1, smallBox⟩, ⟨0, global_ptr.ofPtr 2, smallBox⟩]) ∧
      "var_1:= var(\"var_1\", BoxND([3,4], TReal));\n"
            ++ "var_2:= var(\"var_2\", BoxND([3,4], TReal));\n"
            ++ "    TDAGNode(TGath(fBox([3,4])),var_2, var_1),\n" = sp.out ++ line ++ rest :=
  have hcs : ∀ c ∈ [Cmd.construct smallBox, Cmd.construct smallBox] ++
      (Cmd.call Operator.copy 1 0 : Cmd Unit 1) :: [], c.isTraceStep = true := by
    intro c hc
    simp only [List.cons_append, List.nil_append, List.mem_cons, List.mem_singleton,
      List.not_mem_nil, or_false] at hc
    rcases hc with hc | hc | hc <;> rw [hc] <;> rfl
  have hrun : run fmtZero ([Cmd.construct smallBox, Cmd.construct smallBox] ++
        (Cmd.call Operator.copy 1 0 : Cmd Unit 1) :: []) (tracingSession, []) =
      .ok ({ tracingSession with
          ID := 3,
          out := "var_1:= var(\"var_1\", BoxND([3,4], TReal));\n"
            ++ "var_2:= var(\"var_2\", BoxND([3,4], TReal));\n"
            ++ "    TDAGNode(TGath(fBox([3,4])),var_2, var_1),\n" },
        [⟨0, global_ptr.ofPtr 1, smallBox⟩, ⟨0, global_ptr.ofPtr 2, smallBox⟩]) := by
    rfl
  ⟨rfl, hcs, hrun, by decide,
    node_lines_ordered fmtZero [Cmd.construct smallBox, Cmd.construct smallBox] []
      Operator.copy 1 0 tracingSession _ _ rfl hcs hrun (by decide)⟩

/-- C18 as stated fails: in tracing with the counter at `2^64 - 1`, two
constructions and a `copy` from the first descriptor to the second run to
their end; the descriptors get the ids `2^64 - 1` and `0`, the counter ends at
`1`, and the node line names the id `18446744073709551615`, which is not below
the counter. -/
theorem node_refs_wrap :
    lastIdSession.tracing = true ∧ (∀ c ∈ copyTrace, c.isTraceStep = true) ∧
    ∃ s env, run fmtZero copyTrace (lastIdSession, []) = .ok (s, env) ∧
      s.ID = 1 ∧ tracedIds env = [2 ^ 64 - 1, 0] ∧
      s.out = "var_18446744073709551615:= var(\"var_18446744073709551615\", BoxND([3,4], TReal));\n"
        ++ "var_0:= var(\"var_0\", BoxND([3,4], TReal));\n"
        ++ "    TDAGNode(TGath(fBox([3,4])),var_0, var_18446744073709551615),\n" ∧
      ¬ (18446744073709551615 < s.ID) := by
  refine ⟨rfl, ?_, _, _, rfl, rfl, rfl, rfl, ?_⟩
  · intro c hc
    simp only [copyTrace, List.mem_cons, List.mem_singleton, List.not_mem_nil, or_false] at hc
    rcases hc with hc | hc | hc <;> rw [hc] <;> rfl
  · decide

/-- C19 (amended): the text that a program emits, and whether it runs to its
end, depend on the session only through the flag, the counter and the free
store: from two states that agree on these three, with the same descriptors,
the same program emits byte-identical text and leaves the same descriptors,
whatever was emitted earlier.  (The counter is not reset by a closing call, so
a second run in the same process starts from another counter.) -/
theorem trace_text_determined {F : Type} {D : Nat} (fmt : F → String) (cs : List (Cmd F D))
    (s t s1 : Session) (env env1 : List (array_t (D + 1)))
    (htr : s.tracing = t.tracing) (hID : s.ID = t.ID) (hheap : s.heap = t.heap)
    (hrun : run fmt cs (s, env) = .ok (s1, env1)) :
    ∃ (t1 : Session) (x : String), run fmt cs (t, env) = .ok (t1, env1) ∧
      s1.out = s.out ++ x ∧ t1.out = t.out ++ x ∧
      s1.tracing = t1.tracing ∧ s1.ID = t1.ID ∧ s1.heap = t1.heap :=
  run_agree cs htr hID hheap hrun

/-- Witness of C19: the complete trace run from the state at program start
and from a state that differs from it in the text already emitted. -/
theorem trace_text_determined_witness :
    Session.init.tracing = { Session.init with out := "earlier text\n" }.tracing ∧
    Session.init.ID = { Session.init with out := "earlier text\n" }.ID ∧
    Session.init.heap = { Session.init with out := "earlier text\n" }.heap ∧
    run fmtZero closedTrace (Session.init, []) =
      .ok (closeDAG [⟨0, global_ptr.ofPtr 2, smallBox⟩] "t"
        { tracingSession with
          ID := 3,
          out := "var_1:= var(\"var_1\", BoxND([3,4], TReal));\n"
            ++ "var_2:= var(\"var_2\", BoxND([3,4], TReal));\n"
            ++ "   TDAGNode(TTensorI(MDDFT([3,4],-1),1,APar, APar), var_2,var_1),\n" },
        [⟨0, global_ptr.ofPtr 1, smallBox⟩, ⟨0, global_ptr.ofPtr 2, smallBox⟩]) ∧
    ∃ (t1 : Session) (x : String),
      run fmtZero closedTrace ({ Session.init with out := "earlier text\n" }, []) =
        .ok (t1, [⟨0, global_ptr.ofPtr 1, smallBox⟩, ⟨0, global_ptr.ofPtr 2, smallBox⟩]) ∧
      (closeDAG [⟨0, global_ptr.ofPtr 2, smallBox⟩] "t"
        { tracingSession with
          ID := 3,
          out := "var_1:= var(\"var_1\", BoxND([3,4], TReal));\n"
            ++ "var_2:= var(\"var_2\", BoxND([3,4], TReal));\n"
            ++ "   TDAGNode(TTensorI(MDDFT([3,4],-1),1,APar, APar), var_2,var_1),\n" }).out
        = Session.init.out ++ x ∧
      t1.out = "earlier text\n" ++ x :=
  have hrun : run fmtZero closedTrace (Session.init, []) =
      .ok (closeDAG [⟨0, global_ptr.ofPtr 2, smallBox⟩] "t"
        { tracingSession with
          ID := 3,
          out := "var_1:= var(\"var_1\", BoxND([3,4], TReal));\n"
            ++ "var_2:= var(\"var_2\", BoxND([3,4], TReal));\n"
            ++ "   TDAGNode(TTensorI(MDDFT([3,4],-1),1,APar, APar), var_2,var_1),\n" },
        [⟨0, global_ptr.ofPtr 1, smallBox⟩, ⟨0, global_ptr.ofPtr 2, smallBox⟩]) := by
    rfl
  have h := trace_text_determined fmtZero closedTrace Session.init
    { Session.init with out := "earlier text\n" } _ [] _ rfl rfl rfl hrun
  ⟨rfl, rfl, rfl, hrun, h.elim fun t1 h1 => h1.elim fun x hx => ⟨t1, x, hx.1, hx.2.1, hx.2.2.1⟩⟩

set_option maxRecDepth 100000

/-- C19 as stated fails: the complete trace (tracing switched on, two
descriptors, a forward transform, `closeDAG`) is run from the state at program
start, and run again, with no descriptor, from the state the first run has
left.  Both runs end; the first emits text with `var_1` and `var_2`, the
second emits text with `var_3` and `var_4`, because `closeDAG` does not reset
the counter. -/
theorem rerun_differs :
    ∃ s1 e1 s2 e2, run fmtZero closedTrace (Session.init, []) = .ok (s1, e1) ∧
      run fmtZero closedTrace (s1, []) = .ok (s2, e2) ∧
      s1.out = Session.init.out ++
        ("var_1:= var(\"var_1\", BoxND([3,4], TReal));\n"
          ++ "var_2:= var(\"var_2\", BoxND([3,4], TReal));\n"
          ++ "   TDAGNode(TTensorI(MDDFT([3,4],-1),1,APar, APar), var_2,var_1),\n"
          ++ "\n]),\n   [var_2]\n),\n"
          ++ "rec(XType:= TPtr(TPtr(TReal)), YType:=TPtr(TPtr(TReal)), fname:=\"t_spiral\", params:= [symvar])\n"
          ++ ");\nprefix:=\"t\";\n") ∧
      s2.out = s1.out ++
        ("var_3:= var(\"var_3\", BoxND([3,4], TReal));\n"
          ++ "var_4:= var(\"var_4\", BoxND([3,4], TReal));\n"
          ++ "   TDAGNode(TTensorI(MDDFT([3,4],-1),1,APar, APar), var_4,var_3),\n"
          ++ "\n]),\n   [var_4]\n),\n"
          ++ "rec(XType:= TPtr(TPtr(TReal)), YType:=TPtr(TPtr(TReal)), fname:=\"t_spiral\", params:= [symvar])\n"
          ++ ");\nprefix:=\"t\";\n") ∧
      ("var_1:= var(\"var_1\", BoxND([3,4], TReal));\n"
          ++ "var_2:= var(\"var_2\", BoxND([3,4], TReal));\n"
          ++ "   TDAGNode(TTensorI(MDDFT([3,4],-1),1,APar, APar), var_2,var_1),\n"
          ++ "\n]),\n   [var_2]\n),\n"
          ++ "rec(XType:= TPtr(TPtr(TReal)), YType:=TPtr(TPtr(TReal)), fname:=\"t_spiral\", params:= [symvar])\n"
          ++ ");\nprefix:=\"t\";\n") ≠
        ("var_3:= var(\"var_3\", BoxND([3,4], TReal));\n"
          ++ "var_4:= var(\"var_4\", BoxND([3,4], TReal));\n"
          ++ "   TDAGNode(TTensorI(MDDFT([3,4],-1),1,APar, APar), var_4,var_3),\n"
          ++ "\n]),\n   [var_4]\n),\n"
          ++ "rec(XType:= TPtr(TPtr(TReal)), YType:=TPtr(TPtr(TReal)), fname:=\"t_spiral\", params:= [symvar])\n"
          ++ ");\nprefix:=\"t\";\n") := by
  refine ⟨_, _, _, _, rfl, rfl, rfl, rfl, ?_⟩
  intro h
  have h2 := congrArg (fun x : String => x.data.get? 4) h
  revert h2
  decide


/-- C20: the forward emitters `MDDFT`, `MDPRDFT`, `PRDFT` and
`BATCH1DDFTProblem::semantics` print the sign `-1`, the inverse emitters
`IMDDFT`, `IMDPRDFT`, `IPRDFT` and `IBATCH1DDFTProblem::semantics` print the
sign `1`, for all extents, batch counts, operands, sizes and names: the text
that each of them appends is given in full, with the sign in its place (the six
operators in tracing, the two `semantics` members on a `sizes` vector with at
least four entries). -/
theorem transform_signs {DIM : Nat} (extents : point_t DIM) (batch : Int)
    (d i : array_t DIM) (d1 i1 : array_t (DIM + 1)) (n b r w : Int) (rest : List Int)
    (name : String) (s : Session) (h : s.tracing = true) :
    MDDFT extents batch d i s = .ok { s with out := (s.out ++ "   TDAGNode(TTensorI(MDDFT("
      ++ extents.show ++ "," ++ toString (-1 : Int) ++ ")," ++ toString batch
      ++ ",APar, APar), var_" ++ toString d.m_data.local ++ ",var_"
      ++ toString i.m_data.local ++ "),\n") } ∧
    IMDDFT extents batch d i s = .ok { s with out := (s.out ++ "   TDAGNode(TTensorI(MDDFT("
      ++ extents.show ++ "," ++ toString (1 : Int) ++ ")," ++ toString batch
      ++ ",APar, APar), var_" ++ toString d.m_data.local ++ ",var_"
      ++ toString i.m_data.local ++ "),\n") } ∧
    MDPRDFT extents batch d1 i1 s = .ok { s with out := (s.out
      ++ "    TDAGNode(TTensorI(MDPRDFT("
      ++ extents.show ++ "," ++ toString (-1 : Int) ++ ")," ++ toString batch
      ++ ",APar,APar), var_" ++ toString d1.m_data.local ++ ",var_"
      ++ toString i1.m_data.local ++ "),\n") } ∧
    IMDPRDFT extents batch d1 i1 s = .ok { s with out := (s.out
      ++ "    TDAGNode(TTensorI(IMDPRDFT("
      ++ extents.show ++ "," ++ toString (1 : Int) ++ ")," ++ toString batch
      ++ ",APar,APar), var_" ++ toString d1.m_data.local ++ ",var_"
      ++ toString i1.m_data.local ++ "),\n") } ∧
    PRDFT extents d i s = .ok { s with out := (s.out ++ "    TDAGNode(MDPRDFT("
      ++ extents.show ++ "," ++ toString (-1 : Int) ++ "), var_" ++ toString d.m_data.local
      ++ ",var_" ++ toString i.m_data.local ++ "),\n") } ∧
    IPRDFT extents d i s = .ok { s with out := (s.out ++ "    TDAGNode(IMDPRDFT("
      ++ extents.show ++ "," ++ toString (1 : Int) ++ "), var_" ++ toString d.m_data.local
      ++ ",var_" ++ toString i.m_data.local ++ "),\n") } ∧
    BATCH1DDFTProblem.semantics (n :: b :: r :: w :: rest) name s = .ok { s with out := (s.out
      ++ "N := " ++ toString n ++ ";\n" ++ "B := " ++ toString b ++ ";\n"
      ++ (if r = 0 then "read := APar;\n" else "read := AVec;\n")
      ++ (if w = 0 then "write := APar;\n" else "write := AVec;\n")
      ++ "sign := " ++ toString (-1 : Int) ++ ";\n"
      ++ "name := \"" ++ name ++ "_spiral\";\n" ++ batch1ddft_script ++ "\n") } ∧
    IBATCH1DDFTProblem.semantics (n :: b :: r :: w :: rest) name s = .ok { s with out := (s.out
      ++ "N := " ++ toString n ++ ";\n" ++ "B := " ++ toString b ++ ";\n"
      ++ (if r = 0 then "read := APar;\n" else "read := AVec;\n")
      ++ (if w = 0 then "write := APar;\n" else "write := AVec;\n")
      ++ "sign := " ++ toString (1 : Int) ++ ";\n"
      ++ "name := \"" ++ name ++ "_spiral\";\n" ++ ibatch1ddft_script ++ "\n") } := by
  have e1 : ",-1)," = "," ++ (toString (-1 : Int) ++ "),") := by decide
  have e2 : ",1)," = "," ++ (toString (1 : Int) ++ "),") := by decide
  have e3 : ",-1), var_" = "," ++ (toString (-1 : Int) ++ "), var_") := by decide
  have e4 : ",1), var_" = "," ++ (toString (1 : Int) ++ "), var_") := by decide
  have e5 : "sign := -1;" = "sign := " ++ (toString (-1 : Int) ++ ";") := by decide
  have e6 : "sign := 1;" = "sign := " ++ (toString (1 : Int) ++ ";") := by decide
  have e7 : ";\n" = ";" ++ "\n" := by decide
  have e8 : "_spiral\";\n" = "_spiral" ++ ("\";" ++ "\n") := by decide
  have e9 : "read := APar;\n" = "read := APar;" ++ "\n" := by decide
  have e10 : "read := AVec;\n" = "read := AVec;" ++ "\n" := by decide
  have e11 : "write := APar;\n" = "write := APar;" ++ "\n" := by decide
  have e12 : "write := AVec;\n" = "write := AVec;" ++ "\n" := by decide
  have v0 : vectorAt (n :: b :: r :: w :: rest) 0 = .ok n := rfl
  have v1 : vectorAt (n :: b :: r :: w :: rest) 1 = .ok b := rfl
  have v2 : vectorAt (n :: b :: r :: w :: rest) 2 = .ok r := rfl
  have v3 : vectorAt (n :: b :: r :: w :: rest) 3 = .ok w := by
    simp only [vectorAt, List.getElem?_cons_succ, List.getElem?_cons_zero]
  refine ⟨?_, ?_, ?_, ?_, ?_, ?_, ?_, ?_⟩
  · simp only [fftx.MDDFT, array_t.id_eq, h, e1, String.append_assoc]
    rfl
  · simp only [fftx.IMDDFT, array_t.id_eq, h, e2, String.append_assoc]
    rfl
  · simp only [fftx.MDPRDFT, array_t.id_eq, h, e1, String.append_assoc]
    rfl
  · simp only [fftx.IMDPRDFT, array_t.id_eq, h, e2, String.append_assoc]
    rfl
  · simp only [fftx.PRDFT, array_t.id_eq, h, e3, String.append_assoc]
    rfl
  · simp only [fftx.IPRDFT, array_t.id_eq, h, e4, String.append_assoc]
    rfl
  · have hsem : BATCH1DDFTProblem.semantics (n :: b :: r :: w :: rest) name s =
        .ok { s with out :=
          ((if w = 0 then
              (if r = 0 then s.out ++ "N := " ++ toString n ++ ";" ++ "\n" ++ "B := " ++ toString b
                  ++ ";" ++ "\n" ++ "read := APar;" ++ "\n"
                else s.out ++ "N := " ++ toString n ++ ";" ++ "\n" ++ "B := " ++ toString b
                  ++ ";" ++ "\n" ++ "read := AVec;" ++ "\n") ++ "write := APar;" ++ "\n"
            else
              (if r = 0 then s.out ++ "N := " ++ toString n ++ ";" ++ "\n" ++ "B := " ++ toString b
                  ++ ";" ++ "\n" ++ "read := APar;" ++ "\n"
                else s.out ++ "N := " ++ toString n ++ ";" ++ "\n" ++ "B := " ++ toString b
                  ++ ";" ++ "\n" ++ "read := AVec;" ++ "\n") ++ "write := AVec;" ++ "\n")
            ++ "sign := -1;" ++ "\n" ++ "name := \"" ++ name ++ "_spiral" ++ "\";" ++ "\n"
            ++ batch1ddft_script ++ "\n") } := by
      unfold BATCH1DDFTProblem.semantics
      rw [v0, v1, v2, v3]
      simp only [bind, Except.bind, pure, Except.pure]
    rw [hsem]
    by_cases hr : r = 0 <;> by_cases hw : w = 0 <;>
      simp only [hr, hw, e5, e7, e8, e9, e10, e11, e12, if_true, if_false,
        String.append_assoc]
  · have hsem : IBATCH1DDFTProblem.semantics (n :: b :: r :: w :: rest) name s =
        .ok { s with out :=
          ((if w = 0 then
              (if r = 0 then s.out ++ "N := " ++ toString n ++ ";" ++ "\n" ++ "B := " ++ toString b
                  ++ ";" ++ "\n" ++ "read := APar;" ++ "\n"
                else s.out ++ "N := " ++ toString n ++ ";" ++ "\n" ++ "B := " ++ toString b
                  ++ ";" ++ "\n" ++ "read := AVec;" ++ "\n") ++ "write := APar;" ++ "\n"
            else
              (if r = 0 then s.out ++ "N := " ++ toString n ++ ";" ++ "\n" ++ "B := " ++ toString b
                  ++ ";" ++ "\n" ++ "read := APar;" ++ "\n"
                else s.out ++ "N := " ++ toString n ++ ";" ++ "\n" ++ "B := " ++ toString b
                  ++ ";" ++ "\n" ++ "read := AVec;" ++ "\n") ++ "write := AVec;" ++ "\n")
            ++ "sign := 1;" ++ "\n" ++ "name := \"" ++ name ++ "_spiral" ++ "\";" ++ "\n"
            ++ ibatch1ddft_script ++ "\n") } := by
      unfold IBATCH1DDFTProblem.semantics
      rw [v0, v1, v2, v3]
      simp only [bind, Except.bind, pure, Except.pure]
    rw [hsem]
    by_cases hr : r = 0 <;> by_cases hw : w = 0 <;>
      simp only [hr, hw, e5, e6, e7, e8, e9, e10, e11, e12, if_true, if_false,
        String.append_assoc]


/-- Witness of C20: extents `[3,4]`, batch count `1`, destination `var_2`,
source `var_1`, and the `sizes` vector `8, 4, 0, 1` with the name `b`. -/
theorem transform_signs_witness :
    tracingSession.tracing = true ∧
    (MDDFT ⟨![3, 4]⟩ 1 (⟨0, global_ptr.ofPtr 2, smallBox⟩ : array_t 2)
        ⟨0, global_ptr.ofPtr 1, smallBox⟩ tracingSession
      = .ok { tracingSession with
        out := "   TDAGNode(TTensorI(MDDFT([3,4],-1),1,APar, APar), var_2,var_1),\n" } ∧
    IMDDFT ⟨![3, 4]⟩ 1 (⟨0, global_ptr.ofPtr 2, smallBox⟩ : array_t 2)
        ⟨0, global_ptr.ofPtr 1, smallBox⟩ tracingSession
      = .ok { tracingSession with
        out := "   TDAGNode(TTensorI(MDDFT([3,4],1),1,APar, APar), var_2,var_1),\n" } ∧
    MDPRDFT ⟨![3, 4]⟩ 1 (⟨0, global_ptr.ofPtr 2, hugeBox⟩ : array_t 3)
        ⟨0, global_ptr.ofPtr 1, hugeBox⟩ tracingSession
      = .ok { tracingSession with
        out := "    TDAGNode(TTensorI(MDPRDFT([3,4],-1),1,APar,APar), var_2,var_1),\n" } ∧
    IMDPRDFT ⟨![3, 4]⟩ 1 (⟨0, global_ptr.ofPtr 2, hugeBox⟩ : array_t 3)
        ⟨0, global_ptr.ofPtr 1, hugeBox⟩ tracingSession
      = .ok { tracingSession with
        out := "    TDAGNode(TTensorI(IMDPRDFT([3,4],1),1,APar,APar), var_2,var_1),\n" } ∧
    PRDFT ⟨![3, 4]⟩ (⟨0, global_ptr.ofPtr 2, smallBox⟩ : array_t 2)
        ⟨0, global_ptr.ofPtr 1, smallBox⟩ tracingSession
      = .ok { tracingSession with
        out := "    TDAGNode(MDPRDFT([3,4],-1), var_2,var_1),\n" } ∧
    IPRDFT ⟨![3, 4]⟩ (⟨0, global_ptr.ofPtr 2, smallBox⟩ : array_t 2)
        ⟨0, global_ptr.ofPtr 1, smallBox⟩ tracingSession
      = .ok { tracingSession with
        out := "    TDAGNode(IMDPRDFT([3,4],1), var_2,var_1),\n" } ∧
    BATCH1DDFTProblem.semantics [8, 4, 0, 1] "b" tracingSession
      = .ok { tracingSession with
        out := "N := 8;\nB := 4;\nread := APar;\nwrite := AVec;\nsign := -1;\n"
          ++ "name := \"b_spiral\";\n" ++ batch1ddft_script ++ "\n" } ∧
    IBATCH1DDFTProblem.semantics [8, 4, 0, 1] "b" tracingSession
      = .ok { tracingSession with
        out := "N := 8;\nB := 4;\nread := APar;\nwrite := AVec;\nsign := 1;\n"
          ++ "name := \"b_spiral\";\n" ++ ibatch1ddft_script ++ "\n" }) :=
  ⟨rfl, transform_signs ⟨![3, 4]⟩ 1 ⟨0, global_ptr.ofPtr 2, smallBox⟩
    ⟨0, global_ptr.ofPtr 1, smallBox⟩ ⟨0, global_ptr.ofPtr 2, hugeBox⟩
    ⟨0, global_ptr.ofPtr 1, hugeBox⟩ 8 4 0 1 [] "b" tracingSession rfl⟩

end fftx

/-!
The claims on the problem scripts, the closing calls, the element loops and
the orderings of a box.
-/

namespace fftx

/-- C21: on every `sizes` vector with at least four entries
`BATCH1DDFTProblem::semantics` succeeds and appends `N := <sizes[0]>;`,
`B := <sizes[1]>;`, `read := APar;` if `sizes[2] == 0` and `read := AVec;`
otherwise, `write := APar;` if `sizes[3] == 0` and `write := AVec;` otherwise,
`sign := -1;`, `name := "<name>_spiral";` and the script, each on its line.
Each of the four combinations of the read and the write tag is the output for
some `sizes`, and `sizes = [8, 4, 0, 1]` gives `N := 8`, `B := 4`, `APar` read,
`AVec` write and sign `-1`. -/
theorem batch1ddft_semantics_text (n b r w : Int) (rest : List Int) (name : String)
    (s : Session) :
    BATCH1DDFTProblem.semantics (n :: b :: r :: w :: rest) name s =
      .ok { s with out := (s.out ++ "N := " ++ toString n ++ ";\n" ++ "B := " ++ toString b
        ++ ";\n" ++ (if r = 0 then "read := APar;\n" else "read := AVec;\n")
        ++ (if w = 0 then "write := APar;\n" else "write := AVec;\n")
        ++ "sign := -1;\n" ++ "name := \"" ++ name ++ "_spiral\";\n" ++ batch1ddft_script
        ++ "\n") } ∧
    (∀ rd wr : String, (rd = "APar" ∨ rd = "AVec") → (wr = "APar" ∨ wr = "AVec") →
      ∃ r1 w1 : Int, BATCH1DDFTProblem.semantics [n, b, r1, w1] name s =
        .ok { s with out := (s.out ++ "N := " ++ toString n ++ ";\n" ++ "B := " ++ toString b
          ++ ";\n" ++ "read := " ++ rd ++ ";\n" ++ "write := " ++ wr ++ ";\n"
          ++ "sign := -1;\n" ++ "name := \"" ++ name ++ "_spiral\";\n" ++ batch1ddft_script
          ++ "\n") }) ∧
    BATCH1DDFTProblem.semantics [8, 4, 0, 1] name s =
      .ok { s with out := (s.out ++ "N := 8;\nB := 4;\nread := APar;\nwrite := AVec;\n"
        ++ "sign := -1;\n" ++ "name := \"" ++ name ++ "_spiral\";\n" ++ batch1ddft_script
        ++ "\n") } := by
  have e1 : "read := APar;\n" = "read := " ++ ("APar" ++ ";\n") := by decide
  have e2 : "read := AVec;\n" = "read := " ++ ("AVec" ++ ";\n") := by decide
  have e3 : "write := APar;\n" = "write := " ++ ("APar" ++ ";\n") := by decide
  have e4 : "write := AVec;\n" = "write := " ++ ("AVec" ++ ";\n") := by decide
  refine ⟨BATCH1DDFTProblem.semantics_eq n b r w rest name s, ?_, ?_⟩
  · intro rd wr hrd hwr
    rcases hrd with hrd | hrd <;> rcases hwr with hwr | hwr <;> subst hrd <;> subst hwr
    · refine ⟨0, 0, ?_⟩
      rw [BATCH1DDFTProblem.semantics_eq]
      simp only [if_true, e1, e3, String.append_assoc]
    · refine ⟨0, 1, ?_⟩
      rw [BATCH1DDFTProblem.semantics_eq]
      simp only [if_true, one_ne_zero, if_false, e1, e4, String.append_assoc]
    · refine ⟨1, 0, ?_⟩
      rw [BATCH1DDFTProblem.semantics_eq]
      simp only [if_true, one_ne_zero, if_false, e2, e3, String.append_assoc]
    · refine ⟨1, 1, ?_⟩
      rw [BATCH1DDFTProblem.semantics_eq]
      simp only [one_ne_zero, if_false, e2, e4, String.append_assoc]
  · have e5 : "N := 8;\nB := 4;\nread := APar;\nwrite := AVec;\n" =
        "N := " ++ (toString (8 : Int) ++ (";\n" ++ ("B := " ++ (toString (4 : Int) ++ (";\n" ++
          ("read := APar;\n" ++ "write := AVec;\n")))))) := by decide
    rw [BATCH1DDFTProblem.semantics_eq]
    simp only [if_true, one_ne_zero, if_false, e5, String.append_assoc]

/-- C23: for every list `localVars` and name, `closeDAG(localVars, name)` sets
the flag to `false` whatever it was, and appends to the text `\n]),\n   [`, the
names `var_<id>` of the elements of `localVars` in list order separated by a
comma and a blank (nothing for the empty list), `]\n),\n`, the line
`rec(XType:= .., YType:=.., fname:="<name>_spiral", params:= [symvar])`, the
line `);` and the line `prefix:="<name>";`; the counter is unchanged. -/
theorem closeDAG_text {DIM : Nat} (localVars : List (array_t DIM)) (name : String)
    (s : Session) :
    (closeDAG localVars name s).tracing = false ∧
    (closeDAG localVars name s).out =
      s.out ++ "\n]),\n   ["
        ++ String.intercalate ", " (localVars.map (fun v => "var_" ++ toString v.m_data.local))
        ++ "]\n),\n"
        ++ "rec(XType:= TPtr(TPtr(TReal)), YType:=TPtr(TPtr(TReal)), fname:=\"" ++ name
        ++ "_spiral\", params:= [symvar])\n" ++ ");\n"
        ++ "prefix:=\"" ++ name ++ "\";\n" ∧
    (closeDAG ([] : List (array_t DIM)) name s).out =
      s.out ++ "\n]),\n   [" ++ "]\n),\n"
        ++ "rec(XType:= TPtr(TPtr(TReal)), YType:=TPtr(TPtr(TReal)), fname:=\"" ++ name
        ++ "_spiral\", params:= [symvar])\n" ++ ");\n"
        ++ "prefix:=\"" ++ name ++ "\";\n" ∧
    (closeDAG localVars name s).ID = s.ID := by
  refine ⟨rfl, ?_, ?_, rfl⟩
  · rw [← showLocalVars_eq]
    simp only [closeDAG, String.append_assoc]
  · simp only [closeDAG, showLocalVars, String.append_assoc, String.append_empty]

end fftx

namespace fftx

/-- The text that the four batched operators append: the tags are `APar` and
`APar`, and the letter `V` does not occur. -/
theorem batched_lines {DIM : Nat} (extents : point_t DIM) (batch : Int)
    (d i : array_t DIM) (d1 i1 : array_t (DIM + 1)) :
    ∃ l1 l2 l3 l4 : String,
      l1 = "   TDAGNode(TTensorI(MDDFT(" ++ extents.show ++ ",-1)," ++ toString batch ++ ","
        ++ "APar" ++ ", " ++ "APar" ++ "), var_" ++ toString d.m_data.local ++ ",var_"
        ++ toString i.m_data.local ++ "),\n" ∧
      l2 = "   TDAGNode(TTensorI(MDDFT(" ++ extents.show ++ ",1)," ++ toString batch ++ ","
        ++ "APar" ++ ", " ++ "APar" ++ "), var_" ++ toString d.m_data.local ++ ",var_"
        ++ toString i.m_data.local ++ "),\n" ∧
      l3 = "    TDAGNode(TTensorI(MDPRDFT(" ++ extents.show ++ ",-1)," ++ toString batch ++ ","
        ++ "APar" ++ "," ++ "APar" ++ "), var_" ++ toString d1.m_data.local ++ ",var_"
        ++ toString i1.m_data.local ++ "),\n" ∧
      l4 = "    TDAGNode(TTensorI(IMDPRDFT(" ++ extents.show ++ ",1)," ++ toString batch ++ ","
        ++ "APar" ++ "," ++ "APar" ++ "), var_" ++ toString d1.m_data.local ++ ",var_"
        ++ toString i1.m_data.local ++ "),\n" ∧
      'V' ∉ l1.data ∧ 'V' ∉ l2.data ∧ 'V' ∉ l3.data ∧ 'V' ∉ l4.data ∧
      ∀ s : Session,
        MDDFT extents batch d i s =
          (if s.tracing then .ok { s with out := s.out ++ l1 } else .error "assert(tracing)") ∧
        IMDDFT extents batch d i s =
          (if s.tracing then .ok { s with out := s.out ++ l2 } else .error "assert(tracing)") ∧
        MDPRDFT extents batch d1 i1 s =
          (if s.tracing then .ok { s with out := s.out ++ l3 } else .error "assert(tracing)") ∧
        IMDPRDFT extents batch d1 i1 s =
          (if s.tracing then .ok { s with out := s.out ++ l4 } else .error "assert(tracing)") := by
  have hc : ∀ m, m < 10 → Nat.digitChar m ≠ 'V' := by decide
  have e1 : ",APar, APar), var_" = "," ++ ("APar" ++ (", " ++ ("APar" ++ "), var_"))) := by
    decide
  have e2 : ",APar,APar), var_" = "," ++ ("APar" ++ ("," ++ ("APar" ++ "), var_"))) := by
    decide
  have hV : ∀ (a b sep : String) (x y : Nat), 'V' ∉ a.data → 'V' ∉ b.data → 'V' ∉ sep.data →
      'V' ∉ (a ++ extents.show ++ b ++ toString batch ++ "," ++ "APar" ++ sep ++ "APar"
        ++ "), var_" ++ toString x ++ ",var_" ++ toString y ++ "),\n").data := by
    intro a b sep x y ha hb hsep
    exact not_mem_append (not_mem_append (not_mem_append (not_mem_append (not_mem_append
      (not_mem_append (not_mem_append (not_mem_append (not_mem_append (not_mem_append
      (not_mem_append (not_mem_append ha (point_t.show_no_V _)) hb)
      (int_toString_not_mem _ hc (by decide) _)) (by decide)) (by decide)) hsep) (by decide))
      (by decide)) (nat_toString_not_mem _ hc _)) (by decide)) (nat_toString_not_mem _ hc _))
      (by decide)
  refine ⟨_, _, _, _, rfl, rfl, rfl, rfl, hV _ _ _ _ _ (by decide) (by decide) (by decide),
    hV _ _ _ _ _ (by decide) (by decide) (by decide),
    hV _ _ _ _ _ (by decide) (by decide) (by decide),
    hV _ _ _ _ _ (by decide) (by decide) (by decide), fun s => ?_⟩
  cases hs : s.tracing
  · refine ⟨?_, ?_, ?_, ?_⟩ <;>
      simp only [fftx.MDDFT, fftx.IMDDFT, fftx.MDPRDFT, fftx.IMDPRDFT, array_t.id_eq, hs] <;> rfl
  · refine ⟨?_, ?_, ?_, ?_⟩ <;>
      simp only [fftx.MDDFT, fftx.IMDDFT, fftx.MDPRDFT, fftx.IMDPRDFT, array_t.id_eq, hs, e1, e2,
        String.append_assoc] <;> rfl

/-- A call that succeeds with the text `line` appended has not appended a
text that contains `AVec`, if `V` does not occur in `line`. -/
theorem no_AVec_of_line {s s1 : Session} {line : String} {r : Except String Session}
    (hV : 'V' ∉ line.data)
    (hr : r = if s.tracing then .ok { s with out := s.out ++ line } else .error "assert(tracing)")
    (h1 : r = .ok s1) (u v : String) : s1.out ≠ s.out ++ (u ++ "AVec" ++ v) := by
  intro h
  rw [hr] at h1
  cases hs : s.tracing
  · rw [hs] at h1
    cases h1
  · rw [if_pos hs] at h1
    have h2 := Except.ok.inj h1
    rw [← h2] at h
    have h3 : line = u ++ "AVec" ++ v := String.append_left_cancel h
    rw [h3] at hV
    exact hV (V_mem_of_AVec u v)

/-- C22 (amended): every call of a batched operator of the tracing API
(`MDDFT`, `IMDDFT`, `MDPRDFT`, `IMDPRDFT`) in tracing emits a node whose read
tag and write tag are both `APar`: the text it appends is given in full, and
no call of one of the four appends a text that contains `AVec`. -/
theorem batched_tags_contiguous {DIM : Nat} (extents : point_t DIM) (batch : Int)
    (d i : array_t DIM) (d1 i1 : array_t (DIM + 1)) (s : Session) (h : s.tracing = true) :
    MDDFT extents batch d i s = .ok { s with out := s.out ++
      ("   TDAGNode(TTensorI(MDDFT(" ++ extents.show ++ ",-1)," ++ toString batch ++ ","
        ++ "APar" ++ ", " ++ "APar" ++ "), var_" ++ toString d.m_data.local ++ ",var_"
        ++ toString i.m_data.local ++ "),\n") } ∧
    IMDDFT extents batch d i s = .ok { s with out := s.out ++
      ("   TDAGNode(TTensorI(MDDFT(" ++ extents.show ++ ",1)," ++ toString batch ++ ","
        ++ "APar" ++ ", " ++ "APar" ++ "), var_" ++ toString d.m_data.local ++ ",var_"
        ++ toString i.m_data.local ++ "),\n") } ∧
    MDPRDFT extents batch d1 i1 s = .ok { s with out := s.out ++
      ("    TDAGNode(TTensorI(MDPRDFT(" ++ extents.show ++ ",-1)," ++ toString batch ++ ","
        ++ "APar" ++ "," ++ "APar" ++ "), var_" ++ toString d1.m_data.local ++ ",var_"
        ++ toString i1.m_data.local ++ "),\n") } ∧
    IMDPRDFT extents batch d1 i1 s = .ok { s with out := s.out ++
      ("    TDAGNode(TTensorI(IMDPRDFT(" ++ extents.show ++ ",1)," ++ toString batch ++ ","
        ++ "APar" ++ "," ++ "APar" ++ "), var_" ++ toString d1.m_data.local ++ ",var_"
        ++ toString i1.m_data.local ++ "),\n") } ∧
    (∀ (s1 : Session) (u v : String),
      (MDDFT extents batch d i s = .ok s1 ∨ IMDDFT extents batch d i s = .ok s1 ∨
        MDPRDFT extents batch d1 i1 s = .ok s1 ∨ IMDPRDFT extents batch d1 i1 s = .ok s1) →
      s1.out ≠ s.out ++ (u ++ "AVec" ++ v)) := by
  obtain ⟨l1, l2, l3, l4, h1, h2, h3, h4, v1, v2, v3, v4, hs⟩ :=
    batched_lines extents batch d i d1 i1
  obtain ⟨c1, c2, c3, c4⟩ := hs s
  refine ⟨?_, ?_, ?_, ?_, ?_⟩
  · rw [c1, if_pos h, h1]
  · rw [c2, if_pos h, h2]
  · rw [c3, if_pos h, h3]
  · rw [c4, if_pos h, h4]
  · intro s1 u v hor
    rcases hor with hor | hor | hor | hor
    · exact no_AVec_of_line v1 c1 hor u v
    · exact no_AVec_of_line v2 c2 hor u v
    · exact no_AVec_of_line v3 c3 hor u v
    · exact no_AVec_of_line v4 c4 hor u v

/-- Witness of C22: extents `[3,4]`, batch count `1`, destination `var_2`,
source `var_1`, at the start of a tracing session. -/
theorem batched_tags_contiguous_witness :
    tracingSession.tracing = true ∧
    MDDFT ⟨![3, 4]⟩ 1 (⟨0, global_ptr.ofPtr 2, smallBox⟩ : array_t 2)
        ⟨0, global_ptr.ofPtr 1, smallBox⟩ tracingSession
      = .ok { tracingSession with
        out := "   TDAGNode(TTensorI(MDDFT([3,4],-1),1,APar, APar), var_2,var_1),\n" } ∧
    MDPRDFT ⟨![3, 4]⟩ 1 (⟨0, global_ptr.ofPtr 2, hugeBox⟩ : array_t 3)
        ⟨0, global_ptr.ofPtr 1, hugeBox⟩ tracingSession
      = .ok { tracingSession with
        out := "    TDAGNode(TTensorI(MDPRDFT([3,4],-1),1,APar,APar), var_2,var_1),\n" } ∧
    (∀ (s1 : Session) (u v : String),
      (MDDFT ⟨![3, 4]⟩ 1 (⟨0, global_ptr.ofPtr 2, smallBox⟩ : array_t 2)
          ⟨0, global_ptr.ofPtr 1, smallBox⟩ tracingSession = .ok s1 ∨
        IMDDFT ⟨![3, 4]⟩ 1 (⟨0, global_ptr.ofPtr 2, smallBox⟩ : array_t 2)
          ⟨0, global_ptr.ofPtr 1, smallBox⟩ tracingSession = .ok s1 ∨
        MDPRDFT ⟨![3, 4]⟩ 1 (⟨0, global_ptr.ofPtr 2, hugeBox⟩ : array_t 3)
          ⟨0, global_ptr.ofPtr 1, hugeBox⟩ tracingSession = .ok s1 ∨
        IMDPRDFT ⟨![3, 4]⟩ 1 (⟨0, global_ptr.ofPtr 2, hugeBox⟩ : array_t 3)
          ⟨0, global_ptr.ofPtr 1, hugeBox⟩ tracingSession = .ok s1) →
      s1.out ≠ tracingSession.out ++ (u ++ "AVec" ++ v)) :=
  have h := batched_tags_contiguous ⟨![3, 4]⟩ 1 ⟨0, global_ptr.ofPtr 2, smallBox⟩
    ⟨0, global_ptr.ofPtr 1, smallBox⟩ ⟨0, global_ptr.ofPtr 2, hugeBox⟩
    ⟨0, global_ptr.ofPtr 1, hugeBox⟩ tracingSession rfl
  ⟨rfl, h.1, h.2.2.1, h.2.2.2.2⟩

/-- C22 as stated fails: no call of `MDDFT`, for any dimension, extents, batch
count, operands and state, emits a node with the tag `AVec`: the text that a
successful call appends never contains `AVec`, so the combinations with an
`AVec` read or write tag are not expressible with this operator. -/
theorem batched_no_AVec :
    ¬ ∃ (DIM : Nat) (extents : point_t DIM) (batch : Int) (d i : array_t DIM)
        (s s1 : Session) (u v : String),
      MDDFT extents batch d i s = .ok s1 ∧ s1.out = s.out ++ (u ++ "AVec" ++ v) := by
  rintro ⟨DIM, extents, batch, d, i, s, s1, u, v, h1, h2⟩
  obtain ⟨l1, _, _, _, _, _, _, _, v1, _, _, _, hs⟩ := batched_lines extents batch d i
    (⟨0, global_ptr.null, ⟨⟨fun _ => 0⟩, ⟨fun _ => 0⟩⟩⟩ : array_t (DIM + 1))
    ⟨0, global_ptr.null, ⟨⟨fun _ => 0⟩, ⟨fun _ => 0⟩⟩⟩
  exact no_AVec_of_line v1 (hs s).1 h1 u v h2

/-- C24 (amended): the session operations do not read the flag and never
fail.  In every state `openDAG` appends `transform:= TFCall(TDecl(TDAG([` and
`openScalarDAG` appends the declaration of `symvar` and that line, both leaving
the flag as it is; `closeDAG` and `closeScalarDAG` set the flag to `false` and
append their closing text, in a state with the flag `false` as in one with the
flag `true`. -/
theorem open_close_unguarded {DIM : Nat} (vs : List (array_t DIM)) (name : String)
    (s : Session) (b : Bool) :
    openDAG s = { s with out := s.out ++ "transform:= TFCall(TDecl(TDAG([\n" } ∧
    openScalarDAG s = { s with out := s.out ++ "symvar := var(\"sym\", TPtr(TReal));\n"
      ++ "transform:= TFCall(TDecl(TDAG([\n" } ∧
    openDAG { s with tracing := b } = { openDAG s with tracing := b } ∧
    openScalarDAG { s with tracing := b } = { openScalarDAG s with tracing := b } ∧
    closeDAG vs name { s with tracing := b } = closeDAG vs name s ∧
    closeScalarDAG vs name { s with tracing := b } = closeScalarDAG vs name s ∧
    (closeDAG vs name s).tracing = false ∧ (closeScalarDAG vs name s).tracing = false ∧
    (∃ x : String, x ≠ "" ∧ (closeDAG vs name s).out = s.out ++ x) ∧
    (∃ x : String, x ≠ "" ∧ (closeScalarDAG vs name s).out = s.out ++ x) := by
  refine ⟨rfl, rfl, rfl, rfl, rfl, rfl, rfl, rfl, ?_, ?_⟩
  · refine ⟨"\n]),\n   [" ++ (showLocalVars vs ++ ("]\n),\n" ++
      ("rec(XType:= TPtr(TPtr(TReal)), YType:=TPtr(TPtr(TReal)), fname:=\"" ++ (name ++
        ("_spiral\", params:= [symvar])\n" ++ (");\n" ++ ("prefix:=\"" ++ (name ++ "\";\n")))))))),
      ?_, ?_⟩
    · intro h
      have h1 := congrArg String.length h
      rw [String.length_append] at h1
      have h2 : ("\n]),\n   [" : String).length = 9 := by decide
      rw [h2] at h1
      have h3 : ("" : String).length = 0 := rfl
      omega
    · simp only [closeDAG, String.append_assoc]
  · refine ⟨"\n]),\n   [" ++ (varNames vs ++ ("]\n),\n" ++
      ("rec(fname:=\"" ++ (name ++
        ("_spiral\", params:= [symvar])\n" ++ (");\n" ++ ("prefix:=\"" ++ (name ++ "\";\n")))))))),
      ?_, ?_⟩
    · intro h
      have h1 := congrArg String.length h
      rw [String.length_append] at h1
      have h2 : ("\n]),\n   [" : String).length = 9 := by decide
      rw [h2] at h1
      have h3 : ("" : String).length = 0 := rfl
      omega
    · simp only [closeScalarDAG, closeScalarDAGNames, String.append_assoc]

/-- C24 as stated fails: `openDAG` and `openScalarDAG` in a state that is
already tracing are not rejected, and `closeDAG` and `closeScalarDAG` in a state
that is not tracing are not rejected: each returns a state with its text
emitted. -/
theorem open_close_not_rejected :
    tracingSession.tracing = true ∧
    (openDAG tracingSession).out = "transform:= TFCall(TDecl(TDAG([\n" ∧
    (openScalarDAG tracingSession).out =
      "symvar := var(\"sym\", TPtr(TReal));\ntransform:= TFCall(TDecl(TDAG([\n" ∧
    Session.init.tracing = false ∧
    (closeDAG ([] : List (array_t 2)) "t" Session.init).out =
      "\n]),\n   []\n),\nrec(XType:= TPtr(TPtr(TReal)), YType:=TPtr(TPtr(TReal)), "
        ++ "fname:=\"t_spiral\", params:= [symvar])\n);\nprefix:=\"t\";\n" ∧
    (closeScalarDAG ([] : List (array_t 2)) "t" Session.init).out =
      "\n]),\n   []\n),\nrec(fname:=\"t_spiral\", params:= [symvar])\n);\nprefix:=\"t\";\n" := by
  refine ⟨rfl, rfl, rfl, rfl, ?_, ?_⟩ <;> rfl

end fftx

namespace fftx

/-- C26 (amended): the two-array `forall(f, array, array2)` makes no check of
the domains.  It does not read `array2.m_domain`: with any other second
descriptor the result is the same; and its calls of `f` are those of the
one-array `forall` over `array.m_domain`, each with the element of `array` and
the element of `array2` at one and the same offset. -/
theorem forall2_no_domain_check {DIM : Nat} {σ : Type} (f : Nat → Nat → point_t DIM → σ → σ)
    (array array2 array3 : array_t DIM) (mem : σ) :
    forall2 f array array2 mem = forall2 f array array3 mem ∧
    forall2 f array array2 mem = forall1 (fun ptr p => f ptr ptr p) array mem := by
  refine ⟨rfl, ?_⟩
  unfold forall2 forall1
  have h := forallHelper2_eq f array.m_domain.lo array.m_domain.hi (DIM - 1)
    (0, array.m_domain.lo, mem)
  exact congrArg (fun r => r.2.2.2) h

/-- C26 as stated fails: with `array` on the box `[1,3] x [1,4]` and `array2`
on the box `[0,0] x [0,0]`, two different domains, the two-array `forall`
calls `f` twelve times, at the offsets `0` to `11` of both buffers. -/
theorem forall2_mismatch_calls :
    smallBox.lo.get 0 ≠ unitBox.lo.get 0 ∧
    forall2 recordCall2 (⟨0, global_ptr.ofPtr 4096, smallBox⟩ : array_t 2)
        ⟨0, global_ptr.ofPtr 8192, unitBox⟩ [] =
      [(0, 0, [1, 1]), (1, 1, [2, 1]), (2, 2, [3, 1]), (3, 3, [1, 2]), (4, 4, [2, 2]),
        (5, 5, [3, 2]), (6, 6, [1, 3]), (7, 7, [2, 3]), (8, 8, [3, 3]), (9, 9, [1, 4]),
        (10, 10, [2, 4]), (11, 11, [3, 4])] := by
  refine ⟨by decide, ?_⟩
  decide

/-- C27 fails in the code: on an array over the box `[1,3] x [1,4]` the calls
of `forall(f, array)` go through the buffer with the first coordinate varying
fastest, so the second call passes the element at offset `1` with the location
`(2,1)`, while `positionInBox((2,1), [1,3] x [1,4])`, the row-major position
of the configuration, is `4`; the offset is the column-major position. -/
theorem forall_offset_mismatch :
    smallBox.ordered ∧
    forall1 recordCall (⟨0, global_ptr.ofPtr 4096, smallBox⟩ : array_t 2) [] =
      [(0, [1, 1]), (1, [2, 1]), (2, [3, 1]), (3, [1, 2]), (4, [2, 2]), (5, [3, 2]),
        (6, [1, 3]), (7, [2, 3]), (8, [3, 3]), (9, [1, 4]), (10, [2, 4]), (11, [3, 4])] ∧
    positionInBox ⟨![2, 1]⟩ smallBox = 4 ∧
    positionInBoxCol ⟨![2, 1]⟩ smallBox = 1 := by
  refine ⟨by decide, ?_, by decide, by decide⟩
  decide

/-- C28 (amended): the constructors `box_t(a, b)` store `a` as `lo` and `b`
as `hi` and check nothing: the box they make has `lo[axis] <= hi[axis]` on
every axis exactly when the corners passed in have. -/
theorem box_ofCorners_stores {DIM : Nat} (a b : point_t DIM) :
    (box_t.ofCorners a b).lo = a ∧ (box_t.ofCorners a b).hi = b ∧
    ((box_t.ofCorners a b).ordered ↔ ∀ d, d < DIM → a.get d ≤ b.get d) :=
  ⟨rfl, rfl, Iff.rfl⟩

/-- C28 as stated fails: the constructor accepts the corners `(3,1)` and
`(1,4)`, and the box it makes has `lo[0] = 3 > hi[0] = 1`. -/
theorem box_ofCorners_unordered :
    (box_t.ofCorners (⟨![3, 1]⟩ : point_t 2) ⟨![1, 4]⟩).lo.get 0 = 3 ∧
    (box_t.ofCorners (⟨![3, 1]⟩ : point_t 2) ⟨![1, 4]⟩).hi.get 0 = 1 ∧
    ¬ (box_t.ofCorners (⟨![3, 1]⟩ : point_t 2) ⟨![1, 4]⟩).ordered := by
  refine ⟨by decide, by decide, by decide⟩

end fftx

namespace fftx

theorem flipped_size {DIM : Nat} (B : box_t DIM) (hB : B.ordered) (hS : B.int32)
    (hN : B.numPoints < 2 ^ 64) :
    (box_t.ofCorners B.lo.flipped B.hi.flipped).size = B.size := by
  have hN2 : (box_t.ofCorners B.lo.flipped B.hi.flipped).numPoints < 2 ^ 64 := by
    rw [flipped_numPoints]; exact hN
  have h1 := size_eq_prod_lenN B hB hS hN
  have h2 := size_eq_prod_lenN _ (flipped_ordered B hB) (flipped_int32 B hS) hN2
  have h3 := prod_lenN_cast B hB
  have h4 := prod_lenN_cast _ (flipped_ordered B hB)
  rw [flipped_numPoints] at h4
  have h5 : ((∏ d in Finset.range DIM, lenN (box_t.ofCorners B.lo.flipped B.hi.flipped) d : Nat)
      : Int) = ((∏ d in Finset.range DIM, lenN B d : Nat) : Int) := by rw [h3, h4]
  rw [h1, h2]
  exact Nat.cast_inj.mp h5

/-- C29 (amended): in the row-major configuration, for every box with
`lo <= hi` on all axes (`1 <= DIM <= 256`) on which no `int` expression
overflows (`lo[d]-1` and `hi[d]-lo[d]+1` are 32-bit `int`s; with the bound on
`DIM` this is `box_t.fits`) and whose number of points is below `2^64`, and
every point `p` of the box, `positionInBox(p, B)` is the mixed-radix value: the sum over the axes `d` of `(p[d] - lo[d])` times the
product of `extents[e]` over the axes `e > d`.  The last axis varies fastest: a
point of the box that differs from `p` only by one more in the last coordinate
has the position of `p` plus one. -/
theorem positionInBox_mixed_radix {DIM : Nat} (hDIM : 1 ≤ DIM) (B : box_t DIM)
    (hB : B.ordered) (hF : B.fits) (hN : B.numPoints < 2 ^ 64) (p : point_t DIM)
    (hp : isInBox p B = true) :
    ((positionInBox p B : Nat) : Int) =
      ∑ d in Finset.range DIM,
        (p.get d - B.lo.get d) * ∏ e in Finset.Ico (d + 1) DIM, B.extents.get e ∧
    ∀ q : point_t DIM, isInBox q B = true → (∀ d, d < DIM - 1 → q.get d = p.get d) →
      q.get (DIM - 1) = p.get (DIM - 1) + 1 → positionInBox q B = positionInBox p B + 1 := by
  have hS := box_t.fits_int32 B hF
  constructor
  · rw [positionInBox_eq hDIM p B hB hS hN hp, encN_sum, Nat.cast_sum]
    apply Finset.sum_congr rfl
    intro d hd
    have hd2 : d < DIM := Finset.mem_range.mp hd
    rw [Nat.cast_mul, Nat.cast_prod]
    have e1 : ((offN p B d : Nat) : Int) = p.get d - B.lo.get d := by
      have := (offN_facts p B hS hp d hd2).2.2
      omega
    rw [e1]
    congr 1
    apply Finset.prod_congr rfl
    intro e he
    have he2 : e < DIM := (Finset.mem_Ico.mp he).2
    rw [lenN_cast B hB e he2, box_t.extents_get B e he2]
    ring
  · intro q hq hpq hlast
    exact positionInBox_succ_last hDIM B hB hS hN p q hp hq hpq hlast

/-- Witness of C29 on the box `[1,3] x [1,4]` at the point `(2,3)`. -/
theorem positionInBox_mixed_radix_witness :
    1 ≤ 2 ∧ smallBox.ordered ∧ smallBox.fits ∧ smallBox.numPoints < 2 ^ 64 ∧
    isInBox ⟨![2, 3]⟩ smallBox = true ∧
    (((positionInBox ⟨![2, 3]⟩ smallBox : Nat) : Int) =
      ∑ d in Finset.range 2,
        ((⟨![2, 3]⟩ : point_t 2).get d - smallBox.lo.get d)
          * ∏ e in Finset.Ico (d + 1) 2, smallBox.extents.get e ∧
    ∀ q : point_t 2, isInBox q smallBox = true →
      (∀ d, d < 2 - 1 → q.get d = (⟨![2, 3]⟩ : point_t 2).get d) →
      q.get (2 - 1) = (⟨![2, 3]⟩ : point_t 2).get (2 - 1) + 1 →
      positionInBox q smallBox = positionInBox ⟨![2, 3]⟩ smallBox + 1) :=
  ⟨by decide, by decide, by decide, by decide, by decide,
    positionInBox_mixed_radix (by decide) smallBox (by decide) (by decide) (by decide)
      ⟨![2, 3]⟩ (by decide)⟩

/-- C29 as stated fails: in the box `[0, 2^31-2]^3`, with ordered corners
and no `int` overflow, the
point `(4,8,4)` of the box has the mixed-radix value `4e^2 + 8e + 4 = 2^64`
(`e = 2^31 - 1` the extent of every axis), while `positionInBox` is `0`; and
the point `(4,8,3)` has the position `2^64 - 1`, so that one more in the last
coordinate does not add one to the position. -/
theorem positionInBox_mixed_radix_overflow :
    hugeBox.ordered ∧ hugeBox.fits ∧ isInBox ⟨![4, 8, 4]⟩ hugeBox = true ∧
    isInBox ⟨![4, 8, 3]⟩ hugeBox = true ∧
    positionInBox ⟨![4, 8, 4]⟩ hugeBox = 0 ∧
    positionInBox ⟨![4, 8, 3]⟩ hugeBox = 2 ^ 64 - 1 ∧
    (∑ d in Finset.range 3,
      ((⟨![4, 8, 4]⟩ : point_t 3).get d - hugeBox.lo.get d)
        * ∏ e in Finset.Ico (d + 1) 3, hugeBox.extents.get e) = 2 ^ 64 := by
  refine ⟨by decide, by decide, by decide, by decide, by decide, by decide, ?_⟩
  decide

/-- C30 (amended): for every box with `lo <= hi` on all axes
(`1 <= DIM <= 256`) on which no `int` expression overflows (`lo[d]-1` and
`hi[d]-lo[d]+1` are 32-bit `int`s; with the bound on `DIM` this is `box_t.fits`)
and whose number of points is below `2^64`, the
column-major branches of `positionInBox` and `pointFromPositionBox` are
inverse to each other: a point of the box has a position below `B.size()` that
decodes to the point, and a position below `B.size()` decodes to a point of
the box with that position.  The first axis varies fastest: a point of the box
that differs from `p` only by one more in the first coordinate has the position
of `p` plus one.  For every point of the box and every `size_t` position the
column-major functions are the row-major ones on the axis-reversed data:
`colPosition(p, B) == rowPosition(p.flipped(), box(B.lo.flipped(),
B.hi.flipped()))`, and the column-major decoding is the flipped row-major
decoding in the flipped box. -/
theorem colMajor_inverse {DIM : Nat} (hDIM : 1 ≤ DIM) (B : box_t DIM)
    (hB : B.ordered) (hF : B.fits) (hN : B.numPoints < 2 ^ 64) :
    (∀ p : point_t DIM, isInBox p B = true →
      positionInBoxCol p B < B.size ∧
      (pointFromPositionBoxCol (positionInBoxCol p B) B).eq p = true) ∧
    (∀ i : Nat, i < B.size →
      isInBox (pointFromPositionBoxCol i B) B = true ∧
      positionInBoxCol (pointFromPositionBoxCol i B) B = i) ∧
    (∀ p q : point_t DIM, isInBox p B = true → isInBox q B = true →
      (∀ d, 1 ≤ d → d < DIM → q.get d = p.get d) → q.get 0 = p.get 0 + 1 →
      positionInBoxCol q B = positionInBoxCol p B + 1) ∧
    (∀ p : point_t DIM, isInBox p B = true → positionInBoxCol p B =
      positionInBox p.flipped (box_t.ofCorners B.lo.flipped B.hi.flipped)) ∧
    (∀ i : Nat, i < 2 ^ 64 → pointFromPositionBoxCol i B =
      (pointFromPositionBox i (box_t.ofCorners B.lo.flipped B.hi.flipped)).flipped) := by
  have hS := box_t.fits_int32 B hF
  have hBf := flipped_ordered B hB
  have hSf := flipped_int32 B hS
  have hNf : (box_t.ofCorners B.lo.flipped B.hi.flipped).numPoints < 2 ^ 64 := by
    rw [flipped_numPoints]; exact hN
  have hsz := flipped_size B hB hS hN
  have hszf := size_eq_prod_lenN _ hBf hSf hNf
  refine ⟨?_, ?_, ?_, fun p _ => positionInBoxCol_eq_flipped hDIM p B,
    fun i _ => pointFromPositionBoxCol_eq_flipped i B⟩
  · intro p hp
    have hpf : isInBox p.flipped (box_t.ofCorners B.lo.flipped B.hi.flipped) = true := by
      rw [flipped_isInBox]; exact hp
    rw [positionInBoxCol_eq_flipped hDIM p B, pointFromPositionBoxCol_eq_flipped,
      pointFromPositionBox_positionInBox hDIM _ hBf hSf hNf _ hpf, point_t.flipped_flipped]
    refine ⟨?_, (point_t.eq_iff p p).mpr rfl⟩
    rw [← hsz, hszf]
    exact positionInBox_lt hDIM _ _ hBf hSf hNf hpf
  · intro i hi
    rw [← hsz, hszf] at hi
    obtain ⟨h1, _⟩ := pointFromPositionBox_facts _ hBf hSf hNf i hi
    have h2 := positionInBox_pointFromPositionBox hDIM _ hBf hSf hNf i hi
    rw [pointFromPositionBoxCol_eq_flipped, positionInBoxCol_eq_flipped hDIM,
      point_t.flipped_flipped]
    refine ⟨?_, h2⟩
    rw [← flipped_isInBox, point_t.flipped_flipped]
    exact h1
  · intro p q hp hq hpq h0
    rw [positionInBoxCol_eq_flipped hDIM p B, positionInBoxCol_eq_flipped hDIM q B]
    apply positionInBox_succ_last hDIM _ hBf hSf hNf
    · rw [flipped_isInBox]; exact hp
    · rw [flipped_isInBox]; exact hq
    · intro d hd
      rw [point_t.flipped_get _ d (by omega), point_t.flipped_get _ d (by omega)]
      exact hpq _ (by omega) (by omega)
    · rw [point_t.flipped_get _ _ (by omega), point_t.flipped_get _ _ (by omega)]
      have e : DIM - 1 - (DIM - 1) = 0 := by omega
      rw [e]
      exact h0

/-- Witness of C30 on the box `[1,3] x [1,4]`, which has `12` points. -/
theorem colMajor_inverse_witness :
    1 ≤ 2 ∧ smallBox.ordered ∧ smallBox.fits ∧ smallBox.numPoints < 2 ^ 64 ∧
    smallBox.size = 12 ∧ positionInBoxCol ⟨![2, 3]⟩ smallBox = 7 ∧
    ((∀ p : point_t 2, isInBox p smallBox = true →
      positionInBoxCol p smallBox < smallBox.size ∧
      (pointFromPositionBoxCol (positionInBoxCol p smallBox) smallBox).eq p = true) ∧
    (∀ i : Nat, i < smallBox.size →
      isInBox (pointFromPositionBoxCol i smallBox) smallBox = true ∧
      positionInBoxCol (pointFromPositionBoxCol i smallBox) smallBox = i) ∧
    (∀ p q : point_t 2, isInBox p smallBox = true → isInBox q smallBox = true →
      (∀ d, 1 ≤ d → d < 2 → q.get d = p.get d) → q.get 0 = p.get 0 + 1 →
      positionInBoxCol q smallBox = positionInBoxCol p smallBox + 1) ∧
    (∀ p : point_t 2, isInBox p smallBox = true → positionInBoxCol p smallBox =
      positionInBox p.flipped (box_t.ofCorners smallBox.lo.flipped smallBox.hi.flipped)) ∧
    (∀ i : Nat, i < 2 ^ 64 → pointFromPositionBoxCol i smallBox =
      (pointFromPositionBox i (box_t.ofCorners smallBox.lo.flipped
        smallBox.hi.flipped)).flipped)) :=
  ⟨by decide, by decide, by decide, by decide, by decide, by decide,
    colMajor_inverse (by decide) smallBox (by decide) (by decide) (by decide)⟩

/-- C30 as stated fails: in the box `[0, 2^31-2]^3`, with ordered corners
and no `int` overflow, the column-major position `2^64` of the point `(4,8,4)`
wraps to `0` in `size_t`, and the column-major decoding of `0` is `(0,0,0)`. -/
theorem colMajor_roundtrip_overflow :
    hugeBox.ordered ∧ hugeBox.fits ∧ isInBox ⟨![4, 8, 4]⟩ hugeBox = true ∧
    positionInBoxCol ⟨![4, 8, 4]⟩ hugeBox = 0 ∧
    (pointFromPositionBoxCol (positionInBoxCol ⟨![4, 8, 4]⟩ hugeBox) hugeBox).eq ⟨![4, 8, 4]⟩
      = false :=
  ⟨by decide, by decide, by decide, by decide, by decide⟩

/-- C25 (amended): for every target name, input type name and output type
name in which the placeholder tokens that are replaced after their insertion do
not occur (`S_TYPE`, `D_TYPE`, `DD` in the name, `D_TYPE`, `DD` in the input
type, `DD` in the output type) and that contain no `$`, `closeDAG` writes the
file `<name>.fftx.codegen.hpp` with the text below: the template with the name,
the type names and the dimension minus one in the places of the placeholders.
It declares the three `extern` functions `init_<name>_spiral()`,
`<name>_spiral(double** Y, double** X, double** symvar)` and
`destroy_<name>_spiral()`, and no other. -/
theorem closeDAG_stub {DIM : Nat} (localVars : List (array_t DIM)) (name : String)
    (s : Session)
    (hS : ¬ "S_TYPE".data <:+: name.data) (hD : ¬ "D_TYPE".data <:+: name.data)
    (hDD : ¬ "DD".data <:+: name.data)
    (hiD : ¬ "D_TYPE".data <:+: s.inputType.data) (hiDD : ¬ "DD".data <:+: s.inputType.data)
    (hoDD : ¬ "DD".data <:+: s.outputType.data)
    (_hdollar : '$' ∉ name.data ∧ '$' ∉ s.inputType.data ∧ '$' ∉ s.outputType.data) :
    (closeDAG localVars name s).files =
      (name ++ ".fftx.codegen.hpp",
        "\n"
        ++ "\n"
        ++ "    #ifndef " ++ name ++ "_CODEGEN_H\n"
        ++ "    #define " ++ name ++ "_CODEGEN_H\n"
        ++ "\n"
        ++ "    #include \"fftx3.hpp\"\n"
        ++ "\n"
        ++ "    extern void init_" ++ name ++ "_spiral(); \n"
        ++ "    extern void " ++ name ++ "_spiral(double** Y, double** X, double** symvar); \n"
        ++ "    extern void destroy_" ++ name ++ "_spiral();\n"
        ++ "\n"
        ++ "   namespace " ++ name ++ "\n"
        ++ "   \x7b\n"
        ++ "    inline void init()\x7b init_" ++ name ++ "_spiral();\x7d\n"
        ++ "    inline void trace();\n"
        ++ "    template<std::size_t IN_DIM, std::size_t OUT_DIM, std::size_t S_DIM>\n"
        ++ "    inline fftx::handle_t transform(std::array<fftx::array_t<" ++ toString ((DIM : Int) - 1) ++ ", " ++ s.inputType ++ ">,IN_DIM>& source,\n"
        ++ "                                    std::array<fftx::array_t<" ++ toString ((DIM : Int) - 1) ++ ", " ++ s.outputType ++ ">,OUT_DIM>& destination,\n"
        ++ "                                    std::array<fftx::array_t<" ++ toString ((DIM : Int) - 1) ++ ", double>,S_DIM>& symvar)\n"
        ++ "    \x7b   // for the moment, the function signature is hard-coded.  trace will\n"
        ++ "      // generate this in our better world\n"
        ++ "        double* input[IN_DIM];\n"
        ++ "        double* output[OUT_DIM];\n"
        ++ "        double* sym[S_DIM];\n"
        ++ "        for(int i=0; i<IN_DIM; i++) input[i] = (double*)(source[i].m_data.local());\n"
        ++ "        for(int i=0; i<OUT_DIM; i++) output[i] = (double*)(destination[i].m_data.local());\n"
        ++ "        for(int i=0; i<S_DIM; i++) sym[i] = (double*)(symvar[i].m_data.local());\n"
        ++ "\n"
        ++ "        " ++ name ++ "_spiral(output, input, sym);\n"
        ++ "   \n"
        ++ "    // dummy return handle for now\n"
        ++ "      fftx::handle_t rtn;\n"
        ++ "      return rtn;\n"
        ++ "    \x7d\n"
        ++ "\n"
        ++ "    template<std::size_t IN_DIM, std::size_t OUT_DIM>\n"
        ++ "    inline fftx::handle_t transform(std::array<fftx::array_t<" ++ toString ((DIM : Int) - 1) ++ ", " ++ s.inputType ++ ">,IN_DIM>& source,\n"
        ++ "                                    std::array<fftx::array_t<" ++ toString ((DIM : Int) - 1) ++ ", " ++ s.outputType ++ ">,OUT_DIM>& destination)\n"
        ++ "    \x7b   // for the moment, the function signature is hard-coded.  trace will\n"
        ++ "      // generate this in our better world\n"
        ++ "        double* input[IN_DIM];\n"
        ++ "        double* output[OUT_DIM];\n"
        ++ "        double** sym=nullptr;\n"
        ++ "        for(int i=0; i<IN_DIM; i++) input[i] = (double*)(source[i].m_data.local());\n"
        ++ "        for(int i=0; i<OUT_DIM; i++) output[i] = (double*)(destination[i].m_data.local());\n"
        ++ "  \n"
        ++ "\n"
        ++ "        " ++ name ++ "_spiral(output, input, sym);\n"
        ++ "   \n"
        ++ "    // dummy return handle for now\n"
        ++ "      fftx::handle_t rtn;\n"
        ++ "      return rtn;\n"
        ++ "    \x7d\n"
        ++ "    //inline void destroy()\x7b destroy_" ++ name ++ "_spiral();\x7d\n"
        ++ "    inline void destroy()\x7b \x7d\n"
        ++ "  \x7d;\n"
        ++ "\n"
        ++ " #endif  "
        ++ "\n") :: s.files := by
  have e0 : stubEnv name s.inputType s.outputType (toString ((DIM : Int) - 1)) 0 = name.data := rfl
  have e1 : stubEnv name s.inputType s.outputType (toString ((DIM : Int) - 1)) 1
      = s.inputType.data := rfl
  have e2 : stubEnv name s.inputType s.outputType (toString ((DIM : Int) - 1)) 2
      = s.outputType.data := rfl
  have e3 : stubEnv name s.inputType s.outputType (toString ((DIM : Int) - 1)) 3
      = (toString ((DIM : Int) - 1)).data := rfl
  have key : ∀ text : String,
      flatten (stubEnv name s.inputType s.outputType (toString ((DIM : Int) - 1))) stub4
        = text.data →
      (closeDAG localVars name s).files =
        (name ++ ".fftx.codegen.hpp", text ++ "\n") :: s.files := by
    intro text htext
    rw [closeDAG_stub_sym localVars name s hS hD hDD hiD hiDD hoDD _hdollar, htext]
  apply key
  rw [stub4_eq]
  simp only [flatten, e0, e1, e2, e3, String.data_append, List.append_assoc, List.append_nil]

/-- Witness for C25: the name `t`, the initial session and dimension two. -/
theorem closeDAG_stub_witness :
    (¬ "S_TYPE".data <:+: "t".data) ∧ (¬ "D_TYPE".data <:+: "t".data) ∧
    (¬ "DD".data <:+: "t".data) ∧
    (¬ "D_TYPE".data <:+: Session.init.inputType.data) ∧
    (¬ "DD".data <:+: Session.init.inputType.data) ∧
    (¬ "DD".data <:+: Session.init.outputType.data) ∧
    ('$' ∉ "t".data ∧ '$' ∉ Session.init.inputType.data ∧
      '$' ∉ Session.init.outputType.data) ∧
    (closeDAG ([] : List (array_t 2)) "t" Session.init).files =
      ("t" ++ ".fftx.codegen.hpp",
        "\n"
        ++ "\n"
        ++ "    #ifndef " ++ "t" ++ "_CODEGEN_H\n"
        ++ "    #define " ++ "t" ++ "_CODEGEN_H\n"
        ++ "\n"
        ++ "    #include \"fftx3.hpp\"\n"
        ++ "\n"
        ++ "    extern void init_" ++ "t" ++ "_spiral(); \n"
        ++ "    extern void " ++ "t" ++ "_spiral(double** Y, double** X, double** symvar); \n"
        ++ "    extern void destroy_" ++ "t" ++ "_spiral();\n"
        ++ "\n"
        ++ "   namespace " ++ "t" ++ "\n"
        ++ "   \x7b\n"
        ++ "    inline void init()\x7b init_" ++ "t" ++ "_spiral();\x7d\n"
        ++ "    inline void trace();\n"
        ++ "    template<std::size_t IN_DIM, std::size_t OUT_DIM, std::size_t S_DIM>\n"
        ++ "    inline fftx::handle_t transform(std::array<fftx::array_t<" ++ toString (((2 : Nat) : Int) - 1) ++ ", " ++ Session.init.inputType ++ ">,IN_DIM>& source,\n"
        ++ "                                    std::array<fftx::array_t<" ++ toString (((2 : Nat) : Int) - 1) ++ ", " ++ Session.init.outputType ++ ">,OUT_DIM>& destination,\n"
        ++ "                                    std::array<fftx::array_t<" ++ toString (((2 : Nat) : Int) - 1) ++ ", double>,S_DIM>& symvar)\n"
        ++ "    \x7b   // for the moment, the function signature is hard-coded.  trace will\n"
        ++ "      // generate this in our better world\n"
        ++ "        double* input[IN_DIM];\n"
        ++ "        double* output[OUT_DIM];\n"
        ++ "        double* sym[S_DIM];\n"
        ++ "        for(int i=0; i<IN_DIM; i++) input[i] = (double*)(source[i].m_data.local());\n"
        ++ "        for(int i=0; i<OUT_DIM; i++) output[i] = (double*)(destination[i].m_data.local());\n"
        ++ "        for(int i=0; i<S_DIM; i++) sym[i] = (double*)(symvar[i].m_data.local());\n"
        ++ "\n"
        ++ "        " ++ "t" ++ "_spiral(output, input, sym);\n"
        ++ "   \n"
        ++ "    // dummy return handle for now\n"
        ++ "      fftx::handle_t rtn;\n"
        ++ "      return rtn;\n"
        ++ "    \x7d\n"
        ++ "\n"
        ++ "    template<std::size_t IN_DIM, std::size_t OUT_DIM>\n"
        ++ "    inline fftx::handle_t transform(std::array<fftx::array_t<" ++ toString (((2 : Nat) : Int) - 1) ++ ", " ++ Session.init.inputType ++ ">,IN_DIM>& source,\n"
        ++ "                                    std::array<fftx::array_t<" ++ toString (((2 : Nat) : Int) - 1) ++ ", " ++ Session.init.outputType ++ ">,OUT_DIM>& destination)\n"
        ++ "    \x7b   // for the moment, the function signature is hard-coded.  trace will\n"
        ++ "      // generate this in our better world\n"
        ++ "        double* input[IN_DIM];\n"
        ++ "        double* output[OUT_DIM];\n"
        ++ "        double** sym=nullptr;\n"
        ++ "        for(int i=0; i<IN_DIM; i++) input[i] = (double*)(source[i].m_data.local());\n"
        ++ "        for(int i=0; i<OUT_DIM; i++) output[i] = (double*)(destination[i].m_data.local());\n"
        ++ "  \n"
        ++ "\n"
        ++ "        " ++ "t" ++ "_spiral(output, input, sym);\n"
        ++ "   \n"
        ++ "    // dummy return handle for now\n"
        ++ "      fftx::handle_t rtn;\n"
        ++ "      return rtn;\n"
        ++ "    \x7d\n"
        ++ "    //inline void destroy()\x7b destroy_" ++ "t" ++ "_spiral();\x7d\n"
        ++ "    inline void destroy()\x7b \x7d\n"
        ++ "  \x7d;\n"
        ++ "\n"
        ++ " #endif  "
        ++ "\n") :: Session.init.files :=
  ⟨by decide, by decide, by decide, by decide, by decide, by decide, by decide,
    @closeDAG_stub 2 [] "t" Session.init (by decide) (by decide) (by decide) (by decide)
      (by decide) (by decide) (by decide)⟩

/-- Counterexample for C25: for the name `t` the lines of the stub that declare
an `extern` function are the three below. The functions are named
`init_t_spiral`, `t_spiral` and `destroy_t_spiral`, not `init_t`, `t` and
`destroy_t`. -/
theorem closeDAG_stub_names :
    externLines (((closeDAG ([] : List (array_t 2)) "t" Session.init).files.map
        Prod.snd).headD "") =
      ["    extern void init_t_spiral(); ",
       "    extern void t_spiral(double** Y, double** X, double** symvar); ",
       "    extern void destroy_t_spiral();"] := by
  decide!

end fftx

namespace fftx

end fftx

namespace fftx

/-- The loop of `setInputs` and `setOutputs` on a non-empty array fails at its
first element outside tracing. -/
theorem foldlM_id_fails {DIM : Nat} (a_vars : List (array_t DIM)) (hne : a_vars ≠ [])
    (g : Session → Nat → Nat → Session) (s : Session) (h : s.tracing = false) :
    (List.range a_vars.length).foldlM
      (fun s i => do
        let v ← (a_vars.getD i (array_t.default ⟨⟨fun _ => 0⟩, ⟨fun _ => 0⟩⟩)).id s
        pure (g s v i)) s = (.error "assert(tracing)" : Except String Session) := by
  cases a_vars with
  | nil => exact absurd rfl hne
  | cons a as =>
    rw [List.length_cons, List.range_succ_eq_map, List.foldlM_cons]
    simp only [array_t.id_eq, h, bind, Except.bind]
    rfl

/-- C40 (amended): while tracing is inactive, every call of an operator that
emits a node (`copy`, the six DFT emitters, the two `kernel` overloads,
`zeroEmbedBox`, `extractBox`, `resample`) fails on the assertion of `id()`, and
so do `setInputs` and `setOutputs` on one descriptor and on a non-empty array
of descriptors.  `closeDAG` sets tracing to inactive and prints the ids of its
root variables in every state: it reads the pointer, not `id()`. -/
theorem untraced_calls_fail {F : Type} {D : Nat} (fmt : F → String) (s : Session)
    (h : s.tracing = false) :
    (∀ (o : Operator F D) (d i : array_t (D + 1)),
      o.call fmt d i s = .error "assert(tracing)") ∧
    (∀ (t : String) (a : array_t (D + 1)),
      setInputs t a s = .error "assert(tracing)" ∧
      setOutputs t a s = .error "assert(tracing)") ∧
    (∀ (t : String) (a_vars : List (array_t (D + 1))), a_vars ≠ [] →
      setInputsArray t a_vars s = .error "assert(tracing)" ∧
      setOutputsArray t a_vars s = .error "assert(tracing)") ∧
    (∀ (localVars : List (array_t (D + 1))) (name : String) (s0 : Session),
      (closeDAG localVars name s0).tracing = false ∧
      (closeDAG localVars name (closeDAG localVars name s0)).out =
        (closeDAG localVars name s0).out ++ "\n]),\n   ["
          ++ String.intercalate ", "
            (localVars.map (fun v => "var_" ++ toString v.m_data.local))
          ++ "]\n),\n"
          ++ "rec(XType:= TPtr(TPtr(TReal)), YType:=TPtr(TPtr(TReal)), fname:=\"" ++ name
          ++ "_spiral\", params:= [symvar])\n" ++ ");\n"
          ++ "prefix:=\"" ++ name ++ "\";\n" ∧
      (closeDAG localVars name s).out =
        s.out ++ "\n]),\n   ["
          ++ String.intercalate ", "
            (localVars.map (fun v => "var_" ++ toString v.m_data.local))
          ++ "]\n),\n"
          ++ "rec(XType:= TPtr(TPtr(TReal)), YType:=TPtr(TPtr(TReal)), fname:=\"" ++ name
          ++ "_spiral\", params:= [symvar])\n" ++ ");\n"
          ++ "prefix:=\"" ++ name ++ "\";\n") := by
  have hclose : ∀ (localVars : List (array_t (D + 1))) (name : String) (s1 : Session),
      (closeDAG localVars name s1).out =
        s1.out ++ "\n]),\n   ["
          ++ String.intercalate ", "
            (localVars.map (fun v => "var_" ++ toString v.m_data.local))
          ++ "]\n),\n"
          ++ "rec(XType:= TPtr(TPtr(TReal)), YType:=TPtr(TPtr(TReal)), fname:=\"" ++ name
          ++ "_spiral\", params:= [symvar])\n" ++ ");\n"
          ++ "prefix:=\"" ++ name ++ "\";\n" := by
    intro localVars name s1
    rw [← showLocalVars_eq]
    simp only [closeDAG, String.append_assoc]
  refine ⟨?_, ?_, ?_, ?_⟩
  · intro o d i
    obtain ⟨_, _, _, _, _, _, hs⟩ := Operator.call_eq fmt o d i
    rw [hs s, h]
    rfl
  · intro t a
    constructor
    · simp only [setInputs, array_t.id_eq, h, bind, Except.bind]
      rfl
    · simp only [setOutputs, array_t.id_eq, h, bind, Except.bind]
      rfl
  · intro t a_vars hne
    constructor
    · exact foldlM_id_fails a_vars hne
        (fun s v i => { s with out := (s.out ++ "var_" ++ toString v ++ ":= nth(X,"
          ++ toString i ++ ");\n") }) { s with inputType := t } h
    · exact foldlM_id_fails a_vars hne
        (fun s v i => { s with out := (s.out ++ "var_" ++ toString v ++ ":= nth(Y,"
          ++ toString i ++ ");\n") }) { s with outputType := t } h
  · intro localVars name s0
    exact ⟨rfl, hclose localVars name _, hclose localVars name s⟩

/-- Witness of C40: the state at program start, which is not tracing. -/
theorem untraced_calls_fail_witness :
    Session.init.tracing = false ∧
    copy var7 var5 Session.init = .error "assert(tracing)" ∧
    setInputsArray "double" [var5] Session.init = .error "assert(tracing)" ∧
    (closeDAG [var5, var7] "t" Session.init).out =
      "\n]),\n   [var_5, var_7]\n),\nrec(XType:= TPtr(TPtr(TReal)), YType:=TPtr(TPtr(TReal)), "
        ++ "fname:=\"t_spiral\", params:= [symvar])\n);\nprefix:=\"t\";\n" :=
  have h := untraced_calls_fail fmtZero Session.init rfl
  ⟨rfl, h.1 .copy var7 var5, (h.2.2.1 "double" [var5] (by simp)).1,
    (h.2.2.2 [var5, var7] "t" Session.init).2.2⟩

/-- C40 as stated fails: `setInputs` and `setOutputs` on an array of no
descriptors, called while tracing is inactive, read no id and return: they set
the type name and print nothing. -/
theorem setInputs_empty_returns :
    Session.init.tracing = false ∧
    setInputsArray "std::complex<double>" ([] : List (array_t 2)) Session.init
      = .ok { Session.init with inputType := "std::complex<double>" } ∧
    setOutputsArray "std::complex<double>" ([] : List (array_t 2)) Session.init
      = .ok { Session.init with outputType := "std::complex<double>" } :=
  ⟨rfl, rfl, rfl⟩

/-- C38 fails in the code: `closeScalarDAG(a, b, name)` prints
`varNames(a) + ',' + varNames(b)`, so with an empty `a` the list of the root
variables starts with a comma (`[,var_5]`, where the call on the concatenated
list prints `[var_5]`), with an empty `b` it ends with one (`[var_5,]`), and
with both empty it is `[,]`.  When neither list is empty the two calls agree in
the whole state they leave. -/
theorem closeScalarDAG2_separator :
    (closeScalarDAG2 ([] : List (array_t 2)) [var5] "t" Session.init).out =
      "\n]),\n   [,var_5]\n),\nrec(fname:=\"t_spiral\", params:= [symvar])\n);\nprefix:=\"t\";\n" ∧
    (closeScalarDAG (([] : List (array_t 2)) ++ [var5]) "t" Session.init).out =
      "\n]),\n   [var_5]\n),\nrec(fname:=\"t_spiral\", params:= [symvar])\n);\nprefix:=\"t\";\n" ∧
    (closeScalarDAG2 [var5] ([] : List (array_t 2)) "t" Session.init).out =
      "\n]),\n   [var_5,]\n),\nrec(fname:=\"t_spiral\", params:= [symvar])\n);\nprefix:=\"t\";\n" ∧
    (closeScalarDAG2 ([] : List (array_t 2)) [] "t" Session.init).out =
      "\n]),\n   [,]\n),\nrec(fname:=\"t_spiral\", params:= [symvar])\n);\nprefix:=\"t\";\n" ∧
    (closeScalarDAG ([] : List (array_t 2)) "t" Session.init).out =
      "\n]),\n   []\n),\nrec(fname:=\"t_spiral\", params:= [symvar])\n);\nprefix:=\"t\";\n" ∧
    (∀ (DIM : Nat) (a b : List (array_t DIM)) (name : String) (s : Session),
      a ≠ [] → b ≠ [] →
      closeScalarDAG2 a b name s = closeScalarDAG (a ++ b) name s ∧
      varNames (a ++ b) = String.intercalate ","
        ((a ++ b).map (fun v => "var_" ++ toString v.m_data.local))) := by
  refine ⟨rfl, rfl, rfl, rfl, rfl, ?_⟩
  intro DIM a b name s ha hb
  refine ⟨?_, varNames_eq _⟩
  unfold closeScalarDAG2 closeScalarDAG
  rw [varNames_eq, varNames_eq, varNames_eq, List.map_append,
    intercalate_append "," _ _ (by simpa using ha) (by simpa using hb)]

end fftx

namespace fftx

/-- The `extern` lines of the stub of `closeDAG` for the name `ADD`. -/
theorem stub_ADD_lines :
    externLines (lastFile (closeDAG ([] : List (array_t 2)) "ADD" Session.init)) =
      ["    extern void init_A1_spiral(); ",
       "    extern void A1_spiral(double** Y, double** X, double** symvar); ",
       "    extern void destroy_A1_spiral();"] := by
  decide!

/-- The `extern` lines of the stub of `closeScalarDAG` for the name `ADD`. -/
theorem scalar_stub_ADD_lines :
    externLines (lastFile (closeScalarDAG ([] : List (array_t 2)) "ADD" Session.init)) =
      ["    extern void init_A2_spiral(); ",
       "    extern void A2_spiral(double* Y, double* X, double* symvar); ",
       "    extern void destroy_A2_spiral();"] := by
  decide!

/-- The `extern` lines of the stub of `closeDAG` for the name `t`. -/
theorem stub_t_lines :
    externLines (lastFile (closeDAG ([] : List (array_t 2)) "t" Session.init)) =
      ["    extern void init_t_spiral(); ",
       "    extern void t_spiral(double** Y, double** X, double** symvar); ",
       "    extern void destroy_t_spiral();"] := by
  decide!

/-- The `extern` lines of the stub of `closeScalarDAG` for the name `t`. -/
theorem scalar_stub_t_lines :
    externLines (lastFile (closeScalarDAG ([] : List (array_t 2)) "t" Session.init)) =
      ["    extern void init_t_spiral(); ",
       "    extern void t_spiral(double* Y, double* X, double* symvar); ",
       "    extern void destroy_t_spiral();"] := by
  decide!

/-- C37 fails in the code: for the target name `ADD` (arrays of dimension `2`)
the stub written by `closeDAG` declares `init_A1_spiral`, `A1_spiral` and
`destroy_A1_spiral`, and the one written by `closeScalarDAG` declares
`init_A2_spiral`, `A2_spiral` and `destroy_A2_spiral`, while the script closers
of the same calls print `fname:="ADD_spiral"`: the substitution of `DD`, made
after the name has been put in, rewrites the `DD` of the name.  For the name
`t` the declared names are `init_t_spiral`, `t_spiral`, `destroy_t_spiral` in
both stubs. -/
theorem stub_name_rewritten :
    externLines (lastFile (closeDAG ([] : List (array_t 2)) "ADD" Session.init)) =
      ["    extern void init_A1_spiral(); ",
       "    extern void A1_spiral(double** Y, double** X, double** symvar); ",
       "    extern void destroy_A1_spiral();"] ∧
    (closeDAG ([] : List (array_t 2)) "ADD" Session.init).out =
      "\n]),\n   []\n),\nrec(XType:= TPtr(TPtr(TReal)), YType:=TPtr(TPtr(TReal)), "
        ++ "fname:=\"ADD_spiral\", params:= [symvar])\n);\nprefix:=\"ADD\";\n" ∧
    externLines (lastFile (closeScalarDAG ([] : List (array_t 2)) "ADD" Session.init)) =
      ["    extern void init_A2_spiral(); ",
       "    extern void A2_spiral(double* Y, double* X, double* symvar); ",
       "    extern void destroy_A2_spiral();"] ∧
    (closeScalarDAG ([] : List (array_t 2)) "ADD" Session.init).out =
      "\n]),\n   []\n),\nrec(fname:=\"ADD_spiral\", params:= [symvar])\n);\nprefix:=\"ADD\";\n" ∧
    externLines (lastFile (closeDAG ([] : List (array_t 2)) "t" Session.init)) =
      ["    extern void init_t_spiral(); ",
       "    extern void t_spiral(double** Y, double** X, double** symvar); ",
       "    extern void destroy_t_spiral();"] ∧
    externLines (lastFile (closeScalarDAG ([] : List (array_t 2)) "t" Session.init)) =
      ["    extern void init_t_spiral(); ",
       "    extern void t_spiral(double* Y, double* X, double* symvar); ",
       "    extern void destroy_t_spiral();"] :=
  ⟨stub_ADD_lines, rfl, scalar_stub_ADD_lines, rfl, stub_t_lines, scalar_stub_t_lines⟩

end fftx

namespace fftx_helper

open fftx

/-- The `int` `6` is not a power of two. -/
theorem six_not_pow : ¬ ∃ k : Nat, (6 : Int) = 2 ^ k := by
  rintro ⟨k, hk⟩
  have h : k ≤ 2 ∨ 3 ≤ k := by omega
  rcases h with h | h
  · interval_cases k <;> omega
  · have : (2 : Int) ^ 3 ≤ 2 ^ k := pow_le_pow_right₀ (by norm_num) h
    omega

/-- C36: for every `int` length `n`, a call of `batchtransformRadix2` that ends
by an exception has thrown the length error and has modified no element of any
lane and nothing of the table; and a call with a length that is not a power of
two does end so.  The exceptional results of the kernel are exactly these. -/
theorem length_error_atomic {R : Type} [Zero R] [Add R] [Sub R] [Mul R]
    (cis : Int → Int → R) (BATCH : Nat) (DIR n stride : Int) (expTable : List R)
    (dvec : Nat → Nat → R) (h1 : -2 ^ 31 ≤ n) (h2 : n < 2 ^ 31) :
    (∀ (msg : String) (t : List R) (d : Nat → Nat → R),
      batchtransformRadix2State cis BATCH DIR n stride expTable dvec = some (some msg, t, d) →
      msg = "Length is not a power of 2" ∧ t = expTable ∧ d = dvec) ∧
    ((¬ ∃ k : Nat, n = 2 ^ k) →
      batchtransformRadix2State cis BATCH DIR n stride expTable dvec
        = some (some "Length is not a power of 2", expTable, dvec)) ∧
    (batchtransformRadix2 cis BATCH DIR n stride expTable dvec
        = some (.error "Length is not a power of 2") →
      batchtransformRadix2State cis BATCH DIR n stride expTable dvec
        = some (some "Length is not a power of 2", expTable, dvec)) := by
  refine ⟨fun msg t d h => state_of_throw cis BATCH DIR n stride expTable dvec msg t d h,
    state_throws cis BATCH DIR n stride expTable dvec h1 h2, ?_⟩
  intro he
  apply state_throws cis BATCH DIR n stride expTable dvec h1 h2
  intro hp
  obtain ⟨t, d, hd⟩ := kernel_returns cis BATCH DIR n stride expTable dvec h2 hp
  rw [hd] at he
  cases he

/-- Witness of C36: the length `6`, two integer lanes, a table of one entry. -/
theorem length_error_atomic_witness :
    (-2 ^ 31 ≤ (6 : Int)) ∧ ((6 : Int) < 2 ^ 31) ∧
    batchtransformRadix2State cisInt 2 1 6 1 [1] sampleLanes
      = some (some "Length is not a power of 2", [1], sampleLanes) :=
  ⟨by decide, by decide,
    (length_error_atomic cisInt 2 1 6 1 [1] sampleLanes (by decide) (by decide)).2.1
      six_not_pow⟩

end fftx_helper

namespace fftx_helper

open fftx

/-- The table after a call with the length `2^L` on a table that is not of
that length is the resized and refilled one. -/
theorem updateTable_rebuild {R : Type} [Zero R] (cis : Int → Int → R) (DIR : Int) (L : Nat)
    (hL : L ≤ 30) (tbl : List R) (h : tbl.length ≠ 2 ^ L / 2) :
    updateTable cis DIR ((2 : Int) ^ L) tbl
      = fillTable cis DIR ((2 : Int) ^ L) (resize tbl (toSizeT (((2 : Int) ^ L).tdiv 2))) := by
  unfold updateTable
  rw [toSizeT_half L (by omega)]
  rw [if_pos h]

/-- The table after a call with the length `2^L` on a table of that length is
the table before the call. -/
theorem updateTable_keep {R : Type} [Zero R] (cis : Int → Int → R) (DIR : Int) (L : Nat)
    (hL : L ≤ 30) (tbl : List R) (h : tbl.length = 2 ^ L / 2) :
    updateTable cis DIR ((2 : Int) ^ L) tbl = tbl := by
  unfold updateTable
  rw [toSizeT_half L (by omega)]
  rw [if_neg (by simpa using h)]

/-- The real part of `exp(-2*pi*i_unit/8)`, which is `sqrt(2)/2`, is not a
dyadic rational. -/
theorem exp_eighth_not_dyadic :
    ¬ dyadic (Complex.exp (-2 * Real.pi * Complex.I * ((1 : Int) : ℂ) * ((1 : Nat) : ℂ)
      / 2 ^ 3)).re := by
  have e1 : (-2 * Real.pi * Complex.I * ((1 : Int) : ℂ) * ((1 : Nat) : ℂ) / 2 ^ 3 : ℂ)
      = ((-(Real.pi / 4) : ℝ) : ℂ) * Complex.I := by
    push_cast
    ring
  rw [e1, Complex.exp_ofReal_mul_I_re, Real.cos_neg, Real.cos_pi_div_four]
  rintro ⟨m, e, h⟩
  have h2 : Real.sqrt 2 = ((2 * (m : ℚ) / 2 ^ e : ℚ) : ℝ) := by
    push_cast
    have h3 : Real.sqrt 2 = 2 * ((m : ℝ) / 2 ^ e) := by linarith
    rw [h3]
    ring
  exact irrational_sqrt_two.ne_rat _ h2

/-- C32 (amended): after every successful call (length `n = 2^L`, direction
`DIR`, the table in a state that calls of the kernel produce) the table has
exactly `n/2` entries and entry `i` is the value
`complex(cos(th), sin(th))`, `th = -(2*DIR*i)*pi/n`, that the code computes
(`cis`, whatever the accuracy of `cos` and `sin`); it is
`exp(-2*pi*i_unit*DIR*i/n)` if `cos` and `sin` are exact.  A call on a table of
`n/2` entries leaves the table as it is, so does a second call with the same
length; a call on a table of another length, as a call with another
power-of-two length is, resizes and refills it. -/
theorem twiddle_cache (cis : Int → Int → ℂ)
    (BATCH : Nat) (DIR : Int) (L : Nat) (hL : L ≤ 30) (stride : Int)
    (expTable : List ℂ) (hv : CacheValid cis DIR expTable) (dvec : Nat → Nat → ℂ) :
    ∃ t1 r,
      batchtransformRadix2 cis BATCH DIR ((2 : Int) ^ L) stride expTable dvec
        = some (.ok (t1, r)) ∧
      t1.length = 2 ^ L / 2 ∧
      (∀ i : Nat, i < 2 ^ L / 2 → t1.getD i 0 = cis (-(2 * DIR * (i : Int))) ((2 : Int) ^ L)) ∧
      ((∀ num den : Int, cis num den
          = ⟨Real.cos (num * Real.pi / den), Real.sin (num * Real.pi / den)⟩) →
        ∀ i : Nat, i < 2 ^ L / 2 →
          t1.getD i 0 = Complex.exp (-2 * Real.pi * Complex.I * DIR * i / 2 ^ L)) ∧
      (expTable.length = 2 ^ L / 2 → t1 = expTable) ∧
      (expTable.length ≠ 2 ^ L / 2 →
        t1 = fillTable cis DIR ((2 : Int) ^ L)
          (resize expTable (toSizeT (((2 : Int) ^ L).tdiv 2)))) ∧
      CacheValid cis DIR t1 ∧
      (∀ (stride2 : Int) (dvec2 : Nat → Nat → ℂ), ∃ r2,
        batchtransformRadix2 cis BATCH DIR ((2 : Int) ^ L) stride2 t1 dvec2
          = some (.ok (t1, r2))) ∧
      (∀ M : Nat, M ≤ 30 → M ≠ L → ∀ (stride2 : Int) (dvec2 : Nat → Nat → ℂ), ∃ t2 r2,
        batchtransformRadix2 cis BATCH DIR ((2 : Int) ^ M) stride2 t1 dvec2
          = some (.ok (t2, r2)) ∧
        t2.length = 2 ^ M / 2 ∧ t2.length ≠ t1.length ∧
        t2 = fillTable cis DIR ((2 : Int) ^ M)
          (resize t1 (toSizeT (((2 : Int) ^ M).tdiv 2)))) := by
  have e1 := updateTable_valid cis DIR L hL expTable hv
  have hlen : (updateTable cis DIR ((2 : Int) ^ L) expTable).length = 2 ^ L / 2 := by
    rw [e1, tableFor_length]
  have v1 : CacheValid cis DIR (updateTable cis DIR ((2 : Int) ^ L) expTable) := ⟨L, hL, e1⟩
  refine ⟨_, _, kernel_pow2 cis BATCH DIR L hL stride expTable dvec, hlen, ?_, ?_,
    fun h => updateTable_keep cis DIR L hL expTable h,
    fun h => updateTable_rebuild cis DIR L hL expTable h, v1, ?_, ?_⟩
  · intro i hi
    rw [e1, tableFor_getD cis DIR L i hi]
  · intro hcis i hi
    rw [e1, tableFor_getD cis DIR L i hi, cis_eq_pow cis hcis DIR L i, ← Complex.exp_nat_mul]
    congr 1
    ring
  · intro stride2 dvec2
    have h := kernel_pow2 cis BATCH DIR L hL stride2
      (updateTable cis DIR ((2 : Int) ^ L) expTable) dvec2
    rw [updateTable_idem] at h
    exact ⟨_, h⟩
  · intro M hM hML stride2 dvec2
    have hne : (updateTable cis DIR ((2 : Int) ^ L) expTable).length ≠ 2 ^ M / 2 := by
      rw [hlen]
      intro h
      exact hML (half_pow_inj L M h).symm
    have e2 := updateTable_valid cis DIR M hM _ v1
    refine ⟨_, _, kernel_pow2 cis BATCH DIR M hM stride2 _ dvec2, ?_, ?_,
      updateTable_rebuild cis DIR M hM _ hne⟩
    · rw [e2, tableFor_length]
    · rw [e2, tableFor_length, hlen]
      intro h
      exact hML (half_pow_inj M L h)

/-- Witness of C32: two integer-valued lanes of length `4`, direction `+1`,
cold table, with the table values of `cisInt`. -/
theorem twiddle_cache_witness :
    2 ≤ 30 ∧
    CacheValid (fun num den : Int => ((cisInt num den : Int) : ℂ)) 1 [] ∧
    ∃ t1 r,
      batchtransformRadix2 (fun num den : Int => ((cisInt num den : Int) : ℂ)) 2 1
        ((2 : Int) ^ 2) 1 [] (fun b i => ((b : ℂ) + 2 * (i : ℂ))) = some (.ok (t1, r)) ∧
      t1.length = 2 ^ 2 / 2 ∧
      (∀ i : Nat, i < 2 ^ 2 / 2 →
        t1.getD i 0 = ((cisInt (-(2 * 1 * (i : Int))) ((2 : Int) ^ 2) : Int) : ℂ)) :=
  ⟨by decide, cacheValid_nil _ 1,
    (twiddle_cache _ 2 1 2 (by decide) 1 [] (cacheValid_nil _ 1)
      (fun b i => ((b : ℂ) + 2 * (i : ℂ)))).imp
      (fun _ h => h.imp (fun _ h => ⟨h.1, h.2.1, h.2.2.1⟩))⟩

/-- C32 as stated fails: the entries of the table are `std::complex<double>`
values, whose real and imaginary parts are dyadic rationals, and
`exp(-2*pi*i_unit/8)` has the real part `sqrt(2)/2`, which is irrational.  For
no `cos` and `sin` with `double` results is the entry `1` of the table of the
length `8` and the direction `+1` equal to `exp(-2*pi*i_unit*1*1/8)`. -/
theorem twiddle_entry_not_exp :
    ¬ ∃ (cis : Int → Int → ℂ) (t1 : List ℂ) (r : Nat → Nat → ℂ),
      (∀ num den : Int, dyadic (cis num den).re ∧ dyadic (cis num den).im) ∧
      batchtransformRadix2 cis 1 1 ((2 : Int) ^ 3) 1 [] (fun _ _ => 0) = some (.ok (t1, r)) ∧
      t1.getD 1 0 = Complex.exp (-2 * Real.pi * Complex.I * ((1 : Int) : ℂ) * ((1 : Nat) : ℂ)
        / 2 ^ 3) := by
  rintro ⟨cis, t1, r, hd, hcall, hentry⟩
  have hk := kernel_pow2 cis 1 1 3 (by decide) 1 [] (fun _ _ => (0 : ℂ))
  rw [hk] at hcall
  have ht : t1 = updateTable cis 1 ((2 : Int) ^ 3) [] := by
    injection hcall with h
    injection h with h
    exact (congrArg Prod.fst h).symm
  have e1 := updateTable_valid cis 1 3 (by decide) [] (cacheValid_nil cis 1)
  rw [ht, e1, tableFor_getD cis 1 3 1 (by decide)] at hentry
  have h1 := (hd (-(2 * 1 * ((1 : Nat) : Int))) ((2 : Int) ^ 3)).1
  rw [hentry] at h1
  exact exp_eighth_not_dyadic h1

end fftx_helper

namespace fftx_helper

open fftx

/-- C35: for every power-of-two length `n = 2^L` (an `int`, so `L <= 30`) the
outer loop of the butterfly stages ends after exactly `L = log2(n)` passes, for
the sizes `2, 4, .., n`, and every index computed in a pass is in range: the
table index `j*tablestep` is below `n/2`, which is the length of the table at
that point, and the logical data indices `k+j` and `k+j+halfsize` are below
`n`, so that for a stride `>= 0` the offsets `(k+j)*stride` and
`(k+j+halfsize)*stride` are at most `(n-1)*stride`.  The loop of the source is
the sequence of the butterflies at these indices. -/
theorem butterfly_indices_in_range (L : Nat) (hL : L ≤ 30) :
    Nat.log2 (toSizeT ((2 : Int) ^ L)) = L ∧
    stageSizes ((2 : Int) ^ L) 63 2 = some ((List.range L).map (fun t => 2 ^ (t + 1))) ∧
    ((List.range L).map (fun t => 2 ^ (t + 1))).length = L ∧
    (∀ size, size ∈ (List.range L).map (fun t => 2 ^ (t + 1)) →
      ∀ x, x ∈ stageIndices ((2 : Int) ^ L) size →
        x.1 < 2 ^ L / 2 ∧ x.2.1 < 2 ^ L ∧ x.2.2 < 2 ^ L ∧
        ∀ stride : Int, 0 ≤ stride → stride < 2 ^ 31 →
          idx x.2.1 stride ≤ (2 ^ L - 1) * stride.toNat ∧
          idx x.2.2 stride ≤ (2 ^ L - 1) * stride.toNat) ∧
    (∀ (R : Type) [Zero R] (cis : Int → Int → R) (DIR : Int) (expTable : List R),
      (updateTable cis DIR ((2 : Int) ^ L) expTable).length = 2 ^ L / 2) ∧
    (∀ (R : Type) [Zero R] [Add R] [Sub R] [Mul R] (BATCH : Nat) (stride : Int)
        (expTable : List R) (dvec : Nat → Nat → R),
      stageLoop BATCH ((2 : Int) ^ L) stride expTable 63 2 dvec
        = some (((List.range L).map (fun t => 2 ^ (t + 1))).foldl
            (fun d size => (stageIndices ((2 : Int) ^ L) size).foldl
              (fun d x => butterflyLanes BATCH (expTable.getD x.1 0) (idx x.2.1 stride)
                (idx x.2.2 stride) d) d) dvec)) := by
  have hn := toSizeT_two_pow L (by omega)
  have hsz := stageSizes_run ((2 : Int) ^ L) L (by omega) hn
  refine ⟨by rw [hn, Nat.log2_two_pow], hsz, by simp, ?_, ?_, ?_⟩
  · intro size hsize x hx
    rw [List.mem_map] at hsize
    obtain ⟨t, ht, rfl⟩ := hsize
    rw [List.mem_range] at ht
    obtain ⟨d, rfl⟩ : ∃ d, L = t + d + 1 := ⟨L - t - 1, by omega⟩
    obtain ⟨h1, h2, h3⟩ := stageIndices_bounds t d hL x hx
    have hb : 2 ^ (t + d + 1) ≤ 2 ^ 30 := Nat.pow_le_pow_right (by omega) hL
    refine ⟨h1, by omega, h3, ?_⟩
    intro stride s0 s1
    rw [idx_nonneg _ (by omega) stride s0 s1, idx_nonneg _ (by omega) stride s0 s1]
    exact ⟨Nat.mul_le_mul_right _ (by omega), Nat.mul_le_mul_right _ (by omega)⟩
  · intro R _ cis DIR expTable
    rw [updateTable_length, toSizeT_half L (by omega)]
  · intro R _ _ _ _ BATCH stride expTable dvec
    rw [stageLoop_sizes, hsz, Option.map_some']
    congr 2
    funext d size
    rw [stageBody_indices]

/-- Witness of C35 at the length `4`: the passes are those of the sizes `2` and
`4`, and the pass of size `4` computes the table indices `0, 1` and the data
indices `(0, 2), (1, 3)`. -/
theorem butterfly_indices_in_range_witness :
    2 ≤ 30 ∧
    stageSizes ((2 : Int) ^ 2) 63 2 = some [2, 4] ∧
    stageIndices ((2 : Int) ^ 2) 2 = [(0, 0, 1), (0, 2, 3)] ∧
    stageIndices ((2 : Int) ^ 2) 4 = [(0, 0, 2), (1, 1, 3)] ∧
    (∀ size, size ∈ (List.range 2).map (fun t => 2 ^ (t + 1)) →
      ∀ x, x ∈ stageIndices ((2 : Int) ^ 2) size →
        x.1 < 2 ^ 2 / 2 ∧ x.2.1 < 2 ^ 2 ∧ x.2.2 < 2 ^ 2 ∧
        ∀ stride : Int, 0 ≤ stride → stride < 2 ^ 31 →
          idx x.2.1 stride ≤ (2 ^ 2 - 1) * stride.toNat ∧
          idx x.2.2 stride ≤ (2 ^ 2 - 1) * stride.toNat) :=
  ⟨by decide, (butterfly_indices_in_range 2 (by decide)).2.1, by decide, by decide,
    (butterfly_indices_in_range 2 (by decide)).2.2.2.1⟩

end fftx_helper

namespace fftx_helper

open fftx

theorem foldl_filter_eq {α β : Type} (p : α → Bool) (f : β → α → β) (xs : List α) :
    ∀ init : β, xs.foldl (fun d i => if p i then f d i else d) init
      = (xs.filter p).foldl f init := by
  induction xs with
  | nil => intro init; rfl
  | cons x xs ih =>
    intro init
    rw [List.foldl_cons, List.filter_cons]
    cases hp : p x
    · simp only [Bool.false_eq_true, if_false]
      exact ih _
    · simp only [if_true, List.foldl_cons]
      exact ih _

/-- A swap of an element with itself changes nothing. -/
theorem swapLane_self {R : Type} (vec : Nat → R) (a : Nat) : swapLane vec a a = vec := by
  funext t
  rw [swapLane_apply]
  by_cases h : t = a
  · subst h; simp
  · simp [h]

/-- With the stride `0` the bit-reversal loop changes nothing. -/
theorem laneBitReversal_zero {R : Type} (L : Nat) (n : Int) (vec : Nat → R) :
    laneBitReversal L n 0 vec = vec := by
  unfold laneBitReversal
  funext off
  refine foldl_frame off
    (fun i v => if reverseBits i L > i then
      swapLane v (idx i 0) (idx (reverseBits i L) 0) else v) _ ?_ vec
  intro i _ v
  have e : ∀ k, idx k 0 = 0 := by
    intro k
    unfold idx
    have : toSizeT 0 = 0 := by decide
    rw [this]
    simp
  simp only []
  split
  · rw [e, e, swapLane_self]
  · rfl

/-- The bit-reversal loop leaves at the offset of the logical index `i` the
element that was at the offset of the logical index `reverseBits(i, L)`. -/
theorem laneBitReversal_perm {R : Type} (L : Nat) (hL : L ≤ 30) (stride : Int)
    (h1 : -2 ^ 31 ≤ stride) (h2 : stride < 2 ^ 31) (vec : Nat → R) (i : Nat) (hi : i < 2 ^ L) :
    laneBitReversal L ((2 : Int) ^ L) stride vec (idx i stride)
      = vec (idx (reverseBits i L) stride) := by
  have hb : 2 ^ L ≤ 2 ^ 30 := Nat.pow_le_pow_right (by omega) hL
  by_cases h0 : stride = 0
  · subst h0
    rw [laneBitReversal_zero]
    have e : ∀ k, idx k 0 = 0 := by
      intro k
      unfold idx
      have : toSizeT 0 = 0 := by decide
      rw [this]
      simp
    rw [e, e]
  · have hinj : ∀ i j, i < 2 ^ L → j < 2 ^ L → idx i stride = idx j stride → i = j :=
      fun i j hi hj h => idx_inj stride h0 h1 h2 i j (by omega) (by omega) h
    rw [laneBitReversal_gather L hL stride hinj vec (fun k => vec (idx k stride))
      (fun _ _ => rfl) i hi, laneBitReversal_one L hL _ i hi, reverseBits_eq i L (by omega)]

/-- Among the iterations of the permutation loop exactly one swaps the pair of
`i` and `reverseBits(i, L)`, if the two are different. -/
theorem swap_once (L : Nat) (hL : L ≤ 30) (i : Nat) (hi : i < 2 ^ L)
    (hne : reverseBits i L ≠ i) :
    ((List.range (2 ^ L)).filter (fun k =>
      decide (reverseBits k L > k) && (decide (k = i) || decide (k = reverseBits i L)))).length
      = 1 := by
  have hr : reverseBits i L < 2 ^ L := by
    rw [reverseBits_eq i L (by omega)]; exact bitrev_lt L i
  have hrr : reverseBits (reverseBits i L) L = i := by
    rw [reverseBits_eq i L (by omega), reverseBits_eq _ L (by omega)]
    exact bitrev_invol L i hi
  have hcount : ∀ m, m < 2 ^ L → List.countP (fun k => k == m) (List.range (2 ^ L)) = 1 := by
    intro m hm
    have := List.count_eq_one_of_mem (List.nodup_range (2 ^ L)) (List.mem_range.mpr hm)
    rw [List.count] at this
    exact this
  rw [← List.countP_eq_length_filter]
  rcases Nat.lt_or_gt_of_ne hne with h | h
  · rw [← hcount (reverseBits i L) hr]
    apply List.countP_congr
    intro k _
    simp only [Bool.and_eq_true, Bool.or_eq_true, decide_eq_true_eq, beq_iff_eq]
    constructor
    · rintro ⟨hk, hk2 | hk2⟩
      · subst hk2; omega
      · exact hk2
    · intro hk
      subst hk
      rw [hrr]
      exact ⟨h, Or.inr rfl⟩
  · rw [← hcount i hi]
    apply List.countP_congr
    intro k _
    simp only [Bool.and_eq_true, Bool.or_eq_true, decide_eq_true_eq, beq_iff_eq]
    constructor
    · rintro ⟨hk, hk2 | hk2⟩
      · exact hk2
      · subst hk2; rw [hrr] at hk; omega
    · intro hk
      subst hk
      exact ⟨h, Or.inl rfl⟩

/-- C31: for `n = 2^L` (an `int`, so `L <= 30`), `reverseBits(., L)` maps
`[0, n)` into `[0, n)` and is its own inverse there, and the permutation phase
of `batchtransformRadix2`, for every `int` stride, leaves in every lane
`b < BATCH` at the logical index `i < n` (offset `i*stride`) the element that
was at the logical index `reverseBits(i, L)`, and changes nothing else.  The
phase is the sequence of the swaps of `i` with `reverseBits(i, L)` for the
`i < n` with `reverseBits(i, L) > i`, in increasing order, and exactly one
iteration swaps a given pair of different indices `i`, `reverseBits(i, L)`. -/
theorem bit_reversal_permutation {R : Type} (L : Nat) (hL : L ≤ 30) (BATCH : Nat)
    (stride : Int) (h1 : -2 ^ 31 ≤ stride) (h2 : stride < 2 ^ 31) (dvec : Nat → Nat → R) :
    (∀ i, i < 2 ^ L → reverseBits i L < 2 ^ L ∧ reverseBits (reverseBits i L) L = i) ∧
    (∀ b i, b < BATCH → i < 2 ^ L →
      bitReversal BATCH L ((2 : Int) ^ L) stride dvec b (idx i stride)
        = dvec b (idx (reverseBits i L) stride)) ∧
    (∀ b off, (∀ i, i < 2 ^ L → off ≠ idx i stride) →
      bitReversal BATCH L ((2 : Int) ^ L) stride dvec b off = dvec b off) ∧
    (∀ b, BATCH ≤ b → bitReversal BATCH L ((2 : Int) ^ L) stride dvec b = dvec b) ∧
    bitReversal BATCH L ((2 : Int) ^ L) stride dvec
      = ((List.range (2 ^ L)).filter (fun i => decide (reverseBits i L > i))).foldl
          (fun d i => swapLanes BATCH (idx i stride) (idx (reverseBits i L) stride) d) dvec ∧
    (∀ i, i < 2 ^ L → reverseBits i L ≠ i →
      ((List.range (2 ^ L)).filter (fun k =>
        decide (reverseBits k L > k)
          && (decide (k = i) || decide (k = reverseBits i L)))).length = 1) := by
  refine ⟨?_, ?_, ?_, ?_, ?_, fun i hi hne => swap_once L hL i hi hne⟩
  · intro i hi
    rw [reverseBits_eq i L (by omega), reverseBits_eq _ L (by omega)]
    exact ⟨bitrev_lt L i, bitrev_invol L i hi⟩
  · intro b i hb hi
    rw [bitReversal_eq]
    simp only [mapLanes, hb, if_true]
    exact laneBitReversal_perm L hL stride h1 h2 (dvec b) i hi
  · intro b off hoff
    rw [bitReversal_eq]
    unfold mapLanes
    split
    · exact laneBitReversal_frame L hL stride (dvec b) off hoff
    · rfl
  · intro b hb
    rw [bitReversal_eq]
    unfold mapLanes
    rw [if_neg (by omega)]
  · unfold bitReversal
    rw [toSizeT_two_pow L (by omega), ← foldl_filter_eq]
    simp only [decide_eq_true_eq]

/-- Witness of C31: length `4`, stride `2`, two lanes that hold `10 + offset`:
the logical indices `1` and `2` (offsets `2` and `4`) are exchanged. -/
theorem bit_reversal_permutation_witness :
    2 ≤ 30 ∧ (-2 ^ 31 ≤ (2 : Int)) ∧ ((2 : Int) < 2 ^ 31) ∧
    reverseBits 1 2 = 2 ∧ idx 1 2 = 2 ∧ idx 2 2 = 4 ∧
    bitReversal 2 2 ((2 : Int) ^ 2) 2 rampLanes 0 (idx 1 2) = rampLanes 0 (idx (reverseBits 1 2) 2) ∧
    rampLanes 0 (idx (reverseBits 1 2) 2) = 14 :=
  ⟨by decide, by decide, by decide, by decide, by decide, by decide,
    (bit_reversal_permutation 2 (by decide) 2 2 (by decide) (by decide) rampLanes).2.1 0 1
      (by decide) (by decide), by decide⟩

/-- C34: for every power-of-two length `n = 2^L` and stride `s >= 1`, a call
of `batchtransformRadix2` changes in the lanes only the elements at the offsets
`i*s` with `i < n`, and leaves at these offsets what the call with stride `1`
(same length, direction and table) leaves on the gathered lanes
`x[0], x[s], .., x[(n-1)*s]`; the table is left the same by both. -/
theorem strided_transform {R : Type} [Zero R] [Add R] [Sub R] [Mul R] (cis : Int → Int → R)
    (BATCH : Nat) (DIR : Int) (L : Nat) (hL : L ≤ 30) (stride : Int) (h1 : 1 ≤ stride)
    (h2 : stride < 2 ^ 31) (expTable : List R) (dvec : Nat → Nat → R) :
    ∃ t1 r t2 r1,
      batchtransformRadix2 cis BATCH DIR ((2 : Int) ^ L) stride expTable dvec
        = some (.ok (t1, r)) ∧
      batchtransformRadix2 cis BATCH DIR ((2 : Int) ^ L) 1 expTable
        (fun b i => dvec b (i * stride.toNat)) = some (.ok (t2, r1)) ∧
      t1 = t2 ∧
      (∀ b off, (∀ i, i < 2 ^ L → off ≠ i * stride.toNat) → r b off = dvec b off) ∧
      (∀ b, BATCH ≤ b → r b = dvec b) ∧
      (∀ b i, b < BATCH → i < 2 ^ L → r b (i * stride.toNat) = r1 b i) := by
  have hb : 2 ^ L ≤ 2 ^ 30 := Nat.pow_le_pow_right (by omega) hL
  have hidx : ∀ i, i < 2 ^ L → idx i stride = i * stride.toNat :=
    fun i hi => idx_nonneg i (by omega) stride (by omega) h2
  have hinj : ∀ i j, i < 2 ^ L → j < 2 ^ L → idx i stride = idx j stride → i = j :=
    fun i j hi hj h => idx_inj stride (by omega) (by omega) h2 i j (by omega) (by omega) h
  refine ⟨_, _, _, _, kernel_pow2 cis BATCH DIR L hL stride expTable dvec,
    kernel_pow2 cis BATCH DIR L hL 1 expTable _, rfl, ?_, ?_, ?_⟩
  · intro b off hoff
    unfold mapLanes
    split
    · apply laneKernel_frame L hL stride _ (dvec b) off
      intro i hi
      rw [hidx i hi]
      exact hoff i hi
    · rfl
  · intro b hb1
    unfold mapLanes
    rw [if_neg (by omega)]
  · intro b i hb1 hi
    simp only [mapLanes, hb1, if_true]
    rw [← hidx i hi]
    exact laneKernel_gather L hL stride hinj _ (dvec b) (fun k => dvec b (k * stride.toNat))
      (fun u hu => by rw [hidx u hu]) i hi

/-- Witness of C34: length `2`, stride `3`, two integer lanes that hold
`10 + offset`, cold table. -/
theorem strided_transform_witness :
    1 ≤ 30 ∧ ((1 : Int) ≤ 3) ∧ ((3 : Int) < 2 ^ 31) ∧
    ∃ t1 r t2 r1,
      batchtransformRadix2 cisInt 2 1 ((2 : Int) ^ 1) 3 [] rampLanes = some (.ok (t1, r)) ∧
      batchtransformRadix2 cisInt 2 1 ((2 : Int) ^ 1) 1 []
        (fun b i => rampLanes b (i * (3 : Int).toNat)) = some (.ok (t2, r1)) ∧
      t1 = t2 ∧
      (∀ b off, (∀ i, i < 2 ^ 1 → off ≠ i * (3 : Int).toNat) → r b off = rampLanes b off) ∧
      (∀ b, 2 ≤ b → r b = rampLanes b) ∧
      (∀ b i, b < 2 → i < 2 ^ 1 → r b (i * (3 : Int).toNat) = r1 b i) :=
  ⟨by decide, by decide, by decide,
    strided_transform cisInt 2 1 1 (by decide) 3 (by decide) (by decide) [] rampLanes⟩

end fftx_helper

namespace fftx

/-- The decoding loop on any displacement: the coordinate of axis `d` is the
digit of the displacement for the radices of the axes after `d`, taken modulo
the length of axis `d`. -/
theorem decode_loop_any {DIM : Nat} (lo lengths : point_t DIM) (len : Nat → Nat) (D : Nat)
    (hD : D ≤ DIM)
    (hlen : ∀ d, d < D → toSizeT (lengths.get d) = len d)
    (hpos : ∀ d, d < D → 0 < len d)
    (hlo : ∀ d, d < D → -2 ^ 31 ≤ lo.get d ∧ lo.get d + len d ≤ 2 ^ 31)
    (disp : Nat) (hdisp : disp < 2 ^ 64) (pt : point_t DIM) :
    (∀ d, d < D →
      (((List.range D).reverse.foldl (pointFromPositionStep lo lengths) (disp, pt)).2).get d
        = lo.get d + (((disp / ∏ e in Finset.Ico (d + 1) D, len e) % len d : Nat) : Int)) ∧
    (∀ d, D ≤ d →
      (((List.range D).reverse.foldl (pointFromPositionStep lo lengths) (disp, pt)).2).get d
        = pt.get d) := by
  induction D generalizing disp pt with
  | zero =>
    refine ⟨fun d hd => absurd hd (Nat.not_lt_zero d), fun d _ => rfl⟩
  | succ D ih =>
    have hposD := hpos D (Nat.lt_succ_self D)
    rw [List.range_succ, List.reverse_append, List.reverse_singleton, List.singleton_append,
      List.foldl_cons,
      decode_step lo lengths (len D) D (by omega) (hlen D (Nat.lt_succ_self D)) hposD
        (hlo D (Nat.lt_succ_self D)) disp hdisp pt]
    have hd' : disp / len D < 2 ^ 64 := lt_of_le_of_lt (Nat.div_le_self _ _) hdisp
    obtain ⟨h1, h3⟩ := ih (by omega) (fun d hd => hlen d (by omega))
      (fun d hd => hpos d (by omega)) (fun d hd => hlo d (by omega))
      (disp / len D) hd' (pt.set D (lo.get D + ((disp % len D : Nat) : Int)))
    have hDval := h3 D (le_refl D)
    rw [point_t.get_set] at hDval
    simp only [show D < DIM from by omega, and_self, if_true] at hDval
    refine ⟨?_, ?_⟩
    · intro d hd
      rcases Nat.lt_succ_iff_lt_or_eq.mp hd with hlt | heq
      · rw [h1 d hlt, Finset.prod_Ico_succ_top (by omega), Nat.div_div_eq_div_mul,
          Nat.mul_comm (len D)]
      · subst heq
        rw [hDval]
        simp
    · intro d hd
      rw [h3 d (by omega), point_t.get_set]
      have : ¬ (d = D ∧ d < DIM) := by omega
      simp [this]

/-- The coordinates of the point decoded from any `size_t` position. -/
theorem pointFromPositionBox_get {DIM : Nat} (B : box_t DIM) (hB : B.ordered) (hS : B.int32)
    (i : Nat) (hi : i < 2 ^ 64) (d : Nat) (hd : d < DIM) :
    (pointFromPositionBox i B).get d
      = B.lo.get d + (((i / ∏ e in Finset.Ico (d + 1) DIM, lenN B e) % lenN B d : Nat) : Int) := by
  obtain ⟨h1, _⟩ := decode_loop_any B.lo B.extents (lenN B) DIM (le_refl DIM)
    (fun d hd => toSizeT_extents B hB hS d hd)
    (fun d hd => lenN_pos B hB d hd)
    (fun d hd => by
      have a1 := hB d hd
      have a2 := hS d hd
      have a3 := lenN_cast B hB d hd
      omega)
    i hi ⟨fun _ => 0⟩
  exact h1 d hd

/-- A digit of a position does not change when the position is reduced
modulo a multiple of the radices up to that digit. -/
theorem digit_mod (i N P l : Nat) (h : P * l ∣ N) : (i % N) / P % l = i / P % l := by
  rw [← Nat.mod_mul_right_div_self, ← Nat.mod_mul_right_div_self (m := i),
    Nat.mod_mod_of_dvd _ h]

/-- C39 (amended): for every box with `lo <= hi` on all axes
(`DIM <= 256`) on which no `int` expression overflows (`lo[d]-1` and
`hi[d]-lo[d]+1` are 32-bit `int`s; with the bound on `DIM` this is `box_t.fits`)
and every `size_t` position `i`, `i >= B.size()` included,
`pointFromPositionBox(i, B)` is a point of the box; no position is reported as
out of range.  If the number of points of the box is below `2^64`, the point is
the one of the position `i mod B.size()`. -/
theorem pointFromPosition_wraps {DIM : Nat} (B : box_t DIM) (hB : B.ordered) (hF : B.fits)
    (i : Nat) (hi : i < 2 ^ 64) :
    isInBox (pointFromPositionBox i B) B = true ∧
    (B.numPoints < 2 ^ 64 →
      0 < B.size ∧ pointFromPositionBox i B = pointFromPositionBox (i % B.size) B) := by
  have hS := box_t.fits_int32 B hF
  constructor
  · rw [isInBox_iff]
    intro d hd
    rw [pointFromPositionBox_get B hB hS i hi d hd]
    have hpos := lenN_pos B hB d hd
    have hm : (i / ∏ e in Finset.Ico (d + 1) DIM, lenN B e) % lenN B d < lenN B d :=
      Nat.mod_lt _ hpos
    have a3 := lenN_cast B hB d hd
    omega
  · intro hN
    have hsz := size_eq_prod_lenN B hB hS hN
    have hpos : 0 < ∏ d in Finset.range DIM, lenN B d :=
      Finset.prod_pos (fun d hd => lenN_pos B hB d (Finset.mem_range.mp hd))
    refine ⟨by rw [hsz]; exact hpos, ?_⟩
    apply point_t.ext_get
    intro d hd
    have hlt : i % B.size < 2 ^ 64 := lt_of_le_of_lt (Nat.mod_le _ _) hi
    rw [pointFromPositionBox_get B hB hS i hi d hd,
      pointFromPositionBox_get B hB hS _ hlt d hd, hsz]
    have hdvd : (∏ e in Finset.Ico (d + 1) DIM, lenN B e) * lenN B d
        ∣ ∏ e in Finset.range DIM, lenN B e := by
      rw [← Finset.prod_range_mul_prod_Ico (fun e => lenN B e) (Nat.le_of_lt hd),
        Finset.prod_eq_prod_Ico_succ_bot hd, Nat.mul_comm (lenN B d)]
      exact Dvd.intro_left _ rfl
    rw [digit_mod i _ _ _ hdvd]

/-- Witness of C39 on the box `[1,3] x [1,4]`, which has `12` points: the
position `17` gives the point of the position `5`, which is `(2,2)`. -/
theorem pointFromPosition_wraps_witness :
    smallBox.ordered ∧ smallBox.fits ∧ 17 < 2 ^ 64 ∧ smallBox.numPoints < 2 ^ 64 ∧
    smallBox.size = 12 ∧ (pointFromPositionBox 17 smallBox).get 0 = 2 ∧
    (pointFromPositionBox 17 smallBox).get 1 = 2 ∧
    isInBox (pointFromPositionBox 17 smallBox) smallBox = true ∧
    (smallBox.numPoints < 2 ^ 64 →
      0 < smallBox.size ∧
      pointFromPositionBox 17 smallBox = pointFromPositionBox (17 % smallBox.size) smallBox) :=
  ⟨by decide, by decide, by decide, by decide, by decide, by decide, by decide,
    pointFromPosition_wraps smallBox (by decide) (by decide) 17 (by decide)⟩

/-- C39 as stated fails: the box `[0, 2^31-2]^3` has ordered corners, no
`int` overflow and `(2^31-1)^3` points, its `size()` is that number modulo `2^64`,
`4611686024869838847`; the position `i = size()` gives the point `(1,5,3)`,
while the position `i mod size() = 0` gives `(0,0,0)`. -/
theorem pointFromPosition_wrap_overflow :
    hugeBox.ordered ∧ hugeBox.fits ∧ hugeBox.size = 4611686024869838847 ∧
    hugeBox.size % hugeBox.size = 0 ∧
    (pointFromPositionBox hugeBox.size hugeBox).eq ⟨![1, 5, 3]⟩ = true ∧
    (pointFromPositionBox hugeBox.size hugeBox).eq
      (pointFromPositionBox (hugeBox.size % hugeBox.size) hugeBox) = false ∧
    (pointFromPositionBox (hugeBox.size % hugeBox.size) hugeBox).eq ⟨![0, 0, 0]⟩ = true := by
  refine ⟨by decide, by decide, by decide, by decide, by decide, by decide, by decide⟩

end fftx
